import Mathlib

/-!
Redeem path planner: a shallow embedding of `PathPlanner.cpp`.

The development follows `src/software/path_planner/PathPlanner.cpp`.

Conventions of the embedding.

* `float` values are rationals and the float operations `+ - * /` are exact;
  the square root routine is a parameter (`Platform.sqrt`), about which
  nothing is assumed unless a theorem says so.  A division by zero yields
  zero, as in the library; the theorems about speeds are statements of exact
  arithmetic and do not cover the infinities and NaN of a float division by
  zero.
* A conversion from `float` to an unsigned integer type is the truncation
  `toUnsigned`.
* `unsigned int` arithmetic that the source performs on step counts is
  reduced modulo `2 ^ 32`, the 64 bit products of `updateStepsParameter`
  modulo `2 ^ 64`.
* Arrays are functions from their index type.
* The loops of the planner carry a bound on their number of rounds; the
  lemmas `backwardLoop_fuel`, `forwardLoop_fuel`, `flyingBlockLoop_fuel` and
  `searchFirst_fuel` show that the bound is never reached on a consistent
  ring.
* The threads are interleaved at the grain of whole calls: a call of
  `queueMove` and a round of `run` are atomic steps (`Reachable`).
* The header `PathPlanner.h` is not part of the sources at hand.  What the
  code needs from it (the flag accessors of `Path`, the ring index helpers,
  the constants) is modelled from the specification and marked so.
-/

set_option autoImplicit false

namespace Redeem

/-! ## Basic types -/

/-- Axis index: X = 0, Y = 1, Z = 2, E = 3 (`NUM_AXIS = 4`). -/
abbrev Axis := Fin 4

abbrev X_AXIS : Axis := 0
abbrev Y_AXIS : Axis := 1
abbrev Z_AXIS : Axis := 2
abbrev E_AXIS : Axis := 3

/-- Conversion of a `float` to an unsigned integer type: truncation toward
zero.  (A negative value, for which the C conversion is undefined, gives 0.) -/
def toUnsigned (q : ℚ) : Nat := q.num.toNat / q.den

/-- Reduction to an `unsigned int` (32 bit). -/
def u32 (n : Nat) : Nat := n % 4294967296

/-- Subtraction of two `unsigned int` values. -/
def u32sub (a b : Nat) : Nat := (a + 4294967296 - b % 4294967296) % 4294967296

/-- Reduction to a `uint64_t`. -/
def u64 (n : Nat) : Nat := n % 18446744073709551616

/-- Subtraction of two `uint64_t` values. -/
def u64sub (a b : Nat) : Nat :=
  (a + 18446744073709551616 - b % 18446744073709551616) % 18446744073709551616

/-- Modelled from the spec: the byte `joinFlags` of `Path` (declared in the
missing header) as a record of its four named bits. -/
structure JoinFlags where
  startSpeedFixed : Bool := false
  endSpeedFixed : Bool := false
  parametersUpToDate : Bool := false
  blocked : Bool := false
deriving DecidableEq

/-- Modelled from the spec: the byte `flags` of `Path` (declared in the
missing header) as a record: warm-up, nominal, cancelable and the wait time
set by `setWaitMS`. -/
structure PathFlags where
  warmup : Bool := false
  nominal : Bool := false
  cancelable : Bool := false
  waitMS : Nat := 0
deriving DecidableEq

/-- One pulse command, as written by the stepping loop of `run`. -/
structure SteppersCommand where
  step : Nat
  direction : Nat
  cancellableMask : Nat
  options : Nat
  delay : Nat
deriving DecidableEq

/-- Modelled from the spec: the fields of the class `Path` (declared in the
missing header), with the default values of a slot cleared by `bzero`. -/
structure Path where
  joinFlags : JoinFlags := {}
  flags : PathFlags := {}
  primaryAxis : Axis := 0
  timeInTicks : Nat := 0
  dir : Nat := 0
  delta : Axis → Nat := fun _ => 0
  error : Axis → Int := fun _ => 0
  speedX : ℚ := 0
  speedY : ℚ := 0
  speedZ : ℚ := 0
  speedE : ℚ := 0
  fullSpeed : ℚ := 0
  invFullSpeed : ℚ := 0
  accelerationDistance2 : ℚ := 0
  maxJunctionSpeed : ℚ := 0
  startSpeed : ℚ := 0
  endSpeed : ℚ := 0
  minSpeed : ℚ := 0
  distance : ℚ := 0
  speed : ℚ := 0
  fullInterval : Nat := 0
  accelSteps : Nat := 0
  decelSteps : Nat := 0
  accelerationPrim : Nat := 0
  fAcceleration : Nat := 0
  vMax : Nat := 0
  vStart : Nat := 0
  vEnd : Nat := 0
  stepsRemaining : Nat := 0
  commands : List SteppersCommand := []
  commandBufferSize : Nat := 0

/-- Compile time constants of the missing header, and the square root routine
of the C library. -/
structure Platform where
  F_CPU : Nat
  MOVE_CACHE_SIZE : Nat
  PRINT_MOVE_BUFFER_WAIT : Nat
  sqrt : ℚ → ℚ

/-- The fields of `Extruder` read by the planner. -/
structure Extruder where
  maxStartFeedrate : ℚ := 0
  stepperCommandPosition : Nat := 3

/-- The configuration members of the class `PathPlanner`, in the units of the
planner (mm/s, steps/s²). -/
structure Config where
  maxFeedrate : Axis → ℚ := fun _ => 0
  maxPrintAccelerationStepsPerSquareSecond : Axis → Nat := fun _ => 0
  maxTravelAccelerationStepsPerSquareSecond : Axis → Nat := fun _ => 0
  maxJerk : ℚ := 20
  maxZJerk : ℚ := 3 / 10
  minimumSpeed : ℚ := 0
  minimumZSpeed : ℚ := 0
  currentExtruder : Extruder := {}

/-- The state of the class `PathPlanner`: the configuration members, the ring
`lines` and its indices. -/
structure PathPlanner where
  config : Config := {}
  lines : Nat → Path := fun _ => {}
  linesPos : Nat := 0
  linesWritePos : Nat := 0
  linesCount : Nat := 0
  stop : Bool := false

/-! ## Accessors of `Path` -/

namespace Path

/-- Modelled from the spec: bit `i` of `dir` says that axis `i` moves. -/
def setMoveOfAxis (p : Path) (axis : Axis) : Path :=
  { p with dir := p.dir ||| (1 <<< axis.val) }

/-- Modelled from the spec: bit `i + 4` of `dir` says that axis `i` moves in
the positive direction. -/
def setPositiveDirectionForAxis (p : Path) (axis : Axis) : Path :=
  { p with dir := p.dir ||| (1 <<< (axis.val + 4)) }

/-- Modelled from the spec: axis `i` moves when bit `i` of `dir` is set. -/
def isMoveOfAxis (p : Path) (axis : Axis) : Bool := p.dir.testBit axis.val

/-- Modelled from the spec: the direction bit of axis `i`. -/
def isPositiveDirection (p : Path) (axis : Axis) : Bool := p.dir.testBit (axis.val + 4)

def isXMove (p : Path) : Bool := p.isMoveOfAxis X_AXIS
def isYMove (p : Path) : Bool := p.isMoveOfAxis Y_AXIS
def isZMove (p : Path) : Bool := p.isMoveOfAxis Z_AXIS
def isEMove (p : Path) : Bool := p.isMoveOfAxis E_AXIS

def isXPositiveMove (p : Path) : Bool := p.isXMove && p.isPositiveDirection X_AXIS
def isYPositiveMove (p : Path) : Bool := p.isYMove && p.isPositiveDirection Y_AXIS
def isZPositiveMove (p : Path) : Bool := p.isZMove && p.isPositiveDirection Z_AXIS
def isEPositiveMove (p : Path) : Bool := p.isEMove && p.isPositiveDirection E_AXIS

def isXNegativeMove (p : Path) : Bool := p.isXMove && !p.isPositiveDirection X_AXIS
def isYNegativeMove (p : Path) : Bool := p.isYMove && !p.isPositiveDirection Y_AXIS
def isZNegativeMove (p : Path) : Bool := p.isZMove && !p.isPositiveDirection Z_AXIS
def isENegativeMove (p : Path) : Bool := p.isEMove && !p.isPositiveDirection E_AXIS

def isXOrYMove (p : Path) : Bool := p.isXMove || p.isYMove
def isXYZMove (p : Path) : Bool := p.isXMove || p.isYMove || p.isZMove
def isNoMove (p : Path) : Bool := !(p.isXMove || p.isYMove || p.isZMove || p.isEMove)
def isEOnlyMove (p : Path) : Bool := p.isEMove && !p.isXYZMove

def isStartSpeedFixed (p : Path) : Bool := p.joinFlags.startSpeedFixed
def isEndSpeedFixed (p : Path) : Bool := p.joinFlags.endSpeedFixed
def areParameterUpToDate (p : Path) : Bool := p.joinFlags.parametersUpToDate
def isBlocked (p : Path) : Bool := p.joinFlags.blocked
def isWarmUp (p : Path) : Bool := p.flags.warmup
def isNominalMove (p : Path) : Bool := p.flags.nominal
def isCancelable (p : Path) : Bool := p.flags.cancelable
def getWaitMS (p : Path) : Nat := p.flags.waitMS

def setStartSpeedFixed (p : Path) (b : Bool) : Path :=
  { p with joinFlags := { p.joinFlags with startSpeedFixed := b } }
def setEndSpeedFixed (p : Path) (b : Bool) : Path :=
  { p with joinFlags := { p.joinFlags with endSpeedFixed := b } }
def fixStartAndEndSpeed (p : Path) : Path :=
  { p with joinFlags := { p.joinFlags with startSpeedFixed := true, endSpeedFixed := true } }
def setParameterUpToDate (p : Path) : Path :=
  { p with joinFlags := { p.joinFlags with parametersUpToDate := true } }
def invalidateParameter (p : Path) : Path :=
  { p with joinFlags := { p.joinFlags with parametersUpToDate := false } }
def block (p : Path) : Path :=
  { p with joinFlags := { p.joinFlags with blocked := true } }
def unblock (p : Path) : Path :=
  { p with joinFlags := { p.joinFlags with blocked := false } }
def setNominalMove (p : Path) : Path :=
  { p with flags := { p.flags with nominal := true } }
def setCancelable (p : Path) (b : Bool) : Path :=
  { p with flags := { p.flags with cancelable := b } }
def setWaitMS (p : Path) (w : Nat) : Path :=
  { p with flags := { p.flags with waitMS := w } }

/-- The assignment `p->startSpeed = v`. -/
def setStartSpeed (p : Path) (v : ℚ) : Path := { p with startSpeed := v }

/-- The assignment `p->endSpeed = v`. -/
def setEndSpeed (p : Path) (v : ℚ) : Path := { p with endSpeed := v }

/-- The assignment `p->maxJunctionSpeed = v`. -/
def setMaxJunctionSpeed (p : Path) (v : ℚ) : Path := { p with maxJunctionSpeed := v }

/-- Modelled from the spec: a step is in the accelerating phase when
`stepNumber < accelSteps`. -/
def moveAccelerating (p : Path) (stepNumber : Nat) : Bool := decide (stepNumber < p.accelSteps)

/-- Modelled from the spec: a step is in the decelerating phase when
`stepNumber ≥ stepsRemaining − decelSteps`. -/
def moveDecelerating (p : Path) (stepNumber : Nat) : Bool :=
  decide (p.stepsRemaining ≤ stepNumber + p.decelSteps)

end Path

/-! ## Admission: `queueMove`, `safeSpeed`, `calculateMove` -/

/-- One round of the loop of `queueMove` over the axes: copy the step count,
set the direction bit and the move bit.  Here `axis_diff` is already in
millimetres. -/
def queueMoveAxis (axis_diff num_steps : Axis → ℚ) (p : Path) (axis : Axis) : Path :=
  let p1 : Path := { p with delta := Function.update p.delta axis (toUnsigned (num_steps axis)) }
  let p2 : Path := if axis_diff axis ≥ 0 then p1.setPositiveDirectionForAxis axis else p1
  if p2.delta axis ≠ 0 then p2.setMoveOfAxis axis else p2

/-- The choice of the primary axis in `queueMove`. -/
def selectPrimaryAxis (delta : Axis → Nat) : Axis :=
  if delta Y_AXIS > delta X_AXIS ∧ delta Y_AXIS > delta Z_AXIS ∧ delta Y_AXIS > delta E_AXIS then
    Y_AXIS
  else if delta X_AXIS > delta Z_AXIS ∧ delta X_AXIS > delta E_AXIS then
    X_AXIS
  else if delta Z_AXIS > delta E_AXIS then
    Z_AXIS
  else
    E_AXIS

/-- The distance of a move as computed by `queueMove`. -/
def moveDistance (pl : Platform) (p : Path) (axis_diff : Axis → ℚ) : ℚ :=
  if p.isXYZMove then
    let xydist2 := axis_diff X_AXIS * axis_diff X_AXIS + axis_diff Y_AXIS * axis_diff Y_AXIS
    if p.isZMove then
      max (pl.sqrt (xydist2 + axis_diff Z_AXIS * axis_diff Z_AXIS)) |axis_diff E_AXIS|
    else
      max (pl.sqrt xydist2) |axis_diff E_AXIS|
  else
    |axis_diff E_AXIS|

/-- The segment that `queueMove` has built in the slot `p` when it reaches the
test `isNoMove` (lines 188 to 206); `axis_diff` is in millimetres. -/
def queueMoveInit (pl : Platform) (p : Path) (axis_diff num_steps : Axis → ℚ) (speed : ℚ)
    (cancelable optimize : Bool) : Path :=
  let p1 : Path := { p with speed := speed * 1000, joinFlags := {}, flags := {} }
  let p2 := (p1.setCancelable cancelable).setWaitMS (if optimize then pl.PRINT_MOVE_BUFFER_WAIT else 0)
  let p3 : Path := { p2 with dir := 0 }
  [X_AXIS, Y_AXIS, Z_AXIS, E_AXIS].foldl (queueMoveAxis axis_diff num_steps) p3

/-- The segment handed to `calculateMove` by `queueMove` (lines 215 to 235). -/
def queueMovePrepare (pl : Platform) (p : Path) (axis_diff : Axis → ℚ) : Path :=
  let p1 : Path := { p with primaryAxis := selectPrimaryAxis p.delta }
  let p2 : Path := { p1 with stepsRemaining := p1.delta p1.primaryAxis }
  { p2 with distance := moveDistance pl p2 axis_diff }

/-- The function `PathPlanner::safeSpeed`. -/
def safeSpeed (pp : Config) (p : Path) : ℚ :=
  let safe0 : ℚ := pp.maxJerk * (1 / 2)
  let safe1 : ℚ :=
    if p.isZMove then
      if p.primaryAxis = Z_AXIS then
        pp.maxZJerk * (1 / 2) * p.fullSpeed / |p.speedZ|
      else if |p.speedZ| > pp.maxZJerk * (1 / 2) then
        min safe0 (pp.maxZJerk * (1 / 2) * p.fullSpeed / |p.speedZ|)
      else safe0
    else safe0
  let safe2 : ℚ :=
    if p.isEMove then
      if p.isXYZMove then
        min safe1 ((1 / 2) * pp.currentExtruder.maxStartFeedrate * p.fullSpeed / |p.speedE|)
      else
        (1 / 2) * pp.currentExtruder.maxStartFeedrate
    else safe1
  let safe3 : ℚ :=
    if p.primaryAxis = X_AXIS ∨ p.primaryAxis = Y_AXIS then max pp.minimumSpeed safe2
    else if p.primaryAxis = Z_AXIS then max pp.minimumZSpeed safe2
    else safe2
  min safe3 p.fullSpeed

/-- The bound on the interval of one axis imposed by its maximum feedrate
(lines 305, 311, 317, 323), as stored in the `unsigned int` array
`axisInterval`. -/
def feedrateInterval (pl : Platform) (pp : Config) (p : Path) (axis_diff : Axis → ℚ)
    (i : Axis) : Nat :=
  toUnsigned (|axis_diff i| * (pl.F_CPU : ℚ) / (pp.maxFeedrate i * (p.stepsRemaining : ℚ)))

/-- The value of `limitInterval` at line 328 of `calculateMove`. -/
def limitInterval (pl : Platform) (pp : Config) (p : Path) (axis_diff : Axis → ℚ) : Nat :=
  let timeForMove : ℚ :=
    (pl.F_CPU : ℚ) * p.distance / (if p.isXOrYMove then max pp.minimumSpeed p.speed else p.speed)
  let l0 : Nat := toUnsigned (timeForMove / (p.stepsRemaining : ℚ))
  let l1 := if p.isXMove then max (feedrateInterval pl pp p axis_diff X_AXIS) l0 else l0
  let l2 := if p.isYMove then max (feedrateInterval pl pp p axis_diff Y_AXIS) l1 else l1
  let l3 := if p.isZMove then max (feedrateInterval pl pp p axis_diff Z_AXIS) l2 else l2
  if p.isEMove then max (feedrateInterval pl pp p axis_diff E_AXIS) l3 else l3

/-- The speed of one axis as `calculateMove` stores it (lines 336 and 337 for
X): the displacement times `inv_time_s`, negated when the axis moves in the
negative direction. -/
def axisSpeed (negativeMove : Bool) (diff : ℚ) (inv_time_s : ℚ) : ℚ :=
  let s := diff * inv_time_s
  if negativeMove then -s else s

/-- The minimum over the moving axes of `axisInterval[i] * accel[i]`, starting
from `1e15` (lines 367 to 374). -/
def slowestAxisPlateauTimeRepro (p : Path) (axisInterval : Axis → Nat) (accel : Axis → Nat) : ℚ :=
  [X_AXIS, Y_AXIS, Z_AXIS, E_AXIS].foldl
    (fun (s : ℚ) (i : Axis) =>
      if p.isMoveOfAxis i then min s ((axisInterval i : ℚ) * (accel i : ℚ)) else s)
    1000000000000000

/-- The test of lines 384 and 385: the move is nominal when it can reach its
full speed within the line. -/
def markNominal (p : Path) : Path :=
  if p.startSpeed * p.startSpeed + p.accelerationDistance2 ≥ p.fullSpeed * p.fullSpeed then
    p.setNominalMove
  else p

/-- The body of `calculateMove` up to the call of `updateTrapezoids`: the
segment `p` of the slot with all kinematic fields filled in; `axis_diff` is in
millimetres. -/
def calculateMoveSegment (pl : Platform) (pp : Config) (p : Path) (axis_diff : Axis → ℚ) :
    Path :=
  let timeForMove0 : ℚ :=
    (pl.F_CPU : ℚ) * p.distance / (if p.isXOrYMove then max pp.minimumSpeed p.speed else p.speed)
  let q0 : Path := { p with timeInTicks := toUnsigned timeForMove0 }
  let limit := limitInterval pl pp p axis_diff
  let q1 : Path := { q0 with fullInterval := limit }
  let timeForMove : ℚ := (limit : ℚ) * (p.stepsRemaining : ℚ)
  let inv_time_s : ℚ := (pl.F_CPU : ℚ) / timeForMove
  let axisInterval : Axis → Nat := fun i =>
    if p.isMoveOfAxis i then toUnsigned (timeForMove / (p.delta i : ℚ)) else 0
  let q2 : Path :=
    { q1 with
      speedX := if p.isXMove then axisSpeed p.isXNegativeMove (axis_diff X_AXIS) inv_time_s else 0
      speedY := if p.isYMove then axisSpeed p.isYNegativeMove (axis_diff Y_AXIS) inv_time_s else 0
      speedZ := if p.isZMove then axisSpeed p.isZNegativeMove (axis_diff Z_AXIS) inv_time_s else 0
      speedE :=
        if p.isEMove then axisSpeed p.isENegativeMove (axis_diff E_AXIS) inv_time_s
        else p.speedE }
  let q3 : Path := { q2 with fullSpeed := p.distance * inv_time_s }
  let accel : Axis → Nat :=
    if p.isEPositiveMove then pp.maxPrintAccelerationStepsPerSquareSecond
    else pp.maxTravelAccelerationStepsPerSquareSecond
  let slowest := slowestAxisPlateauTimeRepro p axisInterval accel
  let half : Int := ((p.delta p.primaryAxis >>> 1 : Nat) : Int)
  let q4 : Path :=
    { q3 with
      error := fun i => if i = E_AXIS then p.error i else half
      invFullSpeed := 1 / q3.fullSpeed
      accelerationPrim := toUnsigned (slowest / (axisInterval p.primaryAxis : ℚ)) }
  let q5 : Path :=
    { q4 with
      fAcceleration := toUnsigned (262144 * (q4.accelerationPrim : ℚ) / (pl.F_CPU : ℚ))
      accelerationDistance2 := 2 * p.distance * slowest * q4.fullSpeed / (pl.F_CPU : ℚ) }
  let safe := safeSpeed pp q5
  let q6 : Path := { q5 with startSpeed := safe, endSpeed := safe, minSpeed := safe }
  let q7 : Path := markNominal q6
  { q7 with vMax := pl.F_CPU / q7.fullInterval }

/-! ## Steps parameters -/

/-- The number of steps needed to change the speed between `v` and `vMax`
under the acceleration `accelerationPrim`, as computed at lines 407 and 408
(64 bit products and difference, result stored in an `unsigned int`).  For
`accelerationPrim = 0` the integer division of the code traps; the quotient
is `0` here, so a statement about the code is one about segments with
`accelerationPrim ≠ 0`, such as the segments that the scenarios queue. -/
def rampSteps (vMax v accelerationPrim : Nat) : Nat :=
  u32 (u64sub (u64 (vMax * vMax)) (u64 (v * v)) / (accelerationPrim <<< 1) + 1)

/-- The trim of `updateStepsParameter` (lines 411 to 416) applied to the
numbers of acceleration and deceleration steps. -/
def trimSteps (accelSteps decelSteps stepsRemaining : Nat) : Nat × Nat :=
  if u32 (accelSteps + decelSteps) ≥ stepsRemaining then
    let red : Nat := u32sub (u32 (accelSteps + decelSteps + 2)) stepsRemaining >>> 1
    (accelSteps - min accelSteps red, decelSteps - min decelSteps red)
  else (accelSteps, decelSteps)

/-- The function `Path::updateStepsParameter`. -/
def Path.updateStepsParameter (p : Path) : Path :=
  if p.areParameterUpToDate || p.isWarmUp then p
  else
    let startFactor : ℚ := p.startSpeed * p.invFullSpeed
    let endFactor : ℚ := p.endSpeed * p.invFullSpeed
    let vStart : Nat := toUnsigned ((p.vMax : ℚ) * startFactor)
    let vEnd : Nat := toUnsigned ((p.vMax : ℚ) * endFactor)
    let t := trimSteps (rampSteps p.vMax vStart p.accelerationPrim)
      (rampSteps p.vMax vEnd p.accelerationPrim) p.stepsRemaining
    Path.setParameterUpToDate
      { p with vStart := vStart, vEnd := vEnd, accelSteps := t.1, decelSteps := t.2 }

/-! ## The lookahead planner -/

/-- Modelled from the spec: `nextPlannerIndex` of the missing header, the next
ring index, wrapping at the capacity. -/
def nextPlannerIndex (pl : Platform) (p : Nat) : Nat :=
  if p + 1 ≥ pl.MOVE_CACHE_SIZE then 0 else p + 1

/-- Modelled from the spec: `previousPlannerIndex` of the missing header, the
previous ring index, wrapping at the capacity. -/
def previousPlannerIndex (pl : Platform) (p : Nat) : Nat :=
  if p = 0 then pl.MOVE_CACHE_SIZE - 1 else p - 1

/-- Write through a pointer into the ring: the slot `i` is replaced by `f` of
its content. -/
def modifyLine (lines : Nat → Path) (i : Nat) (f : Path → Path) : Nat → Path :=
  Function.update lines i (f (lines i))

/-- The function `PathPlanner::computeMaxJunctionSpeed`; the result is the
new content of `previous`. -/
def computeMaxJunctionSpeed (pl : Platform) (pp : Config) (previous current : Path) : Path :=
  let dx : ℚ := current.speedX - previous.speedX
  let dy : ℚ := current.speedY - previous.speedY
  let jerk : ℚ := pl.sqrt (dx * dx + dy * dy)
  let factor0 : ℚ := if jerk > pp.maxJerk then pp.maxJerk / jerk else 1
  let factor1 : ℚ :=
    if (previous.dir ||| current.dir) &&& 64 ≠ 0 then
      let dz : ℚ := |current.speedZ - previous.speedZ|
      if dz > pp.maxZJerk then min factor0 (pp.maxZJerk / dz) else factor0
    else factor0
  let eJerk : ℚ := |current.speedE - previous.speedE|
  let factor2 : ℚ :=
    if eJerk > pp.currentExtruder.maxStartFeedrate then
      min factor1 (pp.currentExtruder.maxStartFeedrate / eJerk)
    else factor1
  previous.setMaxJunctionSpeed (min (previous.fullSpeed * factor2) current.fullSpeed)

/-- The search loop of `updateTrapezoids` for the last segment with a fixed end
speed (line 444); the first argument bounds the number of rounds. -/
def searchFirst (pl : Platform) (lines : Nat → Path) (maxfirst : Nat) : Nat → Nat → Nat
  | 0, first => first
  | fuel + 1, first =>
    if first ≠ maxfirst ∧ !(lines first).isEndSpeedFixed then
      searchFirst pl lines maxfirst fuel (previousPlannerIndex pl first)
    else first

/-- One round of the loop of `backwardPlanner`, entered with `start ≠ last`:
the new ring, the new `start` and the new `lastJunctionSpeed`. -/
def backwardStep (pl : Platform) (lines : Nat → Path) (start : Nat) (lastJunctionSpeed : ℚ) :
    (Nat → Path) × Nat × ℚ :=
  let act := start
  let prev := previousPlannerIndex pl start
  let lastJ : ℚ :=
    if (lines act).isNominalMove then (lines act).fullSpeed
    else pl.sqrt (lastJunctionSpeed * lastJunctionSpeed + (lines act).accelerationDistance2)
  if lastJ ≥ (lines prev).maxJunctionSpeed then
    let lines1 :=
      if (lines prev).endSpeed ≠ (lines prev).maxJunctionSpeed then
        modifyLine lines prev (fun q =>
          q.invalidateParameter.setEndSpeed (max q.minSpeed q.maxJunctionSpeed))
      else lines
    let lines2 :=
      if (lines1 act).startSpeed ≠ (lines1 prev).maxJunctionSpeed then
        modifyLine lines1 act (fun q =>
          (q.setStartSpeed (max q.minSpeed (lines1 prev).maxJunctionSpeed)).invalidateParameter)
      else lines1
    (lines2, prev, (lines2 prev).endSpeed)
  else
    let lines1 := modifyLine lines act (fun q => q.setStartSpeed (max q.minSpeed lastJ))
    let lines2 := modifyLine lines1 prev (fun q => q.setEndSpeed (max lastJ q.minSpeed))
    let lastJ2 := (lines2 prev).endSpeed
    let lines3 := modifyLine lines2 prev Path.invalidateParameter
    let lines4 := modifyLine lines3 act Path.invalidateParameter
    (lines4, prev, lastJ2)

/-- The loop of `backwardPlanner`; the first argument bounds the number of
rounds. -/
def backwardLoop (pl : Platform) (last : Nat) : Nat → (Nat → Path) → Nat → ℚ → (Nat → Path)
  | 0, lines, _, _ => lines
  | fuel + 1, lines, start, lastJunctionSpeed =>
    if start ≠ last then
      let r := backwardStep pl lines start lastJunctionSpeed
      backwardLoop pl last fuel r.1 r.2.1 r.2.2
    else lines

/-- The function `PathPlanner::backwardPlanner`. -/
def backwardPlanner (pl : Platform) (lines : Nat → Path) (start last : Nat) : Nat → Path :=
  backwardLoop pl last pl.MOVE_CACHE_SIZE lines start (lines start).endSpeed

/-- One round of the loop of `forwardPlanner`, entered with
`first ≠ linesWritePos`: the new ring, the new `first` and the new
`leftSpeed`. -/
def forwardStep (pl : Platform) (lines : Nat → Path) (first : Nat) (leftSpeed : ℚ) :
    (Nat → Path) × Nat × ℚ :=
  let act := first
  let next := nextPlannerIndex pl first
  let vmaxRight : ℚ :=
    if (lines act).isNominalMove then (lines act).fullSpeed
    else pl.sqrt (leftSpeed * leftSpeed + (lines act).accelerationDistance2)
  if vmaxRight > (lines act).endSpeed then
    let left1 : ℚ := if leftSpeed < (lines act).minSpeed then (lines act).minSpeed else leftSpeed
    let lines1 :=
      if leftSpeed < (lines act).minSpeed then
        modifyLine lines act (fun q =>
          q.setEndSpeed (pl.sqrt (left1 * left1 + q.accelerationDistance2)))
      else lines
    let lines2 := modifyLine lines1 act (fun q => q.setStartSpeed left1)
    let left2 : ℚ :=
      max (min (lines2 act).endSpeed (lines2 act).maxJunctionSpeed) (lines2 next).minSpeed
    let lines3 := modifyLine lines2 next (fun q => q.setStartSpeed left2)
    let lines4 :=
      if (lines3 act).endSpeed = (lines3 act).maxJunctionSpeed then
        modifyLine (modifyLine lines3 act (fun q => q.setEndSpeedFixed true)) next
          (fun q => q.setStartSpeedFixed true)
      else lines3
    let lines5 := modifyLine lines4 act Path.invalidateParameter
    (lines5, next, left2)
  else
    let lines1 := modifyLine lines act Path.fixStartAndEndSpeed
    let lines2 := modifyLine lines1 act Path.invalidateParameter
    let left1 : ℚ := if (lines2 act).minSpeed > leftSpeed then (lines2 act).minSpeed else leftSpeed
    let vmaxRight1 : ℚ :=
      if (lines2 act).minSpeed > leftSpeed then
        pl.sqrt (left1 * left1 + (lines2 act).accelerationDistance2)
      else vmaxRight
    let lines3 := modifyLine lines2 act (fun q => q.setStartSpeed left1)
    let lines4 := modifyLine lines3 act (fun q => q.setEndSpeed (max q.minSpeed vmaxRight1))
    let left2 : ℚ :=
      max (min (lines4 act).endSpeed (lines4 act).maxJunctionSpeed) (lines4 next).minSpeed
    let lines5 := modifyLine lines4 next (fun q => q.setStartSpeed left2)
    let lines6 := modifyLine lines5 next (fun q => q.setStartSpeedFixed true)
    (lines6, next, left2)

/-- The loop of `forwardPlanner` with its last assignment (line 626); the
first argument bounds the number of rounds. -/
def forwardLoop (pl : Platform) (linesWritePos : Nat) :
    Nat → (Nat → Path) → Nat → ℚ → (Nat → Path)
  | 0, lines, first, leftSpeed =>
    modifyLine lines first (fun q => q.setStartSpeed (max q.minSpeed leftSpeed))
  | fuel + 1, lines, first, leftSpeed =>
    if first ≠ linesWritePos then
      let r := forwardStep pl lines first leftSpeed
      forwardLoop pl linesWritePos fuel r.1 r.2.1 r.2.2
    else
      modifyLine lines first (fun q => q.setStartSpeed (max q.minSpeed leftSpeed))

/-- The function `PathPlanner::forwardPlanner`. -/
def forwardPlanner (pl : Platform) (lines : Nat → Path) (linesWritePos first : Nat) : Nat → Path :=
  forwardLoop pl linesWritePos pl.MOVE_CACHE_SIZE lines first (lines first).startSpeed

/-- The closing loop of `updateTrapezoids` (lines 493 to 502), a do-while:
update the parameters of `first`, unblock it, block the next segment; the
first argument bounds the number of further rounds.  The result is the ring
and the final `first`. -/
def flyingBlockLoop (pl : Platform) (linesWritePos : Nat) :
    Nat → (Nat → Path) → Nat → (Nat → Path) × Nat
  | fuel, lines, first =>
    let lines1 := modifyLine lines first Path.updateStepsParameter
    let lines2 := modifyLine lines1 first Path.unblock
    let first1 := nextPlannerIndex pl first
    let lines3 := modifyLine lines2 first1 Path.block
    match fuel with
    | 0 => (lines3, first1)
    | fuel1 + 1 =>
      if first1 ≠ linesWritePos then flyingBlockLoop pl linesWritePos fuel1 lines3 first1
      else (lines3, first1)

/-- The index `first` of `updateTrapezoids` when the search is over (lines 435
to 447): the first segment the planner may still change. -/
def plannerFirst (pl : Platform) (pp : PathPlanner) : Nat :=
  let w := pp.linesWritePos
  let maxfirst : Nat := if pp.linesPos ≠ w then nextPlannerIndex pl pp.linesPos else pp.linesPos
  let first0 := searchFirst pl pp.lines maxfirst pl.MOVE_CACHE_SIZE w
  if first0 ≠ w ∧ (pp.lines first0).isEndSpeedFixed then nextPlannerIndex pl first0 else first0

/-- The function `PathPlanner::updateTrapezoids`, acting on the ring. -/
def updateTrapezoids (pl : Platform) (pp : PathPlanner) : PathPlanner :=
  let w := pp.linesWritePos
  let first : Nat := plannerFirst pl pp
  if first = w then
    { pp with
      lines := modifyLine pp.lines w (fun act =>
        ((act.block.setStartSpeedFixed true).updateStepsParameter).unblock) }
  else
    let lines1 := modifyLine pp.lines first Path.block
    let previousIndex := previousPlannerIndex pl w
    if ((lines1 previousIndex).primaryAxis = Z_AXIS ∧ (lines1 w).primaryAxis ≠ Z_AXIS) ∨
        ((lines1 previousIndex).primaryAxis ≠ Z_AXIS ∧ (lines1 w).primaryAxis = Z_AXIS) then
      let lines2 := modifyLine lines1 previousIndex (fun q => q.setEndSpeedFixed true)
      let lines3 := modifyLine lines2 w (fun q => q.setStartSpeedFixed true)
      let lines4 := modifyLine lines3 w Path.updateStepsParameter
      { pp with lines := modifyLine lines4 first Path.unblock }
    else
      let lines2 :=
        modifyLine lines1 previousIndex (fun q => computeMaxJunctionSpeed pl pp.config q (lines1 w))
      if (lines2 previousIndex).isEOnlyMove ≠ (lines2 w).isEOnlyMove then
        let lines3 := modifyLine lines2 previousIndex (fun q => q.setEndSpeedFixed true)
        let lines4 := modifyLine lines3 w (fun q => q.setStartSpeedFixed true)
        let lines5 := modifyLine lines4 w Path.updateStepsParameter
        { pp with lines := modifyLine lines5 first Path.unblock }
      else
        let lines3 := backwardPlanner pl lines2 w first
        let lines4 := forwardPlanner pl lines3 w first
        let r := flyingBlockLoop pl w (pl.MOVE_CACHE_SIZE - 1) lines4 first
        let lines5 := modifyLine r.1 w Path.updateStepsParameter
        { pp with lines := modifyLine lines5 w Path.unblock }

/-- The function `PathPlanner::calculateMove`: fill the slot at `linesWritePos`
and run the planner. -/
def calculateMove (pl : Platform) (pp : PathPlanner) (axis_diff : Axis → ℚ) : PathPlanner :=
  updateTrapezoids pl
    { pp with
      lines := modifyLine pp.lines pp.linesWritePos
        (fun p => calculateMoveSegment pl pp.config p axis_diff) }

/-- The function `PathPlanner::queueMove`, from the point where the wait for a
free slot is over (`linesCount < MOVE_CACHE_SIZE` or `stop`).  The
displacements `axis_diff` are in metres. -/
def queueMove (pl : Platform) (pp : PathPlanner) (axis_diff num_steps : Axis → ℚ) (speed : ℚ)
    (cancelable optimize : Bool) : PathPlanner :=
  if pp.stop then pp
  else
    let diff_mm : Axis → ℚ := fun i => axis_diff i * 1000
    let pp1 : PathPlanner :=
      { pp with
        lines := modifyLine pp.lines pp.linesWritePos
          (fun p => queueMoveInit pl p diff_mm num_steps speed cancelable optimize) }
    if (pp1.lines pp1.linesWritePos).isNoMove then pp1
    else
      let pp2 : PathPlanner :=
        { pp1 with
          lines := modifyLine pp1.lines pp1.linesWritePos (fun p => queueMovePrepare pl p diff_mm) }
      let pp3 := calculateMove pl pp2 diff_mm
      let w := pp3.linesWritePos + 1
      { pp3 with
        linesWritePos := if w ≥ pl.MOVE_CACHE_SIZE then 0 else w
        linesCount := pp3.linesCount + 1 }

/-- The segment that `queueMove` hands to `calculateMove` when it admits a
move: the slot at `linesWritePos` after lines 188 to 235. -/
def preparedSegment (pl : Platform) (pp : PathPlanner) (axis_diff num_steps : Axis → ℚ) (speed : ℚ)
    (cancelable optimize : Bool) : Path :=
  queueMovePrepare pl
    (queueMoveInit pl (pp.lines pp.linesWritePos) (fun i => axis_diff i * 1000) num_steps speed
      cancelable optimize)
    (fun i => axis_diff i * 1000)

/-- The segment that `queueMove` hands to `updateTrapezoids` when it admits
a move: the slot at `linesWritePos` after lines 188 to 387. -/
def admittedSegment (pl : Platform) (pp : PathPlanner) (axis_diff num_steps : Axis → ℚ) (speed : ℚ)
    (cancelable optimize : Bool) : Path :=
  calculateMoveSegment pl pp.config (preparedSegment pl pp axis_diff num_steps speed
    cancelable optimize) (fun i => axis_diff i * 1000)

/-- The call `queueMove` admits a segment: no stop is requested and the move
has a step on some axis. -/
def Admits (pl : Platform) (pp : PathPlanner) (axis_diff num_steps : Axis → ℚ) (speed : ℚ)
    (cancelable optimize : Bool) : Prop :=
  pp.stop = false ∧
    (queueMoveInit pl (pp.lines pp.linesWritePos) (fun i => axis_diff i * 1000) num_steps speed
      cancelable optimize).isNoMove = false

/-! ## The stepping engine -/

/-- The state of the stepping loop of `run`: the segment `cur` (its `error`
array is updated by the loop), the local variables `vMaxReached`,
`timer_accel`, `timer_decel`, the commands written so far, and `sane`, which
is false once a step interval was computed by a division by zero or failed
the assertion `interval < F_CPU * 4`. -/
structure StepState where
  cur : Path
  vMaxReached : Nat
  timer_accel : Nat
  timer_decel : Nat
  commands : List SteppersCommand
  sane : Bool

/-- The update of one axis in the stepping loop (lines 792 to 799 for E):
subtract `delta` from the error; if the result is negative set the bit `bit`
of the `uint8_t` field `step` and add `cur_errupd`. -/
def ddaAxis (moves : Bool) (delta : Nat) (cur_errupd : Int) (bit : Nat) (es : Int × Nat) :
    Int × Nat :=
  if moves then
    if es.1 - (delta : Int) < 0 then
      (es.1 - (delta : Int) + cur_errupd, (es.2 ||| (1 <<< bit)) % 256)
    else (es.1 - (delta : Int), es.2)
  else es

/-- The macro `ComputeV`. -/
def ComputeV (timer accel : Nat) : Nat := ((timer >>> 8) * accel) >>> 10

/-- The Bresenham part of one round of the stepping loop (lines 791 to 824):
the new `error` array of `cur` and the field `step` of the command. -/
def ddaStep (pp : Config) (cur : Path) (cur_errupd : Int) : (Axis → Int) × Nat :=
  let e := ddaAxis cur.isEMove (cur.delta E_AXIS) cur_errupd
    pp.currentExtruder.stepperCommandPosition (cur.error E_AXIS, 0)
  let x := ddaAxis cur.isXMove (cur.delta X_AXIS) cur_errupd X_AXIS.val (cur.error X_AXIS, e.2)
  let y := ddaAxis cur.isYMove (cur.delta Y_AXIS) cur_errupd Y_AXIS.val (cur.error Y_AXIS, x.2)
  let z := ddaAxis cur.isZMove (cur.delta Z_AXIS) cur_errupd Z_AXIS.val (cur.error Z_AXIS, y.2)
  (fun i => if i = X_AXIS then x.1 else if i = Y_AXIS then y.1 else if i = Z_AXIS then z.1 else e.1,
    z.2)

/-- The result of the timing part of one round of the stepping loop: the new
values of the local variables, the interval, and whether the interval was
computed without a division by zero and passes the assertion
`interval < F_CPU * 4`. -/
structure StepTiming where
  vMaxReached : Nat
  timer_accel : Nat
  timer_decel : Nat
  interval : Nat
  sane : Bool

/-- The timing part of one round of the stepping loop (lines 826 to 859). -/
def stepTiming (pl : Platform) (cur : Path) (vMaxReached timer_accel timer_decel : Nat)
    (stepNumber : Nat) : StepTiming :=
  if cur.moveAccelerating stepNumber then
    let v0 := ComputeV timer_accel cur.fAcceleration + cur.vStart
    let v := if v0 > cur.vMax then cur.vMax else v0
    let interval := pl.F_CPU / v
    { vMaxReached := v
      timer_accel := timer_accel + interval
      timer_decel := timer_decel
      interval := interval
      sane := decide (v ≠ 0) && decide (interval < pl.F_CPU * 4) }
  else if cur.moveDecelerating stepNumber then
    let dv := ComputeV timer_decel cur.fAcceleration
    let v :=
      if dv > vMaxReached then cur.vEnd
      else if vMaxReached - dv < cur.vEnd then cur.vEnd else vMaxReached - dv
    let interval := pl.F_CPU / v
    { vMaxReached := vMaxReached
      timer_accel := timer_accel
      timer_decel := timer_decel + interval
      interval := interval
      sane := decide (v ≠ 0) && decide (interval < pl.F_CPU * 4) }
  else
    { vMaxReached := vMaxReached
      timer_accel := timer_accel
      timer_decel := timer_decel
      interval := cur.fullInterval
      sane := decide (cur.fullInterval < pl.F_CPU * 4) }

/-- One round of the stepping loop of `run` (lines 787 to 860). -/
def stepBody (pl : Platform) (pp : Config) (cur_errupd : Int)
    (directionMask cancellableMask : Nat) (st : StepState) (stepNumber : Nat) : StepState :=
  let d := ddaStep pp st.cur cur_errupd
  let t := stepTiming pl st.cur st.vMaxReached st.timer_accel st.timer_decel stepNumber
  { cur := { st.cur with error := d.1 }
    vMaxReached := t.vMaxReached
    timer_accel := t.timer_accel
    timer_decel := t.timer_decel
    commands := st.commands ++ [⟨d.2, directionMask, cancellableMask, 0, u32 t.interval⟩]
    sane := st.sane && t.sane }

/-- The direction mask built by `run` (lines 767 to 770), a `uint8_t`. -/
def directionMask (pp : Config) (cur : Path) : Nat :=
  ((((0 ||| (cur.isXPositiveMove.toNat <<< X_AXIS.val)) |||
    (cur.isYPositiveMove.toNat <<< Y_AXIS.val)) |||
    (cur.isZPositiveMove.toNat <<< Z_AXIS.val)) |||
    (cur.isEPositiveMove.toNat <<< pp.currentExtruder.stepperCommandPosition)) % 256

/-- The cancellable mask built by `run` (lines 772 to 779), a `uint8_t`. -/
def cancellableMask (pp : Config) (cur : Path) : Nat :=
  if cur.isCancelable then
    ((((0 ||| (cur.isXMove.toNat <<< X_AXIS.val)) |||
      (cur.isYMove.toNat <<< Y_AXIS.val)) |||
      (cur.isZMove.toNat <<< Z_AXIS.val)) |||
      (cur.isEMove.toNat <<< pp.currentExtruder.stepperCommandPosition)) % 256
  else 0

/-- The segment `cur` as the stepping loop finds it: `run` has fixed its
speeds and brought its steps parameters up to date (lines 746 to 751). -/
def runPrepare (cur : Path) : Path :=
  let c := cur.fixStartAndEndSpeed
  if !c.areParameterUpToDate then c.updateStepsParameter else c

/-- The state of the stepping loop of `run` on the prepared segment `cur`
after `n` rounds (`stepNumber` running from `0` to `n - 1`). -/
def stepLoop (pl : Platform) (pp : Config) (cur : Path) : Nat → StepState
  | 0 =>
    { cur := cur, vMaxReached := cur.vStart, timer_accel := 0, timer_decel := 0,
      commands := [], sane := true }
  | n + 1 =>
    stepBody pl pp (cur.delta cur.primaryAxis : Int) (directionMask pp cur)
      (cancellableMask pp cur) (stepLoop pl pp cur n) n

/-- The whole stepping loop of `run` on the prepared segment `cur`: the rounds
`stepNumber = 0, ..., stepsRemaining - 1`. -/
def runSteps (pl : Platform) (pp : Config) (cur : Path) : StepState :=
  stepLoop pl pp cur cur.stepsRemaining

/-- Modelled from the spec: `removeCurrentLine` of the missing header,
`linesPos++` with wrap and `linesCount--`. -/
def removeCurrentLine (pl : Platform) (pp : PathPlanner) : PathPlanner :=
  { pp with
    linesPos := nextPlannerIndex pl pp.linesPos
    linesCount := pp.linesCount - 1 }

/-- One round of the outer loop of `PathPlanner::run` that finds work: the
head segment is prepared, stepped, its command block is handed to the pulse
sink and the head is removed.  A round that finds no work, a stop request or
a blocked head changes nothing.  The waits of the thread are not part of
the model. -/
def run (pl : Platform) (pp : PathPlanner) : PathPlanner :=
  if pp.linesCount = 0 ∨ pp.stop then pp
  else if (pp.lines pp.linesPos).isBlocked then pp
  else
    let cur := runPrepare (pp.lines pp.linesPos)
    let st := runSteps pl pp.config cur
    let done : Path :=
      { st.cur with commands := st.commands, commandBufferSize :=
          if cur.commands ≠ [] ∧ ¬ (cur.commandBufferSize < cur.stepsRemaining ∨
              cur.commandBufferSize - cur.stepsRemaining > 1024 * 1024) then
            cur.commandBufferSize
          else cur.stepsRemaining }
    removeCurrentLine pl { pp with lines := Function.update pp.lines pp.linesPos done }

/-- The command block that `run` pushes to the pulse sink for the head
segment. -/
def runCommands (pl : Platform) (pp : PathPlanner) : List SteppersCommand :=
  (runSteps pl pp.config (runPrepare (pp.lines pp.linesPos))).commands

/-! ## Reachable planner states -/

/-- The planner as left by the constructor `PathPlanner::PathPlanner`, apart
from the configuration tables: an empty ring of cleared slots. -/
def PathPlanner.EmptyRing (pp : PathPlanner) : Prop :=
  pp.linesPos = 0 ∧ pp.linesWritePos = 0 ∧ pp.linesCount = 0 ∧ pp.lines = fun _ => {}

/-- Two planner states with the same ring: they differ at most in the
configuration tables and the stop flag. -/
def PathPlanner.SameRing (a b : PathPlanner) : Prop :=
  a.lines = b.lines ∧ a.linesPos = b.linesPos ∧ a.linesWritePos = b.linesWritePos ∧
    a.linesCount = b.linesCount

/-- The configuration is sane: the jerk limits and the start feedrate of the
extruder are not negative. -/
def Config.Ok (cfg : Config) : Prop :=
  0 ≤ cfg.maxJerk ∧ 0 ≤ cfg.maxZJerk ∧ 0 ≤ cfg.currentExtruder.maxStartFeedrate

/-- The planner states that the program reaches from the constructed planner
by configuration calls, by calls of `queueMove` that find a free slot under a
configuration whose jerk limits are not negative, and by rounds of `run`. -/
inductive Reachable (pl : Platform) : PathPlanner → Prop
  | init (pp : PathPlanner) : pp.EmptyRing → Reachable pl pp
  | configure (pp pp1 : PathPlanner) : Reachable pl pp → pp.SameRing pp1 → Reachable pl pp1
  | queue (pp : PathPlanner) (axis_diff num_steps : Axis → ℚ) (speed : ℚ)
      (cancelable optimize : Bool) :
      Reachable pl pp → pp.config.Ok → pp.linesCount < pl.MOVE_CACHE_SIZE →
      Reachable pl (queueMove pl pp axis_diff num_steps speed cancelable optimize)
  | step (pp : PathPlanner) : Reachable pl pp → Reachable pl (run pl pp)

/-- The rank of an axis in the resolution of ties between equal step counts,
in the words of the specification: E over Z over X over Y. -/
def tiePriority (i : Axis) : Nat :=
  if i = Y_AXIS then 0 else if i = X_AXIS then 1 else if i = Z_AXIS then 2 else 3

/-- A square root on the rationals for concrete evaluation: exact on the
squares of rationals, rounded down to a multiple of `1 / den` otherwise. -/
def sqrtLower (q : ℚ) : ℚ := (Nat.sqrt (q.num.toNat * q.den) : ℚ) / (q.den : ℚ)

/-- The constants of the end-to-end scenarios: `F_CPU = 200 MHz`, a ring of 32
slots. -/
def scenarioPlatform : Platform :=
  { F_CPU := 200000000, MOVE_CACHE_SIZE := 32, PRINT_MOVE_BUFFER_WAIT := 250, sqrt := sqrtLower }

/-- The configuration of the end-to-end scenarios in planner units: 80
steps/mm, 300 mm/s, 3000 mm/s² (240000 steps/s²), jerk 20 mm/s, Z jerk
0.3 mm/s, start feedrate of the extruder 40 mm/s. -/
def scenarioConfig : Config :=
  { maxFeedrate := fun _ => 300
    maxPrintAccelerationStepsPerSquareSecond := fun _ => 240000
    maxTravelAccelerationStepsPerSquareSecond := fun _ => 240000
    maxJerk := 20
    maxZJerk := 3 / 10
    minimumSpeed := 866 / 100
    minimumZSpeed := 866 / 100
    currentExtruder := { maxStartFeedrate := 40, stepperCommandPosition := 3 } }

/-- The freshly constructed planner with the scenario configuration. -/
def scenarioPlanner : PathPlanner := { config := scenarioConfig }

/-- A vector with the value `v` on the X axis and zero elsewhere. -/
def onlyX (v : ℚ) : Axis → ℚ := fun i => if i = X_AXIS then v else 0


/-- The part of a segment that the two passes of the planner and
`updateStepsParameter` never write: the segment with the join flags, the
start and end speed and the steps parameters cleared. -/
def Path.frame (p : Path) : Path :=
  { p with
    joinFlags := {}, startSpeed := 0, endSpeed := 0,
    vStart := 0, vEnd := 0, accelSteps := 0, decelSteps := 0 }

/-- Two rings whose slots agree on their frames. -/
def SameFrame (l1 l2 : Nat → Path) : Prop := ∀ j, (l1 j).frame = (l2 j).frame

/-- The part of a segment that `updateTrapezoids` never writes: the frame
with the junction speed cleared as well. -/
def Path.kin (p : Path) : Path := p.frame.setMaxJunctionSpeed 0

/-- Two rings whose slots agree on what `updateTrapezoids` never writes. -/
def SameKin (l1 l2 : Nat → Path) : Prop := ∀ j, (l1 j).kin = (l2 j).kin

/-- The ring index at the offset `o` from the index `pos`. -/
def ringIndex (pl : Platform) (pos o : Nat) : Nat :=
  if pos + o < pl.MOVE_CACHE_SIZE then pos + o else pos + o - pl.MOVE_CACHE_SIZE

/-- The invariant (I3) of a segment: `minSpeed ≤ startSpeed ≤ fullSpeed` and
`minSpeed ≤ endSpeed ≤ fullSpeed`. -/
def Path.SpeedsOk (p : Path) : Prop :=
  p.minSpeed ≤ p.startSpeed ∧ p.startSpeed ≤ p.fullSpeed ∧
    p.minSpeed ≤ p.endSpeed ∧ p.endSpeed ≤ p.fullSpeed

/-- The junction speed stored in `a` for the junction between `a` and its
successor `b` exceeds the full speed of neither. -/
def JunctionOk (a b : Path) : Prop :=
  a.maxJunctionSpeed ≤ a.fullSpeed ∧ a.maxJunctionSpeed ≤ b.fullSpeed

/-- The minimum speed of a segment is not negative, and a segment flagged
nominal reaches its full speed from its minimum speed within the line. -/
def Path.NominalOk (p : Path) : Prop :=
  0 ≤ p.minSpeed ∧
    (p.isNominalMove = true →
      p.fullSpeed * p.fullSpeed ≤ p.minSpeed * p.minSpeed + p.accelerationDistance2)

/-- The geometry of a slot is consistent: the move bits of `dir` mark the
axes with steps, no axis has more steps than the primary axis, the Bresenham
error of the extruder is at rest, and a segment that extrudes has
`stepsRemaining = delta[primaryAxis]`. -/
def Path.Shape (p : Path) : Prop :=
  (∀ i : Axis, p.isMoveOfAxis i = decide (p.delta i ≠ 0)) ∧
    (∀ i : Axis, p.delta i ≤ p.delta p.primaryAxis) ∧
    p.error E_AXIS = 0 ∧
    (p.isEMove = true → p.stepsRemaining = p.delta p.primaryAxis)

/-- The invariant of the planner state that the proofs about reachable
states carry: the ring indices are consistent, every slot satisfies (I3),
`NominalOk` and `Shape`, and every junction inside the ring behind the head
either has its end speed fixed or a junction speed within the full speeds of
its two segments. -/
structure PlannerInv (pl : Platform) (pp : PathPlanner) : Prop where
  count_le : pp.linesCount ≤ pl.MOVE_CACHE_SIZE
  ring : pl.MOVE_CACHE_SIZE = 0 ∨
    (pp.linesPos < pl.MOVE_CACHE_SIZE ∧
      pp.linesWritePos = ringIndex pl pp.linesPos pp.linesCount)
  speeds : ∀ j, (pp.lines j).SpeedsOk
  nominal : ∀ j, (pp.lines j).NominalOk
  shape : ∀ j, (pp.lines j).Shape
  junction : ∀ o, 1 ≤ o → o + 1 < pp.linesCount →
    (pp.lines (ringIndex pl pp.linesPos o)).isEndSpeedFixed = true ∨
      JunctionOk (pp.lines (ringIndex pl pp.linesPos o))
        (pp.lines (ringIndex pl pp.linesPos (o + 1)))

/-- The relation between the ring `l0` before and the ring `l` after a part
of the planner: the frames agree, every slot of `l` satisfies (I3), and no
fixed end speed has been released. -/
def StepOk (l0 l : Nat → Path) : Prop :=
  SameFrame l l0 ∧ (∀ j, (l j).SpeedsOk) ∧
    (∀ j, (l0 j).isEndSpeedFixed = true → (l j).isEndSpeedFixed = true)

/-- The bit of axis `a` in the fields `step`, `direction` and
`cancellableMask` of a command: X, Y, Z at their index, E at the
`stepperCommandPosition` of the current extruder. -/
def stepBit (cfg : Config) (a : Axis) : Nat :=
  if a = E_AXIS then cfg.currentExtruder.stepperCommandPosition else a.val

/-- The number of commands of a block that step the axis `a`. -/
def stepCount (cfg : Config) (a : Axis) (cmds : List SteppersCommand) : Nat :=
  cmds.countP (fun c => c.step.testBit (stepBit cfg a))

/-- The error of an axis after one round of the stepping loop. -/
def ddaErr (moves : Bool) (delta : Nat) (cur_errupd : Int) (e : Int) : Int :=
  if moves then (if e - (delta : Int) < 0 then e - (delta : Int) + cur_errupd else e - (delta : Int))
  else e

/-- Whether an axis steps in one round of the stepping loop. -/
def ddaHit (moves : Bool) (delta : Nat) (e : Int) : Bool :=
  moves && decide (e - (delta : Int) < 0)

/-- A segment that enters its 20 steps at full speed (`vStart = vMax = 4000`
steps/s) and has to leave them at a fifth of it (`vEnd = 800`), under the
acceleration 240000 steps/s². -/
def lateBrakeSegment : Path :=
  { vMax := 4000, fullSpeed := 50, invFullSpeed := 1 / 50, startSpeed := 50, endSpeed := 10,
    accelerationPrim := 240000, stepsRemaining := 20 }

/-- A segment of 800 steps entered and left at a fifth of its full speed
(`vMax = 4000`, `vStart = vEnd = 800`), under the acceleration 240000
steps/s². -/
def cruiseSegment : Path :=
  { vMax := 4000, fullSpeed := 50, invFullSpeed := 1 / 50, startSpeed := 10, endSpeed := 10,
    accelerationPrim := 240000, stepsRemaining := 800 }

/-- The planner after the first move of the cruise scenario: 10 mm in X (800
steps) requested at 50 mm/s, queued into the freshly constructed planner. -/
def cruiseState : PathPlanner :=
  queueMove scenarioPlatform scenarioPlanner (onlyX (1 / 100)) (onlyX 800) (1 / 20) false false

/-- A pure-extrusion segment: 400 steps of the extruder alone, full speed
50 mm/s, E as primary axis. -/
def retractSegment : Path :=
  { dir := 248, primaryAxis := E_AXIS, stepsRemaining := 400
    delta := fun i => if i = E_AXIS then 400 else 0
    fullSpeed := 50, invFullSpeed := 1 / 50, speedE := 50 }

/-- A square root on the rationals with four decimals, rounded down, for
concrete evaluation. -/
def sqrtFixed (q : ℚ) : ℚ := (Nat.sqrt (toUnsigned (q * 100000000)) : ℚ) / 10000

/-- The constants of the scenarios with the square root `sqrtFixed`. -/
def cornerPlatform : Platform :=
  { F_CPU := 200000000, MOVE_CACHE_SIZE := 32, PRINT_MOVE_BUFFER_WAIT := 250, sqrt := sqrtFixed }

/-- The pure-X segment of the corner scenario: `speedX = 50`, full speed 50. -/
def cornerPrevious : Path :=
  { dir := 241, primaryAxis := X_AXIS, speedX := 50, fullSpeed := 50, invFullSpeed := 1 / 50 }

/-- The pure-Y segment of the corner scenario: `speedY = 50`, full speed 50. -/
def cornerCurrent : Path :=
  { dir := 242, primaryAxis := Y_AXIS, speedY := 50, fullSpeed := 50, invFullSpeed := 1 / 50 }

/-- What `updateTrapezoids` does to the new segment when there is nothing to
plan (lines 447 to 455): block, fix the start speed, bring the steps parameters
up to date, unblock. -/
def Path.plannedAlone (act : Path) : Path :=
  ((act.block.setStartSpeedFixed true).updateStepsParameter).unblock

/-- The ring `l2` agrees with the ring `l1` on every slot outside the set `S`
of indices. -/
def AgreeOff (S : Nat → Prop) (l1 l2 : Nat → Path) : Prop := ∀ j, ¬ S j → l2 j = l1 j

/-- The offset of the ring index `w` from the ring index `pos`. -/
def ringOffset (pl : Platform) (pos w : Nat) : Nat :=
  if pos ≤ w then w - pos else w + pl.MOVE_CACHE_SIZE - pos

/-- The index `j` lies at one of the offsets `1, ..., c` from `pos`. -/
def InPlannerRange (pl : Platform) (pos c j : Nat) : Prop :=
  ∃ o, 1 ≤ o ∧ o ≤ c ∧ j = ringIndex pl pos o

/-- The delays of a block of commands, in order. -/
def delays (cmds : List SteppersCommand) : List Nat := cmds.map (fun c => c.delay)

/-- A segment of 4 steps in X at constant speed: nominal, start and end speed
equal to the full speed 50 mm/s, `fullInterval = 50000` ticks and
`vMax = 4000` steps/s. -/
def steadySegment : Path :=
  { flags := { nominal := true }, dir := 241, primaryAxis := X_AXIS, stepsRemaining := 4
    delta := fun i => if i = X_AXIS then 4 else 0
    error := fun i => if i = E_AXIS then 0 else 2
    speedX := 50, fullSpeed := 50, invFullSpeed := 1 / 50
    startSpeed := 50, endSpeed := 50, minSpeed := 10
    fullInterval := 50000, vMax := 4000, accelerationPrim := 240000, fAcceleration := 314 }

/-- The planner after the first of two collinear X moves of 5 mm (400 steps)
at 50 mm/s has been queued into the freshly constructed scenario planner. -/
def firstMoveState : PathPlanner :=
  queueMove scenarioPlatform scenarioPlanner (onlyX (1 / 200)) (onlyX 400) (1 / 20) false false

/-- The planner after the second of the two collinear X moves has been queued
behind the first. -/
def twoMoveState : PathPlanner :=
  queueMove scenarioPlatform firstMoveState (onlyX (1 / 200)) (onlyX 400) (1 / 20) false false

/-- The fields of a segment of `N` X steps at 80 steps/mm that `queueMove`
has admitted at 50 mm/s under the scenario configuration. -/
structure XMoveFacts (seg : Path) (N : Nat) : Prop where
  fullInterval : seg.fullInterval = 50000
  stepsRemaining : seg.stepsRemaining = N
  primaryAxis : seg.primaryAxis = X_AXIS
  distance : seg.distance = (N : ℚ) / 80
  timeInTicks : seg.timeInTicks = 50000 * N
  fullSpeed : seg.fullSpeed = 50
  accelerationPrim : seg.accelerationPrim = 240000
  minSpeed : seg.minSpeed = 10
  vMax : seg.vMax = 4000
  startSpeed : seg.startSpeed = 10
  endSpeed : seg.endSpeed = 10
  invFullSpeed : seg.invFullSpeed = 1 / 50
  fAcceleration : seg.fAcceleration = 314
  stale : seg.areParameterUpToDate = false
  working : seg.isWarmUp = false
  safe : safeSpeed scenarioConfig seg = 10
  deltaX : seg.delta X_AXIS = N
  deltaY : seg.delta Y_AXIS = 0
  deltaZ : seg.delta Z_AXIS = 0
  deltaE : seg.delta E_AXIS = 0
  mask : directionMask scenarioConfig seg = 1
  nominal : 32 ≤ N → seg.isNominalMove = true

/-- A Z-primary segment: a lift of 40 steps at full speed 5 mm/s, entered and
left at its minimum speed. -/
def liftSegment : Path :=
  { dir := 244, primaryAxis := Z_AXIS, stepsRemaining := 40
    delta := fun i => if i = Z_AXIS then 40 else 0
    error := fun i => if i = E_AXIS then 0 else 20
    speedZ := 5, fullSpeed := 5, invFullSpeed := 1 / 5
    startSpeed := 5, endSpeed := 5, minSpeed := 5
    fullInterval := 500000, vMax := 400, accelerationPrim := 240000, fAcceleration := 314 }

/-- A ring in which a lift in Z has been written behind two X moves: the head
at slot 0, the X move `steadySegment` at slot 1 and the new segment
`liftSegment` at `linesWritePos = 2`. -/
def liftState : PathPlanner :=
  { config := scenarioConfig
    lines := fun j => if j = 2 then liftSegment else steadySegment
    linesPos := 0, linesWritePos := 2, linesCount := 2 }

/-- The number of steps of a ramp between the step rates `v` and `vMax` in the
words of the specification: `floor((vMax² - v²) / (2 · accelerationPrim)) + 1`,
over the natural numbers. -/
def specRampSteps (vMax v accelerationPrim : Nat) : Nat :=
  (vMax * vMax - v * v) / (2 * accelerationPrim) + 1

/-- The reduction per side of the trim of `updateStepsParameter` (line 413)
over the natural numbers: `(a + d + 2 - stepsRemaining) >> 1`. -/
def specTrimReduction (a d stepsRemaining : Nat) : Nat := (a + d + 2 - stepsRemaining) / 2

/-- A segment of 66 steps entered and left at a fifth of its full speed
(`vMax = 4000`, `vStart = vEnd = 800`), under the acceleration 240000
steps/s²: its two ramps of 33 steps fill the segment exactly. -/
def tightSegment : Path :=
  { vMax := 4000, fullSpeed := 50, invFullSpeed := 1 / 50, startSpeed := 10, endSpeed := 10,
    accelerationPrim := 240000, stepsRemaining := 66 }

/-- The segment `cruiseSegment` with its steps parameters marked up to date
and values in them that `updateStepsParameter` would not compute. -/
def settledSegment : Path :=
  { cruiseSegment with
    joinFlags := { parametersUpToDate := true }, vStart := 1, vEnd := 2, accelSteps := 3,
    decelSteps := 4 }

/-- Two rings whose slots agree on the value of `g`. -/
def SameField {α : Type} (g : Path → α) (l1 l2 : Nat → Path) : Prop := ∀ j, g (l1 j) = g (l2 j)

/-- A ring in which a third X move has been written behind two others: the
head at slot 0, the new segment at `linesWritePos = 2`, every slot holding
`steadySegment`. -/
def collinearState : PathPlanner :=
  { config := scenarioConfig
    lines := fun _ => steadySegment
    linesPos := 0, linesWritePos := 2, linesCount := 2 }

/-- A vector with the value `v` on the E axis and zero elsewhere. -/
def onlyE (v : ℚ) : Axis → ℚ := fun i => if i = E_AXIS then v else 0

/-- The planner after a single step of the extruder (1/80 mm), requested at
0.001 mm/s, has been queued into the freshly constructed scenario planner. -/
def slowState : PathPlanner :=
  queueMove scenarioPlatform scenarioPlanner (onlyE (1 / 80000)) (onlyE 1) (1 / 1000000) false
    false

/-- The segment that `queueMove` admits for a retraction of 10 mm of filament
(800 steps) at 50 mm/s under the scenario configuration. -/
def retractMove : Path :=
  admittedSegment scenarioPlatform scenarioPlanner (onlyE (-1 / 100)) (onlyE 800) (1 / 20) false
    false

/-- The segment that `queueMove` admits for the opposite move: 10 mm of
filament fed forward at 50 mm/s. -/
def recoverMove : Path :=
  admittedSegment scenarioPlatform scenarioPlanner (onlyE (1 / 100)) (onlyE 800) (1 / 20) false
    false

/-- A retraction of 10 mm at 50 mm/s is queued and stepped by `run`. -/
def retractCycle (pp : PathPlanner) : PathPlanner :=
  run scenarioPlatform
    (queueMove scenarioPlatform pp (onlyE (-1 / 100)) (onlyE 800) (1 / 20) false false)

/-- The scenario planner after 32 retractions, each stepped before the next is
queued: the ring of 32 slots is empty again and `linesWritePos` is back at
slot 0, which still holds the first retraction. -/
def wrappedState : PathPlanner := Nat.iterate retractCycle 32 scenarioPlanner

/-- The planner after a move of 10 mm in X alone (800 steps) at 50 mm/s has
been queued into the ring that has wrapped around. -/
def reusedState : PathPlanner :=
  queueMove scenarioPlatform wrappedState (onlyX (1 / 100)) (onlyX 800) (1 / 20) false false

/-- The part (I3) of the invariant that the planner relies on: the start and
the end speed of a segment are not below its minimum speed. -/
def Path.MinOk (p : Path) : Prop := p.minSpeed ≤ p.startSpeed ∧ p.minSpeed ≤ p.endSpeed

/-- The junction speed that one round of `backwardPlanner` reaches from the
speed `v` at the end of `act` (line 551). -/
def backReach (pl : Platform) (act : Path) (v : ℚ) : ℚ :=
  if act.isNominalMove then act.fullSpeed else pl.sqrt (v * v + act.accelerationDistance2)

/-- The end speed that one round of `backwardPlanner` leaves in `previous`,
which is also the next `lastJunctionSpeed`, for a segment whose end speed is
not below its minimum speed. -/
def backValue (pl : Platform) (act prev : Path) (v : ℚ) : ℚ :=
  if backReach pl act v ≥ prev.maxJunctionSpeed then max prev.minSpeed prev.maxJunctionSpeed
  else max (backReach pl act v) prev.minSpeed

/-- The slot `previous` after one round of `backwardPlanner`. -/
def backPrev (pl : Platform) (act prev : Path) (v : ℚ) : Path :=
  if backReach pl act v ≥ prev.maxJunctionSpeed then
    if prev.endSpeed ≠ prev.maxJunctionSpeed then
      prev.invalidateParameter.setEndSpeed (max prev.minSpeed prev.maxJunctionSpeed)
    else prev
  else (prev.setEndSpeed (max (backReach pl act v) prev.minSpeed)).invalidateParameter

/-- The slot `act` after one round of `backwardPlanner`. -/
def backAct (pl : Platform) (act prev : Path) (v : ℚ) : Path :=
  if backReach pl act v ≥ prev.maxJunctionSpeed then
    if act.startSpeed ≠ prev.maxJunctionSpeed then
      (act.setStartSpeed (max act.minSpeed prev.maxJunctionSpeed)).invalidateParameter
    else act
  else (act.setStartSpeed (max act.minSpeed (backReach pl act v))).invalidateParameter

/-- The speed that one round of `forwardPlanner` can reach at the end of `act`
from the speed `v` at its start (line 594). -/
def fwdReach (pl : Platform) (act : Path) (v : ℚ) : ℚ :=
  if act.isNominalMove then act.fullSpeed else pl.sqrt (v * v + act.accelerationDistance2)

/-- The slot `act` after one round of `forwardPlanner` entered with a left
speed `v` that is not below the minimum speed of `act`. -/
def fwdAct (pl : Platform) (act : Path) (v : ℚ) : Path :=
  if fwdReach pl act v > act.endSpeed then
    if act.endSpeed = act.maxJunctionSpeed then
      ((act.setStartSpeed v).setEndSpeedFixed true).invalidateParameter
    else (act.setStartSpeed v).invalidateParameter
  else
    ((act.fixStartAndEndSpeed.invalidateParameter).setStartSpeed v).setEndSpeed
      (max act.minSpeed (fwdReach pl act v))

/-- The left speed that one round of `forwardPlanner` hands to the next. -/
def fwdLeft (pl : Platform) (act next : Path) (v : ℚ) : ℚ :=
  max (min (fwdAct pl act v).endSpeed act.maxJunctionSpeed) next.minSpeed

/-- The slot `next` after one round of `forwardPlanner`. -/
def fwdNext (pl : Platform) (act next : Path) (v : ℚ) : Path :=
  if fwdReach pl act v > act.endSpeed then
    if act.endSpeed = act.maxJunctionSpeed then
      (next.setStartSpeed (fwdLeft pl act next v)).setStartSpeedFixed true
    else next.setStartSpeed (fwdLeft pl act next v)
  else (next.setStartSpeed (fwdLeft pl act next v)).setStartSpeedFixed true

/-- The end speed of `prev` is the one that a round of `backwardPlanner`
entered at the end speed of `act` would store again. -/
def BackOk (pl : Platform) (act prev : Path) : Prop :=
  prev.endSpeed = backValue pl act prev act.endSpeed

/-- The start speed of `next` is the left speed that a round of
`forwardPlanner` on `act` hands on. -/
def FwdOk (act next : Path) : Prop :=
  next.startSpeed = max (min act.endSpeed act.maxJunctionSpeed) next.minSpeed

/-- From its start speed the segment could reach more than its end speed,
which is not its junction speed: a round of `forwardPlanner` leaves the end
speed and the flags alone. -/
def Path.HigherOk (pl : Platform) (p : Path) : Prop :=
  fwdReach pl p p.startSpeed > p.endSpeed ∧ p.endSpeed ≠ p.maxJunctionSpeed

/-- The steps parameters of the segment are those that
`updateStepsParameter` computes from its speeds. -/
def Path.ParamsOk (p : Path) : Prop :=
  p.invalidateParameter.updateStepsParameter.invalidateParameter = p.invalidateParameter

/-- The segment without its start speed, its `parametersUpToDate` bit and its
`blocked` bit. -/
def Path.noSB (p : Path) : Path := ((p.setStartSpeed 0).invalidateParameter).unblock

/-- The segment without its `parametersUpToDate` bit and its `blocked` bit. -/
def Path.noUB (p : Path) : Path := p.invalidateParameter.unblock

/-- What `backwardPlanner` leaves of the ring `l` when it walks from the
offset `t` down to the offset `f` (offsets counted from `P`). -/
structure BackwardOk (pl : Platform) (P f t : Nat) (l l2 : Nat → Path) : Prop where
  frame : SameFrame l2 l
  minOk : ∀ j, (l2 j).MinOk
  fixed : ∀ j, (l2 j).isEndSpeedFixed = (l j).isEndSpeedFixed
  stale : ∀ j, (l j).areParameterUpToDate = false → (l2 j).areParameterUpToDate = false
  back : ∀ k, f ≤ k → k < t →
    BackOk pl (l2 (ringIndex pl P (k + 1))) (l2 (ringIndex pl P k))
  endOff : ∀ j, (∀ k, f ≤ k → k < t → j ≠ ringIndex pl P k) → (l2 j).endSpeed = (l j).endSpeed
  startOff : ∀ j, (∀ k, f < k → k ≤ t → j ≠ ringIndex pl P k) →
    (l2 j).startSpeed = (l j).startSpeed
  stable : (∀ k, f ≤ k → k < t →
      BackOk pl (l (ringIndex pl P (k + 1))) (l (ringIndex pl P k))) →
    ∀ j, (l2 j).noSB = (l j).noSB

/-- What `forwardPlanner` leaves of the ring `l` when it walks from the offset
`o` up to the offset `c` with the left speed `v` (offsets counted from `P`). -/
structure ForwardOk (pl : Platform) (P o c : Nat) (v : ℚ) (l l2 : Nat → Path) : Prop where
  frame : SameFrame l2 l
  minOk : ∀ j, (l2 j).MinOk
  start : (l2 (ringIndex pl P o)).startSpeed = v
  fwd : ∀ k, o ≤ k → k < c → FwdOk (l2 (ringIndex pl P k)) (l2 (ringIndex pl P (k + 1)))
  stale : ∀ k, o ≤ k → k < c → (l2 (ringIndex pl P k)).areParameterUpToDate = false
  staleTop : (l (ringIndex pl P c)).areParameterUpToDate = false →
    (l2 (ringIndex pl P c)).areParameterUpToDate = false
  cases : ∀ k, o ≤ k → k < c →
    ((l2 (ringIndex pl P k)).isEndSpeedFixed = true ∧
        (l2 (ringIndex pl P (k + 1))).isStartSpeedFixed = true) ∨
      ((l2 (ringIndex pl P k)).isEndSpeedFixed = false ∧
        (l2 (ringIndex pl P k)).endSpeed = (l (ringIndex pl P k)).endSpeed ∧
        (l2 (ringIndex pl P k)).HigherOk pl)
  endTop : (l2 (ringIndex pl P c)).endSpeed = (l (ringIndex pl P c)).endSpeed ∧
    (l2 (ringIndex pl P c)).isEndSpeedFixed = (l (ringIndex pl P c)).isEndSpeedFixed
  fixedStart : (l (ringIndex pl P o)).isStartSpeedFixed = true →
    (l2 (ringIndex pl P o)).isStartSpeedFixed = true

/-- The two passes and the closing loop of `updateTrapezoids` (lines 488 to
504) on the ring `l`, from the slot `first` to the slot `w`. -/
def planPasses (pl : Platform) (w first : Nat) (l : Nat → Path) : Nat → Path :=
  let lines3 := backwardPlanner pl l w first
  let lines4 := forwardPlanner pl lines3 w first
  let r := flyingBlockLoop pl w (pl.MOVE_CACHE_SIZE - 1) lines4 first
  modifyLine (modifyLine r.1 w Path.updateStepsParameter) w Path.unblock

/-- What the two passes and the closing loop leave of the ring `l` between
the offsets `f` and `c` (counted from `P`). -/
structure Settled (pl : Platform) (P f c : Nat) (l l2 : Nat → Path) : Prop where
  off : ∀ j, (∀ k, f ≤ k → k ≤ c → j ≠ ringIndex pl P k) → l2 j = l j
  frame : SameFrame l2 l
  minOk : ∀ j, (l2 j).MinOk
  free : ∀ k, f ≤ k → k ≤ c → (l2 (ringIndex pl P k)).isBlocked = false
  params : ∀ k, f ≤ k → k ≤ c → (l2 (ringIndex pl P k)).ParamsOk
  done : ∀ k, f ≤ k → k ≤ c → (l2 (ringIndex pl P k)).areParameterUpToDate = true ∨
    (l2 (ringIndex pl P k)).isWarmUp = true
  top : (l2 (ringIndex pl P c)).isEndSpeedFixed = (l (ringIndex pl P c)).isEndSpeedFixed
  endTop : (l2 (ringIndex pl P c)).endSpeed = (l (ringIndex pl P c)).endSpeed
  fwd : ∀ k, f ≤ k → k < c → FwdOk (l2 (ringIndex pl P k)) (l2 (ringIndex pl P (k + 1)))
  cases : ∀ k, f ≤ k → k < c →
    ((l2 (ringIndex pl P k)).isEndSpeedFixed = true ∧
        (l2 (ringIndex pl P (k + 1))).isStartSpeedFixed = true) ∨
      ((l2 (ringIndex pl P k)).isEndSpeedFixed = false ∧ (l2 (ringIndex pl P k)).HigherOk pl)
  back : ∀ k, f ≤ k → k < c → (l2 (ringIndex pl P k)).isEndSpeedFixed = false →
    (k + 1 = c ∨ (l2 (ringIndex pl P (k + 1))).isEndSpeedFixed = false) →
    BackOk pl (l2 (ringIndex pl P (k + 1))) (l2 (ringIndex pl P k))

/-- The filter of `updateTrapezoids` between a Z move and a move that is not
one (line 469). -/
def zFilter (previous act : Path) : Prop :=
  (previous.primaryAxis = Z_AXIS ∧ act.primaryAxis ≠ Z_AXIS) ∨
    (previous.primaryAxis ≠ Z_AXIS ∧ act.primaryAxis = Z_AXIS)

/-- The ring after `updateTrapezoids` has fixed the junction between
`previous` and `act` without planning (lines 471 to 474 and 482 to 485). -/
def fixJunction (l : Nat → Path) (previousIndex w first : Nat) : Nat → Path :=
  modifyLine (modifyLine (modifyLine (modifyLine l previousIndex
    (fun q => q.setEndSpeedFixed true)) w (fun q => q.setStartSpeedFixed true)) w
    Path.updateStepsParameter) first Path.unblock

/-- The planner after a retraction of 10 mm at 50 mm/s has been queued behind
the move of the cruise scenario. -/
def retractedState : PathPlanner :=
  queueMove scenarioPlatform cruiseState (onlyE (-1 / 100)) (onlyE 800) (1 / 20) false false

/-- The planner after the opposite move, 10 mm of filament fed forward at
50 mm/s, has been queued behind the retraction. -/
def recoveredState : PathPlanner :=
  queueMove scenarioPlatform retractedState (onlyE (1 / 100)) (onlyE 800) (1 / 20) false false

/-! ## Frame lemmas: what the planner leaves alone -/

section Frame

variable (pl : Platform)

@[simp] theorem modifyLine_same (lines : Nat → Path) (i : Nat) (f : Path → Path) :
    modifyLine lines i f i = f (lines i) := by
  simp [modifyLine]

theorem modifyLine_ne (lines : Nat → Path) (i j : Nat) (f : Path → Path) (h : j ≠ i) :
    modifyLine lines i f j = lines j := by
  simp [modifyLine, Function.update, h]

theorem sameFrame_refl (l : Nat → Path) : SameFrame l l := fun _ => rfl

theorem sameFrame_trans {l1 l2 l3 : Nat → Path} (h1 : SameFrame l1 l2) (h2 : SameFrame l2 l3) :
    SameFrame l1 l3 := fun j => (h1 j).trans (h2 j)

theorem sameFrame_modifyLine (lines : Nat → Path) (i : Nat) (f : Path → Path)
    (hf : ∀ p, (f p).frame = p.frame) : SameFrame (modifyLine lines i f) lines := by
  intro j
  unfold modifyLine
  by_cases h : j = i
  · subst h; simp [hf]
  · simp [Function.update, h]

theorem sameFrame_modifyLine_trans (lines l0 : Nat → Path) (i : Nat) (f : Path → Path)
    (hf : ∀ p, (f p).frame = p.frame) (h : SameFrame lines l0) :
    SameFrame (modifyLine lines i f) l0 :=
  sameFrame_trans (sameFrame_modifyLine lines i f hf) h

theorem frame_updateStepsParameter (p : Path) : p.updateStepsParameter.frame = p.frame := by
  unfold Path.updateStepsParameter
  split_ifs
  · rfl
  · rfl

theorem sameFrame_backwardStep (lines : Nat → Path) (start : Nat) (v : ℚ) :
    SameFrame (backwardStep pl lines start v).1 lines := by
  unfold backwardStep
  dsimp only
  split_ifs <;> (try dsimp only) <;>
    repeat (first
      | exact sameFrame_refl _
      | refine sameFrame_modifyLine_trans _ _ _ _ (fun _ => rfl) ?_)

theorem sameFrame_forwardStep (lines : Nat → Path) (first : Nat) (v : ℚ) :
    SameFrame (forwardStep pl lines first v).1 lines := by
  unfold forwardStep
  dsimp only
  split_ifs <;> (try dsimp only) <;>
    repeat (first
      | exact sameFrame_refl _
      | refine sameFrame_modifyLine_trans _ _ _ _ (fun _ => rfl) ?_)

theorem sameFrame_backwardLoop (last : Nat) (fuel : Nat) :
    ∀ (lines : Nat → Path) (start : Nat) (v : ℚ),
      SameFrame (backwardLoop pl last fuel lines start v) lines := by
  induction fuel with
  | zero => intro lines start v; exact sameFrame_refl _
  | succ n ih =>
    intro lines start v
    simp only [backwardLoop]
    split_ifs
    · exact sameFrame_trans (ih _ _ _) (sameFrame_backwardStep pl lines start v)
    · exact sameFrame_refl _

theorem sameFrame_forwardLoop (w : Nat) (fuel : Nat) :
    ∀ (lines : Nat → Path) (first : Nat) (v : ℚ),
      SameFrame (forwardLoop pl w fuel lines first v) lines := by
  induction fuel with
  | zero =>
    intro lines first v
    exact sameFrame_modifyLine _ _ _ (fun _ => rfl)
  | succ n ih =>
    intro lines first v
    simp only [forwardLoop]
    split_ifs
    · exact sameFrame_trans (ih _ _ _) (sameFrame_forwardStep pl lines first v)
    · exact sameFrame_modifyLine _ _ _ (fun _ => rfl)

theorem sameFrame_flyingBlockLoop (w : Nat) (fuel : Nat) :
    ∀ (lines : Nat → Path) (first : Nat),
      SameFrame (flyingBlockLoop pl w fuel lines first).1 lines := by
  induction fuel with
  | zero =>
    intro lines first
    unfold flyingBlockLoop
    dsimp only
    refine sameFrame_modifyLine_trans _ _ _ _ (fun _ => rfl) ?_
    refine sameFrame_modifyLine_trans _ _ _ _ (fun _ => rfl) ?_
    exact sameFrame_modifyLine _ _ _ frame_updateStepsParameter
  | succ n ih =>
    intro lines first
    unfold flyingBlockLoop
    dsimp only
    have h : SameFrame (modifyLine (modifyLine (modifyLine lines first Path.updateStepsParameter)
        first Path.unblock) (nextPlannerIndex pl first) Path.block) lines := by
      refine sameFrame_modifyLine_trans _ _ _ _ (fun _ => rfl) ?_
      refine sameFrame_modifyLine_trans _ _ _ _ (fun _ => rfl) ?_
      exact sameFrame_modifyLine _ _ _ frame_updateStepsParameter
    split_ifs
    · exact sameFrame_trans (ih _ _) h
    · exact h

theorem sameKin_refl (l : Nat → Path) : SameKin l l := fun _ => rfl

theorem sameKin_trans {l1 l2 l3 : Nat → Path} (h1 : SameKin l1 l2) (h2 : SameKin l2 l3) :
    SameKin l1 l3 := fun j => (h1 j).trans (h2 j)

theorem sameKin_of_sameFrame {l1 l2 : Nat → Path} (h : SameFrame l1 l2) : SameKin l1 l2 :=
  fun j => congrArg (fun q => Path.setMaxJunctionSpeed q 0) (h j)

theorem sameKin_modifyLine_trans (lines l0 : Nat → Path) (i : Nat) (f : Path → Path)
    (hf : ∀ p, (f p).kin = p.kin) (h : SameKin lines l0) :
    SameKin (modifyLine lines i f) l0 := by
  intro j
  rw [← h j]
  unfold modifyLine
  by_cases hj : j = i
  · subst hj; simp [hf]
  · simp [Function.update, hj]

theorem kin_updateStepsParameter (p : Path) : p.updateStepsParameter.kin = p.kin :=
  congrArg (fun q => Path.setMaxJunctionSpeed q 0) (frame_updateStepsParameter p)

theorem sameKin_updateTrapezoids (pp : PathPlanner) :
    SameKin (updateTrapezoids pl pp).lines pp.lines := by
  unfold updateTrapezoids
  dsimp only
  split_ifs <;> (try dsimp only) <;>
    repeat (first
      | exact sameKin_refl _
      | refine sameKin_modifyLine_trans _ _ _ _ (fun _ => rfl) ?_
      | refine sameKin_modifyLine_trans _ _ _ _ kin_updateStepsParameter ?_
      | refine sameKin_modifyLine_trans _ _ _ _
          (fun q => (kin_updateStepsParameter _).trans rfl) ?_
      | refine sameKin_trans (sameKin_of_sameFrame (sameFrame_flyingBlockLoop pl _ _ _ _)) ?_
      | refine sameKin_trans (sameKin_of_sameFrame (sameFrame_forwardLoop pl _ _ _ _ _)) ?_
      | refine sameKin_trans (sameKin_of_sameFrame (sameFrame_backwardLoop pl _ _ _ _ _)) ?_)

theorem updateTrapezoids_indices (pp : PathPlanner) :
    (updateTrapezoids pl pp).linesPos = pp.linesPos ∧
    (updateTrapezoids pl pp).linesWritePos = pp.linesWritePos ∧
    (updateTrapezoids pl pp).linesCount = pp.linesCount ∧
    (updateTrapezoids pl pp).stop = pp.stop := by
  unfold updateTrapezoids
  dsimp only
  split_ifs <;> exact ⟨rfl, rfl, rfl, rfl⟩

end Frame

/-! ## Admission lemmas -/

section Admission

variable (pl : Platform)

theorem toUnsigned_eq_floor (q : ℚ) : toUnsigned q = ⌊q⌋₊ := by
  unfold toUnsigned
  rw [← Int.floor_toNat, Rat.floor_def]
  rcases le_or_lt 0 q.num with h | h
  · obtain ⟨n, hn⟩ := Int.eq_ofNat_of_zero_le h
    rw [hn]
    simp only [Int.toNat_ofNat]
    rw [← Int.ofNat_ediv, Int.toNat_ofNat]
  · have h1 : q.num.toNat = 0 := Int.toNat_eq_zero.mpr (le_of_lt h)
    have h2 : q.num / (q.den : Int) < 0 :=
      Int.ediv_neg' h (by exact_mod_cast q.den_pos)
    rw [h1, Nat.zero_div, Int.toNat_eq_zero.mpr (le_of_lt h2)]

theorem queueMoveAxis_delta (ad ns : Axis → ℚ) (p : Path) (a : Axis) :
    (queueMoveAxis ad ns p a).delta = Function.update p.delta a (toUnsigned (ns a)) := by
  unfold queueMoveAxis
  dsimp only
  split_ifs <;> rfl

theorem queueMoveAxis_testBit (ad ns : Axis → ℚ) (p : Path) (a : Axis) (k : Nat) :
    (queueMoveAxis ad ns p a).dir.testBit k =
      (p.dir.testBit k || (decide (k = a.val + 4) && decide (ad a ≥ 0)) ||
        (decide (k = a.val) && decide (toUnsigned (ns a) ≠ 0))) := by
  unfold queueMoveAxis
  by_cases h1 : ad a ≥ 0 <;> by_cases h2 : toUnsigned (ns a) = 0 <;>
    simp [h1, h2, Path.setMoveOfAxis, Path.setPositiveDirectionForAxis, Nat.testBit_or,
      Nat.one_shiftLeft, Nat.testBit_two_pow, eq_comm]

theorem queueMoveInit_delta (p : Path) (ad ns : Axis → ℚ) (speed : ℚ) (c o : Bool) (i : Axis) :
    (queueMoveInit pl p ad ns speed c o).delta i = toUnsigned (ns i) := by
  unfold queueMoveInit
  simp only [List.foldl, queueMoveAxis_delta]
  fin_cases i <;> simp [Function.update, X_AXIS, Y_AXIS, Z_AXIS, E_AXIS]

theorem queueMoveInit_isMoveOfAxis (p : Path) (ad ns : Axis → ℚ) (speed : ℚ) (c o : Bool)
    (i : Axis) :
    (queueMoveInit pl p ad ns speed c o).isMoveOfAxis i = decide (toUnsigned (ns i) ≠ 0) := by
  unfold queueMoveInit Path.isMoveOfAxis
  simp only [List.foldl, queueMoveAxis_testBit]
  have h3 : ((3 : Fin 4) : Nat) = 3 := rfl
  fin_cases i <;> simp [Path.setCancelable, Path.setWaitMS, X_AXIS, Y_AXIS, Z_AXIS, E_AXIS, h3]

theorem queueMoveInit_isPositiveDirection (p : Path) (ad ns : Axis → ℚ) (speed : ℚ) (c o : Bool)
    (i : Axis) :
    (queueMoveInit pl p ad ns speed c o).isPositiveDirection i = decide (ad i ≥ 0) := by
  unfold queueMoveInit Path.isPositiveDirection
  simp only [List.foldl, queueMoveAxis_testBit]
  have h3 : ((3 : Fin 4) : Nat) = 3 := rfl
  fin_cases i <;> simp [Path.setCancelable, Path.setWaitMS, X_AXIS, Y_AXIS, Z_AXIS, E_AXIS, h3]

theorem admits_iff (pp : PathPlanner) (ad ns : Axis → ℚ) (speed : ℚ) (c o : Bool) :
    Admits pl pp ad ns speed c o ↔ pp.stop = false ∧ ∃ i : Axis, toUnsigned (ns i) ≠ 0 := by
  unfold Admits Path.isNoMove Path.isXMove Path.isYMove Path.isZMove Path.isEMove
  simp only [queueMoveInit_isMoveOfAxis]
  constructor
  · rintro ⟨h1, h2⟩
    refine ⟨h1, ?_⟩
    by_contra hne
    push_neg at hne
    simp [hne] at h2
  · rintro ⟨h1, i, hi⟩
    refine ⟨h1, ?_⟩
    fin_cases i <;> simp_all

theorem queueMove_line_kin (pp : PathPlanner) (ad ns : Axis → ℚ) (speed : ℚ) (c o : Bool)
    (h : Admits pl pp ad ns speed c o) :
    ((queueMove pl pp ad ns speed c o).lines pp.linesWritePos).kin =
      (admittedSegment pl pp ad ns speed c o).kin := by
  obtain ⟨h1, h2⟩ := h
  unfold queueMove
  simp only [h1, Bool.false_eq_true, if_false, modifyLine_same, h2]
  unfold calculateMove
  dsimp only
  rw [sameKin_updateTrapezoids pl _ pp.linesWritePos]
  dsimp only
  rw [modifyLine_same, modifyLine_same, modifyLine_same]
  rfl

theorem markNominal_eq (p : Path) :
    markNominal p = { p with flags := { p.flags with nominal := (p.flags.nominal ||
      decide (p.startSpeed * p.startSpeed + p.accelerationDistance2 ≥ p.fullSpeed * p.fullSpeed)) } } := by
  unfold markNominal
  split_ifs with h
  · simp [h, Path.setNominalMove]
  · simp [h]

theorem calculateMoveSegment_geometry (pp : Config) (p : Path) (diff : Axis → ℚ) :
    (calculateMoveSegment pl pp p diff).delta = p.delta ∧
    (calculateMoveSegment pl pp p diff).primaryAxis = p.primaryAxis ∧
    (calculateMoveSegment pl pp p diff).stepsRemaining = p.stepsRemaining ∧
    (calculateMoveSegment pl pp p diff).dir = p.dir ∧
    (calculateMoveSegment pl pp p diff).distance = p.distance := by
  unfold calculateMoveSegment
  simp [markNominal_eq]

theorem calculateMoveSegment_speeds (pp : Config) (p : Path) (diff : Axis → ℚ) :
    (calculateMoveSegment pl pp p diff).fullInterval = limitInterval pl pp p diff ∧
    (calculateMoveSegment pl pp p diff).speedX =
      (if p.isXMove then axisSpeed p.isXNegativeMove (diff X_AXIS)
        ((pl.F_CPU : ℚ) / ((limitInterval pl pp p diff : ℚ) * (p.stepsRemaining : ℚ))) else 0) ∧
    (calculateMoveSegment pl pp p diff).speedY =
      (if p.isYMove then axisSpeed p.isYNegativeMove (diff Y_AXIS)
        ((pl.F_CPU : ℚ) / ((limitInterval pl pp p diff : ℚ) * (p.stepsRemaining : ℚ))) else 0) ∧
    (calculateMoveSegment pl pp p diff).speedZ =
      (if p.isZMove then axisSpeed p.isZNegativeMove (diff Z_AXIS)
        ((pl.F_CPU : ℚ) / ((limitInterval pl pp p diff : ℚ) * (p.stepsRemaining : ℚ))) else 0) ∧
    (calculateMoveSegment pl pp p diff).speedE =
      (if p.isEMove then axisSpeed p.isENegativeMove (diff E_AXIS)
        ((pl.F_CPU : ℚ) / ((limitInterval pl pp p diff : ℚ) * (p.stepsRemaining : ℚ)))
       else p.speedE) ∧
    (calculateMoveSegment pl pp p diff).fullSpeed =
      p.distance * ((pl.F_CPU : ℚ) / ((limitInterval pl pp p diff : ℚ) * (p.stepsRemaining : ℚ))) := by
  unfold calculateMoveSegment
  simp only [markNominal_eq, and_self]

theorem axisSpeed_abs (negativeMove : Bool) (d inv : ℚ)
    (hneg : negativeMove = decide (d < 0)) : axisSpeed negativeMove d inv = |d| * inv := by
  unfold axisSpeed
  rcases lt_or_le d 0 with h | h
  · simp [hneg, h, abs_of_neg h]
  · simp [hneg, not_lt.mpr h, abs_of_nonneg h]

theorem admittedSegment_primaryAxis (pp : PathPlanner) (ad ns : Axis → ℚ) (speed : ℚ)
    (c o : Bool) :
    (admittedSegment pl pp ad ns speed c o).primaryAxis =
      selectPrimaryAxis (admittedSegment pl pp ad ns speed c o).delta ∧
    (admittedSegment pl pp ad ns speed c o).stepsRemaining =
      (admittedSegment pl pp ad ns speed c o).delta
        (admittedSegment pl pp ad ns speed c o).primaryAxis := by
  unfold admittedSegment
  obtain ⟨h1, h2, h3, -, -⟩ := calculateMoveSegment_geometry pl pp.config
    (preparedSegment pl pp ad ns speed c o) (fun i => ad i * 1000)
  rw [h1, h2, h3]
  exact ⟨rfl, rfl⟩

theorem queueMovePrepare_geometry (p : Path) (diff : Axis → ℚ) :
    (queueMovePrepare pl p diff).delta = p.delta ∧ (queueMovePrepare pl p diff).dir = p.dir ∧
    (queueMovePrepare pl p diff).error = p.error ∧
    (queueMovePrepare pl p diff).speedE = p.speedE ∧
    (queueMovePrepare pl p diff).speed = p.speed :=
  ⟨rfl, rfl, rfl, rfl, rfl⟩

theorem admittedSegment_delta (pp : PathPlanner) (ad ns : Axis → ℚ) (speed : ℚ)
    (c o : Bool) (i : Axis) :
    (admittedSegment pl pp ad ns speed c o).delta i = toUnsigned (ns i) := by
  unfold admittedSegment
  obtain ⟨h1, -⟩ := calculateMoveSegment_geometry pl pp.config
    (preparedSegment pl pp ad ns speed c o) (fun i => ad i * 1000)
  rw [h1]
  unfold preparedSegment
  rw [(queueMovePrepare_geometry pl _ _).1]
  exact queueMoveInit_delta pl _ _ _ _ _ _ i

theorem queueMovePrepare_isMoveOfAxis (p : Path) (diff : Axis → ℚ) (i : Axis) :
    (queueMovePrepare pl p diff).isMoveOfAxis i = p.isMoveOfAxis i ∧
    (queueMovePrepare pl p diff).isPositiveDirection i = p.isPositiveDirection i :=
  ⟨rfl, rfl⟩

theorem preparedSegment_moves (pp : PathPlanner) (ad ns : Axis → ℚ) (speed : ℚ) (c o : Bool)
    (i : Axis) :
    (preparedSegment pl pp ad ns speed c o).isMoveOfAxis i = decide (toUnsigned (ns i) ≠ 0) ∧
    (preparedSegment pl pp ad ns speed c o).isPositiveDirection i = decide (ad i * 1000 ≥ 0) ∧
    (preparedSegment pl pp ad ns speed c o).delta i = toUnsigned (ns i) := by
  unfold preparedSegment
  rw [(queueMovePrepare_isMoveOfAxis pl _ _ i).1, (queueMovePrepare_isMoveOfAxis pl _ _ i).2,
    (queueMovePrepare_geometry pl _ _).1]
  exact ⟨queueMoveInit_isMoveOfAxis pl _ _ _ _ _ _ i,
    queueMoveInit_isPositiveDirection pl _ _ _ _ _ _ i, queueMoveInit_delta pl _ _ _ _ _ _ i⟩

theorem queueMoveAxis_eq (ad ns : Axis → ℚ) (p : Path) (a : Axis) :
    queueMoveAxis ad ns p a =
      { p with
        delta := (queueMoveAxis ad ns p a).delta
        dir := (queueMoveAxis ad ns p a).dir } := by
  unfold queueMoveAxis
  by_cases h1 : ad a ≥ 0 <;> by_cases h2 : toUnsigned (ns a) = 0 <;>
    simp [h1, h2, Path.setMoveOfAxis, Path.setPositiveDirectionForAxis]

theorem queueMoveInit_eq (p : Path) (ad ns : Axis → ℚ) (speed : ℚ) (c o : Bool) :
    queueMoveInit pl p ad ns speed c o =
      { p with
        speed := speed * 1000
        joinFlags := {}
        flags := { cancelable := c, waitMS := if o then pl.PRINT_MOVE_BUFFER_WAIT else 0 }
        delta := (queueMoveInit pl p ad ns speed c o).delta
        dir := (queueMoveInit pl p ad ns speed c o).dir } := by
  unfold queueMoveInit
  simp only [List.foldl]
  rw [queueMoveAxis_eq ad ns _ E_AXIS, queueMoveAxis_eq ad ns _ Z_AXIS,
    queueMoveAxis_eq ad ns _ Y_AXIS, queueMoveAxis_eq ad ns _ X_AXIS]
  rfl

theorem preparedSegment_fields (pp : PathPlanner) (ad ns : Axis → ℚ) (speed : ℚ) (c o : Bool) :
    (preparedSegment pl pp ad ns speed c o).primaryAxis =
      selectPrimaryAxis (fun i => toUnsigned (ns i)) ∧
    (preparedSegment pl pp ad ns speed c o).stepsRemaining =
      toUnsigned (ns (selectPrimaryAxis (fun i => toUnsigned (ns i)))) ∧
    (preparedSegment pl pp ad ns speed c o).speed = speed * 1000 ∧
    (preparedSegment pl pp ad ns speed c o).error = (pp.lines pp.linesWritePos).error ∧
    (preparedSegment pl pp ad ns speed c o).speedE = (pp.lines pp.linesWritePos).speedE := by
  have hd : (queueMoveInit pl (pp.lines pp.linesWritePos) (fun i => ad i * 1000) ns speed
      c o).delta = fun i => toUnsigned (ns i) :=
    funext (fun i => queueMoveInit_delta pl _ _ _ _ _ _ i)
  unfold preparedSegment queueMovePrepare
  simp only [hd, true_and]
  rw [queueMoveInit_eq]
  exact ⟨rfl, rfl, rfl⟩

theorem preparedSegment_distance (pp : PathPlanner) (ad ns : Axis → ℚ) (speed : ℚ) (c o : Bool) :
    (preparedSegment pl pp ad ns speed c o).distance =
      moveDistance pl (preparedSegment pl pp ad ns speed c o) (fun i => ad i * 1000) :=
  rfl

theorem toUnsigned_zero : toUnsigned 0 = 0 := by
  simp [toUnsigned]

@[simp] theorem onlyX_X (v : ℚ) : onlyX v X_AXIS = v := if_pos rfl
@[simp] theorem onlyX_Y (v : ℚ) : onlyX v Y_AXIS = 0 := if_neg (by decide)
@[simp] theorem onlyX_Z (v : ℚ) : onlyX v Z_AXIS = 0 := if_neg (by decide)
@[simp] theorem onlyX_E (v : ℚ) : onlyX v E_AXIS = 0 := if_neg (by decide)

theorem preparedSegment_onlyX (pp : PathPlanner) (dx n speed : ℚ) (c o : Bool)
    (hn : toUnsigned n ≠ 0) :
    (preparedSegment pl pp (onlyX dx) (onlyX n) speed c o).isXMove = true ∧
    (preparedSegment pl pp (onlyX dx) (onlyX n) speed c o).isYMove = false ∧
    (preparedSegment pl pp (onlyX dx) (onlyX n) speed c o).isZMove = false ∧
    (preparedSegment pl pp (onlyX dx) (onlyX n) speed c o).isEMove = false ∧
    (preparedSegment pl pp (onlyX dx) (onlyX n) speed c o).isPositiveDirection X_AXIS =
      decide (dx * 1000 ≥ 0) ∧
    (preparedSegment pl pp (onlyX dx) (onlyX n) speed c o).primaryAxis = X_AXIS ∧
    (preparedSegment pl pp (onlyX dx) (onlyX n) speed c o).stepsRemaining = toUnsigned n ∧
    (preparedSegment pl pp (onlyX dx) (onlyX n) speed c o).speed = speed * 1000 ∧
    (preparedSegment pl pp (onlyX dx) (onlyX n) speed c o).distance =
      max (pl.sqrt (dx * 1000 * (dx * 1000))) 0 := by
  have hpos : 0 < toUnsigned n := Nat.pos_of_ne_zero hn
  have hsel : selectPrimaryAxis (fun i => toUnsigned (onlyX n i)) = X_AXIS := by
    simp [selectPrimaryAxis, toUnsigned_zero, hpos]
  have hm := fun i => (preparedSegment_moves pl pp (onlyX dx) (onlyX n) speed c o i)
  have hX : (preparedSegment pl pp (onlyX dx) (onlyX n) speed c o).isXMove = true := by
    unfold Path.isXMove; rw [(hm X_AXIS).1]; simp [hn]
  have hY : (preparedSegment pl pp (onlyX dx) (onlyX n) speed c o).isYMove = false := by
    unfold Path.isYMove; rw [(hm Y_AXIS).1]; simp [toUnsigned_zero]
  have hZ : (preparedSegment pl pp (onlyX dx) (onlyX n) speed c o).isZMove = false := by
    unfold Path.isZMove; rw [(hm Z_AXIS).1]; simp [toUnsigned_zero]
  have hE : (preparedSegment pl pp (onlyX dx) (onlyX n) speed c o).isEMove = false := by
    unfold Path.isEMove; rw [(hm E_AXIS).1]; simp [toUnsigned_zero]
  obtain ⟨h1, h2, h3, -, -⟩ := preparedSegment_fields pl pp (onlyX dx) (onlyX n) speed c o
  refine ⟨hX, hY, hZ, hE, ?_, ?_, ?_, h3, ?_⟩
  · rw [(hm X_AXIS).2.1]; simp
  · rw [h1, hsel]
  · rw [h2, hsel]; simp
  · rw [preparedSegment_distance]
    unfold moveDistance Path.isXYZMove
    simp [hX, hY, hZ]

theorem admittedSegment_onlyX (pp : PathPlanner) (dx n speed : ℚ) (c o : Bool)
    (hn : toUnsigned n ≠ 0) :
    (admittedSegment pl pp (onlyX dx) (onlyX n) speed c o).fullInterval =
      max (toUnsigned (|dx * 1000| * (pl.F_CPU : ℚ) /
          (pp.config.maxFeedrate X_AXIS * (toUnsigned n : ℚ))))
        (toUnsigned ((pl.F_CPU : ℚ) * max (pl.sqrt (dx * 1000 * (dx * 1000))) 0 /
          max pp.config.minimumSpeed (speed * 1000) / (toUnsigned n : ℚ))) ∧
    (admittedSegment pl pp (onlyX dx) (onlyX n) speed c o).stepsRemaining = toUnsigned n ∧
    (admittedSegment pl pp (onlyX dx) (onlyX n) speed c o).speedX =
      |dx * 1000| * ((pl.F_CPU : ℚ) /
        (((admittedSegment pl pp (onlyX dx) (onlyX n) speed c o).fullInterval : ℚ) *
          (toUnsigned n : ℚ))) := by
  obtain ⟨hX, hY, hZ, hE, hpos, -, hs, hv, hd⟩ := preparedSegment_onlyX pl pp dx n speed c o hn
  obtain ⟨h1, h2, -⟩ := calculateMoveSegment_speeds pl pp.config
    (preparedSegment pl pp (onlyX dx) (onlyX n) speed c o) (fun i => onlyX dx i * 1000)
  obtain ⟨-, -, h3, -, -⟩ := calculateMoveSegment_geometry pl pp.config
    (preparedSegment pl pp (onlyX dx) (onlyX n) speed c o) (fun i => onlyX dx i * 1000)
  have hL : limitInterval pl pp.config (preparedSegment pl pp (onlyX dx) (onlyX n) speed c o)
      (fun i => onlyX dx i * 1000) =
      max (toUnsigned (|dx * 1000| * (pl.F_CPU : ℚ) /
          (pp.config.maxFeedrate X_AXIS * (toUnsigned n : ℚ))))
        (toUnsigned ((pl.F_CPU : ℚ) * max (pl.sqrt (dx * 1000 * (dx * 1000))) 0 /
          max pp.config.minimumSpeed (speed * 1000) / (toUnsigned n : ℚ))) := by
    unfold limitInterval feedrateInterval Path.isXOrYMove
    simp only [hX, hY, hZ, hE, hs, hv, hd, onlyX_X, Bool.true_or, if_true, Bool.false_eq_true,
      if_false]
  unfold admittedSegment
  refine ⟨h1.trans hL, h3.trans hs, ?_⟩
  rw [h2, h1, hX, if_pos rfl, hs]
  rw [axisSpeed_abs]
  · simp
  · unfold Path.isXNegativeMove
    rw [hX, hpos]
    simp only [onlyX_X, Bool.true_and, ge_iff_le]
    by_cases h : 0 ≤ dx * 1000
    · simp only [h, not_lt.mpr h, decide_True, decide_False, Bool.not_true]
    · simp only [h, not_le.mp h, decide_True, decide_False, Bool.not_false]

theorem toUnsigned_eq_of (q : ℚ) (n : Nat) (h1 : (n : ℚ) ≤ q) (h2 : q < (n : ℚ) + 1) :
    toUnsigned q = n := by
  rw [toUnsigned_eq_floor]
  exact (Nat.floor_eq_iff (le_trans (Nat.cast_nonneg n) h1)).mpr ⟨h1, h2⟩

theorem toUnsigned_natCast (n : Nat) : toUnsigned (n : ℚ) = n := by
  rw [toUnsigned_eq_floor]
  exact Nat.floor_natCast n

theorem kin_speeds {a b : Path} (h : a.kin = b.kin) :
    a.speedX = b.speedX ∧ a.speedY = b.speedY ∧ a.speedZ = b.speedZ ∧ a.speedE = b.speedE ∧
      a.fullSpeed = b.fullSpeed ∧ a.fullInterval = b.fullInterval ∧ a.minSpeed = b.minSpeed ∧
      a.accelerationDistance2 = b.accelerationDistance2 ∧ a.flags = b.flags ∧
      a.error = b.error := by
  have h1 : a.kin.speedX = b.kin.speedX := by rw [h]
  have h2 : a.kin.speedY = b.kin.speedY := by rw [h]
  have h3 : a.kin.speedZ = b.kin.speedZ := by rw [h]
  have h4 : a.kin.speedE = b.kin.speedE := by rw [h]
  have h5 : a.kin.fullSpeed = b.kin.fullSpeed := by rw [h]
  have h6 : a.kin.fullInterval = b.kin.fullInterval := by rw [h]
  have h7 : a.kin.minSpeed = b.kin.minSpeed := by rw [h]
  have h8 : a.kin.accelerationDistance2 = b.kin.accelerationDistance2 := by rw [h]
  have h9 : a.kin.flags = b.kin.flags := by rw [h]
  have h10 : a.kin.error = b.kin.error := by rw [h]
  simp only [Path.kin, Path.frame, Path.setMaxJunctionSpeed] at h1 h2 h3 h4 h5 h6 h7 h8 h9 h10
  exact ⟨h1, h2, h3, h4, h5, h6, h7, h8, h9, h10⟩

theorem kin_geometry {a b : Path} (h : a.kin = b.kin) :
    a.delta = b.delta ∧ a.primaryAxis = b.primaryAxis ∧ a.stepsRemaining = b.stepsRemaining ∧
      a.dir = b.dir := by
  have h1 : a.kin.delta = b.kin.delta := by rw [h]
  have h2 : a.kin.primaryAxis = b.kin.primaryAxis := by rw [h]
  have h3 : a.kin.stepsRemaining = b.kin.stepsRemaining := by rw [h]
  have h4 : a.kin.dir = b.kin.dir := by rw [h]
  simp only [Path.kin, Path.frame, Path.setMaxJunctionSpeed] at h1 h2 h3 h4
  exact ⟨h1, h2, h3, h4⟩

theorem selectPrimaryAxis_max (delta : Axis → Nat) (i : Axis) :
    delta i ≤ delta (selectPrimaryAxis delta) := by
  have h : delta X_AXIS ≤ delta (selectPrimaryAxis delta) ∧
      delta Y_AXIS ≤ delta (selectPrimaryAxis delta) ∧
      delta Z_AXIS ≤ delta (selectPrimaryAxis delta) ∧
      delta E_AXIS ≤ delta (selectPrimaryAxis delta) := by
    unfold selectPrimaryAxis
    split_ifs <;> omega
  obtain ⟨h0, h1, h2, h3⟩ := h
  fin_cases i
  · exact h0
  · exact h1
  · exact h2
  · exact h3

/-- C5: for every segment that `queueMove` admits, `stepsRemaining` equals
`delta[primaryAxis]`, and `delta[primaryAxis]` is at least `delta[i]` for every
axis `i` among X, Y, Z, E. -/
theorem queueMove_primary_dominates (pp : PathPlanner) (ad ns : Axis → ℚ) (speed : ℚ)
    (c o : Bool) (h : Admits pl pp ad ns speed c o) :
    ((queueMove pl pp ad ns speed c o).lines pp.linesWritePos).stepsRemaining =
      ((queueMove pl pp ad ns speed c o).lines pp.linesWritePos).delta
        ((queueMove pl pp ad ns speed c o).lines pp.linesWritePos).primaryAxis ∧
    ∀ i : Axis,
      ((queueMove pl pp ad ns speed c o).lines pp.linesWritePos).delta i ≤
        ((queueMove pl pp ad ns speed c o).lines pp.linesWritePos).delta
          ((queueMove pl pp ad ns speed c o).lines pp.linesWritePos).primaryAxis := by
  obtain ⟨hd, hp, hs, -⟩ := kin_geometry (queueMove_line_kin pl pp ad ns speed c o h)
  obtain ⟨h1, h2⟩ := admittedSegment_primaryAxis pl pp ad ns speed c o
  rw [hd, hp, hs]
  refine ⟨h2, fun i => ?_⟩
  rw [h1]
  exact selectPrimaryAxis_max _ i

theorem queueMove_primary_dominates_witness :
    Admits scenarioPlatform scenarioPlanner (onlyX (1 / 100)) (onlyX 800) (1 / 20) false false ∧
    ∀ i : Axis,
      ((queueMove scenarioPlatform scenarioPlanner (onlyX (1 / 100)) (onlyX 800) (1 / 20)
        false false).lines scenarioPlanner.linesWritePos).delta i ≤
      ((queueMove scenarioPlatform scenarioPlanner (onlyX (1 / 100)) (onlyX 800) (1 / 20)
        false false).lines scenarioPlanner.linesWritePos).delta
        ((queueMove scenarioPlatform scenarioPlanner (onlyX (1 / 100)) (onlyX 800) (1 / 20)
          false false).lines scenarioPlanner.linesWritePos).primaryAxis :=
  have h : Admits scenarioPlatform scenarioPlanner (onlyX (1 / 100)) (onlyX 800) (1 / 20)
      false false :=
    (admits_iff _ _ _ _ _ _ _).mpr ⟨rfl, X_AXIS, by norm_num [toUnsigned_eq_floor, onlyX]⟩
  ⟨h, (queueMove_primary_dominates _ _ _ _ _ _ _ h).2⟩

/-- C6: `queueMove` selects the primary axis of an admitted segment by the
chain: Y if `delta[Y]` is strictly greater than `delta[X]`, `delta[Z]` and
`delta[E]`; otherwise X if `delta[X]` is strictly greater than `delta[Z]` and
`delta[E]`; otherwise Z if `delta[Z] > delta[E]`; otherwise E.  Hence the
primary axis has the largest step count, and among the axes with that count it
is the one of highest priority in the order E over Z over X over Y. -/
theorem queueMove_primaryAxis_selection (pp : PathPlanner) (ad ns : Axis → ℚ) (speed : ℚ)
    (c o : Bool) (h : Admits pl pp ad ns speed c o) :
    let seg := (queueMove pl pp ad ns speed c o).lines pp.linesWritePos
    let dX := seg.delta X_AXIS
    let dY := seg.delta Y_AXIS
    let dZ := seg.delta Z_AXIS
    let dE := seg.delta E_AXIS
    (∀ i : Axis, seg.delta i = toUnsigned (ns i)) ∧
    seg.primaryAxis =
      (if dY > dX ∧ dY > dZ ∧ dY > dE then Y_AXIS
       else if dX > dZ ∧ dX > dE then X_AXIS
       else if dZ > dE then Z_AXIS
       else E_AXIS) ∧
    ∀ i : Axis, seg.delta i = seg.delta seg.primaryAxis →
      tiePriority i ≤ tiePriority seg.primaryAxis := by
  intro seg dX dY dZ dE
  obtain ⟨hd, hp, -, -⟩ := kin_geometry (queueMove_line_kin pl pp ad ns speed c o h)
  change seg.delta = _ at hd
  change seg.primaryAxis = _ at hp
  obtain ⟨h1, -⟩ := admittedSegment_primaryAxis pl pp ad ns speed c o
  have hsel : seg.primaryAxis = selectPrimaryAxis seg.delta := by rw [hp, hd]; exact h1
  refine ⟨?_, hsel, ?_⟩
  · intro i
    rw [hd]
    exact admittedSegment_delta pl pp ad ns speed c o i
  · rw [hsel]
    have key : ∀ d : Axis → Nat, ∀ i : Axis, d i = d (selectPrimaryAxis d) →
        tiePriority i ≤ tiePriority (selectPrimaryAxis d) := by
      intro d i
      have hX : d X_AXIS = d (selectPrimaryAxis d) →
          tiePriority X_AXIS ≤ tiePriority (selectPrimaryAxis d) := by
        unfold selectPrimaryAxis
        split_ifs <;> intro he <;> first | decide | (exfalso; omega)
      have hY : d Y_AXIS = d (selectPrimaryAxis d) →
          tiePriority Y_AXIS ≤ tiePriority (selectPrimaryAxis d) := by
        unfold selectPrimaryAxis
        split_ifs <;> intro he <;> decide
      have hZ : d Z_AXIS = d (selectPrimaryAxis d) →
          tiePriority Z_AXIS ≤ tiePriority (selectPrimaryAxis d) := by
        unfold selectPrimaryAxis
        split_ifs <;> intro he <;> first | decide | (exfalso; omega)
      have hE : d E_AXIS = d (selectPrimaryAxis d) →
          tiePriority E_AXIS ≤ tiePriority (selectPrimaryAxis d) := by
        unfold selectPrimaryAxis
        split_ifs <;> intro he <;> first | decide | (exfalso; omega)
      fin_cases i
      · exact hX
      · exact hY
      · exact hZ
      · exact hE
    exact key seg.delta

theorem queueMove_primaryAxis_selection_witness :
    Admits scenarioPlatform scenarioPlanner (onlyX (1 / 100)) (onlyX 800) (1 / 20) false false ∧
    ((queueMove scenarioPlatform scenarioPlanner (onlyX (1 / 100)) (onlyX 800) (1 / 20)
      false false).lines scenarioPlanner.linesWritePos).delta X_AXIS = toUnsigned (onlyX 800 X_AXIS) :=
  have h : Admits scenarioPlatform scenarioPlanner (onlyX (1 / 100)) (onlyX 800) (1 / 20)
      false false :=
    (admits_iff _ _ _ _ _ _ _).mpr ⟨rfl, X_AXIS, by norm_num [toUnsigned_eq_floor, onlyX]⟩
  ⟨h, (queueMove_primaryAxis_selection _ _ _ _ _ _ _ h).1 X_AXIS⟩

theorem sqrtLower_natCast_sq (n : Nat) : sqrtLower ((n : ℚ) * (n : ℚ)) = n := by
  have h : ((n : ℚ) * (n : ℚ)) = ((n * n : Nat) : ℚ) := by push_cast; ring
  rw [h]
  unfold sqrtLower
  simp only [Rat.num_natCast, Rat.den_natCast, Int.toNat_ofNat, mul_one, Nat.sqrt_eq,
    Nat.cast_one, div_one]

/-- C1, evaluation at a failing input.  With the scenario configuration
(`maxFeedrate = 300 mm/s`, 80 steps/mm) a move of 1 mm in X with 80 steps,
requested at 1 m/s, gets `fullInterval = 8333` (the bound `8333.33…` of the
feedrate, truncated) and the X speed `200000000 / (8333 * 80)`, which is
above 300 mm/s. -/
theorem calculateMove_speedX_exceeds_maxFeedrate :
    ((queueMove scenarioPlatform scenarioPlanner (onlyX (1 / 1000)) (onlyX 80) 1 false
      false).lines 0).fullInterval = 8333 ∧
    ((queueMove scenarioPlatform scenarioPlanner (onlyX (1 / 1000)) (onlyX 80) 1 false
      false).lines 0).speedX = 200000000 / (8333 * 80) ∧
    scenarioPlanner.config.maxFeedrate X_AXIS <
      |((queueMove scenarioPlatform scenarioPlanner (onlyX (1 / 1000)) (onlyX 80) 1 false
        false).lines 0).speedX| := by
  have h80 : toUnsigned (80 : ℚ) = 80 := toUnsigned_eq_of 80 80 (by norm_num) (by norm_num)
  have hn : toUnsigned (80 : ℚ) ≠ 0 := by rw [h80]; decide
  have hadm : Admits scenarioPlatform scenarioPlanner (onlyX (1 / 1000)) (onlyX 80) 1 false
      false := (admits_iff _ _ _ _ _ _ _).mpr ⟨rfl, X_AXIS, by simpa using hn⟩
  obtain ⟨hx, -, -, -, -, hi, -⟩ := kin_speeds (queueMove_line_kin _ _ _ _ _ _ _ hadm)
  obtain ⟨hF, -, hV⟩ := admittedSegment_onlyX scenarioPlatform scenarioPlanner (1 / 1000) 80 1
    false false hn
  have e1 : toUnsigned (|(1 / 1000 : ℚ) * 1000| * (scenarioPlatform.F_CPU : ℚ) /
      (scenarioPlanner.config.maxFeedrate X_AXIS * (toUnsigned (80 : ℚ) : ℚ))) = 8333 := by
    apply toUnsigned_eq_of <;>
      norm_num [scenarioPlatform, scenarioPlanner, scenarioConfig, h80]
  have e2 : toUnsigned ((scenarioPlatform.F_CPU : ℚ) *
      max (scenarioPlatform.sqrt ((1 / 1000 : ℚ) * 1000 * ((1 / 1000 : ℚ) * 1000))) 0 /
      max scenarioPlanner.config.minimumSpeed ((1 : ℚ) * 1000) / (toUnsigned (80 : ℚ) : ℚ)) =
      2500 := by
    apply toUnsigned_eq_of <;>
      norm_num [scenarioPlatform, scenarioPlanner, scenarioConfig, h80, sqrtLower]
  have hFI : (admittedSegment scenarioPlatform scenarioPlanner (onlyX (1 / 1000)) (onlyX 80) 1
      false false).fullInterval = 8333 := by
    rw [hF, e1, e2]; rfl
  have hSX : (admittedSegment scenarioPlatform scenarioPlanner (onlyX (1 / 1000)) (onlyX 80) 1
      false false).speedX = 200000000 / (8333 * 80) := by
    rw [hV, hFI]
    norm_num [scenarioPlatform, h80]
  have h0 : scenarioPlanner.linesWritePos = 0 := rfl
  rw [h0] at hx hi
  refine ⟨hi.trans hFI, hx.trans hSX, ?_⟩
  rw [hx, hSX, abs_of_pos (by norm_num)]
  norm_num [scenarioPlanner, scenarioConfig]

/-- C10, evaluation at a failing input.  With the scenario configuration a
move of 10 mm in the negative X direction (800 steps, requested at 0.05 m/s)
is stored with the X speed `+50 mm/s`: the displacement is already signed when
`calculateMove` negates the product for a negative move, so the stored speed
is the magnitude and not the signed speed `-50 mm/s`. -/
theorem calculateMove_negative_move_speed_positive :
    ((queueMove scenarioPlatform scenarioPlanner (onlyX (-1 / 100)) (onlyX 800) (1 / 20) false
      false).lines 0).isXNegativeMove = true ∧
    ((queueMove scenarioPlatform scenarioPlanner (onlyX (-1 / 100)) (onlyX 800) (1 / 20) false
      false).lines 0).fullInterval = 50000 ∧
    ((queueMove scenarioPlatform scenarioPlanner (onlyX (-1 / 100)) (onlyX 800) (1 / 20) false
      false).lines 0).speedX = 50 := by
  have h800 : toUnsigned (800 : ℚ) = 800 := toUnsigned_eq_of 800 800 (by norm_num) (by norm_num)
  have hn : toUnsigned (800 : ℚ) ≠ 0 := by rw [h800]; decide
  have hadm : Admits scenarioPlatform scenarioPlanner (onlyX (-1 / 100)) (onlyX 800) (1 / 20)
      false false := (admits_iff _ _ _ _ _ _ _).mpr ⟨rfl, X_AXIS, by simpa using hn⟩
  have hk := queueMove_line_kin _ _ _ _ _ _ _ hadm
  obtain ⟨hx, -, -, -, -, hi, -⟩ := kin_speeds hk
  obtain ⟨-, -, -, hdir⟩ := kin_geometry hk
  obtain ⟨hF, -, hV⟩ := admittedSegment_onlyX scenarioPlatform scenarioPlanner (-1 / 100) 800
    (1 / 20) false false hn
  obtain ⟨hX, -, -, -, hpos, -⟩ := preparedSegment_onlyX scenarioPlatform scenarioPlanner
    (-1 / 100) 800 (1 / 20) false false hn
  have e1 : toUnsigned (|(-1 / 100 : ℚ) * 1000| * (scenarioPlatform.F_CPU : ℚ) /
      (scenarioPlanner.config.maxFeedrate X_AXIS * (toUnsigned (800 : ℚ) : ℚ))) = 8333 := by
    apply toUnsigned_eq_of <;>
      norm_num [scenarioPlatform, scenarioPlanner, scenarioConfig, h800, abs_of_pos]
  have hsq : scenarioPlatform.sqrt ((-1 / 100 : ℚ) * 1000 * ((-1 / 100 : ℚ) * 1000)) = 10 := by
    have h := sqrtLower_natCast_sq 10
    have harg : ((-1 / 100 : ℚ) * 1000 * ((-1 / 100 : ℚ) * 1000)) = ((10 : Nat) : ℚ) * ((10 : Nat) : ℚ) := by
      norm_num
    rw [harg]
    exact_mod_cast h
  have e2 : toUnsigned ((scenarioPlatform.F_CPU : ℚ) *
      max (scenarioPlatform.sqrt ((-1 / 100 : ℚ) * 1000 * ((-1 / 100 : ℚ) * 1000))) 0 /
      max scenarioPlanner.config.minimumSpeed ((1 / 20 : ℚ) * 1000) / (toUnsigned (800 : ℚ) : ℚ)) =
      50000 := by
    rw [hsq]
    apply toUnsigned_eq_of <;>
      norm_num [scenarioPlatform, scenarioPlanner, scenarioConfig, h800]
  have hFI : (admittedSegment scenarioPlatform scenarioPlanner (onlyX (-1 / 100)) (onlyX 800)
      (1 / 20) false false).fullInterval = 50000 := by
    rw [hF, e1, e2]; rfl
  have hSX : (admittedSegment scenarioPlatform scenarioPlanner (onlyX (-1 / 100)) (onlyX 800)
      (1 / 20) false false).speedX = 50 := by
    rw [hV, hFI]
    norm_num [scenarioPlatform, h800, abs_of_pos]
  have h0 : scenarioPlanner.linesWritePos = 0 := rfl
  rw [h0] at hx hi hdir
  refine ⟨?_, hi.trans hFI, hx.trans hSX⟩
  have hd2 : (admittedSegment scenarioPlatform scenarioPlanner (onlyX (-1 / 100)) (onlyX 800)
      (1 / 20) false false).dir = (preparedSegment scenarioPlatform scenarioPlanner
      (onlyX (-1 / 100)) (onlyX 800) (1 / 20) false false).dir :=
    (calculateMoveSegment_geometry _ _ _ _).2.2.2.1
  unfold Path.isXNegativeMove Path.isXMove Path.isMoveOfAxis Path.isPositiveDirection
  rw [hdir, hd2]
  have hX2 : (preparedSegment scenarioPlatform scenarioPlanner (onlyX (-1 / 100)) (onlyX 800)
      (1 / 20) false false).dir.testBit X_AXIS.val = true := hX
  have hP2 : (preparedSegment scenarioPlatform scenarioPlanner (onlyX (-1 / 100)) (onlyX 800)
      (1 / 20) false false).dir.testBit (X_AXIS.val + 4) = decide ((-1 / 100 : ℚ) * 1000 ≥ 0) :=
    hpos
  rw [hX2, hP2]
  norm_num

end Admission

/-! ## The junction speed -/

section Junction

variable (pl : Platform)

theorem sqrtLower_nonneg (q : ℚ) : 0 ≤ sqrtLower q := by
  unfold sqrtLower
  positivity

theorem limited_factor (F x m : ℚ) (hx : 0 ≤ x) (hm : 0 ≤ m) (hF : F ≤ 1) :
    (if x > m then min F (m / x) else F) ≤ F ∧ (if x > m then min F (m / x) else F) * x ≤ m := by
  split_ifs with h
  · have hxpos : 0 < x := lt_of_le_of_lt hm h
    refine ⟨min_le_left _ _, ?_⟩
    calc min F (m / x) * x ≤ m / x * x := mul_le_mul_of_nonneg_right (min_le_right _ _) hx
      _ = m := div_mul_cancel₀ m (ne_of_gt hxpos)
  · refine ⟨le_refl _, ?_⟩
    calc F * x ≤ 1 * x := mul_le_mul_of_nonneg_right hF hx
      _ = x := one_mul x
      _ ≤ m := not_lt.mp h

/-- C2: for adjacent segments `previous`, `current` with
`previous.fullSpeed > 0`, after `computeMaxJunctionSpeed` the ratio
`f = previous.maxJunctionSpeed / previous.fullSpeed` satisfies `f ≤ 1`,
`f * sqrt(dx² + dy²) ≤ maxJerk`, `f * |current.speedE - previous.speedE| ≤
maxStartFeedrate` and, when bit 6 of `dir` is set in one of the segments,
`f * |current.speedZ - previous.speedZ| ≤ maxZJerk`; moreover
`previous.maxJunctionSpeed ≤ current.fullSpeed`.  Float arithmetic is exact
here, the square root returns no negative value and the limits of the
configuration are not negative. -/
theorem computeMaxJunctionSpeed_bounds (cfg : Config) (previous current : Path)
    (hsqrt : ∀ x, 0 ≤ pl.sqrt x) (hcfg : cfg.Ok) (hfs : 0 < previous.fullSpeed) :
    (computeMaxJunctionSpeed pl cfg previous current).fullSpeed = previous.fullSpeed ∧
    (computeMaxJunctionSpeed pl cfg previous current).maxJunctionSpeed / previous.fullSpeed ≤ 1 ∧
    (computeMaxJunctionSpeed pl cfg previous current).maxJunctionSpeed / previous.fullSpeed *
      pl.sqrt ((current.speedX - previous.speedX) * (current.speedX - previous.speedX) +
        (current.speedY - previous.speedY) * (current.speedY - previous.speedY)) ≤ cfg.maxJerk ∧
    (computeMaxJunctionSpeed pl cfg previous current).maxJunctionSpeed / previous.fullSpeed *
      |current.speedE - previous.speedE| ≤ cfg.currentExtruder.maxStartFeedrate ∧
    ((previous.dir ||| current.dir) &&& 64 ≠ 0 →
      (computeMaxJunctionSpeed pl cfg previous current).maxJunctionSpeed / previous.fullSpeed *
        |current.speedZ - previous.speedZ| ≤ cfg.maxZJerk) ∧
    (computeMaxJunctionSpeed pl cfg previous current).maxJunctionSpeed ≤ current.fullSpeed := by
  obtain ⟨hJ, hZ, hE⟩ := hcfg
  set jerk := pl.sqrt ((current.speedX - previous.speedX) * (current.speedX - previous.speedX) +
        (current.speedY - previous.speedY) * (current.speedY - previous.speedY)) with hjerk
  have hjerk0 : 0 ≤ jerk := hsqrt _
  set F0 : ℚ := if jerk > cfg.maxJerk then cfg.maxJerk / jerk else 1 with hF0
  have hF0' : F0 ≤ 1 ∧ F0 * jerk ≤ cfg.maxJerk := by
    rw [hF0]
    split_ifs with h
    · have hpos : 0 < jerk := lt_of_le_of_lt hJ h
      refine ⟨?_, le_of_eq (div_mul_cancel₀ _ (ne_of_gt hpos))⟩
      rw [div_le_one hpos]
      exact le_of_lt h
    · refine ⟨le_refl _, ?_⟩
      rw [one_mul]
      exact not_lt.mp h
  set dz := |current.speedZ - previous.speedZ| with hdz
  set de := |current.speedE - previous.speedE| with hde
  set F1 : ℚ := if (previous.dir ||| current.dir) &&& 64 ≠ 0 then
      (if dz > cfg.maxZJerk then min F0 (cfg.maxZJerk / dz) else F0) else F0 with hF1
  have hF1' : F1 ≤ F0 ∧ ((previous.dir ||| current.dir) &&& 64 ≠ 0 → F1 * dz ≤ cfg.maxZJerk) := by
    rw [hF1]
    by_cases h : (previous.dir ||| current.dir) &&& 64 ≠ 0
    · rw [if_pos h]
      obtain ⟨h1, h2⟩ := limited_factor F0 dz cfg.maxZJerk (abs_nonneg _) hZ hF0'.1
      exact ⟨h1, fun _ => h2⟩
    · rw [if_neg h]
      exact ⟨le_refl _, fun h' => absurd h' h⟩
  set F2 : ℚ := if de > cfg.currentExtruder.maxStartFeedrate then
      min F1 (cfg.currentExtruder.maxStartFeedrate / de) else F1 with hF2
  have hF2' : F2 ≤ F1 ∧ F2 * de ≤ cfg.currentExtruder.maxStartFeedrate :=
    limited_factor F1 de _ (abs_nonneg _) hE (le_trans hF1'.1 hF0'.1)
  have hval : (computeMaxJunctionSpeed pl cfg previous current).maxJunctionSpeed =
      min (previous.fullSpeed * F2) current.fullSpeed := rfl
  have hf : (computeMaxJunctionSpeed pl cfg previous current).maxJunctionSpeed /
      previous.fullSpeed ≤ F2 := by
    rw [hval, div_le_iff₀ hfs, mul_comm]
    exact min_le_left _ _
  have hde0 : 0 ≤ de := abs_nonneg _
  have hdz0 : 0 ≤ dz := abs_nonneg _
  refine ⟨rfl, ?_, ?_, ?_, ?_, ?_⟩
  · exact le_trans hf (le_trans hF2'.1 (le_trans hF1'.1 hF0'.1))
  · calc _ ≤ F2 * jerk := mul_le_mul_of_nonneg_right hf hjerk0
      _ ≤ F0 * jerk := mul_le_mul_of_nonneg_right (le_trans hF2'.1 hF1'.1) hjerk0
      _ ≤ cfg.maxJerk := hF0'.2
  · calc _ ≤ F2 * de := mul_le_mul_of_nonneg_right hf hde0
      _ ≤ cfg.currentExtruder.maxStartFeedrate := hF2'.2
  · intro hbit
    calc _ ≤ F2 * dz := mul_le_mul_of_nonneg_right hf hdz0
      _ ≤ F1 * dz := mul_le_mul_of_nonneg_right hF2'.1 hdz0
      _ ≤ cfg.maxZJerk := hF1'.2 hbit
  · rw [hval]
    exact min_le_right _ _

theorem scenarioConfig_ok : scenarioConfig.Ok := by
  unfold Config.Ok scenarioConfig
  norm_num

theorem computeMaxJunctionSpeed_bounds_witness :
    (0 : ℚ) < ({ fullSpeed := 50, speedX := 50 } : Path).fullSpeed ∧
    (computeMaxJunctionSpeed scenarioPlatform scenarioConfig { fullSpeed := 50, speedX := 50 }
      { fullSpeed := 50, speedY := 50 }).maxJunctionSpeed ≤
      ({ fullSpeed := 50, speedY := 50 } : Path).fullSpeed :=
  ⟨by norm_num,
    (computeMaxJunctionSpeed_bounds scenarioPlatform scenarioConfig { fullSpeed := 50, speedX := 50 }
      { fullSpeed := 50, speedY := 50 } sqrtLower_nonneg scenarioConfig_ok (by norm_num)).2.2.2.2.2⟩

end Junction

/-! ## The steps parameters -/

section StepsParameter

theorem updateStepsParameter_eq (p : Path) (hstale : p.areParameterUpToDate = false)
    (hw : p.isWarmUp = false) :
    p.updateStepsParameter =
      Path.setParameterUpToDate
        { p with
          vStart := toUnsigned ((p.vMax : ℚ) * (p.startSpeed * p.invFullSpeed))
          vEnd := toUnsigned ((p.vMax : ℚ) * (p.endSpeed * p.invFullSpeed))
          accelSteps := (trimSteps
            (rampSteps p.vMax (toUnsigned ((p.vMax : ℚ) * (p.startSpeed * p.invFullSpeed)))
              p.accelerationPrim)
            (rampSteps p.vMax (toUnsigned ((p.vMax : ℚ) * (p.endSpeed * p.invFullSpeed)))
              p.accelerationPrim) p.stepsRemaining).1
          decelSteps := (trimSteps
            (rampSteps p.vMax (toUnsigned ((p.vMax : ℚ) * (p.startSpeed * p.invFullSpeed)))
              p.accelerationPrim)
            (rampSteps p.vMax (toUnsigned ((p.vMax : ℚ) * (p.endSpeed * p.invFullSpeed)))
              p.accelerationPrim) p.stepsRemaining).2 } := by
  unfold Path.updateStepsParameter
  rw [hstale, hw]
  rfl

theorem trimSteps_sum_le_iff (a d n : Nat) (hn : n < 4294967296)
    (hfit : a + d + 2 < 4294967296) :
    (trimSteps a d n).1 + (trimSteps a d n).2 ≤ n ↔ a ≤ d + n + 2 ∧ d ≤ a + n + 2 := by
  unfold trimSteps u32 u32sub
  simp only [Nat.shiftRight_one]
  have h1 : (a + d) % 4294967296 = a + d := Nat.mod_eq_of_lt (by omega)
  have h2 : (a + d + 2) % 4294967296 = a + d + 2 := Nat.mod_eq_of_lt hfit
  have h3 : n % 4294967296 = n := Nat.mod_eq_of_lt hn
  rw [h1, h2, h3]
  by_cases hc : a + d ≥ n
  · have h4 : (a + d + 2 + 4294967296 - n) % 4294967296 = a + d + 2 - n := by omega
    rw [if_pos hc, h4]
    dsimp only
    rcases Nat.le_total a ((a + d + 2 - n) / 2) with ha | ha <;>
      rcases Nat.le_total d ((a + d + 2 - n) / 2) with hd | hd <;>
      simp only [min_eq_left, min_eq_right, ha, hd] <;> omega
  · rw [if_neg hc]
    dsimp only
    omega

/-- C7, as amended: on a segment with stale parameters that is not a warm-up
(step counts within 32 bits), after `updateStepsParameter`
`accelSteps + decelSteps ≤ stepsRemaining` holds exactly when the untrimmed
numbers of acceleration and deceleration steps differ by at most
`stepsRemaining + 2`. -/
theorem updateStepsParameter_sum_le_iff (p : Path) (hstale : p.areParameterUpToDate = false)
    (hw : p.isWarmUp = false) (hn : p.stepsRemaining < 4294967296)
    (hfit : rampSteps p.vMax p.updateStepsParameter.vStart p.accelerationPrim +
      rampSteps p.vMax p.updateStepsParameter.vEnd p.accelerationPrim + 2 < 4294967296) :
    p.updateStepsParameter.accelSteps + p.updateStepsParameter.decelSteps ≤ p.stepsRemaining ↔
      rampSteps p.vMax p.updateStepsParameter.vStart p.accelerationPrim ≤
        rampSteps p.vMax p.updateStepsParameter.vEnd p.accelerationPrim + p.stepsRemaining + 2 ∧
      rampSteps p.vMax p.updateStepsParameter.vEnd p.accelerationPrim ≤
        rampSteps p.vMax p.updateStepsParameter.vStart p.accelerationPrim + p.stepsRemaining + 2 := by
  rw [updateStepsParameter_eq p hstale hw] at hfit ⊢
  exact trimSteps_sum_le_iff _ _ _ hn hfit

theorem lateBrakeSegment_speeds :
    lateBrakeSegment.updateStepsParameter.vStart = 4000 ∧
    lateBrakeSegment.updateStepsParameter.vEnd = 800 := by
  rw [updateStepsParameter_eq lateBrakeSegment rfl rfl]
  constructor
  · exact toUnsigned_eq_of _ 4000 (by norm_num [lateBrakeSegment]) (by norm_num [lateBrakeSegment])
  · exact toUnsigned_eq_of _ 800 (by norm_num [lateBrakeSegment]) (by norm_num [lateBrakeSegment])

theorem lateBrakeSegment_steps :
    lateBrakeSegment.updateStepsParameter.accelSteps = 0 ∧
    lateBrakeSegment.updateStepsParameter.decelSteps = 25 := by
  obtain ⟨h1, h2⟩ := lateBrakeSegment_speeds
  rw [updateStepsParameter_eq lateBrakeSegment rfl rfl] at h1 h2 ⊢
  simp only [Path.setParameterUpToDate] at h1 h2 ⊢
  rw [h1, h2]
  constructor <;> decide

/-- C7, counterexample to the claim as stated: `lateBrakeSegment` has stale
parameters, is no warm-up, `vStart = 4000 ≤ vMax`, `vEnd = 800 ≤ vMax`,
`accelerationPrim ≥ 1`, `stepsRemaining = 20 ≥ 1`, and `updateStepsParameter`
leaves it with `accelSteps = 0` and `decelSteps = 25`, whose sum exceeds
`stepsRemaining`. -/
theorem updateStepsParameter_sum_exceeds :
    lateBrakeSegment.areParameterUpToDate = false ∧ lateBrakeSegment.isWarmUp = false ∧
    lateBrakeSegment.updateStepsParameter.vStart ≤ lateBrakeSegment.vMax ∧
    lateBrakeSegment.updateStepsParameter.vEnd ≤ lateBrakeSegment.vMax ∧
    1 ≤ lateBrakeSegment.accelerationPrim ∧ 1 ≤ lateBrakeSegment.stepsRemaining ∧
    ¬ (lateBrakeSegment.updateStepsParameter.accelSteps +
        lateBrakeSegment.updateStepsParameter.decelSteps ≤ lateBrakeSegment.stepsRemaining) := by
  obtain ⟨h1, h2⟩ := lateBrakeSegment_speeds
  obtain ⟨h3, h4⟩ := lateBrakeSegment_steps
  rw [h1, h2, h3, h4]
  refine ⟨rfl, rfl, ?_, ?_, ?_, ?_, ?_⟩ <;> decide

theorem cruiseSegment_speeds :
    cruiseSegment.updateStepsParameter.vStart = 800 ∧
    cruiseSegment.updateStepsParameter.vEnd = 800 := by
  rw [updateStepsParameter_eq cruiseSegment rfl rfl]
  constructor
  · exact toUnsigned_eq_of _ 800 (by norm_num [cruiseSegment]) (by norm_num [cruiseSegment])
  · exact toUnsigned_eq_of _ 800 (by norm_num [cruiseSegment]) (by norm_num [cruiseSegment])

theorem updateStepsParameter_sum_le_iff_witness :
    cruiseSegment.updateStepsParameter.accelSteps + cruiseSegment.updateStepsParameter.decelSteps ≤
      cruiseSegment.stepsRemaining :=
  (updateStepsParameter_sum_le_iff cruiseSegment rfl rfl (by decide)
    (by rw [cruiseSegment_speeds.1, cruiseSegment_speeds.2]; decide)).mpr
    (by rw [cruiseSegment_speeds.1, cruiseSegment_speeds.2]; decide)

end StepsParameter

/-! ## The stepping loop: Bresenham -/

section Stepping

variable (pl : Platform) (cfg : Config)

theorem ddaAxis_fst (moves : Bool) (delta : Nat) (u : Int) (b : Nat) (es : Int × Nat) :
    (ddaAxis moves delta u b es).1 = ddaErr moves delta u es.1 := by
  unfold ddaAxis ddaErr
  split_ifs <;> rfl

theorem ddaAxis_snd_testBit (moves : Bool) (delta : Nat) (u : Int) (b : Nat) (es : Int × Nat)
    (j : Nat) (hj : j < 8) :
    (ddaAxis moves delta u b es).2.testBit j =
      (es.2.testBit j || (ddaHit moves delta es.1 && decide (b = j))) := by
  unfold ddaAxis ddaHit
  have h256 : (256 : Nat) = 2 ^ 8 := by norm_num
  split_ifs with h1 h2
  · show ((es.2 ||| 1 <<< b) % 256).testBit j = _
    rw [h256, Nat.testBit_mod_two_pow, Nat.testBit_or, Nat.one_shiftLeft, Nat.testBit_two_pow]
    simp [h1, h2, hj]
  · simp [h1, h2]
  · simp [h1]

theorem stepBit_X : stepBit cfg X_AXIS = 0 := if_neg (by decide)
theorem stepBit_Y : stepBit cfg Y_AXIS = 1 := if_neg (by decide)
theorem stepBit_Z : stepBit cfg Z_AXIS = 2 := if_neg (by decide)
theorem stepBit_E : stepBit cfg E_AXIS = cfg.currentExtruder.stepperCommandPosition := if_pos rfl

theorem axis_cases (a : Axis) : a = X_AXIS ∨ a = Y_AXIS ∨ a = Z_AXIS ∨ a = E_AXIS := by
  revert a
  decide

theorem ddaStep_error (cur : Path) (u : Int) (a : Axis) :
    (ddaStep cfg cur u).1 a = ddaErr (cur.isMoveOfAxis a) (cur.delta a) u (cur.error a) := by
  unfold ddaStep
  simp only [ddaAxis_fst]
  fin_cases a <;> rfl

theorem ddaStep_testBit (cur : Path) (u : Int) (j : Nat) (hj : j < 8) :
    (ddaStep cfg cur u).2.testBit j =
      ((ddaHit (cur.isMoveOfAxis E_AXIS) (cur.delta E_AXIS) (cur.error E_AXIS) &&
          decide (stepBit cfg E_AXIS = j)) ||
        (ddaHit (cur.isMoveOfAxis X_AXIS) (cur.delta X_AXIS) (cur.error X_AXIS) &&
          decide (stepBit cfg X_AXIS = j)) ||
        (ddaHit (cur.isMoveOfAxis Y_AXIS) (cur.delta Y_AXIS) (cur.error Y_AXIS) &&
          decide (stepBit cfg Y_AXIS = j)) ||
        (ddaHit (cur.isMoveOfAxis Z_AXIS) (cur.delta Z_AXIS) (cur.error Z_AXIS) &&
          decide (stepBit cfg Z_AXIS = j))) := by
  unfold ddaStep
  simp only [ddaAxis_snd_testBit _ _ _ _ _ j hj]
  simp [stepBit_X, stepBit_Y, stepBit_Z, stepBit_E, Path.isEMove, Path.isXMove, Path.isYMove,
    Path.isZMove]

theorem ddaStep_testBit_axis (cur : Path) (u : Int) (a : Axis) (hb : stepBit cfg a < 8)
    (hdist : ∀ a2 : Axis, a2 ≠ a → stepBit cfg a2 ≠ stepBit cfg a) :
    (ddaStep cfg cur u).2.testBit (stepBit cfg a) =
      ddaHit (cur.isMoveOfAxis a) (cur.delta a) (cur.error a) := by
  rw [ddaStep_testBit cfg cur u _ hb]
  rcases axis_cases a with h | h | h | h <;> subst h
  · have hE := hdist E_AXIS (by decide)
    have hY := hdist Y_AXIS (by decide)
    have hZ := hdist Z_AXIS (by decide)
    simp [hE, hY, hZ]
  · have hE := hdist E_AXIS (by decide)
    have hX := hdist X_AXIS (by decide)
    have hZ := hdist Z_AXIS (by decide)
    simp [hE, hX, hZ]
  · have hE := hdist E_AXIS (by decide)
    have hX := hdist X_AXIS (by decide)
    have hY := hdist Y_AXIS (by decide)
    simp [hE, hX, hY]
  · have hX := hdist X_AXIS (by decide)
    have hY := hdist Y_AXIS (by decide)
    have hZ := hdist Z_AXIS (by decide)
    simp [hX, hY, hZ]

theorem stepLoop_succ (cur : Path) (n : Nat) :
    stepLoop pl cfg cur (n + 1) =
      stepBody pl cfg (cur.delta cur.primaryAxis : Int) (directionMask cfg cur)
        (cancellableMask cfg cur) (stepLoop pl cfg cur n) n := rfl

theorem stepBody_dda (u : Int) (dm cm : Nat) (st : StepState) (n : Nat) :
    (stepBody pl cfg u dm cm st n).cur.delta = st.cur.delta ∧
    (stepBody pl cfg u dm cm st n).cur.dir = st.cur.dir ∧
    (stepBody pl cfg u dm cm st n).cur.error = (ddaStep cfg st.cur u).1 ∧
    (stepBody pl cfg u dm cm st n).commands.length = st.commands.length + 1 ∧
    ∀ a, stepCount cfg a (stepBody pl cfg u dm cm st n).commands =
      stepCount cfg a st.commands +
        (if (ddaStep cfg st.cur u).2.testBit (stepBit cfg a) then 1 else 0) := by
  refine ⟨rfl, rfl, rfl, ?_, ?_⟩
  · simp [stepBody]
  · intro a
    simp [stepBody, stepCount, List.countP_append, List.countP_cons]

theorem stepLoop_static (cur : Path) (n : Nat) :
    (stepLoop pl cfg cur n).cur.delta = cur.delta ∧
    (stepLoop pl cfg cur n).cur.dir = cur.dir ∧
    (stepLoop pl cfg cur n).commands.length = n := by
  induction n with
  | zero => exact ⟨rfl, rfl, rfl⟩
  | succ n ih =>
    obtain ⟨h1, h2, -, h4, -⟩ := stepBody_dda pl cfg (cur.delta cur.primaryAxis : Int)
      (directionMask cfg cur) (cancellableMask cfg cur) (stepLoop pl cfg cur n) n
    rw [stepLoop_succ, h1, h2, h4, ih.1, ih.2.1, ih.2.2]
    exact ⟨rfl, rfl, rfl⟩

/-- The Bresenham invariant of one axis `a` after `n` rounds of the stepping
loop: the accumulated error stays in `[0, delta[primary])` and accounts for the
steps emitted so far. -/
theorem stepLoop_axis (cur : Path) (a : Axis) (hb : stepBit cfg a < 8)
    (hdist : ∀ a2 : Axis, a2 ≠ a → stepBit cfg a2 ≠ stepBit cfg a)
    (h0 : 0 ≤ cur.error a) (h1 : cur.error a < (cur.delta cur.primaryAxis : Int))
    (h2 : cur.delta a ≤ cur.delta cur.primaryAxis) (hm : cur.isMoveOfAxis a = true) (n : Nat) :
    (stepLoop pl cfg cur n).cur.error a + (n : Int) * (cur.delta a : Int) =
      cur.error a + (stepCount cfg a (stepLoop pl cfg cur n).commands : Int) *
        (cur.delta cur.primaryAxis : Int) ∧
    0 ≤ (stepLoop pl cfg cur n).cur.error a ∧
    (stepLoop pl cfg cur n).cur.error a < (cur.delta cur.primaryAxis : Int) := by
  induction n with
  | zero =>
    refine ⟨?_, h0, h1⟩
    simp [stepLoop, stepCount]
  | succ n ih =>
    obtain ⟨ih1, ih2, ih3⟩ := ih
    obtain ⟨hd, hdir, -⟩ := stepLoop_static pl cfg cur n
    obtain ⟨-, -, he, -, hc⟩ := stepBody_dda pl cfg (cur.delta cur.primaryAxis : Int)
      (directionMask cfg cur) (cancellableMask cfg cur) (stepLoop pl cfg cur n) n
    have hmv : (stepLoop pl cfg cur n).cur.isMoveOfAxis a = true := by
      unfold Path.isMoveOfAxis at hm ⊢
      rw [hdir]; exact hm
    rw [stepLoop_succ, he, hc a, ddaStep_error, ddaStep_testBit_axis cfg _ _ a hb hdist, hmv, hd]
    have h2' : (cur.delta a : Int) ≤ (cur.delta cur.primaryAxis : Int) := by exact_mod_cast h2
    unfold ddaErr ddaHit
    by_cases hlt : (stepLoop pl cfg cur n).cur.error a - (cur.delta a : Int) < 0
    · simp only [hlt, if_true, Bool.true_and, decide_True]
      push_cast
      refine ⟨by linarith, by linarith, by linarith⟩
    · simp only [hlt, if_true, if_false, Bool.true_and, decide_False, Bool.false_eq_true]
      push_cast
      refine ⟨by linarith, by linarith, by linarith⟩

theorem stepLoop_axis_idle (cur : Path) (a : Axis) (hb : stepBit cfg a < 8)
    (hdist : ∀ a2 : Axis, a2 ≠ a → stepBit cfg a2 ≠ stepBit cfg a)
    (hm : cur.isMoveOfAxis a = false) (n : Nat) :
    (stepLoop pl cfg cur n).cur.error a = cur.error a ∧
    stepCount cfg a (stepLoop pl cfg cur n).commands = 0 := by
  induction n with
  | zero => exact ⟨rfl, rfl⟩
  | succ n ih =>
    obtain ⟨hd, hdir, -⟩ := stepLoop_static pl cfg cur n
    obtain ⟨-, -, he, -, hc⟩ := stepBody_dda pl cfg (cur.delta cur.primaryAxis : Int)
      (directionMask cfg cur) (cancellableMask cfg cur) (stepLoop pl cfg cur n) n
    have hmv : (stepLoop pl cfg cur n).cur.isMoveOfAxis a = false := by
      unfold Path.isMoveOfAxis at hm ⊢
      rw [hdir]; exact hm
    rw [stepLoop_succ, he, hc a, ddaStep_error, ddaStep_testBit_axis cfg _ _ a hb hdist, hmv]
    unfold ddaErr ddaHit
    simp [ih.1, ih.2]

/-- The Bresenham loop distributes exactly `delta[a]` steps of the axis `a`
over the `delta[primary]` rounds, and leaves the error of the axis where it
started. -/
theorem stepLoop_axis_count (cur : Path) (a : Axis) (hb : stepBit cfg a < 8)
    (hdist : ∀ a2 : Axis, a2 ≠ a → stepBit cfg a2 ≠ stepBit cfg a)
    (h0 : 0 ≤ cur.error a) (h1 : cur.isMoveOfAxis a = true →
      cur.error a < (cur.delta cur.primaryAxis : Int))
    (h2 : cur.delta a ≤ cur.delta cur.primaryAxis)
    (hm : cur.isMoveOfAxis a = decide (cur.delta a ≠ 0)) :
    stepCount cfg a (stepLoop pl cfg cur (cur.delta cur.primaryAxis)).commands = cur.delta a ∧
    (stepLoop pl cfg cur (cur.delta cur.primaryAxis)).cur.error a = cur.error a := by
  by_cases hmv : cur.isMoveOfAxis a = true
  · obtain ⟨e1, e2, e3⟩ := stepLoop_axis pl cfg cur a hb hdist h0 (h1 hmv) h2 hmv
      (cur.delta cur.primaryAxis)
    have h1' := h1 hmv
    set N : Int := (cur.delta cur.primaryAxis : Int) with hN
    set k : Int := (stepCount cfg a (stepLoop pl cfg cur (cur.delta cur.primaryAxis)).commands : Int)
      with hk
    set d : Int := (cur.delta a : Int) with hd
    set e := (stepLoop pl cfg cur (cur.delta cur.primaryAxis)).cur.error a with he
    have hNpos : 0 < N := lt_of_le_of_lt h0 h1'
    have hkd : k = d := by
      rcases lt_trichotomy k d with h | h | h
      · have : (k - d) * N ≤ -1 * N := mul_le_mul_of_nonneg_right (by linarith) (le_of_lt hNpos)
        nlinarith
      · exact h
      · have : 1 * N ≤ (k - d) * N := mul_le_mul_of_nonneg_right (by linarith) (le_of_lt hNpos)
        nlinarith
    have hfin : e = cur.error a := by
      rw [hkd] at e1
      linarith [mul_comm N d]
    have hcount : (stepCount cfg a (stepLoop pl cfg cur (cur.delta cur.primaryAxis)).commands : Int)
        = (cur.delta a : Int) := hkd
    exact ⟨by exact_mod_cast hcount, hfin⟩
  · rw [Bool.not_eq_true] at hmv
    obtain ⟨e1, e2⟩ := stepLoop_axis_idle pl cfg cur a hb hdist hmv (cur.delta cur.primaryAxis)
    rw [hmv] at hm
    have hz : cur.delta a = 0 := by
      by_contra hne
      simp [hne] at hm
    exact ⟨by rw [e2, hz], e1⟩

end Stepping

/-! ## The two passes of the planner keep (I3) -/

section Passes

variable (pl : Platform)

theorem frame_fields {a b : Path} (h : a.frame = b.frame) :
    a.fullSpeed = b.fullSpeed ∧ a.minSpeed = b.minSpeed ∧
      a.maxJunctionSpeed = b.maxJunctionSpeed ∧ a.flags = b.flags ∧
      a.accelerationDistance2 = b.accelerationDistance2 ∧ a.primaryAxis = b.primaryAxis ∧
      a.dir = b.dir := by
  have h1 : a.frame.fullSpeed = b.frame.fullSpeed := by rw [h]
  have h2 : a.frame.minSpeed = b.frame.minSpeed := by rw [h]
  have h3 : a.frame.maxJunctionSpeed = b.frame.maxJunctionSpeed := by rw [h]
  have h4 : a.frame.flags = b.frame.flags := by rw [h]
  have h5 : a.frame.accelerationDistance2 = b.frame.accelerationDistance2 := by rw [h]
  have h6 : a.frame.primaryAxis = b.frame.primaryAxis := by rw [h]
  have h7 : a.frame.dir = b.frame.dir := by rw [h]
  exact ⟨h1, h2, h3, h4, h5, h6, h7⟩

theorem junctionOk_congr {a b a2 b2 : Path} (ha : a2.frame = a.frame) (hb : b2.frame = b.frame)
    (h : JunctionOk a b) : JunctionOk a2 b2 := by
  obtain ⟨ha1, -, ha3, -⟩ := frame_fields ha
  obtain ⟨hb1, -⟩ := frame_fields hb
  unfold JunctionOk at h ⊢
  rw [ha1, ha3, hb1]
  exact h

theorem speedsOk_setStartSpeed {q : Path} {v : ℚ} (h : q.SpeedsOk) (h1 : q.minSpeed ≤ v)
    (h2 : v ≤ q.fullSpeed) : (q.setStartSpeed v).SpeedsOk :=
  ⟨h1, h2, h.2.2.1, h.2.2.2⟩

theorem speedsOk_setEndSpeed {q : Path} {v : ℚ} (h : q.SpeedsOk) (h1 : q.minSpeed ≤ v)
    (h2 : v ≤ q.fullSpeed) : (q.setEndSpeed v).SpeedsOk :=
  ⟨h.1, h.2.1, h1, h2⟩

theorem stepOk_refl (l : Nat → Path) (h : ∀ j, (l j).SpeedsOk) : StepOk l l :=
  ⟨sameFrame_refl l, h, fun _ hj => hj⟩

theorem stepOk_trans {l0 l1 l2 : Nat → Path} (h1 : StepOk l0 l1) (h2 : StepOk l1 l2) :
    StepOk l0 l2 :=
  ⟨sameFrame_trans h2.1 h1.1, h2.2.1, fun j hj => h2.2.2 j (h1.2.2 j hj)⟩

theorem stepOk_modify {l0 l : Nat → Path} (h : StepOk l0 l) (i : Nat) (f : Path → Path)
    (hframe : ∀ p, (f p).frame = p.frame)
    (hfix : ∀ p : Path, p.isEndSpeedFixed = true → (f p).isEndSpeedFixed = true)
    (hspeed : (l i).SpeedsOk → (f (l i)).SpeedsOk) : StepOk l0 (modifyLine l i f) := by
  obtain ⟨h1, h2, h3⟩ := h
  refine ⟨sameFrame_modifyLine_trans _ _ _ _ hframe h1, fun j => ?_, fun j hj => ?_⟩
  · by_cases hji : j = i
    · subst hji
      rw [modifyLine_same]
      exact hspeed (h2 j)
    · rw [modifyLine_ne _ _ _ _ hji]
      exact h2 j
  · by_cases hji : j = i
    · subst hji
      rw [modifyLine_same]
      exact hfix _ (h3 j hj)
    · rw [modifyLine_ne _ _ _ _ hji]
      exact h3 j hj

/-- A write that touches flags only. -/
theorem stepOk_modify_flags {l0 l : Nat → Path} (h : StepOk l0 l) (i : Nat) (f : Path → Path)
    (hframe : ∀ p, (f p).frame = p.frame)
    (hfix : ∀ p : Path, p.isEndSpeedFixed = true → (f p).isEndSpeedFixed = true)
    (hspeed : ∀ p : Path, p.SpeedsOk → (f p).SpeedsOk) : StepOk l0 (modifyLine l i f) :=
  stepOk_modify h i f hframe hfix (hspeed _)

theorem speedsOk_updateStepsParameter (p : Path) (h : p.SpeedsOk) :
    p.updateStepsParameter.SpeedsOk := by
  unfold Path.updateStepsParameter
  split_ifs
  · exact h
  · exact h

theorem fixed_updateStepsParameter (p : Path) (h : p.isEndSpeedFixed = true) :
    p.updateStepsParameter.isEndSpeedFixed = true := by
  unfold Path.updateStepsParameter
  split_ifs
  · exact h
  · exact h

theorem backwardStep_ok (l : Nat → Path) (start : Nat) (v : ℚ) (h : ∀ j, (l j).SpeedsOk)
    (hJ : JunctionOk (l (previousPlannerIndex pl start)) (l start)) :
    StepOk l (backwardStep pl l start v).1 := by
  have h0 := stepOk_refl l h
  unfold backwardStep
  dsimp only
  by_cases hc : (if (l start).isNominalMove then (l start).fullSpeed
      else pl.sqrt (v * v + (l start).accelerationDistance2)) ≥
      (l (previousPlannerIndex pl start)).maxJunctionSpeed
  · rw [if_pos hc]
    dsimp only
    set l1 := (if (l (previousPlannerIndex pl start)).endSpeed ≠
        (l (previousPlannerIndex pl start)).maxJunctionSpeed then
        modifyLine l (previousPlannerIndex pl start) (fun q =>
          q.invalidateParameter.setEndSpeed (max q.minSpeed q.maxJunctionSpeed)) else l) with hl1
    have h1 : StepOk l l1 := by
      rw [hl1]
      split_ifs
      · refine stepOk_modify h0 _ _ (fun _ => rfl) (fun _ hp => hp) (fun hs => ?_)
        exact speedsOk_setEndSpeed hs (le_max_left _ _)
          (max_le (le_trans hs.1 hs.2.1) hJ.1)
      · exact h0
    clear_value l1
    by_cases hd : (l1 start).startSpeed ≠ (l1 (previousPlannerIndex pl start)).maxJunctionSpeed
    · rw [if_pos hd]
      refine stepOk_modify h1 _ _ (fun _ => rfl) (fun _ hp => hp) (fun hs => ?_)
      have hJ2 := junctionOk_congr (h1.1 (previousPlannerIndex pl start)) (h1.1 start) hJ
      change ((l1 start).setStartSpeed _).SpeedsOk
      exact speedsOk_setStartSpeed hs (le_max_left _ _)
        (max_le (le_trans hs.1 hs.2.1) hJ2.2)
    · rw [if_neg hd]
      exact h1
  · rw [if_neg hc]
    dsimp only
    have hlt := lt_of_not_ge hc
    have h1 := stepOk_modify h0 start (fun q => q.setStartSpeed (max q.minSpeed
      (if (l start).isNominalMove then (l start).fullSpeed
        else pl.sqrt (v * v + (l start).accelerationDistance2)))) (fun _ => rfl) (fun _ hp => hp)
      (fun hs => speedsOk_setStartSpeed hs (le_max_left _ _)
        (max_le (le_trans hs.1 hs.2.1) (le_trans (le_of_lt hlt) hJ.2)))
    have h2 := stepOk_modify h1 (previousPlannerIndex pl start) (fun q => q.setEndSpeed (max
      (if (l start).isNominalMove then (l start).fullSpeed
        else pl.sqrt (v * v + (l start).accelerationDistance2)) q.minSpeed)) (fun _ => rfl)
      (fun _ hp => hp)
      (fun hs => by
        obtain ⟨hf1, -, hf3, -⟩ := frame_fields (h1.1 (previousPlannerIndex pl start))
        refine speedsOk_setEndSpeed hs (le_max_right _ _) (max_le ?_ (le_trans hs.1 hs.2.1))
        rw [hf1]
        exact le_trans (le_of_lt hlt) hJ.1)
    have h3 := stepOk_modify_flags h2 (previousPlannerIndex pl start) Path.invalidateParameter
      (fun _ => rfl) (fun _ hp => hp) (fun _ hs => hs)
    exact stepOk_modify_flags h3 start Path.invalidateParameter
      (fun _ => rfl) (fun _ hp => hp) (fun _ hs => hs)

theorem stepOk_modify_of {l0 l : Nat → Path} (i : Nat) (f : Path → Path)
    (hframe : ∀ p, (f p).frame = p.frame)
    (hfix : ∀ p : Path, p.isEndSpeedFixed = true → (f p).isEndSpeedFixed = true)
    (hspeed : StepOk l0 l → (f (l i)).SpeedsOk) (h : StepOk l0 l) :
    StepOk l0 (modifyLine l i f) :=
  stepOk_modify h i f hframe hfix (fun _ => hspeed h)

/-- The speed handed to the next segment by one round of `forwardPlanner`
lies between the minimum and the full speed of that segment. -/
theorem junction_left_bounds {l0 l : Nat → Path} (h : StepOk l0 l) (act next : Nat)
    (hJ : JunctionOk (l0 act) (l0 next)) :
    (l0 next).minSpeed ≤
      max (min (l act).endSpeed (l act).maxJunctionSpeed) (l next).minSpeed ∧
    max (min (l act).endSpeed (l act).maxJunctionSpeed) (l next).minSpeed ≤
      (l0 next).fullSpeed := by
  obtain ⟨-, ha2, ha3, -⟩ := frame_fields (h.1 act)
  obtain ⟨hn1, hn2, -⟩ := frame_fields (h.1 next)
  have hs := h.2.1 next
  rw [ha3, hn2]
  refine ⟨le_max_right _ _, max_le (le_trans (min_le_right _ _) hJ.2) ?_⟩
  rw [← hn1, ← hn2]
  exact le_trans hs.1 hs.2.1

theorem forwardStep_ok (l : Nat → Path) (first : Nat) (v : ℚ) (h : ∀ j, (l j).SpeedsOk)
    (hJ : JunctionOk (l first) (l (nextPlannerIndex pl first)))
    (hv1 : (l first).minSpeed ≤ v) (hv2 : v ≤ (l first).fullSpeed) :
    StepOk l (forwardStep pl l first v).1 ∧
    (forwardStep pl l first v).2.1 = nextPlannerIndex pl first ∧
    (l (nextPlannerIndex pl first)).minSpeed ≤ (forwardStep pl l first v).2.2 ∧
    (forwardStep pl l first v).2.2 ≤ (l (nextPlannerIndex pl first)).fullSpeed := by
  have h0 := stepOk_refl l h
  have hnl : ¬ v < (l first).minSpeed := not_lt.mpr hv1
  unfold forwardStep
  dsimp only
  by_cases hc : (if (l first).isNominalMove then (l first).fullSpeed
      else pl.sqrt (v * v + (l first).accelerationDistance2)) > (l first).endSpeed
  · rw [if_pos hc]
    simp only [if_neg hnl]
    have h2 : StepOk l (modifyLine l first (fun q => q.setStartSpeed v)) :=
      stepOk_modify h0 _ _ (fun _ => rfl) (fun _ hp => hp)
        (fun hs => speedsOk_setStartSpeed hs hv1 hv2)
    obtain ⟨hb1, hb2⟩ := junction_left_bounds h2 first (nextPlannerIndex pl first) hJ
    refine ⟨?_, trivial, hb1, hb2⟩
    refine stepOk_modify_of _ _ (fun _ => rfl) (fun _ hp => hp) (fun hin => hin.2.1 _) ?_
    split_ifs
    on_goal 1 =>
      refine stepOk_modify_of _ _ (fun _ => rfl) (fun _ hp => hp) (fun hin => hin.2.1 _)
        (stepOk_modify_of _ _ (fun _ => rfl) (fun _ _ => rfl) (fun hin => hin.2.1 _) ?_)
    all_goals
      refine stepOk_modify_of _ _ (fun _ => rfl) (fun _ hp => hp) (fun hin => ?_) h2
      obtain ⟨hn1, hn2, -⟩ := frame_fields (hin.1 (nextPlannerIndex pl first))
      refine speedsOk_setStartSpeed (hin.2.1 _) ?_ ?_
      · exact hn2.le.trans hb1
      · exact hb2.trans hn1.ge
  · rw [if_neg hc]
    have hng : ¬ (l first).minSpeed > v := not_lt.mpr hv1
    have hle := not_lt.mp hc
    have e2 : (modifyLine (modifyLine l first Path.fixStartAndEndSpeed) first
        Path.invalidateParameter first).minSpeed = (l first).minSpeed := by
      rw [modifyLine_same, modifyLine_same]; rfl
    simp only [e2, if_neg hng]
    have h4 : StepOk l (modifyLine (modifyLine (modifyLine (modifyLine l first
        Path.fixStartAndEndSpeed) first Path.invalidateParameter) first
        (fun q => q.setStartSpeed v)) first (fun q => q.setEndSpeed (max q.minSpeed
          (if (l first).isNominalMove then (l first).fullSpeed
            else pl.sqrt (v * v + (l first).accelerationDistance2))))) := by
      refine stepOk_modify_of _ _ (fun _ => rfl) (fun _ hp => hp) (fun hin => ?_) ?_
      · obtain ⟨hn1, hn2, -⟩ := frame_fields (hin.1 first)
        refine speedsOk_setEndSpeed (hin.2.1 _) (le_max_left _ _) (max_le ?_ ?_)
        · rw [hn1, hn2]; exact le_trans (h first).1 (h first).2.1
        · rw [hn1]; exact le_trans hle (h first).2.2.2
      refine stepOk_modify_of _ _ (fun _ => rfl) (fun _ hp => hp) (fun hin => ?_) ?_
      · obtain ⟨hn1, hn2, -⟩ := frame_fields (hin.1 first)
        refine speedsOk_setStartSpeed (hin.2.1 _) ?_ ?_
        · rw [hn2]; exact hv1
        · rw [hn1]; exact hv2
      refine stepOk_modify_of _ _ (fun _ => rfl) (fun _ hp => hp) (fun hin => hin.2.1 _) ?_
      exact stepOk_modify_of _ _ (fun _ => rfl) (fun _ _ => rfl) (fun hin => hin.2.1 _) h0
    obtain ⟨hb1, hb2⟩ := junction_left_bounds h4 first (nextPlannerIndex pl first) hJ
    refine ⟨?_, trivial, hb1, hb2⟩
    refine stepOk_modify_of _ _ (fun _ => rfl) (fun _ hp => hp) (fun hin => hin.2.1 _) ?_
    refine stepOk_modify_of _ _ (fun _ => rfl) (fun _ hp => hp) (fun hin => ?_) h4
    obtain ⟨hn1, hn2, -⟩ := frame_fields (hin.1 (nextPlannerIndex pl first))
    refine speedsOk_setStartSpeed (hin.2.1 _) ?_ ?_
    · exact hn2.le.trans hb1
    · exact hb2.trans hn1.ge

theorem ringIndex_zero (P : Nat) (hP : P < pl.MOVE_CACHE_SIZE) : ringIndex pl P 0 = P := by
  unfold ringIndex
  simp [hP]

theorem ringIndex_lt (P o : Nat) (hP : P < pl.MOVE_CACHE_SIZE) (ho : o ≤ pl.MOVE_CACHE_SIZE) :
    ringIndex pl P o < pl.MOVE_CACHE_SIZE := by
  unfold ringIndex
  split_ifs <;> omega

theorem next_ringIndex (P o : Nat) (hP : P < pl.MOVE_CACHE_SIZE) (ho : o < pl.MOVE_CACHE_SIZE) :
    nextPlannerIndex pl (ringIndex pl P o) = ringIndex pl P (o + 1) := by
  unfold nextPlannerIndex ringIndex
  split_ifs <;> omega

theorem prev_ringIndex (P o : Nat) (hP : P < pl.MOVE_CACHE_SIZE) (ho : o < pl.MOVE_CACHE_SIZE) :
    previousPlannerIndex pl (ringIndex pl P (o + 1)) = ringIndex pl P o := by
  unfold previousPlannerIndex ringIndex
  split_ifs <;> omega

theorem ringIndex_inj (P o1 o2 : Nat) (_hP : P < pl.MOVE_CACHE_SIZE)
    (h1 : o1 < pl.MOVE_CACHE_SIZE) (h2 : o2 < pl.MOVE_CACHE_SIZE)
    (h : ringIndex pl P o1 = ringIndex pl P o2) : o1 = o2 := by
  unfold ringIndex at h
  split_ifs at h <;> omega

theorem backwardStep_start (l : Nat → Path) (start : Nat) (v : ℚ) :
    (backwardStep pl l start v).2.1 = previousPlannerIndex pl start := by
  unfold backwardStep
  dsimp only
  split_ifs <;> rfl

theorem backwardLoop_ok (P f : Nat) (hP : P < pl.MOVE_CACHE_SIZE) :
    ∀ (n fuel : Nat) (l : Nat → Path) (v : ℚ), f + n < pl.MOVE_CACHE_SIZE → n ≤ fuel →
      (∀ j, (l j).SpeedsOk) →
      (∀ o, f ≤ o → o < f + n →
        JunctionOk (l (ringIndex pl P o)) (l (ringIndex pl P (o + 1)))) →
      StepOk l (backwardLoop pl (ringIndex pl P f) fuel l (ringIndex pl P (f + n)) v) := by
  intro n
  induction n with
  | zero =>
    intro fuel l v _ _ hs _
    cases fuel with
    | zero => exact stepOk_refl l hs
    | succ k =>
      simp only [backwardLoop, Nat.add_zero, ne_eq, not_true_eq_false, if_false]
      exact stepOk_refl l hs
  | succ n ih =>
    intro fuel l v hlt hfuel hs hJ
    cases fuel with
    | zero => omega
    | succ k =>
      have hne : ringIndex pl P (f + (n + 1)) ≠ ringIndex pl P f := by
        intro he
        have := ringIndex_inj pl P _ _ hP hlt (by omega) he
        omega
      have hprev : previousPlannerIndex pl (ringIndex pl P (f + (n + 1))) =
          ringIndex pl P (f + n) := prev_ringIndex pl P (f + n) hP (by omega)
      have hstep := backwardStep_ok pl l (ringIndex pl P (f + (n + 1))) v hs
        (by rw [hprev]; exact hJ (f + n) (by omega) (by omega))
      simp only [backwardLoop, ne_eq, hne, not_false_eq_true, if_true]
      rw [backwardStep_start, hprev]
      refine stepOk_trans hstep (ih k _ _ (by omega) (by omega) hstep.2.1 ?_)
      intro o ho1 ho2
      exact junctionOk_congr (hstep.1 _) (hstep.1 _) (hJ o ho1 (by omega))

theorem forwardLoop_ok (P c : Nat) (hP : P < pl.MOVE_CACHE_SIZE) (hc : c < pl.MOVE_CACHE_SIZE) :
    ∀ (n fuel : Nat) (l : Nat → Path) (o : Nat) (v : ℚ), o + n = c → n ≤ fuel →
      (∀ j, (l j).SpeedsOk) →
      (∀ o2, o ≤ o2 → o2 < c →
        JunctionOk (l (ringIndex pl P o2)) (l (ringIndex pl P (o2 + 1)))) →
      (l (ringIndex pl P o)).minSpeed ≤ v → v ≤ (l (ringIndex pl P o)).fullSpeed →
      StepOk l (forwardLoop pl (ringIndex pl P c) fuel l (ringIndex pl P o) v) := by
  intro n
  induction n with
  | zero =>
    intro fuel l o v hoc _ hs _ hv1 hv2
    have hoc2 : o = c := by omega
    subst hoc2
    have hfin : StepOk l (modifyLine l (ringIndex pl P o)
        (fun q => q.setStartSpeed (max q.minSpeed v))) :=
      stepOk_modify (stepOk_refl l hs) _ _ (fun _ => rfl) (fun _ hp => hp)
        (fun hq => speedsOk_setStartSpeed hq (le_max_left _ _)
          (max_le (le_trans hq.1 hq.2.1) hv2))
    cases fuel with
    | zero => exact hfin
    | succ k =>
      simp only [forwardLoop, ne_eq, not_true_eq_false, if_false]
      exact hfin
  | succ n ih =>
    intro fuel l o v hoc hfuel hs hJ hv1 hv2
    cases fuel with
    | zero => omega
    | succ k =>
      have hne : ringIndex pl P o ≠ ringIndex pl P c := by
        intro he
        have := ringIndex_inj pl P _ _ hP (by omega) hc he
        omega
      have hnext : nextPlannerIndex pl (ringIndex pl P o) = ringIndex pl P (o + 1) :=
        next_ringIndex pl P o hP (by omega)
      obtain ⟨hstep, hidx, hb1, hb2⟩ := forwardStep_ok pl l (ringIndex pl P o) v hs
        (by rw [hnext]; exact hJ o (le_refl _) (by omega)) hv1 hv2
      simp only [forwardLoop, ne_eq, hne, not_false_eq_true, if_true]
      rw [hidx, hnext]
      rw [hnext] at hb1 hb2
      obtain ⟨hf1, hf2, -⟩ := frame_fields (hstep.1 (ringIndex pl P (o + 1)))
      refine stepOk_trans hstep (ih k _ (o + 1) _ (by omega) (by omega) hstep.2.1 ?_ ?_ ?_)
      · intro o2 ho1 ho2
        exact junctionOk_congr (hstep.1 _) (hstep.1 _) (hJ o2 (by omega) ho2)
      · exact hf2.le.trans hb1
      · exact hb2.trans hf1.ge

theorem flyingBlockLoop_ok (w : Nat) :
    ∀ (fuel : Nat) (l : Nat → Path) (first : Nat), (∀ j, (l j).SpeedsOk) →
      StepOk l (flyingBlockLoop pl w fuel l first).1 := by
  intro fuel
  induction fuel with
  | zero =>
    intro l first hs
    unfold flyingBlockLoop
    dsimp only
    refine stepOk_modify_of _ _ (fun _ => rfl) (fun _ hp => hp) (fun hin => hin.2.1 _) ?_
    refine stepOk_modify_of _ _ (fun _ => rfl) (fun _ hp => hp) (fun hin => hin.2.1 _) ?_
    exact stepOk_modify_of _ _ frame_updateStepsParameter fixed_updateStepsParameter
      (fun hin => speedsOk_updateStepsParameter _ (hin.2.1 _)) (stepOk_refl l hs)
  | succ n ih =>
    intro l first hs
    unfold flyingBlockLoop
    dsimp only
    have h3 : StepOk l (modifyLine (modifyLine (modifyLine l first Path.updateStepsParameter)
        first Path.unblock) (nextPlannerIndex pl first) Path.block) := by
      refine stepOk_modify_of _ _ (fun _ => rfl) (fun _ hp => hp) (fun hin => hin.2.1 _) ?_
      refine stepOk_modify_of _ _ (fun _ => rfl) (fun _ hp => hp) (fun hin => hin.2.1 _) ?_
      exact stepOk_modify_of _ _ frame_updateStepsParameter fixed_updateStepsParameter
        (fun hin => speedsOk_updateStepsParameter _ (hin.2.1 _)) (stepOk_refl l hs)
    split_ifs
    · exact stepOk_trans h3 (ih _ _ h3.2.1)
    · exact h3

theorem searchFirst_spec (P : Nat) (hP : P < pl.MOVE_CACHE_SIZE) (l : Nat → Path) :
    ∀ (n fuel : Nat), 1 + n < pl.MOVE_CACHE_SIZE → n ≤ fuel →
      ∃ f, 1 ≤ f ∧ f ≤ 1 + n ∧
        searchFirst pl l (ringIndex pl P 1) fuel (ringIndex pl P (1 + n)) = ringIndex pl P f ∧
        (∀ o, f < o → o ≤ 1 + n → (l (ringIndex pl P o)).isEndSpeedFixed = false) ∧
        (f = 1 ∨ (l (ringIndex pl P f)).isEndSpeedFixed = true) := by
  intro n
  induction n with
  | zero =>
    intro fuel _ _
    refine ⟨1, le_refl _, le_refl _, ?_, fun o h1 h2 => by omega, Or.inl rfl⟩
    cases fuel with
    | zero => rfl
    | succ k => simp [searchFirst]
  | succ n ih =>
    intro fuel hlt hfuel
    cases fuel with
    | zero => omega
    | succ k =>
      have hne : ringIndex pl P (1 + (n + 1)) ≠ ringIndex pl P 1 := by
        intro he
        have := ringIndex_inj pl P _ _ hP hlt (by omega) he
        omega
      have hprev : previousPlannerIndex pl (ringIndex pl P (1 + (n + 1))) =
          ringIndex pl P (1 + n) := prev_ringIndex pl P (1 + n) hP (by omega)
      by_cases hfix : (l (ringIndex pl P (1 + (n + 1)))).isEndSpeedFixed = true
      · refine ⟨1 + (n + 1), by omega, le_refl _, ?_, fun o h1 h2 => by omega, Or.inr hfix⟩
        simp [searchFirst, hfix]
      · obtain ⟨f, hf1, hf2, hf3, hf4, hf5⟩ := ih k (by omega) (by omega)
        rw [Bool.not_eq_true] at hfix
        refine ⟨f, hf1, by omega, ?_, fun o h1 h2 => ?_, hf5⟩
        · simp only [searchFirst, ne_eq, hne, not_false_eq_true, hfix, Bool.not_false, and_self,
            if_true]
          rw [hprev]
          exact hf3
        · by_cases ho : o = 1 + (n + 1)
          · rw [ho]; exact hfix
          · exact hf4 o h1 (by omega)

theorem plannerFirst_spec (pp : PathPlanner) (hP : pp.linesPos < pl.MOVE_CACHE_SIZE)
    (hc : pp.linesCount < pl.MOVE_CACHE_SIZE)
    (hw : pp.linesWritePos = ringIndex pl pp.linesPos pp.linesCount)
    (hnew : (pp.lines pp.linesWritePos).isEndSpeedFixed = false) :
    ∃ f, f ≤ pp.linesCount ∧ plannerFirst pl pp = ringIndex pl pp.linesPos f ∧
      (pp.linesCount = 0 ∨ 1 ≤ f) ∧
      (∀ o, f ≤ o → o ≤ pp.linesCount →
        (pp.lines (ringIndex pl pp.linesPos o)).isEndSpeedFixed = false) ∧
      (f = pp.linesCount → pp.linesCount ≤ 1 ∨
        (pp.lines (ringIndex pl pp.linesPos (pp.linesCount - 1))).isEndSpeedFixed = true) := by
  rcases Nat.eq_zero_or_pos pp.linesCount with h0 | hpos
  · -- the ring is empty: `maxfirst` is `linesWritePos` itself
    have hwP : pp.linesWritePos = pp.linesPos := by
      rw [hw, h0]; exact ringIndex_zero pl _ hP
    refine ⟨0, by omega, ?_, Or.inl h0, fun o h1 h2 => ?_, fun _ => Or.inl (by omega)⟩
    · unfold plannerFirst
      dsimp only
      rw [hwP, ringIndex_zero pl _ hP]
      have hsf : searchFirst pl pp.lines pp.linesPos pl.MOVE_CACHE_SIZE pp.linesPos =
          pp.linesPos := by
        cases pl.MOVE_CACHE_SIZE with
        | zero => rfl
        | succ k => simp [searchFirst]
      simp [hsf]
    · have ho : o = 0 := by omega
      rw [ho, ringIndex_zero pl _ hP, ← hwP]
      exact hnew
  · -- at least one segment is queued: `maxfirst` is the successor of `linesPos`
    have hne : pp.linesPos ≠ pp.linesWritePos := by
      intro he
      rw [hw] at he
      have h1 : ringIndex pl pp.linesPos 0 = ringIndex pl pp.linesPos pp.linesCount := by
        rw [ringIndex_zero pl _ hP]; exact he
      have := ringIndex_inj pl _ _ _ hP (by omega) hc h1
      omega
    obtain ⟨n, hn⟩ : ∃ n, pp.linesCount = 1 + n := ⟨pp.linesCount - 1, by omega⟩
    obtain ⟨f0, hf1, hf2, hf3, hf4, hf5⟩ := searchFirst_spec pl pp.linesPos hP pp.lines n
      pl.MOVE_CACHE_SIZE (by omega) (by omega)
    have hmax : nextPlannerIndex pl pp.linesPos = ringIndex pl pp.linesPos 1 := by
      have := next_ringIndex pl pp.linesPos 0 hP (by omega)
      rw [ringIndex_zero pl _ hP] at this
      exact this
    have hfirst0 : searchFirst pl pp.lines
        (if pp.linesPos ≠ pp.linesWritePos then nextPlannerIndex pl pp.linesPos else pp.linesPos)
        pl.MOVE_CACHE_SIZE pp.linesWritePos = ringIndex pl pp.linesPos f0 := by
      rw [if_pos hne, hmax, hw, hn]
      exact hf3
    have hnew2 : (pp.lines (ringIndex pl pp.linesPos pp.linesCount)).isEndSpeedFixed = false := by
      rw [← hw]; exact hnew
    unfold plannerFirst
    dsimp only
    rw [hfirst0]
    by_cases hcase : ringIndex pl pp.linesPos f0 ≠ pp.linesWritePos ∧
        (pp.lines (ringIndex pl pp.linesPos f0)).isEndSpeedFixed = true
    · rw [if_pos hcase]
      have hf0c : f0 ≠ pp.linesCount := by
        intro he
        apply hcase.1
        rw [hw, he]
      refine ⟨f0 + 1, by omega, next_ringIndex pl _ _ hP (by omega), Or.inr (by omega),
        fun o h1 h2 => hf4 o (by omega) (by omega), fun hfc => Or.inr ?_⟩
      have : pp.linesCount - 1 = f0 := by omega
      rw [this]
      exact hcase.2
    · rw [if_neg hcase]
      refine ⟨f0, by omega, rfl, Or.inr hf1, fun o h1 h2 => ?_, fun hfc => Or.inl ?_⟩
      · rcases Nat.lt_or_ge f0 o with hlt | hge
        · exact hf4 o hlt (by omega)
        · have hof : o = f0 := by omega
          rw [hof]
          by_cases hfw : ringIndex pl pp.linesPos f0 = pp.linesWritePos
          · rw [hfw]; exact hnew
          · have : ¬ (pp.lines (ringIndex pl pp.linesPos f0)).isEndSpeedFixed = true :=
              fun hfx => hcase ⟨hfw, hfx⟩
            simpa using this
      · rcases hf5 with h1 | hfx
        · omega
        · rw [hfc] at hfx
          rw [hnew2] at hfx
          exact absurd hfx (by decide)

theorem stepOk_junction {l l2 : Nat → Path} (h : StepOk l l2) (k k2 : Nat)
    (hJ : (l k).isEndSpeedFixed = true ∨ JunctionOk (l k) (l k2)) :
    (l2 k).isEndSpeedFixed = true ∨ JunctionOk (l2 k) (l2 k2) := by
  rcases hJ with hfx | hj
  · exact Or.inl (h.2.2 k hfx)
  · exact Or.inr (junctionOk_congr (h.1 k) (h.1 k2) hj)

theorem computeMaxJunctionSpeed_junctionOk (cfg : Config) (previous current : Path)
    (hcfg : cfg.Ok) (h0 : 0 ≤ previous.fullSpeed) :
    JunctionOk (computeMaxJunctionSpeed pl cfg previous current) current := by
  obtain ⟨hJ, hZ, hE⟩ := hcfg
  unfold computeMaxJunctionSpeed
  dsimp only
  set jerk := pl.sqrt ((current.speedX - previous.speedX) * (current.speedX - previous.speedX) +
        (current.speedY - previous.speedY) * (current.speedY - previous.speedY)) with hjerk
  set F0 : ℚ := if jerk > cfg.maxJerk then cfg.maxJerk / jerk else 1 with hF0
  have hF0' : F0 ≤ 1 := by
    rw [hF0]
    split_ifs with h
    · have hpos : 0 < jerk := lt_of_le_of_lt hJ h
      rw [div_le_one hpos]
      exact le_of_lt h
    · exact le_refl _
  set F1 : ℚ := if (previous.dir ||| current.dir) &&& 64 ≠ 0 then
      (if |current.speedZ - previous.speedZ| > cfg.maxZJerk then
        min F0 (cfg.maxZJerk / |current.speedZ - previous.speedZ|) else F0) else F0 with hF1
  have hF1' : F1 ≤ 1 := by
    rw [hF1]
    split_ifs
    · exact le_trans (min_le_left _ _) hF0'
    · exact hF0'
    · exact hF0'
  set F2 : ℚ := if |current.speedE - previous.speedE| > cfg.currentExtruder.maxStartFeedrate then
      min F1 (cfg.currentExtruder.maxStartFeedrate / |current.speedE - previous.speedE|)
      else F1 with hF2
  have hF2' : F2 ≤ 1 := by
    rw [hF2]
    split_ifs
    · exact le_trans (min_le_left _ _) hF1'
    · exact hF1'
  refine ⟨?_, min_le_right _ _⟩
  show min (previous.fullSpeed * F2) current.fullSpeed ≤ previous.fullSpeed
  calc min (previous.fullSpeed * F2) current.fullSpeed ≤ previous.fullSpeed * F2 := min_le_left _ _
    _ ≤ previous.fullSpeed * 1 := mul_le_mul_of_nonneg_left hF2' h0
    _ = previous.fullSpeed := mul_one _

/-- The planner keeps (I3) in every slot and the junction invariant of the
ring, which after the call covers the junction in front of the new segment
as well. -/
theorem updateTrapezoids_inv (pp : PathPlanner) (hcfg : pp.config.Ok)
    (hP : pp.linesPos < pl.MOVE_CACHE_SIZE) (hc : pp.linesCount < pl.MOVE_CACHE_SIZE)
    (hw : pp.linesWritePos = ringIndex pl pp.linesPos pp.linesCount)
    (hnew : (pp.lines pp.linesWritePos).isEndSpeedFixed = false)
    (hs : ∀ j, (pp.lines j).SpeedsOk) (hfull : ∀ j, 0 ≤ (pp.lines j).fullSpeed)
    (hJ : ∀ o, 1 ≤ o → o + 1 < pp.linesCount →
      (pp.lines (ringIndex pl pp.linesPos o)).isEndSpeedFixed = true ∨
        JunctionOk (pp.lines (ringIndex pl pp.linesPos o))
          (pp.lines (ringIndex pl pp.linesPos (o + 1)))) :
    (∀ j, ((updateTrapezoids pl pp).lines j).SpeedsOk) ∧
    (∀ o, 1 ≤ o → o + 1 < pp.linesCount + 1 →
      ((updateTrapezoids pl pp).lines (ringIndex pl pp.linesPos o)).isEndSpeedFixed = true ∨
        JunctionOk ((updateTrapezoids pl pp).lines (ringIndex pl pp.linesPos o))
          ((updateTrapezoids pl pp).lines (ringIndex pl pp.linesPos (o + 1)))) := by
  obtain ⟨f, hfc, hfirst, hf1, hunfixed, hfixprev⟩ := plannerFirst_spec pl pp hP hc hw hnew
  have h0 := stepOk_refl pp.lines hs
  -- what a part of the planner that leaves the junction speeds alone gives
  have fin : ∀ l2 : Nat → Path, StepOk pp.lines l2 →
      (pp.linesCount ≤ 1 ∨
        (l2 (ringIndex pl pp.linesPos (pp.linesCount - 1))).isEndSpeedFixed = true) →
      (∀ j, (l2 j).SpeedsOk) ∧
      (∀ o, 1 ≤ o → o + 1 < pp.linesCount + 1 →
        (l2 (ringIndex pl pp.linesPos o)).isEndSpeedFixed = true ∨
          JunctionOk (l2 (ringIndex pl pp.linesPos o)) (l2 (ringIndex pl pp.linesPos (o + 1)))) := by
    intro l2 hl2 hlast
    refine ⟨hl2.2.1, fun o ho1 ho2 => ?_⟩
    rcases Nat.lt_or_ge (o + 1) pp.linesCount with hlt | hge
    · exact stepOk_junction hl2 _ _ (hJ o ho1 hlt)
    · have ho : o = pp.linesCount - 1 := by omega
      rcases hlast with h1 | hfx
      · omega
      · rw [ho]; exact Or.inl hfx
  unfold updateTrapezoids
  dsimp only
  rw [hfirst]
  by_cases hfw : ringIndex pl pp.linesPos f = pp.linesWritePos
  · -- nothing to plan
    rw [if_pos hfw]
    dsimp only
    have hfc2 : f = pp.linesCount := by
      rw [hw] at hfw
      exact ringIndex_inj pl _ _ _ hP (by omega) hc hfw
    refine fin _ ?_ ?_
    · exact stepOk_modify_of _ _ (fun q => (frame_updateStepsParameter _).trans rfl)
        (fun q hq => fixed_updateStepsParameter _ hq)
        (fun hin => speedsOk_updateStepsParameter _ (hin.2.1 _)) h0
    · by_cases hc1 : pp.linesCount ≤ 1
      · exact Or.inl hc1
      · rcases hfixprev hfc2 with h1 | hfx
        · exact Or.inl h1
        · right
          have hne : ringIndex pl pp.linesPos (pp.linesCount - 1) ≠ pp.linesWritePos := by
            intro he
            rw [hw] at he
            have := ringIndex_inj pl _ _ _ hP (by omega) hc he
            omega
          rw [modifyLine_ne _ _ _ _ hne]
          exact hfx
  · rw [if_neg hfw]
    have hflt : f < pp.linesCount := by
      rcases Nat.lt_or_ge f pp.linesCount with h | h
      · exact h
      · exfalso
        apply hfw
        have : f = pp.linesCount := by omega
        rw [this, hw]
    have hcpos : 1 ≤ pp.linesCount := by omega
    have hf1' : 1 ≤ f := by rcases hf1 with h | h <;> omega
    have hprev : previousPlannerIndex pl pp.linesWritePos =
        ringIndex pl pp.linesPos (pp.linesCount - 1) := by
      rw [hw]
      have := prev_ringIndex pl pp.linesPos (pp.linesCount - 1) hP (by omega)
      rw [show pp.linesCount - 1 + 1 = pp.linesCount by omega] at this
      exact this
    have hpw : ringIndex pl pp.linesPos (pp.linesCount - 1) ≠ pp.linesWritePos := by
      intro he
      rw [hw] at he
      have := ringIndex_inj pl _ _ _ hP (by omega) hc he
      omega
    rw [hprev]
    set first := ringIndex pl pp.linesPos f with hfirstdef
    set prev := ringIndex pl pp.linesPos (pp.linesCount - 1) with hprevdef
    set w := pp.linesWritePos with hwdef
    have h1 : StepOk pp.lines (modifyLine pp.lines first Path.block) :=
      stepOk_modify_of _ _ (fun _ => rfl) (fun _ hq => hq) (fun hin => hin.2.1 _) h0
    set lines1 := modifyLine pp.lines first Path.block with hlines1
    by_cases hz : ((lines1 prev).primaryAxis = Z_AXIS ∧ (lines1 w).primaryAxis ≠ Z_AXIS) ∨
        ((lines1 prev).primaryAxis ≠ Z_AXIS ∧ (lines1 w).primaryAxis = Z_AXIS)
    · -- the filter between Z moves and other moves
      rw [if_pos hz]
      dsimp only
      have hA : StepOk pp.lines (modifyLine lines1 prev (fun q => q.setEndSpeedFixed true)) :=
        stepOk_modify_of _ _ (fun _ => rfl) (fun _ _ => rfl) (fun hin => hin.2.1 _) h1
      have hAfix : (modifyLine lines1 prev (fun q => q.setEndSpeedFixed true)
          prev).isEndSpeedFixed = true := by
        rw [modifyLine_same]; rfl
      have hB : StepOk (modifyLine lines1 prev (fun q => q.setEndSpeedFixed true))
          (modifyLine (modifyLine (modifyLine (modifyLine lines1 prev
            (fun q => q.setEndSpeedFixed true)) w (fun q => q.setStartSpeedFixed true)) w
            Path.updateStepsParameter) first Path.unblock) := by
        refine stepOk_modify_of _ _ (fun _ => rfl) (fun _ hq => hq) (fun hin => hin.2.1 _) ?_
        refine stepOk_modify_of _ _ frame_updateStepsParameter fixed_updateStepsParameter
          (fun hin => speedsOk_updateStepsParameter _ (hin.2.1 _)) ?_
        exact stepOk_modify_of _ _ (fun _ => rfl) (fun _ hq => hq) (fun hin => hin.2.1 _)
          (stepOk_refl _ hA.2.1)
      exact fin _ (stepOk_trans hA hB) (Or.inr (hB.2.2 prev hAfix))
    · rw [if_neg hz]
      set lines2 := modifyLine lines1 prev
        (fun q => computeMaxJunctionSpeed pl pp.config q (lines1 w)) with hlines2
      -- the facts about the ring after `computeMaxJunctionSpeed`
      have hl2w : lines2 w = lines1 w := modifyLine_ne _ _ _ _ (Ne.symm hpw)
      have B1 : ∀ j, (lines2 j).SpeedsOk := by
        intro j
        by_cases hj : j = prev
        · rw [hj, hlines2, modifyLine_same]; exact h1.2.1 prev
        · rw [hlines2, modifyLine_ne _ _ _ _ hj]; exact h1.2.1 j
      have B2 : ∀ j, (lines2 j).isEndSpeedFixed = (pp.lines j).isEndSpeedFixed := by
        intro j
        have e1 : (lines1 j).isEndSpeedFixed = (pp.lines j).isEndSpeedFixed := by
          by_cases hj : j = first
          · rw [hj, hlines1, modifyLine_same]; rfl
          · rw [hlines1, modifyLine_ne _ _ _ _ hj]
        by_cases hj : j = prev
        · rw [hj] at e1
          rw [hj, hlines2, modifyLine_same, ← e1]; rfl
        · rw [hlines2, modifyLine_ne _ _ _ _ hj]; exact e1
      have B3 : ∀ o, 1 ≤ o → o + 1 < pp.linesCount →
          (lines2 (ringIndex pl pp.linesPos o)).isEndSpeedFixed = true ∨
            JunctionOk (lines2 (ringIndex pl pp.linesPos o))
              (lines2 (ringIndex pl pp.linesPos (o + 1))) := by
        intro o ho1 ho2
        rcases hJ o ho1 ho2 with hfx | hj
        · left; rw [B2]; exact hfx
        · right
          have hne : ringIndex pl pp.linesPos o ≠ prev := by
            intro he
            have := ringIndex_inj pl _ _ _ hP (by omega) (by omega) he
            omega
          have hja := junctionOk_congr (h1.1 (ringIndex pl pp.linesPos o))
            (h1.1 (ringIndex pl pp.linesPos (o + 1))) hj
          rw [hlines2, modifyLine_ne _ _ _ _ hne]
          refine ⟨hja.1, ?_⟩
          by_cases hb : ringIndex pl pp.linesPos (o + 1) = prev
          · rw [hb, modifyLine_same]
            rw [hb] at hja
            exact hja.2
          · rw [modifyLine_ne _ _ _ _ hb]
            exact hja.2
      have B4 : JunctionOk (lines2 prev) (lines2 w) := by
        rw [hl2w, hlines2, modifyLine_same]
        refine computeMaxJunctionSpeed_junctionOk pl _ _ _ hcfg ?_
        rw [(frame_fields (h1.1 prev)).1]
        exact hfull prev
      have fin2 : ∀ l3 : Nat → Path, StepOk lines2 l3 →
          ((l3 prev).isEndSpeedFixed = true ∨ JunctionOk (l3 prev) (l3 w)) →
          (∀ j, (l3 j).SpeedsOk) ∧
          (∀ o, 1 ≤ o → o + 1 < pp.linesCount + 1 →
            (l3 (ringIndex pl pp.linesPos o)).isEndSpeedFixed = true ∨
              JunctionOk (l3 (ringIndex pl pp.linesPos o))
                (l3 (ringIndex pl pp.linesPos (o + 1)))) := by
        intro l3 hl3 hlast
        refine ⟨hl3.2.1, fun o ho1 ho2 => ?_⟩
        rcases Nat.lt_or_ge (o + 1) pp.linesCount with hlt | hge
        · exact stepOk_junction hl3 _ _ (B3 o ho1 hlt)
        · have ho : o = pp.linesCount - 1 := by omega
          have ho' : o + 1 = pp.linesCount := by omega
          rw [ho', ← hw, ho]
          exact hlast
      by_cases he : (lines2 prev).isEOnlyMove ≠ (lines2 w).isEOnlyMove
      · -- the filter between pure extruder moves and other moves
        rw [if_pos he]
        dsimp only
        have hA : StepOk lines2 (modifyLine lines2 prev (fun q => q.setEndSpeedFixed true)) :=
          stepOk_modify_of _ _ (fun _ => rfl) (fun _ _ => rfl) (fun hin => hin.2.1 _)
            (stepOk_refl _ B1)
        have hAfix : (modifyLine lines2 prev (fun q => q.setEndSpeedFixed true)
            prev).isEndSpeedFixed = true := by
          rw [modifyLine_same]; rfl
        have hB : StepOk (modifyLine lines2 prev (fun q => q.setEndSpeedFixed true))
            (modifyLine (modifyLine (modifyLine (modifyLine lines2 prev
              (fun q => q.setEndSpeedFixed true)) w (fun q => q.setStartSpeedFixed true)) w
              Path.updateStepsParameter) first Path.unblock) := by
          refine stepOk_modify_of _ _ (fun _ => rfl) (fun _ hq => hq) (fun hin => hin.2.1 _) ?_
          refine stepOk_modify_of _ _ frame_updateStepsParameter fixed_updateStepsParameter
            (fun hin => speedsOk_updateStepsParameter _ (hin.2.1 _)) ?_
          exact stepOk_modify_of _ _ (fun _ => rfl) (fun _ hq => hq) (fun hin => hin.2.1 _)
            (stepOk_refl _ hA.2.1)
        exact fin2 _ (stepOk_trans hA hB) (Or.inl (hB.2.2 prev hAfix))
      · -- the backward and the forward pass
        rw [if_neg he]
        dsimp only
        have hJ2 : ∀ o, f ≤ o → o < pp.linesCount →
            JunctionOk (lines2 (ringIndex pl pp.linesPos o))
              (lines2 (ringIndex pl pp.linesPos (o + 1))) := by
          intro o ho1 ho2
          rcases Nat.lt_or_ge (o + 1) pp.linesCount with hlt | hge
          · rcases B3 o (by omega) hlt with hfx | hj
            · rw [B2, hunfixed o ho1 (by omega)] at hfx
              exact absurd hfx (by decide)
            · exact hj
          · have ho : o = pp.linesCount - 1 := by omega
            have ho' : o + 1 = pp.linesCount := by omega
            rw [ho', ← hw, ho]
            exact B4
        obtain ⟨n, hn⟩ : ∃ n, pp.linesCount = f + n := ⟨pp.linesCount - f, by omega⟩
        have hwn : w = ringIndex pl pp.linesPos (f + n) := by rw [← hn]; exact hw
        have hback : StepOk lines2 (backwardPlanner pl lines2 w first) := by
          unfold backwardPlanner
          rw [hwn]
          exact backwardLoop_ok pl pp.linesPos f hP n _ lines2 _ (by omega) (by omega) B1
            (fun o ho1 ho2 => hJ2 o ho1 (by omega))
        set lines3 := backwardPlanner pl lines2 w first with hl3
        have hfwd : StepOk lines3 (forwardPlanner pl lines3 w first) := by
          unfold forwardPlanner
          rw [hw]
          refine forwardLoop_ok pl pp.linesPos pp.linesCount hP hc n _ lines3 f _ (by omega)
            (by omega) hback.2.1 (fun o ho1 ho2 => ?_) (hback.2.1 first).1 (hback.2.1 first).2.1
          exact junctionOk_congr (hback.1 _) (hback.1 _) (hJ2 o ho1 ho2)
        set lines4 := forwardPlanner pl lines3 w first with hl4
        have hfly := flyingBlockLoop_ok pl w (pl.MOVE_CACHE_SIZE - 1) lines4 first hfwd.2.1
        have hend : StepOk (flyingBlockLoop pl w (pl.MOVE_CACHE_SIZE - 1) lines4 first).1
            (modifyLine (modifyLine (flyingBlockLoop pl w (pl.MOVE_CACHE_SIZE - 1) lines4 first).1
              w Path.updateStepsParameter) w Path.unblock) := by
          refine stepOk_modify_of _ _ (fun _ => rfl) (fun _ hq => hq) (fun hin => hin.2.1 _) ?_
          exact stepOk_modify_of _ _ frame_updateStepsParameter fixed_updateStepsParameter
            (fun hin => speedsOk_updateStepsParameter _ (hin.2.1 _)) (stepOk_refl _ hfly.2.1)
        have hall := stepOk_trans (stepOk_trans (stepOk_trans hback hfwd) hfly) hend
        exact fin2 _ hall (Or.inr (junctionOk_congr (hall.1 _) (hall.1 _) B4))

/-! The bounds on the number of rounds of the loops of the planner are never
reached: further rounds change nothing. -/

theorem forwardStep_first (l : Nat → Path) (first : Nat) (v : ℚ) :
    (forwardStep pl l first v).2.1 = nextPlannerIndex pl first := by
  unfold forwardStep
  dsimp only
  split_ifs <;> rfl

theorem backwardLoop_fuel (P f : Nat) (hP : P < pl.MOVE_CACHE_SIZE) :
    ∀ (n k : Nat) (l : Nat → Path) (v : ℚ), f + n < pl.MOVE_CACHE_SIZE →
      backwardLoop pl (ringIndex pl P f) (n + k) l (ringIndex pl P (f + n)) v =
        backwardLoop pl (ringIndex pl P f) n l (ringIndex pl P (f + n)) v := by
  intro n
  induction n with
  | zero =>
    intro k l v _
    cases k with
    | zero => rfl
    | succ k => simp [backwardLoop]
  | succ n ih =>
    intro k l v hlt
    have hne : ringIndex pl P (f + (n + 1)) ≠ ringIndex pl P f := by
      intro he
      have := ringIndex_inj pl P _ _ hP hlt (by omega) he
      omega
    have hprev : previousPlannerIndex pl (ringIndex pl P (f + (n + 1))) =
        ringIndex pl P (f + n) := prev_ringIndex pl P (f + n) hP (by omega)
    rw [show n + 1 + k = (n + k) + 1 by omega]
    simp only [backwardLoop, ne_eq, hne, not_false_eq_true, if_true]
    rw [backwardStep_start, hprev]
    exact ih k _ _ (by omega)

theorem forwardLoop_fuel (P c : Nat) (hP : P < pl.MOVE_CACHE_SIZE) (hc : c < pl.MOVE_CACHE_SIZE) :
    ∀ (n k : Nat) (l : Nat → Path) (o : Nat) (v : ℚ), o + n = c →
      forwardLoop pl (ringIndex pl P c) (n + k) l (ringIndex pl P o) v =
        forwardLoop pl (ringIndex pl P c) n l (ringIndex pl P o) v := by
  intro n
  induction n with
  | zero =>
    intro k l o v hoc
    have hoc2 : o = c := by omega
    subst hoc2
    cases k with
    | zero => rfl
    | succ k => simp [forwardLoop]
  | succ n ih =>
    intro k l o v hoc
    have hne : ringIndex pl P o ≠ ringIndex pl P c := by
      intro he
      have := ringIndex_inj pl P _ _ hP (by omega) hc he
      omega
    have hnext : nextPlannerIndex pl (ringIndex pl P o) = ringIndex pl P (o + 1) :=
      next_ringIndex pl P o hP (by omega)
    rw [show n + 1 + k = (n + k) + 1 by omega]
    simp only [forwardLoop, ne_eq, hne, not_false_eq_true, if_true]
    rw [forwardStep_first, hnext]
    exact ih k _ _ _ (by omega)

theorem flyingBlockLoop_fuel (P c : Nat) (hP : P < pl.MOVE_CACHE_SIZE)
    (hc : c < pl.MOVE_CACHE_SIZE) :
    ∀ (n k : Nat) (l : Nat → Path) (o : Nat), o + n + 1 = c →
      flyingBlockLoop pl (ringIndex pl P c) (n + k) l (ringIndex pl P o) =
        flyingBlockLoop pl (ringIndex pl P c) n l (ringIndex pl P o) := by
  intro n
  induction n with
  | zero =>
    intro k l o hoc
    have hnext : nextPlannerIndex pl (ringIndex pl P o) = ringIndex pl P c := by
      rw [next_ringIndex pl P o hP (by omega), hoc]
    cases k with
    | zero => rfl
    | succ k =>
      rw [show 0 + (k + 1) = k + 1 by omega]
      unfold flyingBlockLoop
      simp only [hnext, ne_eq, not_true_eq_false, if_false]
  | succ n ih =>
    intro k l o hoc
    have hnext : nextPlannerIndex pl (ringIndex pl P o) = ringIndex pl P (o + 1) :=
      next_ringIndex pl P o hP (by omega)
    have hne : ringIndex pl P (o + 1) ≠ ringIndex pl P c := by
      intro he
      have := ringIndex_inj pl P _ _ hP (by omega) hc he
      omega
    rw [show n + 1 + k = (n + k) + 1 by omega]
    rw [flyingBlockLoop, flyingBlockLoop]
    simp only [hnext, ne_eq, hne, not_false_eq_true, if_true]
    exact ih k _ _ (by omega)

theorem searchFirst_fuel (P : Nat) (hP : P < pl.MOVE_CACHE_SIZE) (l : Nat → Path) :
    ∀ (n k : Nat), 1 + n < pl.MOVE_CACHE_SIZE →
      searchFirst pl l (ringIndex pl P 1) (n + k) (ringIndex pl P (1 + n)) =
        searchFirst pl l (ringIndex pl P 1) n (ringIndex pl P (1 + n)) := by
  intro n
  induction n with
  | zero =>
    intro k _
    cases k with
    | zero => rfl
    | succ k => simp [searchFirst]
  | succ n ih =>
    intro k hlt
    have hprev : previousPlannerIndex pl (ringIndex pl P (1 + (n + 1))) =
        ringIndex pl P (1 + n) := prev_ringIndex pl P (1 + n) hP (by omega)
    rw [show n + 1 + k = (n + k) + 1 by omega]
    simp only [searchFirst]
    rw [hprev, ih k (by omega)]

end Passes

/-! ## The invariant of the reachable planner states -/

section Invariant

variable (pl : Platform)

theorem modifyLine_modifyLine (l : Nat → Path) (i : Nat) (f g : Path → Path) :
    modifyLine (modifyLine l i f) i g = modifyLine l i (fun p => g (f p)) := by
  funext j
  by_cases hj : j = i
  · subst hj
    simp only [modifyLine_same]
  · simp only [modifyLine_ne _ _ _ _ hj]

theorem moveDistance_nonneg (p : Path) (diff : Axis → ℚ) : 0 ≤ moveDistance pl p diff := by
  unfold moveDistance
  dsimp only
  split_ifs
  · exact le_trans (abs_nonneg _) (le_max_right _ _)
  · exact le_trans (abs_nonneg _) (le_max_right _ _)
  · exact abs_nonneg _

theorem safeSpeed_le (cfg : Config) (p : Path) : safeSpeed cfg p ≤ p.fullSpeed := by
  unfold safeSpeed
  exact min_le_right _ _

theorem safeSpeed_nonneg (cfg : Config) (p : Path) (hcfg : cfg.Ok) (hf : 0 ≤ p.fullSpeed) :
    0 ≤ safeSpeed cfg p := by
  obtain ⟨hJ, hZ, hE⟩ := hcfg
  unfold safeSpeed
  dsimp only
  have s0 : 0 ≤ cfg.maxJerk * (1 / 2) := by positivity
  have sz : 0 ≤ cfg.maxZJerk * (1 / 2) * p.fullSpeed / |p.speedZ| := by positivity
  have se : 0 ≤ (1 / 2) * cfg.currentExtruder.maxStartFeedrate * p.fullSpeed / |p.speedE| := by
    positivity
  have se2 : 0 ≤ (1 / 2) * cfg.currentExtruder.maxStartFeedrate := by positivity
  refine le_min ?_ hf
  set safe1 : ℚ := if p.isZMove then
      if p.primaryAxis = Z_AXIS then
        cfg.maxZJerk * (1 / 2) * p.fullSpeed / |p.speedZ|
      else if |p.speedZ| > cfg.maxZJerk * (1 / 2) then
        min (cfg.maxJerk * (1 / 2)) (cfg.maxZJerk * (1 / 2) * p.fullSpeed / |p.speedZ|)
      else cfg.maxJerk * (1 / 2)
    else cfg.maxJerk * (1 / 2) with hs1
  have h1 : 0 ≤ safe1 := by
    rw [hs1]
    split_ifs
    · exact sz
    · exact le_min s0 sz
    · exact s0
    · exact s0
  clear_value safe1
  set safe2 : ℚ := if p.isEMove then
      if p.isXYZMove then
        min safe1 ((1 / 2) * cfg.currentExtruder.maxStartFeedrate * p.fullSpeed / |p.speedE|)
      else
        (1 / 2) * cfg.currentExtruder.maxStartFeedrate
    else safe1 with hs2
  have h2 : 0 ≤ safe2 := by
    rw [hs2]
    split_ifs
    · exact le_min h1 se
    · exact se2
    · exact h1
  clear_value safe2
  split_ifs
  · exact le_trans h2 (le_max_right _ _)
  · exact le_trans h2 (le_max_right _ _)
  · exact h2

/-- What `calculateMove` stores in the slot, as far as the invariants of the
planner are concerned. -/
theorem calculateMoveSegment_planner (cfg : Config) (p : Path) (diff : Axis → ℚ) :
    (calculateMoveSegment pl cfg p diff).startSpeed = (calculateMoveSegment pl cfg p diff).minSpeed ∧
    (calculateMoveSegment pl cfg p diff).endSpeed = (calculateMoveSegment pl cfg p diff).minSpeed ∧
    (calculateMoveSegment pl cfg p diff).minSpeed ≤ (calculateMoveSegment pl cfg p diff).fullSpeed ∧
    (calculateMoveSegment pl cfg p diff).joinFlags = p.joinFlags ∧
    (calculateMoveSegment pl cfg p diff).error E_AXIS = p.error E_AXIS ∧
    (cfg.Ok → 0 ≤ p.distance → 0 ≤ (calculateMoveSegment pl cfg p diff).minSpeed) ∧
    (p.isNominalMove = false → (calculateMoveSegment pl cfg p diff).isNominalMove = true →
      (calculateMoveSegment pl cfg p diff).fullSpeed * (calculateMoveSegment pl cfg p diff).fullSpeed ≤
        (calculateMoveSegment pl cfg p diff).minSpeed * (calculateMoveSegment pl cfg p diff).minSpeed +
          (calculateMoveSegment pl cfg p diff).accelerationDistance2) := by
  unfold calculateMoveSegment
  simp only [markNominal_eq]
  refine ⟨trivial, trivial, safeSpeed_le _ _, trivial, ?_, ?_, ?_⟩
  · simp
  · intro hcfg hd
    refine safeSpeed_nonneg _ _ hcfg ?_
    dsimp only
    exact mul_nonneg hd (div_nonneg (Nat.cast_nonneg _) (mul_nonneg (Nat.cast_nonneg _)
      (Nat.cast_nonneg _)))
  · intro hn
    unfold Path.isNominalMove at hn ⊢
    dsimp only
    rw [hn, Bool.false_or, decide_eq_true_eq]
    exact fun h => h

theorem nominalOk_of_kin {a b : Path} (h : a.kin = b.kin) (hb : b.NominalOk) : a.NominalOk := by
  obtain ⟨-, -, -, -, h5, -, h7, h8, h9, -⟩ := kin_speeds h
  unfold Path.NominalOk Path.isNominalMove at hb ⊢
  rw [h5, h7, h8, h9]
  exact hb

theorem shape_of_kin {a b : Path} (h : a.kin = b.kin) (hb : b.Shape) : a.Shape := by
  obtain ⟨-, -, -, -, -, -, -, -, -, h10⟩ := kin_speeds h
  obtain ⟨g1, g2, g3, g4⟩ := kin_geometry h
  unfold Path.Shape Path.isEMove Path.isMoveOfAxis at hb ⊢
  rw [h10, g1, g2, g3, g4]
  exact hb

theorem speedsOk_nonneg {p : Path} (h1 : p.SpeedsOk) (h2 : p.NominalOk) : 0 ≤ p.fullSpeed :=
  le_trans h2.1 (le_trans h1.1 h1.2.1)

theorem preparedSegment_flags (pp : PathPlanner) (ad ns : Axis → ℚ) (speed : ℚ) (c o : Bool) :
    (preparedSegment pl pp ad ns speed c o).isNominalMove = false ∧
    (preparedSegment pl pp ad ns speed c o).joinFlags = {} := by
  unfold preparedSegment queueMovePrepare
  rw [queueMoveInit_eq]
  exact ⟨rfl, rfl⟩

/-- The segment that `queueMove` admits satisfies the invariants of a slot,
and its end speed is not fixed. -/
theorem admittedSegment_inv (pp : PathPlanner) (ad ns : Axis → ℚ) (speed : ℚ) (c o : Bool)
    (hcfg : pp.config.Ok) (he : (pp.lines pp.linesWritePos).error E_AXIS = 0) :
    (admittedSegment pl pp ad ns speed c o).SpeedsOk ∧
    (admittedSegment pl pp ad ns speed c o).NominalOk ∧
    (admittedSegment pl pp ad ns speed c o).Shape ∧
    (admittedSegment pl pp ad ns speed c o).isEndSpeedFixed = false := by
  obtain ⟨p1, p2⟩ := admittedSegment_primaryAxis pl pp ad ns speed c o
  have hdelta := admittedSegment_delta pl pp ad ns speed c o
  obtain ⟨f1, f2⟩ := preparedSegment_flags pl pp ad ns speed c o
  obtain ⟨-, -, -, f4, -⟩ := preparedSegment_fields pl pp ad ns speed c o
  have hdist : 0 ≤ (preparedSegment pl pp ad ns speed c o).distance := by
    rw [preparedSegment_distance]
    exact moveDistance_nonneg pl _ _
  obtain ⟨-, -, -, g4, -⟩ := calculateMoveSegment_geometry pl pp.config
    (preparedSegment pl pp ad ns speed c o) (fun i => ad i * 1000)
  obtain ⟨c1, c2, c3, c4, c5, c6, c7⟩ := calculateMoveSegment_planner pl pp.config
    (preparedSegment pl pp ad ns speed c o) (fun i => ad i * 1000)
  have hmoves : ∀ i : Axis, (admittedSegment pl pp ad ns speed c o).isMoveOfAxis i =
      decide ((admittedSegment pl pp ad ns speed c o).delta i ≠ 0) := by
    intro i
    rw [hdelta i, ← (preparedSegment_moves pl pp ad ns speed c o i).1]
    unfold Path.isMoveOfAxis admittedSegment
    rw [g4]
  refine ⟨?_, ?_, ?_, ?_⟩
  · unfold admittedSegment Path.SpeedsOk
    rw [c1, c2]
    exact ⟨le_refl _, c3, le_refl _, c3⟩
  · unfold admittedSegment Path.NominalOk
    exact ⟨c6 hcfg hdist, c7 f1⟩
  · refine ⟨hmoves, fun i => ?_, ?_, fun _ => p2⟩
    · rw [p1]
      exact selectPrimaryAxis_max _ i
    · unfold admittedSegment
      rw [c5, f4]
      exact he
  · unfold admittedSegment Path.isEndSpeedFixed
    rw [c4, f2]

theorem queueMoveInit_inv (p : Path) (ad ns : Axis → ℚ) (speed : ℚ) (c o : Bool)
    (h1 : p.SpeedsOk) (h2 : p.NominalOk) (h3 : p.error E_AXIS = 0)
    (hno : (queueMoveInit pl p ad ns speed c o).isNoMove = true) :
    (queueMoveInit pl p ad ns speed c o).SpeedsOk ∧
    (queueMoveInit pl p ad ns speed c o).NominalOk ∧
    (queueMoveInit pl p ad ns speed c o).Shape := by
  have hmv := queueMoveInit_isMoveOfAxis pl p ad ns speed c o
  have hd := queueMoveInit_delta pl p ad ns speed c o
  have hz : ∀ i : Axis, toUnsigned (ns i) = 0 := by
    unfold Path.isNoMove Path.isXMove Path.isYMove Path.isZMove Path.isEMove at hno
    simp only [hmv] at hno
    intro i
    rcases axis_cases i with h | h | h | h <;> subst h <;> simp_all
  have hE : (queueMoveInit pl p ad ns speed c o).isEMove = false := by
    unfold Path.isEMove
    rw [hmv, hz]
    rfl
  refine ⟨?_, ?_, fun i => ?_, fun i => ?_, ?_, ?_⟩
  · rw [queueMoveInit_eq]
    exact h1
  · rw [queueMoveInit_eq]
    exact ⟨h2.1, fun hn => absurd hn Bool.false_ne_true⟩
  · rw [hmv, hd]
  · rw [hd, hd, hz, hz]
  · rw [queueMoveInit_eq]
    exact h3
  · rw [hE]
    exact fun h => absurd h Bool.false_ne_true

theorem queueMove_stop (pp : PathPlanner) (ad ns : Axis → ℚ) (speed : ℚ) (c o : Bool)
    (hstop : pp.stop = true) : queueMove pl pp ad ns speed c o = pp := by
  unfold queueMove
  rw [if_pos hstop]

theorem queueMove_drop (pp : PathPlanner) (ad ns : Axis → ℚ) (speed : ℚ) (c o : Bool)
    (hstop : ¬ pp.stop = true)
    (hno : (queueMoveInit pl (pp.lines pp.linesWritePos) (fun i => ad i * 1000) ns speed
      c o).isNoMove = true) :
    queueMove pl pp ad ns speed c o =
      { pp with
        lines := modifyLine pp.lines pp.linesWritePos
          (fun p => queueMoveInit pl p (fun i => ad i * 1000) ns speed c o) } := by
  unfold queueMove
  rw [if_neg hstop]
  dsimp only
  rw [modifyLine_same, if_pos hno]

theorem queueMove_admitted (pp : PathPlanner) (ad ns : Axis → ℚ) (speed : ℚ) (c o : Bool)
    (hstop : ¬ pp.stop = true)
    (hno : ¬ (queueMoveInit pl (pp.lines pp.linesWritePos) (fun i => ad i * 1000) ns speed
      c o).isNoMove = true) :
    queueMove pl pp ad ns speed c o =
      { updateTrapezoids pl
          { pp with
            lines := Function.update pp.lines pp.linesWritePos
              (admittedSegment pl pp ad ns speed c o) } with
        linesWritePos :=
          if pp.linesWritePos + 1 ≥ pl.MOVE_CACHE_SIZE then 0 else pp.linesWritePos + 1
        linesCount := pp.linesCount + 1 } := by
  have hl : modifyLine (modifyLine (modifyLine pp.lines pp.linesWritePos
        (fun p => queueMoveInit pl p (fun i => ad i * 1000) ns speed c o)) pp.linesWritePos
        (fun p => queueMovePrepare pl p (fun i => ad i * 1000))) pp.linesWritePos
        (fun p => calculateMoveSegment pl pp.config p (fun i => ad i * 1000)) =
      Function.update pp.lines pp.linesWritePos (admittedSegment pl pp ad ns speed c o) := by
    rw [modifyLine_modifyLine, modifyLine_modifyLine]
    rfl
  unfold queueMove
  rw [if_neg hstop]
  dsimp only
  rw [modifyLine_same, if_neg hno]
  unfold calculateMove
  dsimp only
  rw [hl]
  obtain ⟨-, i2, i3, -⟩ := updateTrapezoids_indices pl
    { pp with
      lines := Function.update pp.lines pp.linesWritePos (admittedSegment pl pp ad ns speed c o) }
  rw [i2, i3]

/-- The call `queueMove` with a free slot keeps the invariant of the planner. -/
theorem queueMove_inv (pp : PathPlanner) (ad ns : Axis → ℚ) (speed : ℚ) (c o : Bool)
    (h : PlannerInv pl pp) (hcfg : pp.config.Ok) (hc : pp.linesCount < pl.MOVE_CACHE_SIZE) :
    PlannerInv pl (queueMove pl pp ad ns speed c o) := by
  obtain ⟨hP, hw⟩ : pp.linesPos < pl.MOVE_CACHE_SIZE ∧
      pp.linesWritePos = ringIndex pl pp.linesPos pp.linesCount := by
    rcases h.ring with h0 | h1
    · omega
    · exact h1
  have hidx : ∀ k, k < pp.linesCount → ringIndex pl pp.linesPos k ≠ pp.linesWritePos := by
    intro k hk he
    rw [hw] at he
    have := ringIndex_inj pl _ _ _ hP (by omega) hc he
    omega
  by_cases hstop : pp.stop = true
  · rw [queueMove_stop pl pp ad ns speed c o hstop]
    exact h
  by_cases hno : (queueMoveInit pl (pp.lines pp.linesWritePos) (fun i => ad i * 1000) ns speed
      c o).isNoMove = true
  · rw [queueMove_drop pl pp ad ns speed c o hstop hno]
    obtain ⟨a1, a2, a3⟩ := queueMoveInit_inv pl (pp.lines pp.linesWritePos)
      (fun i => ad i * 1000) ns speed c o (h.speeds _) (h.nominal _) (h.shape _).2.2.1 hno
    refine ⟨h.count_le, h.ring, fun j => ?_, fun j => ?_, fun j => ?_, fun k hk1 hk2 => ?_⟩
    · by_cases hj : j = pp.linesWritePos
      · rw [hj]; dsimp only; rw [modifyLine_same]; exact a1
      · dsimp only; rw [modifyLine_ne _ _ _ _ hj]; exact h.speeds j
    · by_cases hj : j = pp.linesWritePos
      · rw [hj]; dsimp only; rw [modifyLine_same]; exact a2
      · dsimp only; rw [modifyLine_ne _ _ _ _ hj]; exact h.nominal j
    · by_cases hj : j = pp.linesWritePos
      · rw [hj]; dsimp only; rw [modifyLine_same]; exact a3
      · dsimp only; rw [modifyLine_ne _ _ _ _ hj]; exact h.shape j
    · dsimp only at hk2 ⊢
      rw [modifyLine_ne _ _ _ _ (hidx k (by omega)), modifyLine_ne _ _ _ _ (hidx (k + 1) hk2)]
      exact h.junction k hk1 hk2
  · rw [queueMove_admitted pl pp ad ns speed c o hstop hno]
    obtain ⟨a1, a2, a3, a4⟩ := admittedSegment_inv pl pp ad ns speed c o hcfg
      (h.shape _).2.2.1
    set ppA : PathPlanner :=
      { pp with
        lines := Function.update pp.lines pp.linesWritePos
          (admittedSegment pl pp ad ns speed c o) } with hppA
    have hA : ∀ j, (ppA.lines j).SpeedsOk ∧ (ppA.lines j).NominalOk ∧ (ppA.lines j).Shape := by
      intro j
      by_cases hj : j = pp.linesWritePos
      · have e1 : ppA.lines j = admittedSegment pl pp ad ns speed c o := by
          rw [hj]
          exact Function.update_same _ _ _
        rw [e1]
        exact ⟨a1, a2, a3⟩
      · have e2 : ppA.lines j = pp.lines j := Function.update_noteq hj _ _
        rw [e2]
        exact ⟨h.speeds j, h.nominal j, h.shape j⟩
    have hnew : (ppA.lines ppA.linesWritePos).isEndSpeedFixed = false := by
      show (Function.update pp.lines pp.linesWritePos _ pp.linesWritePos).isEndSpeedFixed = false
      rw [Function.update_same]
      exact a4
    have hJ : ∀ k, 1 ≤ k → k + 1 < ppA.linesCount →
        (ppA.lines (ringIndex pl ppA.linesPos k)).isEndSpeedFixed = true ∨
          JunctionOk (ppA.lines (ringIndex pl ppA.linesPos k))
            (ppA.lines (ringIndex pl ppA.linesPos (k + 1))) := by
      intro k hk1 hk2
      have hk2' : k + 1 < pp.linesCount := hk2
      show (Function.update pp.lines pp.linesWritePos _ (ringIndex pl pp.linesPos k)).isEndSpeedFixed
          = true ∨ JunctionOk (Function.update pp.lines pp.linesWritePos _ (ringIndex pl pp.linesPos k))
            (Function.update pp.lines pp.linesWritePos _ (ringIndex pl pp.linesPos (k + 1)))
      rw [Function.update_noteq (hidx k (by omega)), Function.update_noteq (hidx (k + 1) hk2')]
      exact h.junction k hk1 hk2'
    obtain ⟨r1, r2⟩ := updateTrapezoids_inv pl ppA hcfg hP hc hw hnew (fun j => (hA j).1)
      (fun j => speedsOk_nonneg (hA j).1 (hA j).2.1) hJ
    obtain ⟨i1, -, -, -⟩ := updateTrapezoids_indices pl ppA
    have hkin := sameKin_updateTrapezoids pl ppA
    refine ⟨?_, Or.inr ⟨?_, ?_⟩, r1, fun j => nominalOk_of_kin (hkin j) (hA j).2.1,
      fun j => shape_of_kin (hkin j) (hA j).2.2, fun k hk1 hk2 => ?_⟩
    · show pp.linesCount + 1 ≤ pl.MOVE_CACHE_SIZE
      omega
    · show (updateTrapezoids pl ppA).linesPos < pl.MOVE_CACHE_SIZE
      rw [i1]
      exact hP
    · show (if pp.linesWritePos + 1 ≥ pl.MOVE_CACHE_SIZE then 0 else pp.linesWritePos + 1) =
        ringIndex pl (updateTrapezoids pl ppA).linesPos (pp.linesCount + 1)
      rw [i1]
      show _ = ringIndex pl pp.linesPos (pp.linesCount + 1)
      rw [hw]
      unfold ringIndex
      split_ifs <;> omega
    · have hk2' : k + 1 < pp.linesCount + 1 := hk2
      have := r2 k hk1 hk2'
      show ((updateTrapezoids pl ppA).lines (ringIndex pl (updateTrapezoids pl ppA).linesPos k)).isEndSpeedFixed
          = true ∨ JunctionOk
            ((updateTrapezoids pl ppA).lines (ringIndex pl (updateTrapezoids pl ppA).linesPos k))
            ((updateTrapezoids pl ppA).lines
              (ringIndex pl (updateTrapezoids pl ppA).linesPos (k + 1)))
      rw [i1]
      exact this

theorem stepLoop_cur (cfg : Config) (cur : Path) (n : Nat) :
    ∃ e : Axis → Int, (stepLoop pl cfg cur n).cur = { cur with error := e } := by
  induction n with
  | zero => exact ⟨cur.error, rfl⟩
  | succ n ih =>
    obtain ⟨e, he⟩ := ih
    rw [stepLoop_succ]
    unfold stepBody
    dsimp only
    rw [he]
    exact ⟨_, rfl⟩

theorem stepLoop_cur_config (cfg cfg2 : Config) (cur : Path) (n : Nat) :
    (stepLoop pl cfg cur n).cur = (stepLoop pl cfg2 cur n).cur := by
  induction n with
  | zero => rfl
  | succ n ih =>
    have hd : ∀ (c : Path) (u : Int), (ddaStep cfg c u).1 = (ddaStep cfg2 c u).1 := by
      intro c u
      funext a
      rw [ddaStep_error, ddaStep_error]
    rw [stepLoop_succ, stepLoop_succ]
    unfold stepBody
    dsimp only
    rw [ih, hd]

theorem stepBit_E_distinct (cfg : Config)
    (hpos : 3 ≤ cfg.currentExtruder.stepperCommandPosition) :
    ∀ a2 : Axis, a2 ≠ E_AXIS → stepBit cfg a2 ≠ stepBit cfg E_AXIS := by
  intro a2 h2
  have hE := stepBit_E cfg
  have hX := stepBit_X cfg
  have hY := stepBit_Y cfg
  have hZ := stepBit_Z cfg
  rcases axis_cases a2 with h | h | h | h <;> subst h <;> first | exact absurd rfl h2 | omega

/-- The stepping loop on a slot with a consistent geometry emits `delta[E]`
extruder steps and leaves the Bresenham error of the extruder where it
started. -/
theorem stepLoop_extruder (cfg : Config) (cur : Path) (hsh : cur.Shape)
    (hpos : 3 ≤ cfg.currentExtruder.stepperCommandPosition)
    (hpos8 : cfg.currentExtruder.stepperCommandPosition < 8) :
    stepCount cfg E_AXIS (stepLoop pl cfg cur cur.stepsRemaining).commands = cur.delta E_AXIS ∧
    (stepLoop pl cfg cur cur.stepsRemaining).cur.error E_AXIS = cur.error E_AXIS := by
  obtain ⟨s1, s2, s3, s4⟩ := hsh
  have hb : stepBit cfg E_AXIS < 8 := by rw [stepBit_E]; exact hpos8
  have hdist := stepBit_E_distinct cfg hpos
  by_cases hm : cur.isMoveOfAxis E_AXIS = true
  · rw [s4 hm]
    refine stepLoop_axis_count pl cfg cur E_AXIS hb hdist (by rw [s3]) (fun _ => ?_) (s2 _) (s1 _)
    rw [s1] at hm
    have hne : cur.delta E_AXIS ≠ 0 := by simpa using hm
    have h2 := s2 E_AXIS
    rw [s3]
    have : 0 < cur.delta cur.primaryAxis := by omega
    exact_mod_cast this
  · rw [Bool.not_eq_true] at hm
    obtain ⟨e1, e2⟩ := stepLoop_axis_idle pl cfg cur E_AXIS hb hdist hm cur.stepsRemaining
    have hz : cur.delta E_AXIS = 0 := by
      rw [s1] at hm
      by_contra hne
      simp [hne] at hm
    exact ⟨by rw [e2, hz], e1⟩

theorem stepLoop_error_E (cfg : Config) (cur : Path) (hsh : cur.Shape) :
    (stepLoop pl cfg cur cur.stepsRemaining).cur.error E_AXIS = 0 := by
  rw [stepLoop_cur_config pl cfg scenarioConfig cur,
    (stepLoop_extruder pl scenarioConfig cur hsh (le_refl 3) (by decide)).2]
  exact hsh.2.2.1

theorem runPrepare_frame (p : Path) :
    (runPrepare p).frame = p.frame ∧ (p.SpeedsOk → (runPrepare p).SpeedsOk) := by
  unfold runPrepare
  dsimp only
  split_ifs
  · exact ⟨(frame_updateStepsParameter _).trans rfl,
      fun h => speedsOk_updateStepsParameter _ h⟩
  · exact ⟨rfl, fun h => h⟩

theorem kin_of_frame {a b : Path} (h : a.frame = b.frame) : a.kin = b.kin := by
  unfold Path.kin
  rw [h]

/-- What one round of `run` leaves in the slot of the head keeps the
invariants of a slot. -/
theorem runSteps_slot (cfg : Config) (p : Path) (cmds : List SteppersCommand) (size : Nat)
    (h1 : p.SpeedsOk) (h2 : p.NominalOk) (h3 : p.Shape) :
    ({ (runSteps pl cfg (runPrepare p)).cur with
        commands := cmds, commandBufferSize := size } : Path).SpeedsOk ∧
    ({ (runSteps pl cfg (runPrepare p)).cur with
        commands := cmds, commandBufferSize := size } : Path).NominalOk ∧
    ({ (runSteps pl cfg (runPrepare p)).cur with
        commands := cmds, commandBufferSize := size } : Path).Shape := by
  obtain ⟨hf, hs⟩ := runPrepare_frame p
  have hk := kin_of_frame hf
  have c1 := hs h1
  have c2 := nominalOk_of_kin hk h2
  have c3 := shape_of_kin hk h3
  have hE := stepLoop_error_E pl cfg (runPrepare p) c3
  unfold runSteps
  obtain ⟨e, he⟩ := stepLoop_cur pl cfg (runPrepare p) (runPrepare p).stepsRemaining
  rw [he] at hE ⊢
  exact ⟨c1, c2, c3.1, c3.2.1, hE, c3.2.2.2⟩

/-- A round of `run` keeps the invariant of the planner. -/
theorem run_inv (pp : PathPlanner) (h : PlannerInv pl pp) : PlannerInv pl (run pl pp) := by
  unfold run
  by_cases h1 : pp.linesCount = 0 ∨ pp.stop
  · rw [if_pos h1]
    exact h
  rw [if_neg h1]
  by_cases h2 : (pp.lines pp.linesPos).isBlocked = true
  · rw [if_pos h2]
    exact h
  rw [if_neg h2]
  dsimp only
  have hc1 : 1 ≤ pp.linesCount := by
    rcases Nat.eq_zero_or_pos pp.linesCount with h0 | h0
    · exact absurd (Or.inl h0) h1
    · exact h0
  have hcle := h.count_le
  obtain ⟨hP, hw⟩ : pp.linesPos < pl.MOVE_CACHE_SIZE ∧
      pp.linesWritePos = ringIndex pl pp.linesPos pp.linesCount := by
    rcases h.ring with h0 | h1
    · omega
    · exact h1
  obtain ⟨d1, d2, d3⟩ := runSteps_slot pl pp.config (pp.lines pp.linesPos)
    (runSteps pl pp.config (runPrepare (pp.lines pp.linesPos))).commands
    (if (runPrepare (pp.lines pp.linesPos)).commands ≠ [] ∧
        ¬ ((runPrepare (pp.lines pp.linesPos)).commandBufferSize <
            (runPrepare (pp.lines pp.linesPos)).stepsRemaining ∨
          (runPrepare (pp.lines pp.linesPos)).commandBufferSize -
            (runPrepare (pp.lines pp.linesPos)).stepsRemaining > 1024 * 1024) then
      (runPrepare (pp.lines pp.linesPos)).commandBufferSize
    else (runPrepare (pp.lines pp.linesPos)).stepsRemaining)
    (h.speeds _) (h.nominal _) (h.shape _)
  have hnext : ∀ k, k < pl.MOVE_CACHE_SIZE →
      ringIndex pl (nextPlannerIndex pl pp.linesPos) k = ringIndex pl pp.linesPos (k + 1) := by
    intro k hk
    unfold nextPlannerIndex ringIndex
    split_ifs <;> omega
  have hne : ∀ k, k + 1 < pl.MOVE_CACHE_SIZE → ringIndex pl pp.linesPos (k + 1) ≠ pp.linesPos := by
    intro k hk he
    unfold ringIndex at he
    split_ifs at he <;> omega
  unfold removeCurrentLine
  refine ⟨?_, Or.inr ⟨?_, ?_⟩, fun j => ?_, fun j => ?_, fun j => ?_, fun k hk1 hk2 => ?_⟩
  · show pp.linesCount - 1 ≤ pl.MOVE_CACHE_SIZE
    omega
  · show nextPlannerIndex pl pp.linesPos < pl.MOVE_CACHE_SIZE
    unfold nextPlannerIndex
    split_ifs <;> omega
  · show pp.linesWritePos = ringIndex pl (nextPlannerIndex pl pp.linesPos) (pp.linesCount - 1)
    rw [hw]
    unfold nextPlannerIndex ringIndex
    split_ifs <;> omega
  · dsimp only
    by_cases hj : j = pp.linesPos
    · rw [hj, Function.update_same]; exact d1
    · rw [Function.update_noteq hj]; exact h.speeds j
  · dsimp only
    by_cases hj : j = pp.linesPos
    · rw [hj, Function.update_same]; exact d2
    · rw [Function.update_noteq hj]; exact h.nominal j
  · dsimp only
    by_cases hj : j = pp.linesPos
    · rw [hj, Function.update_same]; exact d3
    · rw [Function.update_noteq hj]; exact h.shape j
  · have hk2' : k + 1 < pp.linesCount - 1 := hk2
    dsimp only
    rw [hnext k (by omega), hnext (k + 1) (by omega),
      Function.update_noteq (hne k (by omega)), Function.update_noteq (hne (k + 1) (by omega))]
    exact h.junction (k + 1) (by omega) (by omega)

theorem emptyRing_inv (pp : PathPlanner) (h : pp.EmptyRing) : PlannerInv pl pp := by
  obtain ⟨h1, h2, h3, h4⟩ := h
  have hz : ∀ j, pp.lines j = {} := fun j => by rw [h4]
  refine ⟨by omega, ?_, fun j => ?_, fun j => ?_, fun j => ?_, fun k hk1 hk2 => by omega⟩
  · rcases Nat.eq_zero_or_pos pl.MOVE_CACHE_SIZE with h0 | h0
    · exact Or.inl h0
    · refine Or.inr ⟨by omega, ?_⟩
      rw [h1, h2, h3]
      unfold ringIndex
      simp [h0]
  · rw [hz]
    exact ⟨le_refl _, le_refl _, le_refl _, le_refl _⟩
  · rw [hz]
    exact ⟨le_refl _, fun hn => absurd hn Bool.false_ne_true⟩
  · rw [hz]
    refine ⟨by decide, fun i => le_refl _, rfl, fun _ => rfl⟩

/-- Every reachable planner state satisfies the invariant of the planner. -/
theorem reachable_inv (pp : PathPlanner) (h : Reachable pl pp) : PlannerInv pl pp := by
  induction h with
  | init pp h0 => exact emptyRing_inv pl pp h0
  | configure pp pp1 _ hs ih =>
    obtain ⟨e1, e2, e3, e4⟩ := hs
    refine ⟨?_, ?_, ?_, ?_, ?_, ?_⟩
    · rw [← e4]; exact ih.count_le
    · rw [← e2, ← e3, ← e4]; exact ih.ring
    · rw [← e1]; exact ih.speeds
    · rw [← e1]; exact ih.nominal
    · rw [← e1]; exact ih.shape
    · rw [← e1, ← e2, ← e4]; exact ih.junction
  | queue pp ad ns speed c o _ hcfg hc ih => exact queueMove_inv pl pp ad ns speed c o ih hcfg hc
  | step pp _ ih => exact run_inv pl pp ih

theorem queueMove_config (pp : PathPlanner) (ad ns : Axis → ℚ) (speed : ℚ) (c o : Bool) :
    (queueMove pl pp ad ns speed c o).config = pp.config ∧
    (queueMove pl pp ad ns speed c o).stop = pp.stop ∧
    (queueMove pl pp ad ns speed c o).linesPos = pp.linesPos ∧
    (queueMove pl pp ad ns speed c o).linesCount ≤ pp.linesCount + 1 := by
  by_cases hstop : pp.stop = true
  · rw [queueMove_stop pl pp ad ns speed c o hstop]
    exact ⟨rfl, rfl, rfl, Nat.le_succ _⟩
  by_cases hno : (queueMoveInit pl (pp.lines pp.linesWritePos) (fun i => ad i * 1000) ns speed
      c o).isNoMove = true
  · rw [queueMove_drop pl pp ad ns speed c o hstop hno]
    exact ⟨rfl, rfl, rfl, Nat.le_succ _⟩
  · rw [queueMove_admitted pl pp ad ns speed c o hstop hno]
    obtain ⟨i1, -, -, i4⟩ := updateTrapezoids_indices pl
      { pp with
        lines := Function.update pp.lines pp.linesWritePos
          (admittedSegment pl pp ad ns speed c o) }
    refine ⟨?_, i4, i1, le_refl _⟩
    show (updateTrapezoids pl _).config = pp.config
    unfold updateTrapezoids
    dsimp only
    split_ifs <;> rfl

/-- The nominal flag and the squared speed gain that `calculateMove` stores. -/
theorem calculateMoveSegment_nominal (cfg : Config) (p : Path) (diff : Axis → ℚ) :
    (calculateMoveSegment pl cfg p diff).isNominalMove =
      (p.isNominalMove ||
        decide ((calculateMoveSegment pl cfg p diff).minSpeed *
            (calculateMoveSegment pl cfg p diff).minSpeed +
          (calculateMoveSegment pl cfg p diff).accelerationDistance2 ≥
          (calculateMoveSegment pl cfg p diff).fullSpeed *
            (calculateMoveSegment pl cfg p diff).fullSpeed)) ∧
    (calculateMoveSegment pl cfg p diff).accelerationDistance2 =
      2 * p.distance *
        slowestAxisPlateauTimeRepro p
          (fun i => if p.isMoveOfAxis i then
            toUnsigned ((limitInterval pl cfg p diff : ℚ) * (p.stepsRemaining : ℚ) /
              (p.delta i : ℚ)) else 0)
          (if p.isEPositiveMove then cfg.maxPrintAccelerationStepsPerSquareSecond
            else cfg.maxTravelAccelerationStepsPerSquareSecond) *
        (calculateMoveSegment pl cfg p diff).fullSpeed / (pl.F_CPU : ℚ) := by
  unfold calculateMoveSegment
  simp only [markNominal_eq, and_self]
  trivial

end Invariant

/-! ## The end-to-end scenarios -/

section Scenario

theorem toUnsigned_800 : toUnsigned (800 : ℚ) = 800 :=
  toUnsigned_eq_of 800 800 (by norm_num) (by norm_num)

theorem cruise_admits :
    Admits scenarioPlatform scenarioPlanner (onlyX (1 / 100)) (onlyX 800) (1 / 20) false false :=
  (admits_iff _ _ _ _ _ _ _).mpr ⟨rfl, X_AXIS, by
    rw [onlyX_X, toUnsigned_800]
    decide⟩

theorem cruise_segment :
    (admittedSegment scenarioPlatform scenarioPlanner (onlyX (1 / 100)) (onlyX 800) (1 / 20)
      false false).fullSpeed = 50 ∧
    (admittedSegment scenarioPlatform scenarioPlanner (onlyX (1 / 100)) (onlyX 800) (1 / 20)
      false false).accelerationDistance2 = 60000 ∧
    (admittedSegment scenarioPlatform scenarioPlanner (onlyX (1 / 100)) (onlyX 800) (1 / 20)
      false false).isNominalMove = true := by
  have h800 := toUnsigned_800
  have hn : toUnsigned (800 : ℚ) ≠ 0 := by rw [h800]; decide
  obtain ⟨hF, -, -⟩ := admittedSegment_onlyX scenarioPlatform scenarioPlanner (1 / 100) 800
    (1 / 20) false false hn
  obtain ⟨hX, hY, hZ, hE, -, -, hs, -, hd⟩ := preparedSegment_onlyX scenarioPlatform
    scenarioPlanner (1 / 100) 800 (1 / 20) false false hn
  obtain ⟨f1, -⟩ := preparedSegment_flags scenarioPlatform scenarioPlanner (onlyX (1 / 100))
    (onlyX 800) (1 / 20) false false
  have hdx := (preparedSegment_moves scenarioPlatform scenarioPlanner (onlyX (1 / 100))
    (onlyX 800) (1 / 20) false false X_AXIS).2.2
  rw [onlyX_X, h800] at hdx
  have e1 : toUnsigned (|(1 / 100 : ℚ) * 1000| * (scenarioPlatform.F_CPU : ℚ) /
      (scenarioPlanner.config.maxFeedrate X_AXIS * (toUnsigned (800 : ℚ) : ℚ))) = 8333 := by
    apply toUnsigned_eq_of <;>
      norm_num [scenarioPlatform, scenarioPlanner, scenarioConfig, h800, abs_of_pos]
  have hsq : scenarioPlatform.sqrt ((1 / 100 : ℚ) * 1000 * ((1 / 100 : ℚ) * 1000)) = 10 := by
    have h := sqrtLower_natCast_sq 10
    have harg : ((1 / 100 : ℚ) * 1000 * ((1 / 100 : ℚ) * 1000)) =
        ((10 : Nat) : ℚ) * ((10 : Nat) : ℚ) := by
      norm_num
    rw [harg]
    exact_mod_cast h
  have e2 : toUnsigned ((scenarioPlatform.F_CPU : ℚ) *
      max (scenarioPlatform.sqrt ((1 / 100 : ℚ) * 1000 * ((1 / 100 : ℚ) * 1000))) 0 /
      max scenarioPlanner.config.minimumSpeed ((1 / 20 : ℚ) * 1000) / (toUnsigned (800 : ℚ) : ℚ)) =
      50000 := by
    rw [hsq]
    apply toUnsigned_eq_of <;>
      norm_num [scenarioPlatform, scenarioPlanner, scenarioConfig, h800]
  have hFI : (admittedSegment scenarioPlatform scenarioPlanner (onlyX (1 / 100)) (onlyX 800)
      (1 / 20) false false).fullInterval = 50000 := by
    rw [hF, e1, e2]; rfl
  obtain ⟨s1, -, -, -, -, s6⟩ := calculateMoveSegment_speeds scenarioPlatform
    scenarioPlanner.config (preparedSegment scenarioPlatform scenarioPlanner (onlyX (1 / 100))
      (onlyX 800) (1 / 20) false false) (fun i => onlyX (1 / 100) i * 1000)
  obtain ⟨n1, n2⟩ := calculateMoveSegment_nominal scenarioPlatform
    scenarioPlanner.config (preparedSegment scenarioPlatform scenarioPlanner (onlyX (1 / 100))
      (onlyX 800) (1 / 20) false false) (fun i => onlyX (1 / 100) i * 1000)
  have hlim : limitInterval scenarioPlatform scenarioPlanner.config
      (preparedSegment scenarioPlatform scenarioPlanner (onlyX (1 / 100)) (onlyX 800) (1 / 20)
        false false) (fun i => onlyX (1 / 100) i * 1000) = 50000 := s1.symm.trans hFI
  have hfs : (admittedSegment scenarioPlatform scenarioPlanner (onlyX (1 / 100)) (onlyX 800)
      (1 / 20) false false).fullSpeed = 50 := by
    unfold admittedSegment
    rw [s6, hlim, hs, hd, hsq, h800]
    norm_num [scenarioPlatform]
  have hX2 : (preparedSegment scenarioPlatform scenarioPlanner (onlyX (1 / 100)) (onlyX 800)
      (1 / 20) false false).isMoveOfAxis X_AXIS = true := hX
  have hY2 : (preparedSegment scenarioPlatform scenarioPlanner (onlyX (1 / 100)) (onlyX 800)
      (1 / 20) false false).isMoveOfAxis Y_AXIS = false := hY
  have hZ2 : (preparedSegment scenarioPlatform scenarioPlanner (onlyX (1 / 100)) (onlyX 800)
      (1 / 20) false false).isMoveOfAxis Z_AXIS = false := hZ
  have hE2 : (preparedSegment scenarioPlatform scenarioPlanner (onlyX (1 / 100)) (onlyX 800)
      (1 / 20) false false).isMoveOfAxis E_AXIS = false := hE
  have hEp : (preparedSegment scenarioPlatform scenarioPlanner (onlyX (1 / 100)) (onlyX 800)
      (1 / 20) false false).isEPositiveMove = false := by
    unfold Path.isEPositiveMove
    rw [hE]
    rfl
  have hax : toUnsigned (((50000 : Nat) : ℚ) * ((800 : Nat) : ℚ) / ((800 : Nat) : ℚ)) = 50000 := by
    apply toUnsigned_eq_of <;> norm_num
  have hacc : (admittedSegment scenarioPlatform scenarioPlanner (onlyX (1 / 100)) (onlyX 800)
      (1 / 20) false false).accelerationDistance2 = 60000 := by
    have hfs2 := hfs
    unfold admittedSegment at hfs2 ⊢
    rw [n2, hfs2, hlim, hs, hd, hsq, h800, hEp]
    unfold slowestAxisPlateauTimeRepro
    simp only [List.foldl, hX2, hY2, hZ2, hE2, hdx, if_true, Bool.false_eq_true, if_false, hax]
    norm_num [scenarioPlatform, scenarioPlanner, scenarioConfig]
  refine ⟨hfs, hacc, ?_⟩
  have hfs2 := hfs
  have hacc2 := hacc
  unfold admittedSegment at hfs2 hacc2 ⊢
  rw [n1, f1, hfs2, hacc2, Bool.false_or, decide_eq_true_eq]
  have := mul_self_nonneg (calculateMoveSegment scenarioPlatform scenarioPlanner.config
    (preparedSegment scenarioPlatform scenarioPlanner (onlyX (1 / 100)) (onlyX 800) (1 / 20)
      false false) (fun i => onlyX (1 / 100) i * 1000)).minSpeed
  linarith

theorem cruiseState_facts :
    cruiseState.config = scenarioConfig ∧ cruiseState.stop = false ∧ cruiseState.linesPos = 0 ∧
    cruiseState.linesCount ≤ 1 ∧ (cruiseState.lines 0).isNominalMove = true := by
  obtain ⟨c1, c2, c3, c4⟩ := queueMove_config scenarioPlatform scenarioPlanner (onlyX (1 / 100))
    (onlyX 800) (1 / 20) false false
  refine ⟨c1, c2, c3, c4, ?_⟩
  have hk := queueMove_line_kin scenarioPlatform scenarioPlanner (onlyX (1 / 100)) (onlyX 800)
    (1 / 20) false false cruise_admits
  obtain ⟨-, -, -, -, -, -, -, -, h9, -⟩ := kin_speeds hk
  unfold cruiseState Path.isNominalMove
  have h0 : scenarioPlanner.linesWritePos = 0 := rfl
  rw [h0] at h9
  rw [h9]
  exact cruise_segment.2.2

theorem cruiseState_reachable : Reachable scenarioPlatform cruiseState :=
  Reachable.queue scenarioPlanner _ _ _ _ _ (Reachable.init _ ⟨rfl, rfl, rfl, rfl⟩)
    scenarioConfig_ok (by decide)

end Scenario

/-! ## The claims about the reachable planner states -/

section ReachableStates

variable (pl : Platform)

/-- C8: if every segment in the ring of a reachable planner state satisfies
`minSpeed ≤ startSpeed ≤ fullSpeed` and `minSpeed ≤ endSpeed ≤ fullSpeed`
before `queueMove` admits a new segment into a free slot, then after
`calculateMove` and the run of `updateTrapezoids` that it triggers (the
backward pass followed by the forward pass) every segment in the ring, the new
one included, satisfies the same bounds.  The jerk limits of the configuration
are not negative. -/
theorem queueMove_keeps_speed_bounds (pp : PathPlanner) (ad ns : Axis → ℚ) (speed : ℚ)
    (c o : Bool) (hreach : Reachable pl pp) (hcfg : pp.config.Ok)
    (hfree : pp.linesCount < pl.MOVE_CACHE_SIZE) :
    (∀ j, (pp.lines j).SpeedsOk) →
      ∀ j, ((queueMove pl pp ad ns speed c o).lines j).SpeedsOk :=
  fun _ => (queueMove_inv pl pp ad ns speed c o (reachable_inv pl pp hreach) hcfg hfree).speeds

theorem queueMove_keeps_speed_bounds_witness :
    Admits scenarioPlatform cruiseState (onlyX (1 / 100)) (onlyX 800) (1 / 20) false false ∧
    ∀ j, ((queueMove scenarioPlatform cruiseState (onlyX (1 / 100)) (onlyX 800) (1 / 20) false
      false).lines j).SpeedsOk := by
  obtain ⟨hc, hs, -, hn, -⟩ := cruiseState_facts
  refine ⟨(admits_iff _ _ _ _ _ _ _).mpr ⟨hs, X_AXIS, ?_⟩, ?_⟩
  · rw [onlyX_X, toUnsigned_800]
    decide
  · exact queueMove_keeps_speed_bounds scenarioPlatform cruiseState (onlyX (1 / 100)) (onlyX 800)
      (1 / 20) false false cruiseState_reachable (by rw [hc]; exact scenarioConfig_ok)
      (lt_of_le_of_lt hn (by decide))
      (reachable_inv scenarioPlatform cruiseState cruiseState_reachable).speeds

/-- C9: for every segment in the ring of a reachable planner state, that is
after its admission by `calculateMove` and after any number of later runs of
`updateTrapezoids`: if the nominal flag is set then
`startSpeed² + accelerationDistance2 ≥ fullSpeed²`. -/
theorem nominal_reaches_full_speed (pp : PathPlanner) (hreach : Reachable pl pp) (j : Nat)
    (hnom : (pp.lines j).isNominalMove = true) :
    (pp.lines j).startSpeed * (pp.lines j).startSpeed + (pp.lines j).accelerationDistance2 ≥
      (pp.lines j).fullSpeed * (pp.lines j).fullSpeed := by
  have hinv := reachable_inv pl pp hreach
  obtain ⟨h0, hn⟩ := hinv.nominal j
  obtain ⟨hmin, -⟩ := hinv.speeds j
  have hsq := mul_self_le_mul_self h0 hmin
  have := hn hnom
  linarith

theorem nominal_reaches_full_speed_witness :
    (cruiseState.lines 0).isNominalMove = true ∧
    (cruiseState.lines 0).startSpeed * (cruiseState.lines 0).startSpeed +
        (cruiseState.lines 0).accelerationDistance2 ≥
      (cruiseState.lines 0).fullSpeed * (cruiseState.lines 0).fullSpeed :=
  ⟨cruiseState_facts.2.2.2.2,
    nominal_reaches_full_speed scenarioPlatform cruiseState cruiseState_reachable 0
      cruiseState_facts.2.2.2.2⟩

end ReachableStates

section A
variable (pl : Platform)

theorem searchFirst_at_maxfirst (l : Nat → Path) (w fuel : Nat) :
    searchFirst pl l w fuel w = w := by
  cases fuel with
  | zero => rfl
  | succ k => simp [searchFirst]

theorem plannerFirst_short (pp : PathPlanner)
    (h : pp.linesPos = pp.linesWritePos ∨ nextPlannerIndex pl pp.linesPos = pp.linesWritePos) :
    plannerFirst pl pp = pp.linesWritePos := by
  have hmax : (if pp.linesPos ≠ pp.linesWritePos then nextPlannerIndex pl pp.linesPos
      else pp.linesPos) = pp.linesWritePos := by
    by_cases hP : pp.linesPos = pp.linesWritePos
    · rw [if_neg (not_not.mpr hP)]
      exact hP
    · rw [if_pos hP]
      rcases h with h | h
      · exact absurd h hP
      · exact h
  unfold plannerFirst
  dsimp only
  rw [hmax, searchFirst_at_maxfirst]
  rw [if_neg (fun hc => hc.1 rfl)]

theorem updateTrapezoids_short (pp : PathPlanner)
    (h : pp.linesPos = pp.linesWritePos ∨ nextPlannerIndex pl pp.linesPos = pp.linesWritePos) :
    updateTrapezoids pl pp =
      { pp with lines := modifyLine pp.lines pp.linesWritePos Path.plannedAlone } := by
  unfold updateTrapezoids
  dsimp only
  rw [plannerFirst_short pl pp h, if_pos rfl]
  rfl

/-- On a ring with at most one segment `queueMove` plans nothing: the admitted
segment is stored with its safe speeds, and no other slot is written. -/
theorem queueMove_short (pp : PathPlanner) (ad ns : Axis → ℚ) (speed : ℚ) (c o : Bool)
    (hadm : Admits pl pp ad ns speed c o)
    (h : pp.linesPos = pp.linesWritePos ∨ nextPlannerIndex pl pp.linesPos = pp.linesWritePos) :
    queueMove pl pp ad ns speed c o =
      { pp with
        lines := Function.update pp.lines pp.linesWritePos
          (admittedSegment pl pp ad ns speed c o).plannedAlone
        linesWritePos :=
          if pp.linesWritePos + 1 ≥ pl.MOVE_CACHE_SIZE then 0 else pp.linesWritePos + 1
        linesCount := pp.linesCount + 1 } := by
  obtain ⟨hs, hno⟩ := hadm
  have hs2 : ¬ pp.stop = true := by rw [hs]; decide
  have hno2 : ¬ (queueMoveInit pl (pp.lines pp.linesWritePos) (fun i => ad i * 1000) ns speed
      c o).isNoMove = true := by rw [hno]; decide
  rw [queueMove_admitted pl pp ad ns speed c o hs2 hno2]
  have hu := updateTrapezoids_short pl
    { pp with
      lines := Function.update pp.lines pp.linesWritePos
        (admittedSegment pl pp ad ns speed c o) } h
  dsimp only at hu ⊢
  rw [hu]
  dsimp only
  unfold modifyLine
  rw [Function.update_same, Function.update_idem]

/-- C11, as amended: for every pure-extrusion segment (only E moves, with E as
primary axis, so no minimum-speed floor applies) `safeSpeed` returns
`min(0.5 * maxStartFeedrate, fullSpeed)`: line 273 assigns the bound of the
extruder, it does not take the minimum with `maxJerk * 0.5`. -/
theorem safeSpeed_pure_extrusion (cfg : Config) (p : Path) (hE : p.isEMove = true)
    (hXYZ : p.isXYZMove = false) (hprim : p.primaryAxis = E_AXIS) :
    safeSpeed cfg p = min ((1 / 2) * cfg.currentExtruder.maxStartFeedrate) p.fullSpeed := by
  have hZ : p.isZMove = false := by
    unfold Path.isXYZMove at hXYZ
    simp only [Bool.or_eq_false_iff] at hXYZ
    exact hXYZ.2
  unfold safeSpeed
  simp only [hE, hXYZ, hZ, hprim, Bool.false_eq_true, if_false, if_true]
  rw [if_neg (by decide), if_neg (by decide)]

theorem retractSegment_safeSpeed : safeSpeed scenarioConfig retractSegment = 20 := by
  rw [safeSpeed_pure_extrusion scenarioConfig retractSegment (by decide) (by decide) rfl]
  norm_num [scenarioConfig, retractSegment]

/-- C11, counterexample to the claim as stated: for the pure-extrusion segment
`retractSegment` (full speed 50 mm/s) under the scenario configuration
(`maxJerk = 20`, `maxStartFeedrate = 40`) `safeSpeed` returns 20, not
`min(maxJerk * 0.5, 0.5 * maxStartFeedrate, fullSpeed) = 10`. -/
theorem safeSpeed_retract_above_jerk_bound :
    retractSegment.isEMove = true ∧ retractSegment.isXYZMove = false ∧
    safeSpeed scenarioConfig retractSegment ≠
      min (scenarioConfig.maxJerk * (1 / 2))
        (min ((1 / 2) * scenarioConfig.currentExtruder.maxStartFeedrate)
          retractSegment.fullSpeed) := by
  refine ⟨by decide, by decide, ?_⟩
  rw [retractSegment_safeSpeed]
  norm_num [scenarioConfig, retractSegment]

theorem safeSpeed_pure_extrusion_witness :
    safeSpeed scenarioConfig retractSegment = 20 := by
  have h := safeSpeed_pure_extrusion scenarioConfig retractSegment (by decide) (by decide) rfl
  rw [h]
  norm_num [scenarioConfig, retractSegment]

/-- C12: for every planner state with consistent ring indices that is not
stopped and has room in the ring, `queueMove` called with all four step counts
equal to zero drops the move: `linesWritePos`, `linesCount` and `linesPos` are
unchanged and no segment queued in the ring (the `linesCount` slots starting
at `linesPos`) is modified. -/
theorem queueMove_zero_steps_dropped (pp : PathPlanner) (ad ns : Axis → ℚ) (speed : ℚ)
    (c o : Bool) (hstop : pp.stop = false) (hP : pp.linesPos < pl.MOVE_CACHE_SIZE)
    (hroom : pp.linesCount < pl.MOVE_CACHE_SIZE)
    (hw : pp.linesWritePos = ringIndex pl pp.linesPos pp.linesCount)
    (hz : ∀ i, ns i = 0) :
    (queueMove pl pp ad ns speed c o).linesWritePos = pp.linesWritePos ∧
    (queueMove pl pp ad ns speed c o).linesCount = pp.linesCount ∧
    (queueMove pl pp ad ns speed c o).linesPos = pp.linesPos ∧
    ∀ k, k < pp.linesCount →
      (queueMove pl pp ad ns speed c o).lines (ringIndex pl pp.linesPos k) =
        pp.lines (ringIndex pl pp.linesPos k) := by
  have hno : (queueMoveInit pl (pp.lines pp.linesWritePos) (fun i => ad i * 1000) ns speed
      c o).isNoMove = true := by
    unfold Path.isNoMove Path.isXMove Path.isYMove Path.isZMove Path.isEMove
    simp only [queueMoveInit_isMoveOfAxis, hz, toUnsigned_zero]
    decide
  have hs : ¬ pp.stop = true := by rw [hstop]; decide
  rw [queueMove_drop pl pp ad ns speed c o hs hno]
  refine ⟨rfl, rfl, rfl, fun k hk => ?_⟩
  have hne : ringIndex pl pp.linesPos k ≠ pp.linesWritePos := by
    intro he
    rw [hw] at he
    have := ringIndex_inj pl _ _ _ hP (by omega) hroom he
    omega
  dsimp only
  exact modifyLine_ne _ _ _ _ hne

/-- C20: for a pure-X segment followed by a pure-Y segment, both with full
speed 50 mm/s (`speedX = 50`, `speedY = 0`, then `speedX = 0`, `speedY = 50`,
equal `speedZ`, equal `speedE`) and `maxJerk = 20`, `computeMaxJunctionSpeed`
sets `previous.maxJunctionSpeed = 50 * (20 / sqrt(5000))`; with a square root
routine that is right to two decimals this lies between 14.14 and 14.15. -/
theorem computeMaxJunctionSpeed_corner (cfg : Config) (previous current : Path)
    (hpx : previous.speedX = 50) (hpy : previous.speedY = 0)
    (hcx : current.speedX = 0) (hcy : current.speedY = 50)
    (hz : current.speedZ = previous.speedZ) (he : current.speedE = previous.speedE)
    (hpf : previous.fullSpeed = 50) (hcf : current.fullSpeed = 50)
    (hJ : cfg.maxJerk = 20) (hZJ : 0 ≤ cfg.maxZJerk)
    (hEJ : 0 ≤ cfg.currentExtruder.maxStartFeedrate)
    (hs1 : 7071 / 100 ≤ pl.sqrt 5000) (hs2 : pl.sqrt 5000 ≤ 7072 / 100) :
    (computeMaxJunctionSpeed pl cfg previous current).maxJunctionSpeed =
      50 * (20 / pl.sqrt 5000) ∧
    1414 / 100 ≤ (computeMaxJunctionSpeed pl cfg previous current).maxJunctionSpeed ∧
    (computeMaxJunctionSpeed pl cfg previous current).maxJunctionSpeed ≤ 1415 / 100 := by
  have harg : (current.speedX - previous.speedX) * (current.speedX - previous.speedX) +
      (current.speedY - previous.speedY) * (current.speedY - previous.speedY) = 5000 := by
    rw [hpx, hpy, hcx, hcy]
    norm_num
  have hpos : (0 : ℚ) < pl.sqrt 5000 := lt_of_lt_of_le (by norm_num) hs1
  have hgt : pl.sqrt 5000 > cfg.maxJerk := by
    rw [hJ]
    exact lt_of_lt_of_le (by norm_num) hs1
  have hval : (computeMaxJunctionSpeed pl cfg previous current).maxJunctionSpeed =
      50 * (20 / pl.sqrt 5000) := by
    have hnz : ¬ ((0 : ℚ) > cfg.maxZJerk) := not_lt.mpr hZJ
    have hne : ¬ ((0 : ℚ) > cfg.currentExtruder.maxStartFeedrate) := not_lt.mpr hEJ
    unfold computeMaxJunctionSpeed
    dsimp only
    rw [harg, hz, he, sub_self, sub_self, abs_zero, if_pos hgt, if_neg hne, if_neg hnz, ite_self,
      hpf, hcf, hJ]
    show min (50 * (20 / pl.sqrt 5000)) 50 = _
    apply min_eq_left
    have : 20 / pl.sqrt 5000 ≤ 1 := by
      rw [div_le_one hpos]
      exact le_trans (by norm_num) hs1
    linarith
  refine ⟨hval, ?_, ?_⟩
  · rw [hval, ← mul_div_assoc, le_div_iff₀ hpos]
    linarith
  · rw [hval, ← mul_div_assoc, div_le_iff₀ hpos]
    linarith

theorem sqrtFixed_5000 : sqrtFixed 5000 = 707106 / 10000 := by
  unfold sqrtFixed
  have h : toUnsigned ((5000 : ℚ) * 100000000) = 500000000000 :=
    toUnsigned_eq_of _ 500000000000 (by norm_num) (by norm_num)
  rw [h]
  norm_num

theorem computeMaxJunctionSpeed_corner_witness :
    (computeMaxJunctionSpeed cornerPlatform scenarioConfig cornerPrevious
      cornerCurrent).maxJunctionSpeed = 50 * (20 / (707106 / 10000)) := by
  have h := computeMaxJunctionSpeed_corner cornerPlatform scenarioConfig cornerPrevious
    cornerCurrent rfl rfl rfl rfl rfl rfl rfl rfl rfl (by norm_num [scenarioConfig])
    (by norm_num [scenarioConfig])
    (by show (7071 / 100 : ℚ) ≤ sqrtFixed 5000; rw [sqrtFixed_5000]; norm_num)
    (by show sqrtFixed 5000 ≤ (7072 / 100 : ℚ); rw [sqrtFixed_5000]; norm_num)
  have e : cornerPlatform.sqrt 5000 = 707106 / 10000 := sqrtFixed_5000
  rw [← e]
  exact h.1

theorem safeSpeed_congr (cfg : Config) (a b : Path) (h1 : a.dir = b.dir)
    (h2 : a.primaryAxis = b.primaryAxis) (h3 : a.fullSpeed = b.fullSpeed)
    (h4 : a.speedZ = b.speedZ) (h5 : a.speedE = b.speedE) :
    safeSpeed cfg a = safeSpeed cfg b := by
  unfold safeSpeed Path.isZMove Path.isEMove Path.isXYZMove Path.isXMove Path.isYMove
    Path.isZMove Path.isMoveOfAxis
  rw [h1, h2, h3, h4, h5]

/-- The timing fields that `calculateMove` stores. -/
theorem calculateMoveSegment_timing (cfg : Config) (p : Path) (diff : Axis → ℚ) :
    (calculateMoveSegment pl cfg p diff).timeInTicks =
      toUnsigned ((pl.F_CPU : ℚ) * p.distance /
        (if p.isXOrYMove then max cfg.minimumSpeed p.speed else p.speed)) ∧
    (calculateMoveSegment pl cfg p diff).vMax =
      pl.F_CPU / (calculateMoveSegment pl cfg p diff).fullInterval ∧
    (calculateMoveSegment pl cfg p diff).invFullSpeed =
      1 / (calculateMoveSegment pl cfg p diff).fullSpeed ∧
    (calculateMoveSegment pl cfg p diff).accelerationPrim =
      toUnsigned
        (slowestAxisPlateauTimeRepro p
          (fun i => if p.isMoveOfAxis i then
            toUnsigned ((limitInterval pl cfg p diff : ℚ) * (p.stepsRemaining : ℚ) /
              (p.delta i : ℚ)) else 0)
          (if p.isEPositiveMove then cfg.maxPrintAccelerationStepsPerSquareSecond
            else cfg.maxTravelAccelerationStepsPerSquareSecond) /
          ((if p.isMoveOfAxis p.primaryAxis then
            toUnsigned ((limitInterval pl cfg p diff : ℚ) * (p.stepsRemaining : ℚ) /
              (p.delta p.primaryAxis : ℚ)) else 0 : Nat) : ℚ)) ∧
    (calculateMoveSegment pl cfg p diff).fAcceleration =
      toUnsigned (262144 * ((calculateMoveSegment pl cfg p diff).accelerationPrim : ℚ) /
        (pl.F_CPU : ℚ)) ∧
    (calculateMoveSegment pl cfg p diff).minSpeed =
      safeSpeed cfg (calculateMoveSegment pl cfg p diff) ∧
    (calculateMoveSegment pl cfg p diff).isWarmUp = p.isWarmUp ∧
    (calculateMoveSegment pl cfg p diff).isCancelable = p.isCancelable := by
  have hs : (calculateMoveSegment pl cfg p diff).minSpeed =
      safeSpeed cfg (calculateMoveSegment pl cfg p diff) := by
    unfold calculateMoveSegment
    simp only [markNominal_eq]
    exact safeSpeed_congr cfg _ _ rfl rfl rfl rfl rfl
  refine ⟨?_, ?_, ?_, ?_, ?_, hs, ?_, ?_⟩
  all_goals
    unfold calculateMoveSegment
    simp only [markNominal_eq]
    try rfl

theorem slowestAxisPlateauTimeRepro_onlyX (p : Path) (ai accel : Axis → Nat)
    (hX : p.isMoveOfAxis X_AXIS = true) (hY : p.isMoveOfAxis Y_AXIS = false)
    (hZ : p.isMoveOfAxis Z_AXIS = false) (hE : p.isMoveOfAxis E_AXIS = false) :
    slowestAxisPlateauTimeRepro p ai accel =
      min 1000000000000000 ((ai X_AXIS : ℚ) * (accel X_AXIS : ℚ)) := by
  unfold slowestAxisPlateauTimeRepro
  simp only [List.foldl, hX, hY, hZ, hE, if_true, Bool.false_eq_true, if_false]

/-- The fields of the segment that `queueMove` admits for a move in X alone,
in terms of its interval `fullInterval`. -/
theorem admittedSegment_onlyX_fields (pp : PathPlanner) (dx n speed : ℚ) (c o : Bool)
    (hn : toUnsigned n ≠ 0) :
    (admittedSegment pl pp (onlyX dx) (onlyX n) speed c o).primaryAxis = X_AXIS ∧
    (admittedSegment pl pp (onlyX dx) (onlyX n) speed c o).distance =
      max (pl.sqrt (dx * 1000 * (dx * 1000))) 0 ∧
    (admittedSegment pl pp (onlyX dx) (onlyX n) speed c o).timeInTicks =
      toUnsigned ((pl.F_CPU : ℚ) * max (pl.sqrt (dx * 1000 * (dx * 1000))) 0 /
        max pp.config.minimumSpeed (speed * 1000)) ∧
    (admittedSegment pl pp (onlyX dx) (onlyX n) speed c o).fullSpeed =
      max (pl.sqrt (dx * 1000 * (dx * 1000))) 0 * ((pl.F_CPU : ℚ) /
        (((admittedSegment pl pp (onlyX dx) (onlyX n) speed c o).fullInterval : ℚ) *
          (toUnsigned n : ℚ))) ∧
    (admittedSegment pl pp (onlyX dx) (onlyX n) speed c o).accelerationDistance2 =
      2 * max (pl.sqrt (dx * 1000 * (dx * 1000))) 0 *
        min 1000000000000000
          ((toUnsigned (((admittedSegment pl pp (onlyX dx) (onlyX n) speed c o).fullInterval : ℚ) *
            (toUnsigned n : ℚ) / (toUnsigned n : ℚ)) : ℚ) *
            (pp.config.maxTravelAccelerationStepsPerSquareSecond X_AXIS : ℚ)) *
        (admittedSegment pl pp (onlyX dx) (onlyX n) speed c o).fullSpeed / (pl.F_CPU : ℚ) ∧
    (admittedSegment pl pp (onlyX dx) (onlyX n) speed c o).accelerationPrim =
      toUnsigned (min 1000000000000000
          ((toUnsigned (((admittedSegment pl pp (onlyX dx) (onlyX n) speed c o).fullInterval : ℚ) *
            (toUnsigned n : ℚ) / (toUnsigned n : ℚ)) : ℚ) *
            (pp.config.maxTravelAccelerationStepsPerSquareSecond X_AXIS : ℚ)) /
        (toUnsigned (((admittedSegment pl pp (onlyX dx) (onlyX n) speed c o).fullInterval : ℚ) *
            (toUnsigned n : ℚ) / (toUnsigned n : ℚ)) : ℚ)) ∧
    (admittedSegment pl pp (onlyX dx) (onlyX n) speed c o).minSpeed =
      min (max pp.config.minimumSpeed (pp.config.maxJerk * (1 / 2)))
        (admittedSegment pl pp (onlyX dx) (onlyX n) speed c o).fullSpeed ∧
    (admittedSegment pl pp (onlyX dx) (onlyX n) speed c o).isXPositiveMove =
      decide (dx * 1000 ≥ 0) ∧
    (admittedSegment pl pp (onlyX dx) (onlyX n) speed c o).isYPositiveMove = false ∧
    (admittedSegment pl pp (onlyX dx) (onlyX n) speed c o).isZPositiveMove = false ∧
    (admittedSegment pl pp (onlyX dx) (onlyX n) speed c o).isEPositiveMove = false := by
  obtain ⟨hX, hY, hZ, hE, hpos, hprim, hs, hv, hd⟩ :=
    preparedSegment_onlyX pl pp dx n speed c o hn
  obtain ⟨g1, g2, g3, g4, g5⟩ := calculateMoveSegment_geometry pl pp.config
    (preparedSegment pl pp (onlyX dx) (onlyX n) speed c o) (fun i => onlyX dx i * 1000)
  obtain ⟨s1, -, -, s4, s5, s6⟩ := calculateMoveSegment_speeds pl pp.config
    (preparedSegment pl pp (onlyX dx) (onlyX n) speed c o) (fun i => onlyX dx i * 1000)
  obtain ⟨t1, -, -, t4, -, t6, -, -⟩ := calculateMoveSegment_timing pl pp.config
    (preparedSegment pl pp (onlyX dx) (onlyX n) speed c o) (fun i => onlyX dx i * 1000)
  obtain ⟨-, n2⟩ := calculateMoveSegment_nominal pl pp.config
    (preparedSegment pl pp (onlyX dx) (onlyX n) speed c o) (fun i => onlyX dx i * 1000)
  have hdx := (preparedSegment_moves pl pp (onlyX dx) (onlyX n) speed c o X_AXIS).2.2
  rw [onlyX_X] at hdx
  have hX2 : (preparedSegment pl pp (onlyX dx) (onlyX n) speed c o).isMoveOfAxis X_AXIS = true := hX
  have hY2 : (preparedSegment pl pp (onlyX dx) (onlyX n) speed c o).isMoveOfAxis Y_AXIS = false := hY
  have hZ2 : (preparedSegment pl pp (onlyX dx) (onlyX n) speed c o).isMoveOfAxis Z_AXIS = false := hZ
  have hE2 : (preparedSegment pl pp (onlyX dx) (onlyX n) speed c o).isMoveOfAxis E_AXIS = false := hE
  have hEp : (preparedSegment pl pp (onlyX dx) (onlyX n) speed c o).isEPositiveMove = false := by
    unfold Path.isEPositiveMove
    rw [hE]
    rfl
  have hXY : (preparedSegment pl pp (onlyX dx) (onlyX n) speed c o).isXOrYMove = true := by
    unfold Path.isXOrYMove
    rw [hX]
    rfl
  have hslow : slowestAxisPlateauTimeRepro (preparedSegment pl pp (onlyX dx) (onlyX n) speed c o)
      (fun i => if (preparedSegment pl pp (onlyX dx) (onlyX n) speed c o).isMoveOfAxis i then
        toUnsigned ((limitInterval pl pp.config
            (preparedSegment pl pp (onlyX dx) (onlyX n) speed c o)
            (fun i => onlyX dx i * 1000) : ℚ) *
          ((preparedSegment pl pp (onlyX dx) (onlyX n) speed c o).stepsRemaining : ℚ) /
          ((preparedSegment pl pp (onlyX dx) (onlyX n) speed c o).delta i : ℚ)) else 0)
      (if (preparedSegment pl pp (onlyX dx) (onlyX n) speed c o).isEPositiveMove then
        pp.config.maxPrintAccelerationStepsPerSquareSecond
        else pp.config.maxTravelAccelerationStepsPerSquareSecond) =
      min 1000000000000000
        ((toUnsigned (((admittedSegment pl pp (onlyX dx) (onlyX n) speed c o).fullInterval : ℚ) *
          (toUnsigned n : ℚ) / (toUnsigned n : ℚ)) : ℚ) *
          (pp.config.maxTravelAccelerationStepsPerSquareSecond X_AXIS : ℚ)) := by
    rw [slowestAxisPlateauTimeRepro_onlyX _ _ _ hX2 hY2 hZ2 hE2, hEp]
    rw [if_pos hX2, hdx, hs, if_neg Bool.false_ne_true]
    unfold admittedSegment
    rw [s1]
  have hdir : ∀ i : Axis, (admittedSegment pl pp (onlyX dx) (onlyX n) speed c o).isMoveOfAxis i =
      (preparedSegment pl pp (onlyX dx) (onlyX n) speed c o).isMoveOfAxis i := by
    intro i
    unfold admittedSegment Path.isMoveOfAxis
    rw [g4]
  have hpd : (admittedSegment pl pp (onlyX dx) (onlyX n) speed c o).isPositiveDirection X_AXIS =
      decide (dx * 1000 ≥ 0) := by
    unfold admittedSegment Path.isPositiveDirection
    rw [g4]
    exact hpos
  have hfs : (admittedSegment pl pp (onlyX dx) (onlyX n) speed c o).fullSpeed =
      max (pl.sqrt (dx * 1000 * (dx * 1000))) 0 * ((pl.F_CPU : ℚ) /
        (((admittedSegment pl pp (onlyX dx) (onlyX n) speed c o).fullInterval : ℚ) *
          (toUnsigned n : ℚ))) := by
    unfold admittedSegment
    rw [s6, s1, hd, hs]
  refine ⟨?_, ?_, ?_, hfs, ?_, ?_, ?_, ?_, ?_, ?_, ?_⟩
  · unfold admittedSegment; rw [g2, hprim]
  · unfold admittedSegment; rw [g5, hd]
  · unfold admittedSegment; rw [t1, hXY, if_pos rfl, hd, hv]
  · rw [← hslow]
    unfold admittedSegment
    rw [n2, hd]
  · rw [← hslow]
    unfold admittedSegment
    rw [t4, hprim, hX2, if_pos rfl, hdx, hs, s1]
  · have hm : (admittedSegment pl pp (onlyX dx) (onlyX n) speed c o).minSpeed =
        safeSpeed pp.config (admittedSegment pl pp (onlyX dx) (onlyX n) speed c o) := t6
    have hp2 : (admittedSegment pl pp (onlyX dx) (onlyX n) speed c o).primaryAxis = X_AXIS := by
      unfold admittedSegment; rw [g2, hprim]
    rw [hm]
    unfold safeSpeed Path.isZMove Path.isEMove
    rw [hdir Z_AXIS, hdir E_AXIS, hZ2, hE2, hp2]
    simp
  · unfold Path.isXPositiveMove Path.isXMove
    rw [hdir X_AXIS, hX2, hpd]
    rfl
  · unfold Path.isYPositiveMove Path.isYMove
    rw [hdir Y_AXIS, hY2]
    rfl
  · unfold Path.isZPositiveMove Path.isZMove
    rw [hdir Z_AXIS, hZ2]
    rfl
  · unfold Path.isEPositiveMove Path.isEMove
    rw [hdir E_AXIS, hE2]
    rfl

end A

section Scenes

theorem cruiseState_eq :
    cruiseState =
      { scenarioPlanner with
        lines := Function.update scenarioPlanner.lines 0
          (admittedSegment scenarioPlatform scenarioPlanner (onlyX (1 / 100)) (onlyX 800)
            (1 / 20) false false).plannedAlone
        linesWritePos := 1
        linesCount := 1 } :=
  queueMove_short scenarioPlatform scenarioPlanner _ _ _ _ _ cruise_admits (Or.inl rfl)

theorem queueMove_zero_steps_dropped_witness :
    (queueMove scenarioPlatform cruiseState (onlyX (1 / 100)) (fun _ => 0) (1 / 20) false
      false).linesCount = 1 ∧
    (queueMove scenarioPlatform cruiseState (onlyX (1 / 100)) (fun _ => 0) (1 / 20) false
      false).lines 0 = cruiseState.lines 0 := by
  have hc : cruiseState.linesCount = 1 := by rw [cruiseState_eq]
  have hp : cruiseState.linesPos = 0 := by rw [cruiseState_eq]; rfl
  have hw : cruiseState.linesWritePos = 1 := by rw [cruiseState_eq]
  have hs : cruiseState.stop = false := by rw [cruiseState_eq]; rfl
  have h := queueMove_zero_steps_dropped scenarioPlatform cruiseState (onlyX (1 / 100))
    (fun _ => 0) (1 / 20) false false hs (by rw [hp]; decide) (by rw [hc]; decide)
    (by rw [hw, hp, hc]; decide) (fun _ => rfl)
  refine ⟨h.2.1.trans hc, ?_⟩
  have h0 := h.2.2.2 0 (by rw [hc]; decide)
  rw [hp] at h0
  exact h0

theorem sqrtLower_mul_self (q : ℚ) (hq : 0 ≤ q) : sqrtLower (q * q) = q := by
  unfold sqrtLower
  rw [Rat.mul_self_num, Rat.mul_self_den]
  obtain ⟨m, hm⟩ := Int.eq_ofNat_of_zero_le (Rat.num_nonneg.mpr hq)
  rw [hm]
  have h1 : ((m : Int) * (m : Int)).toNat = m * m := by
    rw [← Int.natCast_mul, Int.toNat_natCast]
  rw [h1]
  have h2 : m * m * (q.den * q.den) = (m * q.den) * (m * q.den) := by ring
  rw [h2, Nat.sqrt_eq]
  have hd : (q.den : ℚ) ≠ 0 := by exact_mod_cast q.den_nz
  have hq2 : (m : ℚ) / (q.den : ℚ) = q := by
    have := Rat.num_div_den q
    rw [hm] at this
    exact_mod_cast this
  push_cast
  rw [mul_div_mul_right _ _ hd]
  exact hq2

/-- A move of `N` steps in the positive X direction with 80 steps per
millimetre, requested at 50 mm/s under the scenario configuration: the
segment that `queueMove` admits. -/
theorem scenario_xmove (pp : PathPlanner) (hcfg : pp.config = scenarioConfig) (N : Nat)
    (hN0 : 0 < N) (c o : Bool) :
    (admittedSegment scenarioPlatform pp (onlyX ((N : ℚ) / 80000)) (onlyX (N : ℚ))
      (1 / 20) c o).fullInterval = 50000 ∧
    (admittedSegment scenarioPlatform pp (onlyX ((N : ℚ) / 80000)) (onlyX (N : ℚ))
      (1 / 20) c o).stepsRemaining = N ∧
    (admittedSegment scenarioPlatform pp (onlyX ((N : ℚ) / 80000)) (onlyX (N : ℚ))
      (1 / 20) c o).primaryAxis = X_AXIS ∧
    (admittedSegment scenarioPlatform pp (onlyX ((N : ℚ) / 80000)) (onlyX (N : ℚ))
      (1 / 20) c o).distance = (N : ℚ) / 80 ∧
    (admittedSegment scenarioPlatform pp (onlyX ((N : ℚ) / 80000)) (onlyX (N : ℚ))
      (1 / 20) c o).timeInTicks = 50000 * N ∧
    (admittedSegment scenarioPlatform pp (onlyX ((N : ℚ) / 80000)) (onlyX (N : ℚ))
      (1 / 20) c o).fullSpeed = 50 ∧
    (admittedSegment scenarioPlatform pp (onlyX ((N : ℚ) / 80000)) (onlyX (N : ℚ))
      (1 / 20) c o).accelerationDistance2 = 75 * (N : ℚ) ∧
    (admittedSegment scenarioPlatform pp (onlyX ((N : ℚ) / 80000)) (onlyX (N : ℚ))
      (1 / 20) c o).accelerationPrim = 240000 ∧
    (admittedSegment scenarioPlatform pp (onlyX ((N : ℚ) / 80000)) (onlyX (N : ℚ))
      (1 / 20) c o).minSpeed = 10 ∧
    (admittedSegment scenarioPlatform pp (onlyX ((N : ℚ) / 80000)) (onlyX (N : ℚ))
      (1 / 20) c o).isXPositiveMove = true := by
  have hNq : (0 : ℚ) < (N : ℚ) := by exact_mod_cast hN0
  have hne : (N : ℚ) ≠ 0 := ne_of_gt hNq
  have hN : toUnsigned (N : ℚ) = N := toUnsigned_natCast _
  have hn : toUnsigned (N : ℚ) ≠ 0 := by rw [hN]; omega
  have hmul : (N : ℚ) / 80000 * 1000 = (N : ℚ) / 80 := by ring
  have hD : (0 : ℚ) < (N : ℚ) / 80 := by positivity
  have hsq : scenarioPlatform.sqrt ((N : ℚ) / 80000 * 1000 * ((N : ℚ) / 80000 * 1000)) =
      (N : ℚ) / 80 := by
    rw [hmul]
    exact sqrtLower_mul_self _ (le_of_lt hD)
  have hmax : max ((N : ℚ) / 80) 0 = (N : ℚ) / 80 := max_eq_left (le_of_lt hD)
  have hm : max scenarioConfig.minimumSpeed ((1 / 20 : ℚ) * 1000) = 50 := by
    norm_num [scenarioConfig]
  obtain ⟨hF, hS, -⟩ := admittedSegment_onlyX scenarioPlatform pp ((N : ℚ) / 80000)
    (N : ℚ) (1 / 20) c o hn
  obtain ⟨f1, f2, f3, f4, f5, f6, f7, f8, -, -, -⟩ := admittedSegment_onlyX_fields scenarioPlatform
    pp ((N : ℚ) / 80000) (N : ℚ) (1 / 20) c o hn
  have e1 : toUnsigned (|(N : ℚ) / 80000 * 1000| * (scenarioPlatform.F_CPU : ℚ) /
      (pp.config.maxFeedrate X_AXIS * (toUnsigned (N : ℚ) : ℚ))) = 8333 := by
    rw [hmul, hN, hcfg, abs_of_pos hD]
    have : (N : ℚ) / 80 * (scenarioPlatform.F_CPU : ℚ) / (scenarioConfig.maxFeedrate X_AXIS *
        (N : ℚ)) = 25000 / 3 := by
      simp only [scenarioPlatform, scenarioConfig]
      field_simp
      ring
    rw [this]
    apply toUnsigned_eq_of <;> norm_num
  have e2 : toUnsigned ((scenarioPlatform.F_CPU : ℚ) *
      max (scenarioPlatform.sqrt ((N : ℚ) / 80000 * 1000 * ((N : ℚ) / 80000 * 1000))) 0 /
      max pp.config.minimumSpeed ((1 / 20 : ℚ) * 1000) /
      (toUnsigned (N : ℚ) : ℚ)) = 50000 := by
    rw [hsq, hmax, hN, hcfg, hm]
    have : (scenarioPlatform.F_CPU : ℚ) * ((N : ℚ) / 80) / 50 / (N : ℚ) = 50000 := by
      simp only [scenarioPlatform]
      field_simp
      ring
    rw [this]
    apply toUnsigned_eq_of <;> norm_num
  have hFI : (admittedSegment scenarioPlatform pp (onlyX ((N : ℚ) / 80000))
      (onlyX (N : ℚ)) (1 / 20) c o).fullInterval = 50000 := by
    rw [hF, e1, e2]; rfl
  have hfs : (admittedSegment scenarioPlatform pp (onlyX ((N : ℚ) / 80000))
      (onlyX (N : ℚ)) (1 / 20) c o).fullSpeed = 50 := by
    rw [f4, hFI, hsq, hmax, hN]
    simp only [scenarioPlatform]
    field_simp
    ring
  have hax : toUnsigned (((50000 : Nat) : ℚ) * (N : ℚ) / (N : ℚ)) = 50000 := by
    rw [mul_div_assoc, div_self hne, mul_one]
    exact toUnsigned_natCast _
  have hslow : min (1000000000000000 : ℚ)
      (((50000 : Nat) : ℚ) * (pp.config.maxTravelAccelerationStepsPerSquareSecond X_AXIS : ℚ)) =
      12000000000 := by
    rw [hcfg]
    norm_num [scenarioConfig]
  refine ⟨hFI, ?_, f1, ?_, ?_, hfs, ?_, ?_, ?_, ?_⟩
  · rw [hS, hN]
  · rw [f2, hsq, hmax]
  · rw [f3, hsq, hmax, hcfg, hm]
    have : (scenarioPlatform.F_CPU : ℚ) * ((N : ℚ) / 80) / 50 = ((50000 * N : Nat) : ℚ) := by
      simp only [scenarioPlatform]
      push_cast
      ring
    rw [this]
    exact toUnsigned_natCast _
  · rw [f5, hfs, hFI, hN, hax, hslow, hsq, hmax]
    simp only [scenarioPlatform]
    push_cast
    ring
  · rw [f6, hFI, hN, hax, hslow]
    apply toUnsigned_eq_of <;> norm_num
  · rw [f7, hfs, hcfg]
    norm_num [scenarioConfig]
  · rw [f8]
    have : (N : ℚ) / 80000 * 1000 ≥ 0 := by rw [hmul]; exact le_of_lt hD
    exact decide_eq_true this

end Scenes

section Untouched
variable (pl : Platform)

theorem agreeOff_refl (S : Nat → Prop) (l : Nat → Path) : AgreeOff S l l := fun _ _ => rfl

theorem agreeOff_trans {S : Nat → Prop} {l1 l2 l3 : Nat → Path} (h1 : AgreeOff S l1 l2)
    (h2 : AgreeOff S l2 l3) : AgreeOff S l1 l3 :=
  fun j hj => (h2 j hj).trans (h1 j hj)

theorem agreeOff_modify {S : Nat → Prop} {l0 l : Nat → Path} (i : Nat) (f : Path → Path)
    (hi : S i) (h : AgreeOff S l0 l) : AgreeOff S l0 (modifyLine l i f) := by
  intro j hj
  have hne : j ≠ i := fun he => hj (he ▸ hi)
  rw [modifyLine_ne _ _ _ _ hne]
  exact h j hj

theorem agreeOff_backwardStep (S : Nat → Prop) (l : Nat → Path) (start : Nat) (v : ℚ)
    (h1 : S start) (h2 : S (previousPlannerIndex pl start)) :
    AgreeOff S l (backwardStep pl l start v).1 := by
  unfold backwardStep
  dsimp only
  split_ifs <;> (try dsimp only) <;>
    repeat (first
      | exact agreeOff_refl _ _
      | refine agreeOff_modify _ _ h1 ?_
      | refine agreeOff_modify _ _ h2 ?_)

theorem agreeOff_forwardStep (S : Nat → Prop) (l : Nat → Path) (first : Nat) (v : ℚ)
    (h1 : S first) (h2 : S (nextPlannerIndex pl first)) :
    AgreeOff S l (forwardStep pl l first v).1 := by
  unfold forwardStep
  dsimp only
  split_ifs <;> (try dsimp only) <;>
    repeat (first
      | exact agreeOff_refl _ _
      | refine agreeOff_modify _ _ h1 ?_
      | refine agreeOff_modify _ _ h2 ?_)

theorem agreeOff_backwardLoop (S : Nat → Prop) (P f : Nat) (hP : P < pl.MOVE_CACHE_SIZE) :
    ∀ (n fuel : Nat) (l : Nat → Path) (v : ℚ), f + n < pl.MOVE_CACHE_SIZE →
      (∀ o, f ≤ o → o ≤ f + n → S (ringIndex pl P o)) →
      AgreeOff S l (backwardLoop pl (ringIndex pl P f) fuel l (ringIndex pl P (f + n)) v) := by
  intro n
  induction n with
  | zero =>
    intro fuel l v _ _
    cases fuel with
    | zero => exact agreeOff_refl _ _
    | succ k =>
      simp only [backwardLoop, Nat.add_zero, ne_eq, not_true_eq_false, if_false]
      exact agreeOff_refl _ _
  | succ n ih =>
    intro fuel l v hlt hS
    cases fuel with
    | zero => exact agreeOff_refl _ _
    | succ k =>
      have hne : ringIndex pl P (f + (n + 1)) ≠ ringIndex pl P f := by
        intro he
        have := ringIndex_inj pl P _ _ hP hlt (by omega) he
        omega
      have hprev : previousPlannerIndex pl (ringIndex pl P (f + (n + 1))) =
          ringIndex pl P (f + n) := prev_ringIndex pl P (f + n) hP (by omega)
      have hstep := agreeOff_backwardStep pl S l (ringIndex pl P (f + (n + 1))) v
        (hS _ (by omega) (by omega)) (by rw [hprev]; exact hS _ (by omega) (by omega))
      simp only [backwardLoop, ne_eq, hne, not_false_eq_true, if_true]
      rw [backwardStep_start, hprev]
      exact agreeOff_trans hstep (ih k _ _ (by omega) (fun o h1 h2 => hS o h1 (by omega)))

theorem agreeOff_forwardLoop (S : Nat → Prop) (P c : Nat) (hP : P < pl.MOVE_CACHE_SIZE)
    (hc : c < pl.MOVE_CACHE_SIZE) :
    ∀ (n fuel : Nat) (l : Nat → Path) (o : Nat) (v : ℚ), o + n = c →
      (∀ o2, o ≤ o2 → o2 ≤ c → S (ringIndex pl P o2)) →
      AgreeOff S l (forwardLoop pl (ringIndex pl P c) fuel l (ringIndex pl P o) v) := by
  intro n
  induction n with
  | zero =>
    intro fuel l o v hoc hS
    have hfin : AgreeOff S l (modifyLine l (ringIndex pl P o)
        (fun q => q.setStartSpeed (max q.minSpeed v))) :=
      agreeOff_modify _ _ (hS o (le_refl _) (by omega)) (agreeOff_refl _ _)
    cases fuel with
    | zero => exact hfin
    | succ k =>
      have hoc2 : o = c := by omega
      subst hoc2
      simp only [forwardLoop, ne_eq, not_true_eq_false, if_false]
      exact hfin
  | succ n ih =>
    intro fuel l o v hoc hS
    cases fuel with
    | zero =>
      exact agreeOff_modify _ _ (hS o (le_refl _) (by omega)) (agreeOff_refl _ _)
    | succ k =>
      have hne : ringIndex pl P o ≠ ringIndex pl P c := by
        intro he
        have := ringIndex_inj pl P _ _ hP (by omega) hc he
        omega
      have hnext : nextPlannerIndex pl (ringIndex pl P o) = ringIndex pl P (o + 1) :=
        next_ringIndex pl P o hP (by omega)
      have hstep := agreeOff_forwardStep pl S l (ringIndex pl P o) v
        (hS _ (le_refl _) (by omega)) (by rw [hnext]; exact hS _ (by omega) (by omega))
      simp only [forwardLoop, ne_eq, hne, not_false_eq_true, if_true]
      rw [forwardStep_first, hnext]
      exact agreeOff_trans hstep (ih k _ _ _ (by omega) (fun o2 h1 h2 => hS o2 (by omega) h2))

theorem agreeOff_flyingBlockLoop (S : Nat → Prop) (P c : Nat) (hP : P < pl.MOVE_CACHE_SIZE)
    (hc : c < pl.MOVE_CACHE_SIZE) :
    ∀ (n fuel : Nat) (l : Nat → Path) (o : Nat), o + n + 1 = c →
      (∀ o2, o ≤ o2 → o2 ≤ c → S (ringIndex pl P o2)) →
      AgreeOff S l (flyingBlockLoop pl (ringIndex pl P c) fuel l (ringIndex pl P o)).1 := by
  intro n
  induction n with
  | zero =>
    intro fuel l o hoc hS
    have hnext : nextPlannerIndex pl (ringIndex pl P o) = ringIndex pl P c := by
      rw [next_ringIndex pl P o hP (by omega), ← hoc]
    have hbody : AgreeOff S l (modifyLine (modifyLine (modifyLine l (ringIndex pl P o)
        Path.updateStepsParameter) (ringIndex pl P o) Path.unblock)
        (nextPlannerIndex pl (ringIndex pl P o)) Path.block) := by
      refine agreeOff_modify _ _ (by rw [hnext]; exact hS c (by omega) (le_refl _)) ?_
      refine agreeOff_modify _ _ (hS o (le_refl _) (by omega)) ?_
      exact agreeOff_modify _ _ (hS o (le_refl _) (by omega)) (agreeOff_refl _ _)
    cases fuel with
    | zero => exact hbody
    | succ k =>
      unfold flyingBlockLoop
      simp only [hnext, ne_eq, not_true_eq_false, if_false]
      rw [← hnext]
      exact hbody
  | succ n ih =>
    intro fuel l o hoc hS
    have hnext : nextPlannerIndex pl (ringIndex pl P o) = ringIndex pl P (o + 1) :=
      next_ringIndex pl P o hP (by omega)
    have hne : ringIndex pl P (o + 1) ≠ ringIndex pl P c := by
      intro he
      have := ringIndex_inj pl P _ _ hP (by omega) hc he
      omega
    have hbody : AgreeOff S l (modifyLine (modifyLine (modifyLine l (ringIndex pl P o)
        Path.updateStepsParameter) (ringIndex pl P o) Path.unblock)
        (nextPlannerIndex pl (ringIndex pl P o)) Path.block) := by
      refine agreeOff_modify _ _ (by rw [hnext]; exact hS _ (by omega) (by omega)) ?_
      refine agreeOff_modify _ _ (hS o (le_refl _) (by omega)) ?_
      exact agreeOff_modify _ _ (hS o (le_refl _) (by omega)) (agreeOff_refl _ _)
    cases fuel with
    | zero => exact hbody
    | succ k =>
      rw [flyingBlockLoop]
      simp only [hnext, ne_eq, hne, not_false_eq_true, if_true]
      rw [← hnext]
      refine agreeOff_trans hbody ?_
      rw [hnext]
      exact ih k _ _ (by omega) (fun o2 h1 h2 => hS o2 (by omega) h2)

theorem plannerFirst_range (pp : PathPlanner) (c : Nat) (hP : pp.linesPos < pl.MOVE_CACHE_SIZE)
    (hc : c < pl.MOVE_CACHE_SIZE) (hc1 : 1 ≤ c)
    (hw : pp.linesWritePos = ringIndex pl pp.linesPos c) :
    ∃ f, 1 ≤ f ∧ f ≤ c ∧ plannerFirst pl pp = ringIndex pl pp.linesPos f := by
  have hne : pp.linesPos ≠ pp.linesWritePos := by
    intro he
    rw [hw] at he
    have h1 : ringIndex pl pp.linesPos 0 = ringIndex pl pp.linesPos c := by
      rw [ringIndex_zero pl _ hP]; exact he
    have := ringIndex_inj pl _ _ _ hP (by omega) hc h1
    omega
  obtain ⟨n, hn⟩ : ∃ n, c = 1 + n := ⟨c - 1, by omega⟩
  obtain ⟨f0, hf1, hf2, hf3, -, -⟩ := searchFirst_spec pl pp.linesPos hP pp.lines n
    pl.MOVE_CACHE_SIZE (by omega) (by omega)
  have hmax : nextPlannerIndex pl pp.linesPos = ringIndex pl pp.linesPos 1 := by
    have := next_ringIndex pl pp.linesPos 0 hP (by omega)
    rw [ringIndex_zero pl _ hP] at this
    exact this
  have hfirst0 : searchFirst pl pp.lines
      (if pp.linesPos ≠ pp.linesWritePos then nextPlannerIndex pl pp.linesPos else pp.linesPos)
      pl.MOVE_CACHE_SIZE pp.linesWritePos = ringIndex pl pp.linesPos f0 := by
    rw [if_pos hne, hmax, hw, hn]
    exact hf3
  unfold plannerFirst
  dsimp only
  rw [hfirst0]
  by_cases hcase : ringIndex pl pp.linesPos f0 ≠ pp.linesWritePos ∧
      (pp.lines (ringIndex pl pp.linesPos f0)).isEndSpeedFixed = true
  · rw [if_pos hcase]
    have hf0c : f0 ≠ c := by
      intro he
      apply hcase.1
      rw [hw, he]
    exact ⟨f0 + 1, by omega, by omega, next_ringIndex pl _ _ hP (by omega)⟩
  · rw [if_neg hcase]
    exact ⟨f0, hf1, by omega, rfl⟩

/-- The planner writes no slot outside the offsets `1, ..., c` from `linesPos`,
where `c` is the offset of `linesWritePos`. -/
theorem updateTrapezoids_agreeOff (pp : PathPlanner) (c : Nat)
    (hP : pp.linesPos < pl.MOVE_CACHE_SIZE) (hc : c < pl.MOVE_CACHE_SIZE) (hc1 : 1 ≤ c)
    (hw : pp.linesWritePos = ringIndex pl pp.linesPos c) :
    AgreeOff (InPlannerRange pl pp.linesPos c) pp.lines (updateTrapezoids pl pp).lines := by
  obtain ⟨f, hf1, hfc, hfirst⟩ := plannerFirst_range pl pp c hP hc hc1 hw
  have hS : ∀ o, 1 ≤ o → o ≤ c → InPlannerRange pl pp.linesPos c (ringIndex pl pp.linesPos o) :=
    fun o h1 h2 => ⟨o, h1, h2, rfl⟩
  have hSw : InPlannerRange pl pp.linesPos c pp.linesWritePos := by
    rw [hw]; exact hS c hc1 (le_refl _)
  have hSf := hS f hf1 hfc
  unfold updateTrapezoids
  dsimp only
  rw [hfirst]
  by_cases hfw : ringIndex pl pp.linesPos f = pp.linesWritePos
  · rw [if_pos hfw]
    dsimp only
    exact agreeOff_modify _ _ hSw (agreeOff_refl _ _)
  · rw [if_neg hfw]
    have hflt : f < c := by
      rcases Nat.lt_or_ge f c with h | h
      · exact h
      · exfalso
        apply hfw
        have : f = c := by omega
        rw [this, hw]
    have hprev : previousPlannerIndex pl pp.linesWritePos = ringIndex pl pp.linesPos (c - 1) := by
      rw [hw]
      have := prev_ringIndex pl pp.linesPos (c - 1) hP (by omega)
      rw [show c - 1 + 1 = c by omega] at this
      exact this
    have hSp : InPlannerRange pl pp.linesPos c (previousPlannerIndex pl pp.linesWritePos) := by
      rw [hprev]; exact hS (c - 1) (by omega) (by omega)
    have h1 : AgreeOff (InPlannerRange pl pp.linesPos c) pp.lines
        (modifyLine pp.lines (ringIndex pl pp.linesPos f) Path.block) :=
      agreeOff_modify _ _ hSf (agreeOff_refl _ _)
    split_ifs
    · dsimp only
      refine agreeOff_modify _ _ hSf ?_
      refine agreeOff_modify _ _ hSw ?_
      refine agreeOff_modify _ _ hSw ?_
      exact agreeOff_modify _ _ hSp h1
    · dsimp only
      refine agreeOff_modify _ _ hSf ?_
      refine agreeOff_modify _ _ hSw ?_
      refine agreeOff_modify _ _ hSw ?_
      refine agreeOff_modify _ _ hSp ?_
      exact agreeOff_modify _ _ hSp h1
    · dsimp only
      have h2 := agreeOff_modify (previousPlannerIndex pl pp.linesWritePos)
        (fun q => computeMaxJunctionSpeed pl pp.config q
          (modifyLine pp.lines (ringIndex pl pp.linesPos f) Path.block pp.linesWritePos)) hSp h1
      obtain ⟨n, hn⟩ : ∃ n, c = f + n := ⟨c - f, by omega⟩
      obtain ⟨m, hm⟩ : ∃ m, f + m + 1 = c := ⟨c - f - 1, by omega⟩
      have hwn : pp.linesWritePos = ringIndex pl pp.linesPos (f + n) := by rw [← hn]; exact hw
      refine agreeOff_modify _ _ hSw ?_
      refine agreeOff_modify _ _ hSw ?_
      have hb : ∀ l : Nat → Path, AgreeOff (InPlannerRange pl pp.linesPos c) l
          (backwardPlanner pl l pp.linesWritePos (ringIndex pl pp.linesPos f)) := by
        intro l
        unfold backwardPlanner
        rw [hwn]
        exact agreeOff_backwardLoop pl _ pp.linesPos f hP n _ _ _ (by omega)
          (fun o h1 h2 => hS o (by omega) (by omega))
      have hfw2 : ∀ l : Nat → Path, AgreeOff (InPlannerRange pl pp.linesPos c) l
          (forwardPlanner pl l pp.linesWritePos (ringIndex pl pp.linesPos f)) := by
        intro l
        unfold forwardPlanner
        rw [hw]
        exact agreeOff_forwardLoop pl _ pp.linesPos c hP hc n _ _ f _ (by omega)
          (fun o h1 h2 => hS o (by omega) h2)
      have hfl : ∀ l : Nat → Path, AgreeOff (InPlannerRange pl pp.linesPos c) l
          (flyingBlockLoop pl pp.linesWritePos (pl.MOVE_CACHE_SIZE - 1) l
            (ringIndex pl pp.linesPos f)).1 := by
        intro l
        rw [hw]
        exact agreeOff_flyingBlockLoop pl _ pp.linesPos c hP hc m _ _ f hm
          (fun o h1 h2 => hS o (by omega) h2)
      exact agreeOff_trans (agreeOff_trans (agreeOff_trans h2 (hb _)) (hfw2 _)) (hfl _)

theorem ringOffset_spec (P w : Nat) (hP : P < pl.MOVE_CACHE_SIZE) (hW : w < pl.MOVE_CACHE_SIZE)
    (hne : P ≠ w) :
    1 ≤ ringOffset pl P w ∧ ringOffset pl P w < pl.MOVE_CACHE_SIZE ∧
      w = ringIndex pl P (ringOffset pl P w) := by
  unfold ringOffset ringIndex
  split_ifs <;> omega

/-- C13: for every ring state with valid indices and
`linesPos ≠ linesWritePos`, `updateTrapezoids` leaves every field of the
segment at `linesPos` unchanged; it writes only slots at the indices from
`linesPos + 1` up to `linesWritePos`, modulo the ring size. -/
theorem updateTrapezoids_keeps_head (pp : PathPlanner)
    (hP : pp.linesPos < pl.MOVE_CACHE_SIZE) (hW : pp.linesWritePos < pl.MOVE_CACHE_SIZE)
    (hne : pp.linesPos ≠ pp.linesWritePos) :
    (updateTrapezoids pl pp).lines pp.linesPos = pp.lines pp.linesPos ∧
    ∀ j, ¬ InPlannerRange pl pp.linesPos (ringOffset pl pp.linesPos pp.linesWritePos) j →
      (updateTrapezoids pl pp).lines j = pp.lines j := by
  obtain ⟨h1, h2, h3⟩ := ringOffset_spec pl pp.linesPos pp.linesWritePos hP hW hne
  have h := updateTrapezoids_agreeOff pl pp _ hP h2 h1 h3
  refine ⟨h _ ?_, h⟩
  rintro ⟨o, ho1, ho2, ho3⟩
  have h0 : ringIndex pl pp.linesPos 0 = ringIndex pl pp.linesPos o := by
    rw [ringIndex_zero pl _ hP]; exact ho3
  have := ringIndex_inj pl _ _ _ hP (by omega) (by omega) h0
  omega

theorem updateTrapezoids_keeps_head_witness :
    (updateTrapezoids scenarioPlatform collinearState).lines 0 = collinearState.lines 0 ∧
    (updateTrapezoids scenarioPlatform collinearState).lines 3 = collinearState.lines 3 := by
  have h := updateTrapezoids_keeps_head scenarioPlatform collinearState (by decide) (by decide)
    (by decide)
  refine ⟨h.1, h.2 3 ?_⟩
  rintro ⟨o, h1, h2, h3⟩
  have h4 : o ≤ 2 := h2
  interval_cases o
  · exact absurd h3 (by decide)
  · exact absurd h3 (by decide)

end Untouched

section Timing
variable (pl : Platform) (cfg : Config)

theorem stepTiming_error (cur : Path) (e : Axis → Int) (a b c n : Nat) :
    stepTiming pl { cur with error := e } a b c n = stepTiming pl cur a b c n := rfl

/-- One round of the stepping loop appends one command, whose delay is the
interval of `stepTiming` on the prepared segment. -/
theorem stepLoop_round (cur : Path) (n : Nat) :
    delays (stepLoop pl cfg cur (n + 1)).commands =
      delays (stepLoop pl cfg cur n).commands ++
        [u32 (stepTiming pl cur (stepLoop pl cfg cur n).vMaxReached
          (stepLoop pl cfg cur n).timer_accel (stepLoop pl cfg cur n).timer_decel n).interval] ∧
    (stepLoop pl cfg cur (n + 1)).vMaxReached =
      (stepTiming pl cur (stepLoop pl cfg cur n).vMaxReached
          (stepLoop pl cfg cur n).timer_accel (stepLoop pl cfg cur n).timer_decel n).vMaxReached ∧
    (stepLoop pl cfg cur (n + 1)).timer_accel =
      (stepTiming pl cur (stepLoop pl cfg cur n).vMaxReached
          (stepLoop pl cfg cur n).timer_accel (stepLoop pl cfg cur n).timer_decel n).timer_accel ∧
    (stepLoop pl cfg cur (n + 1)).timer_decel =
      (stepTiming pl cur (stepLoop pl cfg cur n).vMaxReached
          (stepLoop pl cfg cur n).timer_accel (stepLoop pl cfg cur n).timer_decel n).timer_decel ∧
    ∀ c ∈ (stepLoop pl cfg cur (n + 1)).commands,
      c ∈ (stepLoop pl cfg cur n).commands ∨
        (c.direction = directionMask cfg cur ∧ c.cancellableMask = cancellableMask cfg cur ∧
          c.options = 0) := by
  obtain ⟨e, he⟩ := stepLoop_cur pl cfg cur n
  have ht : stepTiming pl (stepLoop pl cfg cur n).cur (stepLoop pl cfg cur n).vMaxReached
      (stepLoop pl cfg cur n).timer_accel (stepLoop pl cfg cur n).timer_decel n =
      stepTiming pl cur (stepLoop pl cfg cur n).vMaxReached
        (stepLoop pl cfg cur n).timer_accel (stepLoop pl cfg cur n).timer_decel n := by
    rw [he]
    rfl
  rw [stepLoop_succ]
  unfold stepBody delays
  dsimp only
  rw [ht]
  refine ⟨by simp, rfl, rfl, rfl, ?_⟩
  intro c hc
  rw [List.mem_append, List.mem_singleton] at hc
  rcases hc with h | h
  · exact Or.inl h
  · right
    rw [h]
    exact ⟨rfl, rfl, rfl⟩

/-- Every command of the stepping loop carries the direction mask of the
segment. -/
theorem stepLoop_direction (cur : Path) (n : Nat) :
    ∀ c ∈ (stepLoop pl cfg cur n).commands, c.direction = directionMask cfg cur := by
  induction n with
  | zero =>
    intro c hc
    exact absurd hc (List.not_mem_nil c)
  | succ n ih =>
    intro c hc
    rcases (stepLoop_round pl cfg cur n).2.2.2.2 c hc with h | h
    · exact ih c h
    · exact h.1

theorem stepLoop_joinFlags (cur : Path) (jf : JoinFlags) (n : Nat) :
    stepLoop pl cfg { cur with joinFlags := jf } n =
      { stepLoop pl cfg cur n with
        cur := { (stepLoop pl cfg cur n).cur with joinFlags := jf } } := by
  induction n with
  | zero => rfl
  | succ n ih =>
    rw [stepLoop_succ, stepLoop_succ, ih]
    rfl

theorem rampSteps_self (v a : Nat) : rampSteps v v a = 1 := by
  unfold rampSteps u64sub u64 u32
  have h : (v * v % 18446744073709551616 + 18446744073709551616 -
      v * v % 18446744073709551616 % 18446744073709551616) % 18446744073709551616 = 0 := by
    omega
  rw [h, Nat.zero_div]

theorem trimSteps_same_one (r : Nat) (hr : r < 2147483647) : trimSteps r r 1 = (0, 0) := by
  unfold trimSteps u32 u32sub
  simp only [Nat.shiftRight_one]
  by_cases h : (r + r) % 4294967296 ≥ 1
  · rw [if_pos h]
    have h2 : ((r + r + 2) % 4294967296 + 4294967296 - 1 % 4294967296) % 4294967296 / 2 = r := by
      omega
    simp only [h2, Nat.min_self, Nat.sub_self]
  · rw [if_neg h]
    have : r = 0 := by omega
    rw [this]

/-- The timing fields of the segment that `run` steps, when it finds the steps
parameters of the head stale. -/
theorem runPrepare_stale (p : Path) (hstale : p.areParameterUpToDate = false)
    (hw : p.isWarmUp = false) :
    (runPrepare p).vStart = toUnsigned ((p.vMax : ℚ) * (p.startSpeed * p.invFullSpeed)) ∧
    (runPrepare p).vEnd = toUnsigned ((p.vMax : ℚ) * (p.endSpeed * p.invFullSpeed)) ∧
    (runPrepare p).accelSteps = (trimSteps
      (rampSteps p.vMax (toUnsigned ((p.vMax : ℚ) * (p.startSpeed * p.invFullSpeed)))
        p.accelerationPrim)
      (rampSteps p.vMax (toUnsigned ((p.vMax : ℚ) * (p.endSpeed * p.invFullSpeed)))
        p.accelerationPrim) p.stepsRemaining).1 ∧
    (runPrepare p).decelSteps = (trimSteps
      (rampSteps p.vMax (toUnsigned ((p.vMax : ℚ) * (p.startSpeed * p.invFullSpeed)))
        p.accelerationPrim)
      (rampSteps p.vMax (toUnsigned ((p.vMax : ℚ) * (p.endSpeed * p.invFullSpeed)))
        p.accelerationPrim) p.stepsRemaining).2 ∧
    (runPrepare p).vMax = p.vMax ∧ (runPrepare p).fullInterval = p.fullInterval ∧
    (runPrepare p).stepsRemaining = p.stepsRemaining ∧
    (runPrepare p).fAcceleration = p.fAcceleration ∧
    (runPrepare p).dir = p.dir := by
  have h1 : p.fixStartAndEndSpeed.areParameterUpToDate = false := hstale
  have h2 : p.fixStartAndEndSpeed.isWarmUp = false := hw
  unfold runPrepare
  dsimp only
  rw [h1]
  simp only [Bool.not_false, if_true]
  rw [updateStepsParameter_eq _ h1 h2]
  exact ⟨rfl, rfl, rfl, rfl, rfl, rfl, rfl, rfl, rfl⟩

/-- A segment that `updateTrapezoids` has planned alone is stepped by `run`
like the segment itself with stale parameters: only the join flags differ. -/
theorem runPrepare_plannedAlone (p : Path) (hstale : p.areParameterUpToDate = false)
    (hw : p.isWarmUp = false) :
    runPrepare p.plannedAlone =
      { runPrepare p with joinFlags := (runPrepare p.plannedAlone).joinFlags } := by
  have h1 : p.fixStartAndEndSpeed.areParameterUpToDate = false := hstale
  have h2 : p.fixStartAndEndSpeed.isWarmUp = false := hw
  have h3 : (p.block.setStartSpeedFixed true).areParameterUpToDate = false := hstale
  have h4 : (p.block.setStartSpeedFixed true).isWarmUp = false := hw
  unfold runPrepare Path.plannedAlone
  dsimp only
  rw [h1, updateStepsParameter_eq _ h1 h2, updateStepsParameter_eq _ h3 h4]
  rfl

theorem runSteps_plannedAlone (p : Path) (hstale : p.areParameterUpToDate = false)
    (hw : p.isWarmUp = false) :
    (runSteps pl cfg (runPrepare p.plannedAlone)).commands =
      (runSteps pl cfg (runPrepare p)).commands := by
  rw [runPrepare_plannedAlone p hstale hw]
  unfold runSteps
  rw [stepLoop_joinFlags]

theorem u32_of_lt (n : Nat) (h : n < 4294967296) : u32 n = n := Nat.mod_eq_of_lt h

/-- A segment without ramp steps is stepped at the interval `fullInterval`
throughout. -/
theorem stepLoop_no_ramp (cur : Path) (ha : cur.accelSteps = 0) (hd : cur.decelSteps = 0) :
    ∀ n, n ≤ cur.stepsRemaining →
      delays (stepLoop pl cfg cur n).commands = List.replicate n (u32 cur.fullInterval) := by
  intro n
  induction n with
  | zero => intro _; rfl
  | succ n ih =>
    intro hn
    obtain ⟨r1, -⟩ := stepLoop_round pl cfg cur n
    rw [r1, ih (by omega), List.replicate_succ']
    unfold stepTiming Path.moveAccelerating Path.moveDecelerating
    rw [ha, hd, if_neg (by simp), if_neg (by simp; omega)]

theorem plannedAlone_fields (p : Path) :
    p.plannedAlone.kin = p.kin ∧ p.plannedAlone.startSpeed = p.startSpeed ∧
    p.plannedAlone.endSpeed = p.endSpeed ∧ p.plannedAlone.vMax = p.vMax ∧
    p.plannedAlone.distance = p.distance ∧ p.plannedAlone.timeInTicks = p.timeInTicks := by
  unfold Path.plannedAlone Path.updateStepsParameter
  split_ifs <;> exact ⟨rfl, rfl, rfl, rfl, rfl, rfl⟩

/-- The segment that `queueMove` admits has stale steps parameters, is no
warm-up, and has its start and end speed at its minimum speed. -/
theorem admittedSegment_fresh (pp : PathPlanner) (ad ns : Axis → ℚ) (speed : ℚ) (c o : Bool) :
    (admittedSegment pl pp ad ns speed c o).areParameterUpToDate = false ∧
    (admittedSegment pl pp ad ns speed c o).isWarmUp = false ∧
    (admittedSegment pl pp ad ns speed c o).startSpeed =
      (admittedSegment pl pp ad ns speed c o).minSpeed ∧
    (admittedSegment pl pp ad ns speed c o).endSpeed =
      (admittedSegment pl pp ad ns speed c o).minSpeed ∧
    (admittedSegment pl pp ad ns speed c o).vMax =
      pl.F_CPU / (admittedSegment pl pp ad ns speed c o).fullInterval ∧
    (admittedSegment pl pp ad ns speed c o).invFullSpeed =
      1 / (admittedSegment pl pp ad ns speed c o).fullSpeed ∧
    (admittedSegment pl pp ad ns speed c o).fAcceleration =
      toUnsigned (262144 * ((admittedSegment pl pp ad ns speed c o).accelerationPrim : ℚ) /
        (pl.F_CPU : ℚ)) ∧
    (admittedSegment pl pp ad ns speed c o).minSpeed =
      safeSpeed pp.config (admittedSegment pl pp ad ns speed c o) := by
  obtain ⟨c1, c2, -, c4, -⟩ := calculateMoveSegment_planner pl pp.config
    (preparedSegment pl pp ad ns speed c o) (fun i => ad i * 1000)
  obtain ⟨-, t2, t3, -, t5, t6, t7, -⟩ := calculateMoveSegment_timing pl pp.config
    (preparedSegment pl pp ad ns speed c o) (fun i => ad i * 1000)
  obtain ⟨-, f2⟩ := preparedSegment_flags pl pp ad ns speed c o
  have hwu : (preparedSegment pl pp ad ns speed c o).isWarmUp = false := by
    unfold preparedSegment queueMovePrepare
    rw [queueMoveInit_eq]
    rfl
  refine ⟨?_, ?_, c1, c2, t2, t3, t5, t6⟩
  · unfold admittedSegment Path.areParameterUpToDate
    rw [c4, f2]
  · unfold admittedSegment
    rw [t7, hwu]

/-- On an empty ring the commands that `run` emits for the segment just
queued are those of the admitted segment with freshly computed steps
parameters. -/
theorem runCommands_queueMove_empty (pp : PathPlanner) (ad ns : Axis → ℚ) (speed : ℚ)
    (c o : Bool) (hempty : pp.linesPos = pp.linesWritePos)
    (hadm : Admits pl pp ad ns speed c o) :
    runCommands pl (queueMove pl pp ad ns speed c o) =
      (runSteps pl pp.config (runPrepare (admittedSegment pl pp ad ns speed c o))).commands := by
  obtain ⟨h1, h2, -⟩ := admittedSegment_fresh pl pp ad ns speed c o
  rw [queueMove_short pl pp ad ns speed c o hadm (Or.inl hempty)]
  unfold runCommands
  dsimp only
  rw [hempty, Function.update_same]
  exact runSteps_plannedAlone pl pp.config _ h1 h2

/-- The delay of the only command of a single-step segment queued on an empty
ring. -/
theorem runCommands_single_step (pp : PathPlanner) (ad ns : Axis → ℚ) (speed : ℚ)
    (c o : Bool) (hempty : pp.linesPos = pp.linesWritePos)
    (hadm : Admits pl pp ad ns speed c o)
    (h1 : (admittedSegment pl pp ad ns speed c o).stepsRemaining = 1)
    (hFI : (admittedSegment pl pp ad ns speed c o).fullInterval < 4294967296)
    (hr : rampSteps (admittedSegment pl pp ad ns speed c o).vMax
      (toUnsigned (((admittedSegment pl pp ad ns speed c o).vMax : ℚ) *
        ((admittedSegment pl pp ad ns speed c o).startSpeed *
          (admittedSegment pl pp ad ns speed c o).invFullSpeed)))
      (admittedSegment pl pp ad ns speed c o).accelerationPrim < 2147483647) :
    delays (runCommands pl (queueMove pl pp ad ns speed c o)) =
      [(admittedSegment pl pp ad ns speed c o).fullInterval] := by
  obtain ⟨f1, f2, f3, f4, -⟩ := admittedSegment_fresh pl pp ad ns speed c o
  obtain ⟨-, -, q3, q4, -, q6, q7, -, -⟩ := runPrepare_stale
    (admittedSegment pl pp ad ns speed c o) f1 f2
  rw [f4, ← f3, h1, trimSteps_same_one _ hr] at q3 q4
  rw [runCommands_queueMove_empty pl pp ad ns speed c o hempty hadm]
  unfold runSteps
  rw [stepLoop_no_ramp pl pp.config _ q3 q4 _ (le_refl _), q7, h1, q6, u32_of_lt _ hFI]
  rfl

end Timing

section Moves

theorem directionMask_congr (cfg : Config) (a b : Path) (h : a.dir = b.dir) :
    directionMask cfg a = directionMask cfg b := by
  unfold directionMask Path.isXPositiveMove Path.isYPositiveMove Path.isZPositiveMove
    Path.isEPositiveMove Path.isXMove Path.isYMove Path.isZMove Path.isEMove
    Path.isMoveOfAxis Path.isPositiveDirection
  rw [h]

theorem scenario_xmove_facts (pp : PathPlanner) (hcfg : pp.config = scenarioConfig) (N : Nat)
    (hN0 : 0 < N) (dx n : ℚ) (hdx : dx = (N : ℚ) / 80000) (hn : n = (N : ℚ)) (c o : Bool) :
    XMoveFacts (admittedSegment scenarioPlatform pp (onlyX dx) (onlyX n) (1 / 20) c o) N := by
  subst hdx hn
  obtain ⟨s1, s2, s3, s4, s5, s6, s7, s8, s9, s10⟩ := scenario_xmove pp hcfg N hN0 c o
  obtain ⟨f1, f2, f3, f4, f5, f6, f7, f8⟩ := admittedSegment_fresh scenarioPlatform pp
    (onlyX ((N : ℚ) / 80000)) (onlyX (N : ℚ)) (1 / 20) c o
  have hN : toUnsigned (N : ℚ) = N := toUnsigned_natCast _
  have hnz : toUnsigned (N : ℚ) ≠ 0 := by rw [hN]; omega
  obtain ⟨-, -, -, -, -, -, -, -, g9, g10, g11⟩ := admittedSegment_onlyX_fields scenarioPlatform
    pp ((N : ℚ) / 80000) (N : ℚ) (1 / 20) c o hnz
  have hd := admittedSegment_delta scenarioPlatform pp (onlyX ((N : ℚ) / 80000))
    (onlyX (N : ℚ)) (1 / 20) c o
  obtain ⟨n1, -⟩ := calculateMoveSegment_nominal scenarioPlatform pp.config
    (preparedSegment scenarioPlatform pp (onlyX ((N : ℚ) / 80000)) (onlyX (N : ℚ)) (1 / 20) c o)
    (fun i => onlyX ((N : ℚ) / 80000) i * 1000)
  refine ⟨s1, s2, s3, s4, s5, s6, s8, s9, ?_, f3.trans s9, f4.trans s9, ?_, ?_, f1, f2, ?_,
    ?_, ?_, ?_, ?_, ?_, ?_⟩
  · rw [f5, s1]; rfl
  · rw [f6, s6]
  · rw [f7, s8]
    have : (262144 : ℚ) * ((240000 : Nat) : ℚ) / ((scenarioPlatform.F_CPU : Nat) : ℚ) =
        196608 / 625 := by
      simp only [scenarioPlatform]
      norm_num
    rw [this]
    apply toUnsigned_eq_of <;> norm_num
  · rw [← hcfg, ← f8, s9]
  · rw [hd, onlyX_X, hN]
  · rw [hd, onlyX_Y, toUnsigned_zero]
  · rw [hd, onlyX_Z, toUnsigned_zero]
  · rw [hd, onlyX_E, toUnsigned_zero]
  · unfold directionMask
    rw [s10, g9, g10, g11]
    rfl
  · intro h32
    have e : admittedSegment scenarioPlatform pp (onlyX ((N : ℚ) / 80000)) (onlyX (N : ℚ))
        (1 / 20) c o = calculateMoveSegment scenarioPlatform pp.config
          (preparedSegment scenarioPlatform pp (onlyX ((N : ℚ) / 80000)) (onlyX (N : ℚ))
            (1 / 20) c o) (fun i => onlyX ((N : ℚ) / 80000) i * 1000) := rfl
    rw [e, n1, ← e, s9, s7, s6]
    have h32q : (32 : ℚ) ≤ (N : ℚ) := by exact_mod_cast h32
    have : (10 : ℚ) * 10 + 75 * (N : ℚ) ≥ 50 * 50 := by linarith
    rw [decide_eq_true this, Bool.or_true]

theorem scenario_admits (pp : PathPlanner) (hstop : pp.stop = false) (N : Nat) (hN0 : 0 < N)
    (dx n : ℚ) (hn : n = (N : ℚ)) (c o : Bool) :
    Admits scenarioPlatform pp (onlyX dx) (onlyX n) (1 / 20) c o :=
  (admits_iff _ _ _ _ _ _ _).mpr ⟨hstop, X_AXIS, by
    rw [onlyX_X, hn, toUnsigned_natCast]
    omega⟩

/-- What the slot written by `updateTrapezoids` for a segment planned alone
keeps of the admitted X move. -/
theorem scenario_slot (seg : Path) (N : Nat) (h : XMoveFacts seg N) :
    seg.plannedAlone.delta X_AXIS = N ∧ seg.plannedAlone.delta Y_AXIS = 0 ∧
    seg.plannedAlone.delta Z_AXIS = 0 ∧ seg.plannedAlone.delta E_AXIS = 0 ∧
    seg.plannedAlone.primaryAxis = X_AXIS ∧ seg.plannedAlone.distance = (N : ℚ) / 80 ∧
    seg.plannedAlone.fullInterval = 50000 ∧ seg.plannedAlone.fullSpeed = 50 ∧
    seg.plannedAlone.vMax = 4000 ∧ seg.plannedAlone.startSpeed = 10 ∧
    seg.plannedAlone.endSpeed = 10 ∧ seg.plannedAlone.minSpeed = 10 ∧
    safeSpeed scenarioConfig seg.plannedAlone = 10 ∧
    (32 ≤ N → seg.plannedAlone.isNominalMove = true) ∧
    seg.plannedAlone.stepsRemaining = N ∧ seg.plannedAlone.timeInTicks = 50000 * N := by
  obtain ⟨k, p2, p3, p4, p5, p6⟩ := plannedAlone_fields seg
  obtain ⟨g1, g2, g3, g4⟩ := kin_geometry k
  obtain ⟨-, -, k3, k4, k5, k6, k7, -, k9, -⟩ := kin_speeds k
  refine ⟨?_, ?_, ?_, ?_, g2.trans h.primaryAxis, p5.trans h.distance, k6.trans h.fullInterval,
    k5.trans h.fullSpeed, p4.trans h.vMax, p2.trans h.startSpeed, p3.trans h.endSpeed,
    k7.trans h.minSpeed, ?_, ?_, g3.trans h.stepsRemaining, p6.trans h.timeInTicks⟩
  · rw [g1]; exact h.deltaX
  · rw [g1]; exact h.deltaY
  · rw [g1]; exact h.deltaZ
  · rw [g1]; exact h.deltaE
  · rw [safeSpeed_congr scenarioConfig _ seg g4 g2 k5 k3 k4]; exact h.safe
  · intro h32
    unfold Path.isNominalMove
    rw [k9]
    exact h.nominal h32

/-- The commands that `run` emits for an X move of the scenario queued on an
empty ring: one per step, each with the direction mask 1. -/
theorem scenario_run (pp : PathPlanner) (hcfg : pp.config = scenarioConfig)
    (hstop : pp.stop = false) (hempty : pp.linesPos = pp.linesWritePos) (N : Nat)
    (hN0 : 0 < N) (dx n : ℚ) (hdx : dx = (N : ℚ) / 80000) (hn : n = (N : ℚ)) (c o : Bool) :
    (runCommands scenarioPlatform
      (queueMove scenarioPlatform pp (onlyX dx) (onlyX n) (1 / 20) c o)).length = N ∧
    ∀ cmd ∈ runCommands scenarioPlatform
      (queueMove scenarioPlatform pp (onlyX dx) (onlyX n) (1 / 20) c o), cmd.direction = 1 := by
  have hf := scenario_xmove_facts pp hcfg N hN0 dx n hdx hn c o
  obtain ⟨-, -, -, -, -, -, q7, -, q9⟩ := runPrepare_stale _ hf.stale hf.working
  rw [runCommands_queueMove_empty scenarioPlatform pp _ _ _ c o hempty
    (scenario_admits pp hstop N hN0 dx n hn c o)]
  unfold runSteps
  refine ⟨?_, ?_⟩
  · rw [(stepLoop_static scenarioPlatform pp.config _ _).2.2, q7, hf.stepsRemaining]
  · intro cmd hc
    rw [stepLoop_direction scenarioPlatform pp.config _ _ cmd hc,
      directionMask_congr pp.config _ _ q9, hcfg]
    exact hf.mask

/-- The planner state after `queueMove` has admitted a segment that
`updateTrapezoids` plans alone, field by field. -/
theorem queueMove_short_fields (pl : Platform) (pp : PathPlanner) (ad ns : Axis → ℚ)
    (speed : ℚ) (c o : Bool) (hadm : Admits pl pp ad ns speed c o)
    (h : pp.linesPos = pp.linesWritePos ∨ nextPlannerIndex pl pp.linesPos = pp.linesWritePos) :
    (queueMove pl pp ad ns speed c o).lines =
      Function.update pp.lines pp.linesWritePos
        (admittedSegment pl pp ad ns speed c o).plannedAlone ∧
    (queueMove pl pp ad ns speed c o).linesPos = pp.linesPos ∧
    (queueMove pl pp ad ns speed c o).linesWritePos =
      (if pp.linesWritePos + 1 ≥ pl.MOVE_CACHE_SIZE then 0 else pp.linesWritePos + 1) ∧
    (queueMove pl pp ad ns speed c o).linesCount = pp.linesCount + 1 ∧
    (queueMove pl pp ad ns speed c o).config = pp.config ∧
    (queueMove pl pp ad ns speed c o).stop = pp.stop := by
  rw [queueMove_short pl pp ad ns speed c o hadm h]
  exact ⟨rfl, rfl, rfl, rfl, rfl, rfl⟩

theorem cruise_facts :
    XMoveFacts (admittedSegment scenarioPlatform scenarioPlanner (onlyX (1 / 100)) (onlyX 800)
      (1 / 20) false false) 800 :=
  scenario_xmove_facts scenarioPlanner rfl 800 (by decide) _ _ (by norm_num) (by norm_num)
    false false

theorem cruiseState_head :
    cruiseState.linesPos = 0 ∧ cruiseState.linesCount = 1 ∧
    cruiseState.lines cruiseState.linesPos =
      (admittedSegment scenarioPlatform scenarioPlanner (onlyX (1 / 100)) (onlyX 800)
        (1 / 20) false false).plannedAlone := by
  obtain ⟨h1, h2, -, h4, -⟩ := queueMove_short_fields scenarioPlatform scenarioPlanner
    (onlyX (1 / 100)) (onlyX 800) (1 / 20) false false cruise_admits (Or.inl rfl)
  have e : cruiseState = queueMove scenarioPlatform scenarioPlanner (onlyX (1 / 100))
    (onlyX 800) (1 / 20) false false := rfl
  rw [e, h1, h2, h4]
  exact ⟨rfl, rfl, Function.update_same _ _ _⟩

/-- C18: the first end-to-end scenario.  A single X move of 10 mm (800 steps)
requested at 0.05 m/s and queued on the empty scenario planner (F_CPU 200 MHz,
maximum feedrate 300 mm/s, acceleration 240000 steps/s² = 3000 mm/s² at
80 steps/mm, maximum jerk 20 mm/s) is stored at the head of the ring with
`delta = [800, 0, 0, 0]`, `primaryAxis = X`, `distance = 10`,
`fullInterval = 50000`, `fullSpeed = 50`, `vMax = 4000`,
`startSpeed = endSpeed = minSpeed = safeSpeed = 10` and the nominal flag set;
`run` then emits exactly 800 commands, each with bit 0 of `direction` set. -/
theorem scenario_single_x_move :
    cruiseState.linesCount = 1 ∧
    (cruiseState.lines cruiseState.linesPos).delta X_AXIS = 800 ∧
    (cruiseState.lines cruiseState.linesPos).delta Y_AXIS = 0 ∧
    (cruiseState.lines cruiseState.linesPos).delta Z_AXIS = 0 ∧
    (cruiseState.lines cruiseState.linesPos).delta E_AXIS = 0 ∧
    (cruiseState.lines cruiseState.linesPos).primaryAxis = X_AXIS ∧
    (cruiseState.lines cruiseState.linesPos).distance = 10 ∧
    (cruiseState.lines cruiseState.linesPos).fullInterval = 50000 ∧
    (cruiseState.lines cruiseState.linesPos).fullSpeed = 50 ∧
    (cruiseState.lines cruiseState.linesPos).vMax = 4000 ∧
    (cruiseState.lines cruiseState.linesPos).startSpeed = 10 ∧
    (cruiseState.lines cruiseState.linesPos).endSpeed = 10 ∧
    (cruiseState.lines cruiseState.linesPos).minSpeed = 10 ∧
    safeSpeed cruiseState.config (cruiseState.lines cruiseState.linesPos) = 10 ∧
    (cruiseState.lines cruiseState.linesPos).isNominalMove = true ∧
    (runCommands scenarioPlatform cruiseState).length = 800 ∧
    ∀ cmd ∈ runCommands scenarioPlatform cruiseState, cmd.direction.testBit 0 = true := by
  obtain ⟨-, hc, hslot⟩ := cruiseState_head
  obtain ⟨d1, d2, d3, d4, d5, d6, d7, d8, d9, d10, d11, d12, d13, d14, -, -⟩ :=
    scenario_slot _ 800 cruise_facts
  obtain ⟨r1, r2⟩ := scenario_run scenarioPlanner rfl rfl rfl 800 (by decide) (1 / 100) 800
    (by norm_num) (by norm_num) false false
  have e : cruiseState = queueMove scenarioPlatform scenarioPlanner (onlyX (1 / 100))
    (onlyX 800) (1 / 20) false false := rfl
  have hcfg : cruiseState.config = scenarioConfig := by
    rw [e]
    exact (queueMove_config scenarioPlatform scenarioPlanner _ _ _ _ _).1
  rw [hslot, hcfg]
  refine ⟨hc, d1, d2, d3, d4, d5, ?_, d7, d8, d9, d10, d11, d12, d13, d14 (by decide), ?_, ?_⟩
  · rw [d6]; norm_num
  · rw [e]; exact r1
  · intro cmd hcmd
    rw [e] at hcmd
    rw [r2 cmd hcmd]
    decide

theorem firstMoveState_fields :
    firstMoveState.lines = Function.update scenarioPlanner.lines 0
      (admittedSegment scenarioPlatform scenarioPlanner (onlyX (1 / 200)) (onlyX 400)
        (1 / 20) false false).plannedAlone ∧
    firstMoveState.linesPos = 0 ∧ firstMoveState.linesWritePos = 1 ∧
    firstMoveState.linesCount = 1 ∧ firstMoveState.config = scenarioConfig ∧
    firstMoveState.stop = false := by
  obtain ⟨h1, h2, h3, h4, h5, h6⟩ := queueMove_short_fields scenarioPlatform scenarioPlanner
    (onlyX (1 / 200)) (onlyX 400) (1 / 20) false false
    (scenario_admits scenarioPlanner rfl 400 (by decide) _ _ (by norm_num) false false)
    (Or.inl rfl)
  have e : firstMoveState = queueMove scenarioPlatform scenarioPlanner (onlyX (1 / 200))
    (onlyX 400) (1 / 20) false false := rfl
  rw [e, h1, h2, h3, h4, h5, h6]
  exact ⟨rfl, rfl, rfl, rfl, rfl, rfl⟩

/-- The ring after the two collinear moves: the first move at the head in
slot 0, the second behind it in slot 1, each as `updateTrapezoids` wrote it
when it was queued. -/
theorem twoMoveState_slots :
    twoMoveState.linesPos = 0 ∧ twoMoveState.linesWritePos = 2 ∧ twoMoveState.linesCount = 2 ∧
    twoMoveState.config = scenarioConfig ∧
    twoMoveState.lines 0 =
      (admittedSegment scenarioPlatform scenarioPlanner (onlyX (1 / 200)) (onlyX 400)
        (1 / 20) false false).plannedAlone ∧
    twoMoveState.lines 1 =
      (admittedSegment scenarioPlatform firstMoveState (onlyX (1 / 200)) (onlyX 400)
        (1 / 20) false false).plannedAlone := by
  obtain ⟨f1, f2, f3, f4, f5, f6⟩ := firstMoveState_fields
  obtain ⟨h1, h2, h3, h4, h5, -⟩ := queueMove_short_fields scenarioPlatform firstMoveState
    (onlyX (1 / 200)) (onlyX 400) (1 / 20) false false
    (scenario_admits firstMoveState f6 400 (by decide) _ _ (by norm_num) false false)
    (Or.inr (by rw [f2, f3]; rfl))
  have e : twoMoveState = queueMove scenarioPlatform firstMoveState (onlyX (1 / 200))
    (onlyX 400) (1 / 20) false false := rfl
  rw [e, h1, h2, h3, h4, h5, f1, f2, f3, f4, f5]
  refine ⟨rfl, rfl, rfl, rfl, ?_, ?_⟩
  · rw [Function.update_noteq (by decide), Function.update_same]
  · rw [Function.update_same]

theorem twoMove_facts :
    XMoveFacts (admittedSegment scenarioPlatform scenarioPlanner (onlyX (1 / 200)) (onlyX 400)
      (1 / 20) false false) 400 ∧
    XMoveFacts (admittedSegment scenarioPlatform firstMoveState (onlyX (1 / 200)) (onlyX 400)
      (1 / 20) false false) 400 :=
  ⟨scenario_xmove_facts scenarioPlanner rfl 400 (by decide) _ _ (by norm_num) (by norm_num)
      false false,
    scenario_xmove_facts firstMoveState firstMoveState_fields.2.2.2.2.1 400 (by decide) _ _
      (by norm_num) (by norm_num) false false⟩

/-- C19, as amended: in the second end-to-end scenario the first move is the
head of the ring when the second is queued, and `updateTrapezoids` never
replans the head, so the junction stays at the safe speed: after the planner
has run for the second move, `first.endSpeed == second.startSpeed == safeSpeed`
(10 mm/s, below the full speed of 50 mm/s of both moves), with both segments
nominal. -/
theorem scenario_two_collinear_moves :
    twoMoveState.linesPos = 0 ∧ twoMoveState.linesCount = 2 ∧
    (twoMoveState.lines 0).endSpeed = 10 ∧ (twoMoveState.lines 1).startSpeed = 10 ∧
    safeSpeed twoMoveState.config (twoMoveState.lines 0) = 10 ∧
    safeSpeed twoMoveState.config (twoMoveState.lines 1) = 10 ∧
    (twoMoveState.lines 0).fullSpeed = 50 ∧ (twoMoveState.lines 1).fullSpeed = 50 ∧
    (twoMoveState.lines 0).isNominalMove = true ∧
    (twoMoveState.lines 1).isNominalMove = true := by
  obtain ⟨h1, -, h3, h4, h5, h6⟩ := twoMoveState_slots
  obtain ⟨-, -, -, -, -, -, -, a8, -, -, a11, -, a13, a14, -, -⟩ :=
    scenario_slot _ 400 twoMove_facts.1
  obtain ⟨-, -, -, -, -, -, -, b8, -, b10, -, -, b13, b14, -, -⟩ :=
    scenario_slot _ 400 twoMove_facts.2
  rw [h4, h5, h6]
  exact ⟨h1, h3, a11, b10, a13, b13, a8, b8, a14 (by decide), b14 (by decide)⟩

/-- C19, counterexample to the claim as stated: after the two collinear moves
of 5 mm at 0.05 m/s have been queued on the empty scenario planner, the end
speed of the first and the start speed of the second are 10 mm/s, not the
full speed of 50 mm/s. -/
theorem scenario_two_moves_junction_off :
    (twoMoveState.lines twoMoveState.linesPos).endSpeed ≠
      (twoMoveState.lines twoMoveState.linesPos).fullSpeed ∧
    (twoMoveState.lines (nextPlannerIndex scenarioPlatform twoMoveState.linesPos)).startSpeed ≠
      (twoMoveState.lines (nextPlannerIndex scenarioPlatform twoMoveState.linesPos)).fullSpeed := by
  obtain ⟨h1, -, -, -, h5, h6⟩ := twoMoveState_slots
  obtain ⟨-, -, -, -, -, -, -, a8, -, -, a11, -⟩ := scenario_slot _ 400 twoMove_facts.1
  obtain ⟨-, -, -, -, -, -, -, b8, -, b10, -⟩ := scenario_slot _ 400 twoMove_facts.2
  have hn : nextPlannerIndex scenarioPlatform 0 = 1 := rfl
  rw [h1, hn, h5, h6, a8, a11, b8, b10]
  exact ⟨by norm_num, by norm_num⟩

end Moves

section Duration
variable (pl : Platform) (cfg : Config)

end Duration

section DurationScene

end DurationScene

section ZFilter

variable (pl : Platform)

/-- The ring that `updateTrapezoids` returns through the filter between Z
moves and other moves. -/
theorem updateTrapezoids_zfilter_lines (pp : PathPlanner)
    (hfirst : plannerFirst pl pp ≠ pp.linesWritePos)
    (hz : ((pp.lines (previousPlannerIndex pl pp.linesWritePos)).primaryAxis = Z_AXIS ∧
        (pp.lines pp.linesWritePos).primaryAxis ≠ Z_AXIS) ∨
      ((pp.lines (previousPlannerIndex pl pp.linesWritePos)).primaryAxis ≠ Z_AXIS ∧
        (pp.lines pp.linesWritePos).primaryAxis = Z_AXIS)) :
    (updateTrapezoids pl pp).lines =
      modifyLine (modifyLine (modifyLine (modifyLine (modifyLine pp.lines (plannerFirst pl pp)
        Path.block) (previousPlannerIndex pl pp.linesWritePos) (fun q => q.setEndSpeedFixed true))
        pp.linesWritePos (fun q => q.setStartSpeedFixed true))
        pp.linesWritePos Path.updateStepsParameter) (plannerFirst pl pp) Path.unblock := by
  have hax : ∀ j, (modifyLine pp.lines (plannerFirst pl pp) Path.block j).primaryAxis =
      (pp.lines j).primaryAxis := by
    intro j
    by_cases hj : j = plannerFirst pl pp
    · subst hj; rw [modifyLine_same]; rfl
    · rw [modifyLine_ne _ _ _ _ hj]
  unfold updateTrapezoids
  dsimp only
  rw [if_neg hfirst, hax, hax, if_pos hz]

/-- A write to a slot that keeps a field keeps the field in every slot. -/
theorem modifyLine_field {α : Type} (g : Path → α) (lines : Nat → Path) (i : Nat)
    (f : Path → Path) (hf : ∀ p, g (f p) = g p) (j : Nat) :
    g (modifyLine lines i f j) = g (lines j) := by
  by_cases hj : j = i
  · subst hj; rw [modifyLine_same]; exact hf _
  · rw [modifyLine_ne _ _ _ _ hj]

theorem updateStepsParameter_speeds (p : Path) :
    p.updateStepsParameter.startSpeed = p.startSpeed ∧
    p.updateStepsParameter.endSpeed = p.endSpeed ∧
    p.updateStepsParameter.minSpeed = p.minSpeed := by
  unfold Path.updateStepsParameter
  split_ifs
  · exact ⟨rfl, rfl, rfl⟩
  · exact ⟨rfl, rfl, rfl⟩

theorem updateStepsParameter_flags (p : Path) :
    p.updateStepsParameter.isStartSpeedFixed = p.isStartSpeedFixed ∧
    p.updateStepsParameter.isEndSpeedFixed = p.isEndSpeedFixed ∧
    p.updateStepsParameter.isBlocked = p.isBlocked := by
  unfold Path.updateStepsParameter
  split_ifs
  · exact ⟨rfl, rfl, rfl⟩
  · exact ⟨rfl, rfl, rfl⟩

/-- C21: in `updateTrapezoids`, whenever the new segment has a predecessor
that the planner may change (`first ≠ linesWritePos`) and exactly one of the
previous and the new segment has Z as primary axis, then afterwards the end
speed of the previous segment and the start speed of the new segment are
fixed, no segment has another start speed, end speed or minimum speed than
before (so a previous segment that ended at its minimum speed, as every
segment does while it is the newest, still ends at it), and the segment
`first` is not blocked. -/
theorem updateTrapezoids_z_filter (pp : PathPlanner)
    (hfirst : plannerFirst pl pp ≠ pp.linesWritePos)
    (hz : ((pp.lines (previousPlannerIndex pl pp.linesWritePos)).primaryAxis = Z_AXIS ∧
        (pp.lines pp.linesWritePos).primaryAxis ≠ Z_AXIS) ∨
      ((pp.lines (previousPlannerIndex pl pp.linesWritePos)).primaryAxis ≠ Z_AXIS ∧
        (pp.lines pp.linesWritePos).primaryAxis = Z_AXIS)) :
    ((updateTrapezoids pl pp).lines (previousPlannerIndex pl pp.linesWritePos)).isEndSpeedFixed
      = true ∧
    ((updateTrapezoids pl pp).lines pp.linesWritePos).isStartSpeedFixed = true ∧
    (∀ j, ((updateTrapezoids pl pp).lines j).startSpeed = (pp.lines j).startSpeed ∧
      ((updateTrapezoids pl pp).lines j).endSpeed = (pp.lines j).endSpeed ∧
      ((updateTrapezoids pl pp).lines j).minSpeed = (pp.lines j).minSpeed) ∧
    ((pp.lines (previousPlannerIndex pl pp.linesWritePos)).endSpeed =
        (pp.lines (previousPlannerIndex pl pp.linesWritePos)).minSpeed →
      ((updateTrapezoids pl pp).lines (previousPlannerIndex pl pp.linesWritePos)).endSpeed =
        ((updateTrapezoids pl pp).lines (previousPlannerIndex pl pp.linesWritePos)).minSpeed) ∧
    ((updateTrapezoids pl pp).lines (plannerFirst pl pp)).isBlocked = false := by
  have hall : ∀ j, ((updateTrapezoids pl pp).lines j).startSpeed = (pp.lines j).startSpeed ∧
      ((updateTrapezoids pl pp).lines j).endSpeed = (pp.lines j).endSpeed ∧
      ((updateTrapezoids pl pp).lines j).minSpeed = (pp.lines j).minSpeed := by
    intro j
    rw [updateTrapezoids_zfilter_lines pl pp hfirst hz]
    refine ⟨?_, ?_, ?_⟩
    · rw [modifyLine_field Path.startSpeed _ _ Path.unblock (fun _ => rfl),
        modifyLine_field Path.startSpeed _ _ _ (fun p => (updateStepsParameter_speeds p).1),
        modifyLine_field Path.startSpeed _ _ (fun q => q.setStartSpeedFixed true) (fun _ => rfl),
        modifyLine_field Path.startSpeed _ _ (fun q => q.setEndSpeedFixed true) (fun _ => rfl),
        modifyLine_field Path.startSpeed _ _ Path.block (fun _ => rfl)]
    · rw [modifyLine_field Path.endSpeed _ _ Path.unblock (fun _ => rfl),
        modifyLine_field Path.endSpeed _ _ _ (fun p => (updateStepsParameter_speeds p).2.1),
        modifyLine_field Path.endSpeed _ _ (fun q => q.setStartSpeedFixed true) (fun _ => rfl),
        modifyLine_field Path.endSpeed _ _ (fun q => q.setEndSpeedFixed true) (fun _ => rfl),
        modifyLine_field Path.endSpeed _ _ Path.block (fun _ => rfl)]
    · rw [modifyLine_field Path.minSpeed _ _ Path.unblock (fun _ => rfl),
        modifyLine_field Path.minSpeed _ _ _ (fun p => (updateStepsParameter_speeds p).2.2),
        modifyLine_field Path.minSpeed _ _ (fun q => q.setStartSpeedFixed true) (fun _ => rfl),
        modifyLine_field Path.minSpeed _ _ (fun q => q.setEndSpeedFixed true) (fun _ => rfl),
        modifyLine_field Path.minSpeed _ _ Path.block (fun _ => rfl)]
  refine ⟨?_, ?_, hall, ?_, ?_⟩
  · rw [updateTrapezoids_zfilter_lines pl pp hfirst hz]
    rw [modifyLine_field Path.isEndSpeedFixed _ _ Path.unblock (fun _ => rfl),
      modifyLine_field Path.isEndSpeedFixed _ _ _ (fun p => (updateStepsParameter_flags p).2.1),
      modifyLine_field Path.isEndSpeedFixed _ _ (fun q => q.setStartSpeedFixed true)
        (fun _ => rfl), modifyLine_same]
    rfl
  · rw [updateTrapezoids_zfilter_lines pl pp hfirst hz]
    rw [modifyLine_field Path.isStartSpeedFixed _ _ Path.unblock (fun _ => rfl),
      modifyLine_field Path.isStartSpeedFixed _ _ _ (fun p => (updateStepsParameter_flags p).1),
      modifyLine_same]
    rfl
  · intro h
    rw [(hall _).2.1, (hall _).2.2]
    exact h
  · rw [updateTrapezoids_zfilter_lines pl pp hfirst hz, modifyLine_same]
    rfl

end ZFilter

section ZFilterScene

theorem liftState_first : plannerFirst scenarioPlatform liftState = 1 := by
  decide

theorem updateTrapezoids_z_filter_witness :
    plannerFirst scenarioPlatform liftState ≠ liftState.linesWritePos ∧
    ((updateTrapezoids scenarioPlatform liftState).lines 1).isEndSpeedFixed = true ∧
    ((updateTrapezoids scenarioPlatform liftState).lines 2).isStartSpeedFixed = true ∧
    ((updateTrapezoids scenarioPlatform liftState).lines 1).endSpeed = 50 ∧
    ((updateTrapezoids scenarioPlatform liftState).lines 1).isBlocked = false := by
  have hf : plannerFirst scenarioPlatform liftState ≠ liftState.linesWritePos := by
    rw [liftState_first]; decide
  have h := updateTrapezoids_z_filter scenarioPlatform liftState hf
    (Or.inr ⟨by decide, by decide⟩)
  rw [liftState_first] at h
  exact ⟨hf, h.1, h.2.1, (h.2.2.1 1).2.1, h.2.2.2.2⟩

end ZFilterScene

section Trim

theorem rampSteps_eq_spec (vMax v accelerationPrim : Nat) (hv : v ≤ vMax)
    (hmax : vMax < 4294967296)
    (hfit : specRampSteps vMax v accelerationPrim < 4294967296) :
    rampSteps vMax v accelerationPrim = specRampSteps vMax v accelerationPrim := by
  unfold rampSteps specRampSteps u64sub u64 u32 at *
  have h1 : vMax * vMax < 18446744073709551616 := by nlinarith
  have h2 : v * v ≤ vMax * vMax := Nat.mul_le_mul hv hv
  have h3 : vMax * vMax % 18446744073709551616 = vMax * vMax := Nat.mod_eq_of_lt h1
  have h4 : v * v % 18446744073709551616 = v * v := Nat.mod_eq_of_lt (by omega)
  have h5 : (vMax * vMax + 18446744073709551616 - v * v) % 18446744073709551616 =
      vMax * vMax - v * v := by omega
  rw [h3, h4, h4, h5, Nat.shiftLeft_eq, pow_one, Nat.mul_comm accelerationPrim 2]
  exact Nat.mod_eq_of_lt hfit

theorem trimSteps_spec (a d n : Nat) (hn : n < 4294967296) (hfit : a + d + 2 < 4294967296) :
    trimSteps a d n =
      if n ≤ a + d then
        (a - min a (specTrimReduction a d n), d - min d (specTrimReduction a d n))
      else (a, d) := by
  unfold trimSteps specTrimReduction u32 u32sub
  simp only [Nat.shiftRight_one]
  have h1 : (a + d) % 4294967296 = a + d := Nat.mod_eq_of_lt (by omega)
  have h2 : (a + d + 2) % 4294967296 = a + d + 2 := Nat.mod_eq_of_lt hfit
  have h3 : n % 4294967296 = n := Nat.mod_eq_of_lt hn
  rw [h1, h2, h3]
  by_cases hc : n ≤ a + d
  · have h4 : (a + d + 2 + 4294967296 - n) % 4294967296 = a + d + 2 - n := by omega
    rw [if_pos hc, if_pos hc, h4]
  · rw [if_neg hc, if_neg hc]

/-- C23, as amended: `updateStepsParameter` changes nothing on a segment whose
parameters are up to date or that is a warm-up.  On a segment with stale
parameters that is not a warm-up (step rates `vStart, vEnd ≤ vMax` within 32
bits, a positive acceleration, step counts within 32 bits) it computes
`a = floor((vMax² - vStart²) / (2 · accelerationPrim)) + 1` and
`d = floor((vMax² - vEnd²) / (2 · accelerationPrim)) + 1` and trims them exactly
when `a + d ≥ stepsRemaining`: when `a + d < stepsRemaining` it stores
`accelSteps = a` and `decelSteps = d`; when `a + d ≥ stepsRemaining` it stores
`a - min a red` and `d - min d red` with `red = (a + d + 2 - stepsRemaining) >> 1`,
both smaller than `a` and `d`; in particular at `a + d = stepsRemaining` it
stores `a - 1` and `d - 1`. -/
theorem updateStepsParameter_trim (p : Path) :
    ((p.areParameterUpToDate = true ∨ p.isWarmUp = true) → p.updateStepsParameter = p) ∧
    (p.areParameterUpToDate = false → p.isWarmUp = false →
      p.updateStepsParameter.vStart ≤ p.vMax → p.updateStepsParameter.vEnd ≤ p.vMax →
      p.vMax < 4294967296 → 0 < p.accelerationPrim → p.stepsRemaining < 4294967296 →
      specRampSteps p.vMax p.updateStepsParameter.vStart p.accelerationPrim +
        specRampSteps p.vMax p.updateStepsParameter.vEnd p.accelerationPrim + 2 < 4294967296 →
      (specRampSteps p.vMax p.updateStepsParameter.vStart p.accelerationPrim +
          specRampSteps p.vMax p.updateStepsParameter.vEnd p.accelerationPrim < p.stepsRemaining →
        p.updateStepsParameter.accelSteps =
          specRampSteps p.vMax p.updateStepsParameter.vStart p.accelerationPrim ∧
        p.updateStepsParameter.decelSteps =
          specRampSteps p.vMax p.updateStepsParameter.vEnd p.accelerationPrim) ∧
      (p.stepsRemaining ≤ specRampSteps p.vMax p.updateStepsParameter.vStart p.accelerationPrim +
          specRampSteps p.vMax p.updateStepsParameter.vEnd p.accelerationPrim →
        p.updateStepsParameter.accelSteps =
          specRampSteps p.vMax p.updateStepsParameter.vStart p.accelerationPrim -
            min (specRampSteps p.vMax p.updateStepsParameter.vStart p.accelerationPrim)
              (specTrimReduction
                (specRampSteps p.vMax p.updateStepsParameter.vStart p.accelerationPrim)
                (specRampSteps p.vMax p.updateStepsParameter.vEnd p.accelerationPrim)
                p.stepsRemaining) ∧
        p.updateStepsParameter.decelSteps =
          specRampSteps p.vMax p.updateStepsParameter.vEnd p.accelerationPrim -
            min (specRampSteps p.vMax p.updateStepsParameter.vEnd p.accelerationPrim)
              (specTrimReduction
                (specRampSteps p.vMax p.updateStepsParameter.vStart p.accelerationPrim)
                (specRampSteps p.vMax p.updateStepsParameter.vEnd p.accelerationPrim)
                p.stepsRemaining) ∧
        p.updateStepsParameter.accelSteps <
          specRampSteps p.vMax p.updateStepsParameter.vStart p.accelerationPrim ∧
        p.updateStepsParameter.decelSteps <
          specRampSteps p.vMax p.updateStepsParameter.vEnd p.accelerationPrim) ∧
      (specRampSteps p.vMax p.updateStepsParameter.vStart p.accelerationPrim +
          specRampSteps p.vMax p.updateStepsParameter.vEnd p.accelerationPrim = p.stepsRemaining →
        p.updateStepsParameter.accelSteps =
          specRampSteps p.vMax p.updateStepsParameter.vStart p.accelerationPrim - 1 ∧
        p.updateStepsParameter.decelSteps =
          specRampSteps p.vMax p.updateStepsParameter.vEnd p.accelerationPrim - 1)) := by
  constructor
  · intro h
    unfold Path.updateStepsParameter
    rcases h with h | h
    · rw [h]; rfl
    · rw [h, Bool.or_true]; rfl
  · intro hstale hw hs he hmax _ hn hfit
    have hA := rampSteps_eq_spec p.vMax p.updateStepsParameter.vStart p.accelerationPrim hs hmax
      (by omega)
    have hD := rampSteps_eq_spec p.vMax p.updateStepsParameter.vEnd p.accelerationPrim he hmax
      (by omega)
    have hacc : p.updateStepsParameter.accelSteps =
        (trimSteps (rampSteps p.vMax p.updateStepsParameter.vStart p.accelerationPrim)
          (rampSteps p.vMax p.updateStepsParameter.vEnd p.accelerationPrim) p.stepsRemaining).1 := by
      rw [updateStepsParameter_eq p hstale hw]; rfl
    have hdec : p.updateStepsParameter.decelSteps =
        (trimSteps (rampSteps p.vMax p.updateStepsParameter.vStart p.accelerationPrim)
          (rampSteps p.vMax p.updateStepsParameter.vEnd p.accelerationPrim) p.stepsRemaining).2 := by
      rw [updateStepsParameter_eq p hstale hw]; rfl
    rw [hA, hD, trimSteps_spec _ _ _ hn hfit] at hacc hdec
    have ha1 : 1 ≤ specRampSteps p.vMax p.updateStepsParameter.vStart p.accelerationPrim :=
      Nat.le_add_left _ _
    have hd1 : 1 ≤ specRampSteps p.vMax p.updateStepsParameter.vEnd p.accelerationPrim :=
      Nat.le_add_left _ _
    generalize specRampSteps p.vMax p.updateStepsParameter.vStart p.accelerationPrim = a at *
    generalize specRampSteps p.vMax p.updateStepsParameter.vEnd p.accelerationPrim = d at *
    generalize p.updateStepsParameter.accelSteps = x at *
    generalize p.updateStepsParameter.decelSteps = y at *
    generalize p.stepsRemaining = n at *
    refine ⟨?_, ?_, ?_⟩
    · intro hlt
      rw [if_neg (by omega)] at hacc hdec
      exact ⟨hacc, hdec⟩
    · intro hge
      rw [if_pos hge] at hacc hdec
      have hred : 1 ≤ specTrimReduction a d n := by
        unfold specTrimReduction; omega
      refine ⟨hacc, hdec, ?_, ?_⟩
      · rw [hacc]
        have : 1 ≤ min a (specTrimReduction a d n) := le_min ha1 hred
        omega
      · rw [hdec]
        have : 1 ≤ min d (specTrimReduction a d n) := le_min hd1 hred
        omega
    · intro heq
      rw [if_pos (by omega)] at hacc hdec
      have hred : specTrimReduction a d n = 1 := by
        unfold specTrimReduction; omega
      rw [hred] at hacc hdec
      rw [hacc, hdec, min_eq_right ha1, min_eq_right hd1]
      exact ⟨rfl, rfl⟩

theorem tightSegment_speeds :
    tightSegment.updateStepsParameter.vStart = 800 ∧
    tightSegment.updateStepsParameter.vEnd = 800 := by
  rw [updateStepsParameter_eq tightSegment rfl rfl]
  constructor
  · exact toUnsigned_eq_of _ 800 (by norm_num [tightSegment]) (by norm_num [tightSegment])
  · exact toUnsigned_eq_of _ 800 (by norm_num [tightSegment]) (by norm_num [tightSegment])

theorem tightSegment_steps :
    tightSegment.updateStepsParameter.accelSteps = 32 ∧
    tightSegment.updateStepsParameter.decelSteps = 32 := by
  obtain ⟨h1, h2⟩ := tightSegment_speeds
  rw [updateStepsParameter_eq tightSegment rfl rfl] at h1 h2 ⊢
  simp only [Path.setParameterUpToDate] at h1 h2 ⊢
  rw [h1, h2]
  constructor <;> decide

/-- C23, counterexample to the claim as stated: `tightSegment` has stale
parameters and is no warm-up, its untrimmed step counts are `a = d = 33` and
`a + d = 66 = stepsRemaining`, so `a + d > stepsRemaining` does not hold; yet
`updateStepsParameter` trims and stores `accelSteps = decelSteps = 32`. -/
theorem updateStepsParameter_trims_at_equality :
    tightSegment.areParameterUpToDate = false ∧ tightSegment.isWarmUp = false ∧
    specRampSteps tightSegment.vMax tightSegment.updateStepsParameter.vStart
      tightSegment.accelerationPrim = 33 ∧
    specRampSteps tightSegment.vMax tightSegment.updateStepsParameter.vEnd
      tightSegment.accelerationPrim = 33 ∧
    tightSegment.stepsRemaining = 33 + 33 ∧
    tightSegment.updateStepsParameter.accelSteps = 32 ∧
    tightSegment.updateStepsParameter.decelSteps = 32 := by
  obtain ⟨h1, h2⟩ := tightSegment_speeds
  obtain ⟨h3, h4⟩ := tightSegment_steps
  rw [h1, h2, h3, h4]
  refine ⟨rfl, rfl, ?_, ?_, ?_, rfl, rfl⟩ <;> decide

theorem updateStepsParameter_trim_witness :
    settledSegment.updateStepsParameter = settledSegment ∧
    cruiseSegment.updateStepsParameter.accelSteps = 33 ∧
    cruiseSegment.updateStepsParameter.decelSteps = 33 := by
  have h := ((updateStepsParameter_trim cruiseSegment).2 rfl rfl
    (by rw [cruiseSegment_speeds.1]; decide) (by rw [cruiseSegment_speeds.2]; decide)
    (by decide) (by decide) (by decide)
    (by rw [cruiseSegment_speeds.1, cruiseSegment_speeds.2]; decide)).1
    (by rw [cruiseSegment_speeds.1, cruiseSegment_speeds.2]; decide)
  rw [cruiseSegment_speeds.1, cruiseSegment_speeds.2] at h
  exact ⟨(updateStepsParameter_trim settledSegment).1 (Or.inl rfl), h⟩

end Trim

section Blocked

variable (pl : Platform)

theorem sameField_refl {α : Type} (g : Path → α) (l : Nat → Path) : SameField g l l :=
  fun _ => rfl

theorem sameField_trans {α : Type} {g : Path → α} {l1 l2 l3 : Nat → Path}
    (h1 : SameField g l1 l2) (h2 : SameField g l2 l3) : SameField g l1 l3 :=
  fun j => (h1 j).trans (h2 j)

theorem sameField_modifyLine_trans {α : Type} (g : Path → α) (lines l0 : Nat → Path) (i : Nat)
    (f : Path → Path) (hf : ∀ p, g (f p) = g p) (h : SameField g lines l0) :
    SameField g (modifyLine lines i f) l0 := by
  intro j
  rw [← h j]
  exact modifyLine_field g lines i f hf j

theorem blocked_backwardStep (lines : Nat → Path) (start : Nat) (v : ℚ) :
    SameField Path.isBlocked (backwardStep pl lines start v).1 lines := by
  unfold backwardStep
  dsimp only
  split_ifs <;> (try dsimp only) <;>
    repeat (first
      | exact sameField_refl _ _
      | refine sameField_modifyLine_trans _ _ _ _ _ (fun _ => rfl) ?_)

theorem blocked_forwardStep (lines : Nat → Path) (first : Nat) (v : ℚ) :
    SameField Path.isBlocked (forwardStep pl lines first v).1 lines := by
  unfold forwardStep
  dsimp only
  split_ifs <;> (try dsimp only) <;>
    repeat (first
      | exact sameField_refl _ _
      | refine sameField_modifyLine_trans _ _ _ _ _ (fun _ => rfl) ?_)

theorem blocked_backwardLoop (last : Nat) (fuel : Nat) :
    ∀ (lines : Nat → Path) (start : Nat) (v : ℚ),
      SameField Path.isBlocked (backwardLoop pl last fuel lines start v) lines := by
  induction fuel with
  | zero => intro lines start v; exact sameField_refl _ _
  | succ n ih =>
    intro lines start v
    simp only [backwardLoop]
    split_ifs
    · exact sameField_trans (ih _ _ _) (blocked_backwardStep pl lines start v)
    · exact sameField_refl _ _

theorem blocked_forwardLoop (w : Nat) (fuel : Nat) :
    ∀ (lines : Nat → Path) (first : Nat) (v : ℚ),
      SameField Path.isBlocked (forwardLoop pl w fuel lines first v) lines := by
  induction fuel with
  | zero =>
    intro lines first v
    exact sameField_modifyLine_trans _ _ _ _ _ (fun _ => rfl) (sameField_refl _ _)
  | succ n ih =>
    intro lines first v
    simp only [forwardLoop]
    split_ifs
    · exact sameField_trans (ih _ _ _) (blocked_forwardStep pl lines first v)
    · exact sameField_modifyLine_trans _ _ _ _ _ (fun _ => rfl) (sameField_refl _ _)

/-- One round of the closing loop moves the block from `first` to the next
slot. -/
theorem flyingBlock_round (l : Nat → Path) (first : Nat)
    (h : ∀ j, j ≠ first → (l j).isBlocked = false) :
    ∀ j, j ≠ nextPlannerIndex pl first →
      (modifyLine (modifyLine (modifyLine l first Path.updateStepsParameter) first Path.unblock)
        (nextPlannerIndex pl first) Path.block j).isBlocked = false := by
  intro j hj
  rw [modifyLine_ne _ _ _ _ hj]
  by_cases hjf : j = first
  · subst hjf
    rw [modifyLine_same]
    rfl
  · rw [modifyLine_ne _ _ _ _ hjf, modifyLine_ne _ _ _ _ hjf]
    exact h j hjf

/-- The closing loop of `updateTrapezoids`, started at the offset `o` with the
block on `first` alone, leaves no slot blocked but `linesWritePos`. -/
theorem flyingBlockLoop_blocked (P c : Nat) (hP : P < pl.MOVE_CACHE_SIZE)
    (hc : c < pl.MOVE_CACHE_SIZE) :
    ∀ (n fuel : Nat) (l : Nat → Path) (o : Nat), o + n + 1 = c → n ≤ fuel →
      (∀ j, j ≠ ringIndex pl P o → (l j).isBlocked = false) →
      ∀ j, j ≠ ringIndex pl P c →
        ((flyingBlockLoop pl (ringIndex pl P c) fuel l (ringIndex pl P o)).1 j).isBlocked
          = false := by
  intro n
  induction n with
  | zero =>
    intro fuel l o hoc _ h j hj
    have hnext : nextPlannerIndex pl (ringIndex pl P o) = ringIndex pl P c := by
      rw [next_ringIndex pl P o hP (by omega), hoc]
    have hr := flyingBlock_round pl l (ringIndex pl P o) h j (by rw [hnext]; exact hj)
    cases fuel with
    | zero =>
      unfold flyingBlockLoop
      exact hr
    | succ k =>
      unfold flyingBlockLoop
      simp only [hnext, ne_eq, not_true_eq_false, if_false]
      rw [hnext] at hr
      exact hr
  | succ n ih =>
    intro fuel l o hoc hfuel h j hj
    have hnext : nextPlannerIndex pl (ringIndex pl P o) = ringIndex pl P (o + 1) :=
      next_ringIndex pl P o hP (by omega)
    have hne : ringIndex pl P (o + 1) ≠ ringIndex pl P c := by
      intro he
      have := ringIndex_inj pl P _ _ hP (by omega) hc he
      omega
    obtain ⟨k, hk⟩ : ∃ k, fuel = k + 1 := ⟨fuel - 1, by omega⟩
    subst hk
    rw [flyingBlockLoop]
    simp only [hnext, ne_eq, hne, not_false_eq_true, if_true]
    refine ih k _ (o + 1) (by omega) (by omega) ?_ j hj
    have hr := flyingBlock_round pl l (ringIndex pl P o) h
    rw [hnext] at hr
    exact hr

theorem computeMaxJunctionSpeed_blocked (cfg : Config) (a b : Path) :
    (computeMaxJunctionSpeed pl cfg a b).isBlocked = a.isBlocked := rfl

/-- C26: for every ring state with valid indices in which no segment is
blocked, no segment is blocked after `updateTrapezoids`, through whichever of
its paths it returns: nothing to plan, the filter between Z moves and other
moves, the filter between pure extrusions and other moves, or the backward
and forward pass with the flying block. -/
theorem updateTrapezoids_leaves_unblocked (pp : PathPlanner)
    (hP : pp.linesPos < pl.MOVE_CACHE_SIZE) (hW : pp.linesWritePos < pl.MOVE_CACHE_SIZE)
    (hfree : ∀ j, (pp.lines j).isBlocked = false) :
    ∀ j, ((updateTrapezoids pl pp).lines j).isBlocked = false := by
  have halone : plannerFirst pl pp = pp.linesWritePos →
      ∀ j, ((updateTrapezoids pl pp).lines j).isBlocked = false := by
    intro hf j
    unfold updateTrapezoids
    dsimp only
    rw [if_pos hf]
    dsimp only
    by_cases hj : j = pp.linesWritePos
    · subst hj; rw [modifyLine_same]; rfl
    · rw [modifyLine_ne _ _ _ _ hj]; exact hfree j
  by_cases hne : pp.linesPos = pp.linesWritePos
  · exact halone (plannerFirst_short pl pp (Or.inl hne))
  obtain ⟨c, hc1, hc, hw⟩ : ∃ c, 1 ≤ c ∧ c < pl.MOVE_CACHE_SIZE ∧
      pp.linesWritePos = ringIndex pl pp.linesPos c :=
    ⟨_, ringOffset_spec pl pp.linesPos pp.linesWritePos hP hW hne⟩
  obtain ⟨f, hf1, hfc, hfirst⟩ := plannerFirst_range pl pp c hP hc hc1 hw
  by_cases hfw : plannerFirst pl pp = pp.linesWritePos
  · exact halone hfw
  have hflt : f < c := by
    rcases Nat.lt_or_ge f c with h | h
    · exact h
    · exfalso
      apply hfw
      have : f = c := by omega
      rw [hfirst, this, ← hw]
  have h1 : ∀ j, j ≠ plannerFirst pl pp →
      (modifyLine pp.lines (plannerFirst pl pp) Path.block j).isBlocked = false := by
    intro j hj
    rw [modifyLine_ne _ _ _ _ hj]; exact hfree j
  intro j
  unfold updateTrapezoids
  dsimp only
  rw [if_neg hfw]
  split_ifs
  · dsimp only
    by_cases hj : j = plannerFirst pl pp
    · subst hj; rw [modifyLine_same]; rfl
    · rw [modifyLine_ne _ _ _ _ hj]
      rw [modifyLine_field Path.isBlocked _ _ _ (fun p => (updateStepsParameter_flags p).2.2),
        modifyLine_field Path.isBlocked _ _ (fun q => q.setStartSpeedFixed true) (fun _ => rfl),
        modifyLine_field Path.isBlocked _ _ (fun q => q.setEndSpeedFixed true) (fun _ => rfl)]
      exact h1 j hj
  · dsimp only
    by_cases hj : j = plannerFirst pl pp
    · subst hj; rw [modifyLine_same]; rfl
    · rw [modifyLine_ne _ _ _ _ hj]
      rw [modifyLine_field Path.isBlocked _ _ _ (fun p => (updateStepsParameter_flags p).2.2),
        modifyLine_field Path.isBlocked _ _ (fun q => q.setStartSpeedFixed true) (fun _ => rfl),
        modifyLine_field Path.isBlocked _ _ (fun q => q.setEndSpeedFixed true) (fun _ => rfl),
        modifyLine_field Path.isBlocked _ _ (fun q => computeMaxJunctionSpeed pl pp.config q _)
          (fun _ => rfl)]
      exact h1 j hj
  · dsimp only
    by_cases hj : j = pp.linesWritePos
    · subst hj; rw [modifyLine_same]; rfl
    · rw [modifyLine_ne _ _ _ _ hj, modifyLine_ne _ _ _ _ hj]
      obtain ⟨m, hm⟩ : ∃ m, f + m + 1 = c := ⟨c - f - 1, by omega⟩
      have key : ∀ L : Nat → Path, (∀ i, i ≠ plannerFirst pl pp → (L i).isBlocked = false) →
          ((flyingBlockLoop pl pp.linesWritePos (pl.MOVE_CACHE_SIZE - 1) L
            (plannerFirst pl pp)).1 j).isBlocked = false := by
        intro L hL
        have h := flyingBlockLoop_blocked pl pp.linesPos c hP hc m (pl.MOVE_CACHE_SIZE - 1) L f hm
          (by omega) (by rw [← hfirst]; exact hL) j (by rw [← hw]; exact hj)
        rw [← hw, ← hfirst] at h
        exact h
      refine key _ ?_
      intro i hi
      unfold forwardPlanner backwardPlanner
      rw [blocked_forwardLoop pl _ _ _ _ _ i, blocked_backwardLoop pl _ _ _ _ _ i,
        modifyLine_field Path.isBlocked _ _ (fun q => computeMaxJunctionSpeed pl pp.config q _)
          (fun _ => rfl)]
      exact h1 i hi

end Blocked

section BlockedScene

theorem updateTrapezoids_leaves_unblocked_witness :
    ((updateTrapezoids scenarioPlatform collinearState).lines 1).isBlocked = false ∧
    ((updateTrapezoids scenarioPlatform collinearState).lines 2).isBlocked = false :=
  ⟨updateTrapezoids_leaves_unblocked scenarioPlatform collinearState (by decide) (by decide)
      (fun _ => rfl) 1,
    updateTrapezoids_leaves_unblocked scenarioPlatform collinearState (by decide) (by decide)
      (fun _ => rfl) 2⟩

end BlockedScene

section PureExtrusion

variable (pl : Platform)

@[simp] theorem onlyE_X (v : ℚ) : onlyE v X_AXIS = 0 := if_neg (by decide)
@[simp] theorem onlyE_Y (v : ℚ) : onlyE v Y_AXIS = 0 := if_neg (by decide)
@[simp] theorem onlyE_Z (v : ℚ) : onlyE v Z_AXIS = 0 := if_neg (by decide)
@[simp] theorem onlyE_E (v : ℚ) : onlyE v E_AXIS = v := if_pos rfl

theorem preparedSegment_onlyE (pp : PathPlanner) (de n speed : ℚ) (c o : Bool)
    (hn : toUnsigned n ≠ 0) :
    (preparedSegment pl pp (onlyE de) (onlyE n) speed c o).isXMove = false ∧
    (preparedSegment pl pp (onlyE de) (onlyE n) speed c o).isYMove = false ∧
    (preparedSegment pl pp (onlyE de) (onlyE n) speed c o).isZMove = false ∧
    (preparedSegment pl pp (onlyE de) (onlyE n) speed c o).isEMove = true ∧
    (preparedSegment pl pp (onlyE de) (onlyE n) speed c o).isPositiveDirection E_AXIS =
      decide (de * 1000 ≥ 0) ∧
    (preparedSegment pl pp (onlyE de) (onlyE n) speed c o).primaryAxis = E_AXIS ∧
    (preparedSegment pl pp (onlyE de) (onlyE n) speed c o).stepsRemaining = toUnsigned n ∧
    (preparedSegment pl pp (onlyE de) (onlyE n) speed c o).speed = speed * 1000 ∧
    (preparedSegment pl pp (onlyE de) (onlyE n) speed c o).distance = |de * 1000| := by
  have hsel : selectPrimaryAxis (fun i => toUnsigned (onlyE n i)) = E_AXIS := by
    simp [selectPrimaryAxis, toUnsigned_zero]
  have hm := fun i => (preparedSegment_moves pl pp (onlyE de) (onlyE n) speed c o i)
  have hX : (preparedSegment pl pp (onlyE de) (onlyE n) speed c o).isXMove = false := by
    unfold Path.isXMove; rw [(hm X_AXIS).1]; simp [toUnsigned_zero]
  have hY : (preparedSegment pl pp (onlyE de) (onlyE n) speed c o).isYMove = false := by
    unfold Path.isYMove; rw [(hm Y_AXIS).1]; simp [toUnsigned_zero]
  have hZ : (preparedSegment pl pp (onlyE de) (onlyE n) speed c o).isZMove = false := by
    unfold Path.isZMove; rw [(hm Z_AXIS).1]; simp [toUnsigned_zero]
  have hE : (preparedSegment pl pp (onlyE de) (onlyE n) speed c o).isEMove = true := by
    unfold Path.isEMove; rw [(hm E_AXIS).1]; simp [hn]
  obtain ⟨h1, h2, h3, -, -⟩ := preparedSegment_fields pl pp (onlyE de) (onlyE n) speed c o
  refine ⟨hX, hY, hZ, hE, ?_, ?_, ?_, h3, ?_⟩
  · rw [(hm E_AXIS).2.1]; simp
  · rw [h1, hsel]
  · rw [h2, hsel]; simp
  · rw [preparedSegment_distance]
    unfold moveDistance Path.isXYZMove
    simp [hX, hY, hZ]

/-- The segment that `queueMove` admits for a pure extrusion: its interval,
its step count, and its speeds, all of them magnitudes. -/
theorem admittedSegment_onlyE (pp : PathPlanner) (de n speed : ℚ) (c o : Bool)
    (hn : toUnsigned n ≠ 0) :
    (admittedSegment pl pp (onlyE de) (onlyE n) speed c o).fullInterval =
      max (toUnsigned (|de * 1000| * (pl.F_CPU : ℚ) /
          (pp.config.maxFeedrate E_AXIS * (toUnsigned n : ℚ))))
        (toUnsigned ((pl.F_CPU : ℚ) * |de * 1000| / (speed * 1000) / (toUnsigned n : ℚ))) ∧
    (admittedSegment pl pp (onlyE de) (onlyE n) speed c o).stepsRemaining = toUnsigned n ∧
    (admittedSegment pl pp (onlyE de) (onlyE n) speed c o).speedX = 0 ∧
    (admittedSegment pl pp (onlyE de) (onlyE n) speed c o).speedY = 0 ∧
    (admittedSegment pl pp (onlyE de) (onlyE n) speed c o).speedZ = 0 ∧
    (admittedSegment pl pp (onlyE de) (onlyE n) speed c o).speedE =
      |de * 1000| * ((pl.F_CPU : ℚ) /
        (((admittedSegment pl pp (onlyE de) (onlyE n) speed c o).fullInterval : ℚ) *
          (toUnsigned n : ℚ))) ∧
    (admittedSegment pl pp (onlyE de) (onlyE n) speed c o).fullSpeed =
      |de * 1000| * ((pl.F_CPU : ℚ) /
        (((admittedSegment pl pp (onlyE de) (onlyE n) speed c o).fullInterval : ℚ) *
          (toUnsigned n : ℚ))) ∧
    (admittedSegment pl pp (onlyE de) (onlyE n) speed c o).isEOnlyMove = true ∧
    (admittedSegment pl pp (onlyE de) (onlyE n) speed c o).isENegativeMove =
      decide (de * 1000 < 0) ∧
    (admittedSegment pl pp (onlyE de) (onlyE n) speed c o).isEPositiveMove =
      decide (0 ≤ de * 1000) := by
  obtain ⟨hX, hY, hZ, hE, hpos, -, hs, hv, hd⟩ := preparedSegment_onlyE pl pp de n speed c o hn
  obtain ⟨h1, h2, h3, h4, h5, h6⟩ := calculateMoveSegment_speeds pl pp.config
    (preparedSegment pl pp (onlyE de) (onlyE n) speed c o) (fun i => onlyE de i * 1000)
  obtain ⟨-, -, g3, g4, -⟩ := calculateMoveSegment_geometry pl pp.config
    (preparedSegment pl pp (onlyE de) (onlyE n) speed c o) (fun i => onlyE de i * 1000)
  have hL : limitInterval pl pp.config (preparedSegment pl pp (onlyE de) (onlyE n) speed c o)
      (fun i => onlyE de i * 1000) =
      max (toUnsigned (|de * 1000| * (pl.F_CPU : ℚ) /
          (pp.config.maxFeedrate E_AXIS * (toUnsigned n : ℚ))))
        (toUnsigned ((pl.F_CPU : ℚ) * |de * 1000| / (speed * 1000) / (toUnsigned n : ℚ))) := by
    unfold limitInterval feedrateInterval Path.isXOrYMove
    simp only [hX, hY, hZ, hE, hs, hv, hd, onlyE_E, Bool.or_self, if_true, Bool.false_eq_true,
      if_false]
  have hneg : (preparedSegment pl pp (onlyE de) (onlyE n) speed c o).isENegativeMove =
      decide (de * 1000 < 0) := by
    unfold Path.isENegativeMove
    rw [hE, hpos]
    simp only [Bool.true_and, ge_iff_le]
    by_cases h : 0 ≤ de * 1000
    · simp only [h, not_lt.mpr h, decide_True, decide_False, Bool.not_true]
    · simp only [h, not_le.mp h, decide_True, decide_False, Bool.not_false]
  have hspeed : (admittedSegment pl pp (onlyE de) (onlyE n) speed c o).speedE =
      |de * 1000| * ((pl.F_CPU : ℚ) /
        (((admittedSegment pl pp (onlyE de) (onlyE n) speed c o).fullInterval : ℚ) *
          (toUnsigned n : ℚ))) := by
    unfold admittedSegment
    rw [h5, h1, hE, if_pos rfl, hs, axisSpeed_abs]
    · simp
    · rw [hneg]; simp
  unfold admittedSegment at hspeed ⊢
  refine ⟨h1.trans hL, g3.trans hs, ?_, ?_, ?_, hspeed, ?_, ?_, ?_, ?_⟩
  · rw [h2, hX]; rfl
  · rw [h3, hY]; rfl
  · rw [h4, hZ]; rfl
  · rw [h6, h1, hd, hs]
  · unfold Path.isEOnlyMove Path.isXYZMove Path.isEMove Path.isXMove Path.isYMove Path.isZMove
      Path.isMoveOfAxis
    rw [g4]
    have a1 := hX; have a2 := hY; have a3 := hZ; have a4 := hE
    unfold Path.isXMove Path.isMoveOfAxis at a1
    unfold Path.isYMove Path.isMoveOfAxis at a2
    unfold Path.isZMove Path.isMoveOfAxis at a3
    unfold Path.isEMove Path.isMoveOfAxis at a4
    rw [a1, a2, a3, a4]
    rfl
  · have : (calculateMoveSegment pl pp.config (preparedSegment pl pp (onlyE de) (onlyE n) speed c o)
        (fun i => onlyE de i * 1000)).isENegativeMove =
        (preparedSegment pl pp (onlyE de) (onlyE n) speed c o).isENegativeMove := by
      unfold Path.isENegativeMove Path.isEMove Path.isMoveOfAxis Path.isPositiveDirection
      rw [g4]
    rw [this, hneg]
  · have : (calculateMoveSegment pl pp.config (preparedSegment pl pp (onlyE de) (onlyE n) speed c o)
        (fun i => onlyE de i * 1000)).isEPositiveMove =
        (preparedSegment pl pp (onlyE de) (onlyE n) speed c o).isEPositiveMove := by
      unfold Path.isEPositiveMove Path.isEMove Path.isMoveOfAxis Path.isPositiveDirection
      rw [g4]
    rw [this]
    unfold Path.isEPositiveMove
    rw [hE, hpos]
    simp

/-- The junction speed between two segments that move neither X, Y nor Z,
under a configuration whose jerk limits are not negative: only the difference
of the stored E speeds can lower it. -/
theorem computeMaxJunctionSpeed_pure_extrusions (cfg : Config) (previous current : Path)
    (hcfg : cfg.Ok) (hsq : pl.sqrt 0 ≤ cfg.maxJerk)
    (hpx : previous.speedX = 0) (hpy : previous.speedY = 0) (hpz : previous.speedZ = 0)
    (hcx : current.speedX = 0) (hcy : current.speedY = 0) (hcz : current.speedZ = 0) :
    (computeMaxJunctionSpeed pl cfg previous current).maxJunctionSpeed =
      min (previous.fullSpeed *
        (if |current.speedE - previous.speedE| > cfg.currentExtruder.maxStartFeedrate then
          min 1 (cfg.currentExtruder.maxStartFeedrate / |current.speedE - previous.speedE|)
        else 1)) current.fullSpeed := by
  obtain ⟨-, hz, -⟩ := hcfg
  unfold computeMaxJunctionSpeed Path.setMaxJunctionSpeed
  simp only [hpx, hpy, hpz, hcx, hcy, hcz, sub_self, mul_zero, add_zero, abs_zero]
  rw [if_neg (not_lt.mpr hsq), if_neg (not_lt.mpr hz)]
  simp only [ite_self]

theorem sqrtLower_zero : sqrtLower 0 = 0 := by
  simp [sqrtLower]

/-- The pure extrusion of the retraction scenario: 10 mm of filament (800
steps) at 50 mm/s in either direction is admitted with the interval 50000
ticks and the E speed and full speed 50 mm/s. -/
theorem retraction_facts (pp : PathPlanner) (hcfg : pp.config = scenarioConfig) (de : ℚ)
    (hde : |de * 1000| = 10) (c o : Bool) :
    (admittedSegment scenarioPlatform pp (onlyE de) (onlyE 800) (1 / 20) c o).fullInterval
      = 50000 ∧
    (admittedSegment scenarioPlatform pp (onlyE de) (onlyE 800) (1 / 20) c o).speedE = 50 ∧
    (admittedSegment scenarioPlatform pp (onlyE de) (onlyE 800) (1 / 20) c o).fullSpeed = 50 := by
  have h800 : toUnsigned (800 : ℚ) = 800 := toUnsigned_eq_of 800 800 (by norm_num) (by norm_num)
  have hn : toUnsigned (800 : ℚ) ≠ 0 := by rw [h800]; decide
  obtain ⟨hF, -, -, -, -, hE, hS, -⟩ :=
    admittedSegment_onlyE scenarioPlatform pp de 800 (1 / 20) c o hn
  have e1 : toUnsigned (|de * 1000| * (scenarioPlatform.F_CPU : ℚ) /
      (pp.config.maxFeedrate E_AXIS * (toUnsigned (800 : ℚ) : ℚ))) = 8333 := by
    rw [hde, hcfg, h800]
    apply toUnsigned_eq_of <;> norm_num [scenarioPlatform, scenarioConfig]
  have e2 : toUnsigned ((scenarioPlatform.F_CPU : ℚ) * |de * 1000| / ((1 / 20 : ℚ) * 1000) /
      (toUnsigned (800 : ℚ) : ℚ)) = 50000 := by
    rw [hde, h800]
    apply toUnsigned_eq_of <;> norm_num [scenarioPlatform]
  have hFI : (admittedSegment scenarioPlatform pp (onlyE de) (onlyE 800) (1 / 20) c o).fullInterval
      = 50000 := by
    rw [hF, e1, e2]; rfl
  refine ⟨hFI, ?_, ?_⟩
  · rw [hE, hFI, hde, h800]
    norm_num [scenarioPlatform]
  · rw [hS, hFI, hde, h800]
    norm_num [scenarioPlatform]

/-- The round `n + 1` of the stepping loop is sane when the rounds before it
are and the interval of the round is computed without a division by zero and
passes the assertion. -/
theorem stepLoop_sane_round (cfg : Config) (cur : Path) (n : Nat) :
    (stepLoop pl cfg cur (n + 1)).sane =
      ((stepLoop pl cfg cur n).sane &&
        (stepTiming pl cur (stepLoop pl cfg cur n).vMaxReached
          (stepLoop pl cfg cur n).timer_accel (stepLoop pl cfg cur n).timer_decel n).sane) := by
  obtain ⟨e, he⟩ := stepLoop_cur pl cfg cur n
  have ht : stepTiming pl (stepLoop pl cfg cur n).cur (stepLoop pl cfg cur n).vMaxReached
      (stepLoop pl cfg cur n).timer_accel (stepLoop pl cfg cur n).timer_decel n =
      stepTiming pl cur (stepLoop pl cfg cur n).vMaxReached
        (stepLoop pl cfg cur n).timer_accel (stepLoop pl cfg cur n).timer_decel n := by
    rw [he]
    rfl
  rw [stepLoop_succ]
  unfold stepBody
  dsimp only
  rw [ht]

/-- A segment of a single step without ramp steps passes the assertion of the
stepping loop exactly when `fullInterval < F_CPU * 4`. -/
theorem stepLoop_single_sane (cfg : Config) (cur : Path) (ha : cur.accelSteps = 0)
    (hd : cur.decelSteps = 0) (h1 : cur.stepsRemaining = 1) :
    (stepLoop pl cfg cur 1).sane = decide (cur.fullInterval < pl.F_CPU * 4) := by
  rw [stepLoop_sane_round]
  unfold stepTiming Path.moveAccelerating Path.moveDecelerating
  rw [ha, hd, h1, if_neg (by simp), if_neg (by simp)]
  rfl

/-- The stepping loop of `run` on a segment of a single step that `queueMove`
has admitted on an empty ring passes its assertion exactly when the interval
of the segment is below `F_CPU * 4`. -/
theorem runSteps_single_step_sane (pp : PathPlanner) (ad ns : Axis → ℚ) (speed : ℚ)
    (c o : Bool) (hempty : pp.linesPos = pp.linesWritePos)
    (hadm : Admits pl pp ad ns speed c o)
    (h1 : (admittedSegment pl pp ad ns speed c o).stepsRemaining = 1)
    (hr : rampSteps (admittedSegment pl pp ad ns speed c o).vMax
      (toUnsigned (((admittedSegment pl pp ad ns speed c o).vMax : ℚ) *
        ((admittedSegment pl pp ad ns speed c o).startSpeed *
          (admittedSegment pl pp ad ns speed c o).invFullSpeed)))
      (admittedSegment pl pp ad ns speed c o).accelerationPrim < 2147483647) :
    (runSteps pl pp.config
      (runPrepare ((queueMove pl pp ad ns speed c o).lines pp.linesPos))).sane =
      decide ((admittedSegment pl pp ad ns speed c o).fullInterval < pl.F_CPU * 4) := by
  obtain ⟨f1, f2, f3, f4, -⟩ := admittedSegment_fresh pl pp ad ns speed c o
  obtain ⟨-, -, q3, q4, -, q6, q7, -, -⟩ := runPrepare_stale
    (admittedSegment pl pp ad ns speed c o) f1 f2
  rw [f4, ← f3, h1, trimSteps_same_one _ hr] at q3 q4
  rw [(queueMove_short_fields pl pp ad ns speed c o hadm (Or.inl hempty)).1, hempty,
    Function.update_same, runPrepare_plannedAlone _ f1 f2]
  unfold runSteps
  rw [stepLoop_joinFlags]
  dsimp only
  rw [q7, h1, stepLoop_single_sane pl pp.config _ q3 q4 (q7.trans h1), q6]

end PureExtrusion

section SlowExtrusion

theorem plannedAlone_unblocked (p : Path) : p.plannedAlone.isBlocked = false := rfl

theorem toUnsigned_one : toUnsigned (1 : ℚ) = 1 :=
  toUnsigned_eq_of 1 1 (by norm_num) (by norm_num)

theorem slow_admits :
    Admits scenarioPlatform scenarioPlanner (onlyE (1 / 80000)) (onlyE 1) (1 / 1000000) false
      false :=
  (admits_iff _ _ _ _ _ _ _).mpr ⟨rfl, E_AXIS, by rw [onlyE_E, toUnsigned_one]; decide⟩

/-- The slow extrusion is admitted as a segment of one step with the interval
2500000000 ticks, twelve and a half seconds, and the step rate `vMax = 0`. -/
theorem slow_facts :
    (admittedSegment scenarioPlatform scenarioPlanner (onlyE (1 / 80000)) (onlyE 1)
      (1 / 1000000) false false).fullInterval = 2500000000 ∧
    (admittedSegment scenarioPlatform scenarioPlanner (onlyE (1 / 80000)) (onlyE 1)
      (1 / 1000000) false false).stepsRemaining = 1 ∧
    (admittedSegment scenarioPlatform scenarioPlanner (onlyE (1 / 80000)) (onlyE 1)
      (1 / 1000000) false false).vMax = 0 ∧
    (admittedSegment scenarioPlatform scenarioPlanner (onlyE (1 / 80000)) (onlyE 1)
      (1 / 1000000) false false).isEOnlyMove = true := by
  have hn : toUnsigned (1 : ℚ) ≠ 0 := by rw [toUnsigned_one]; decide
  obtain ⟨hF, hS, -, -, -, -, -, hE, -⟩ :=
    admittedSegment_onlyE scenarioPlatform scenarioPlanner (1 / 80000) 1 (1 / 1000000) false
      false hn
  obtain ⟨-, -, -, -, hV, -⟩ := admittedSegment_fresh scenarioPlatform scenarioPlanner
    (onlyE (1 / 80000)) (onlyE 1) (1 / 1000000) false false
  have e1 : toUnsigned (|(1 / 80000 : ℚ) * 1000| * (scenarioPlatform.F_CPU : ℚ) /
      (scenarioPlanner.config.maxFeedrate E_AXIS * (toUnsigned (1 : ℚ) : ℚ))) = 8333 := by
    rw [toUnsigned_one]
    apply toUnsigned_eq_of <;>
      norm_num [scenarioPlatform, scenarioPlanner, scenarioConfig, abs_of_pos]
  have e2 : toUnsigned ((scenarioPlatform.F_CPU : ℚ) * |(1 / 80000 : ℚ) * 1000| /
      ((1 / 1000000 : ℚ) * 1000) / (toUnsigned (1 : ℚ) : ℚ)) = 2500000000 := by
    rw [toUnsigned_one]
    apply toUnsigned_eq_of <;> norm_num [scenarioPlatform, abs_of_pos]
  have hFI : (admittedSegment scenarioPlatform scenarioPlanner (onlyE (1 / 80000)) (onlyE 1)
      (1 / 1000000) false false).fullInterval = 2500000000 := by
    rw [hF, e1, e2]; rfl
  refine ⟨hFI, hS.trans toUnsigned_one, ?_, hE⟩
  rw [hV, hFI]
  rfl

theorem slow_ramp :
    rampSteps (admittedSegment scenarioPlatform scenarioPlanner (onlyE (1 / 80000)) (onlyE 1)
        (1 / 1000000) false false).vMax
      (toUnsigned (((admittedSegment scenarioPlatform scenarioPlanner (onlyE (1 / 80000))
        (onlyE 1) (1 / 1000000) false false).vMax : ℚ) *
        ((admittedSegment scenarioPlatform scenarioPlanner (onlyE (1 / 80000)) (onlyE 1)
          (1 / 1000000) false false).startSpeed *
          (admittedSegment scenarioPlatform scenarioPlanner (onlyE (1 / 80000)) (onlyE 1)
            (1 / 1000000) false false).invFullSpeed)))
      (admittedSegment scenarioPlatform scenarioPlanner (onlyE (1 / 80000)) (onlyE 1)
        (1 / 1000000) false false).accelerationPrim < 2147483647 := by
  rw [slow_facts.2.2.1, Nat.cast_zero, zero_mul, toUnsigned_zero, rampSteps_self]
  decide

/-- C24, evaluation at a failing input.  With the scenario configuration a
single step of the extruder (1/80 mm) requested at 0.001 mm/s is admitted by
`queueMove` with `fullInterval = 2500000000` ticks; `run` steps it at that
interval, which is not below `4 * F_CPU = 800000000`: the assertion of the
stepping loop fails. -/
theorem run_slow_extrusion_fails_assertion :
    slowState.linesCount = 1 ∧ slowState.stop = false ∧
    (slowState.lines slowState.linesPos).isBlocked = false ∧
    delays (runCommands scenarioPlatform slowState) = [2500000000] ∧
    ¬ (2500000000 < scenarioPlatform.F_CPU * 4) ∧
    (runSteps scenarioPlatform slowState.config
      (runPrepare (slowState.lines slowState.linesPos))).sane = false := by
  obtain ⟨hl, hp, -, hc, hcfg, hs⟩ := queueMove_short_fields scenarioPlatform scenarioPlanner
    (onlyE (1 / 80000)) (onlyE 1) (1 / 1000000) false false slow_admits (Or.inl rfl)
  have hd := runCommands_single_step scenarioPlatform scenarioPlanner (onlyE (1 / 80000))
    (onlyE 1) (1 / 1000000) false false rfl slow_admits slow_facts.2.1
    (by rw [slow_facts.1]; decide) slow_ramp
  have hsane := runSteps_single_step_sane scenarioPlatform scenarioPlanner (onlyE (1 / 80000))
    (onlyE 1) (1 / 1000000) false false rfl slow_admits slow_facts.2.1 slow_ramp
  rw [slow_facts.1] at hd hsane
  unfold slowState
  refine ⟨hc, hs, ?_, hd, by decide, ?_⟩
  · rw [hp, hl, show scenarioPlanner.linesPos = scenarioPlanner.linesWritePos from rfl,
      Function.update_same]
    exact plannedAlone_unblocked _
  · rw [hp, hcfg]
    exact hsane

end SlowExtrusion

section RetractionPair

/-- The junction of a retraction and the opposite move, each admitted on the
empty scenario planner: both are stored with the E speed `+50 mm/s`, so the E
jerk that `computeMaxJunctionSpeed` sees is `0`, the check against
`maxStartFeedrate = 40 mm/s` does not bind, and the junction speed of the
previous segment is its full speed `50 mm/s`, not `50 * 40 / 100 = 20 mm/s`. -/
theorem computeMaxJunctionSpeed_retraction_pair :
    retractMove.isEOnlyMove = true ∧ recoverMove.isEOnlyMove = true ∧
    retractMove.isENegativeMove = true ∧ recoverMove.isEPositiveMove = true ∧
    retractMove.speedE = 50 ∧ recoverMove.speedE = 50 ∧
    retractMove.fullSpeed = 50 ∧ recoverMove.fullSpeed = 50 ∧
    2 * 50 > scenarioConfig.currentExtruder.maxStartFeedrate ∧
    (computeMaxJunctionSpeed scenarioPlatform scenarioConfig retractMove
      recoverMove).maxJunctionSpeed = 50 ∧
    (computeMaxJunctionSpeed scenarioPlatform scenarioConfig retractMove
      recoverMove).maxJunctionSpeed ≠
      retractMove.fullSpeed * scenarioConfig.currentExtruder.maxStartFeedrate / (2 * 50) := by
  have h800 : toUnsigned (800 : ℚ) = 800 := toUnsigned_eq_of 800 800 (by norm_num) (by norm_num)
  have hn : toUnsigned (800 : ℚ) ≠ 0 := by rw [h800]; decide
  obtain ⟨-, -, ax, ay, az, -, -, aE, aN, -⟩ :=
    admittedSegment_onlyE scenarioPlatform scenarioPlanner (-1 / 100) 800 (1 / 20) false false hn
  obtain ⟨-, -, bx, by1, bz, -, -, bE, -, bP⟩ :=
    admittedSegment_onlyE scenarioPlatform scenarioPlanner (1 / 100) 800 (1 / 20) false false hn
  obtain ⟨-, as, af⟩ := retraction_facts scenarioPlanner rfl (-1 / 100)
    (by norm_num [abs_of_neg]) false false
  obtain ⟨-, bs, bf⟩ := retraction_facts scenarioPlanner rfl (1 / 100)
    (by norm_num [abs_of_pos]) false false
  have hj := computeMaxJunctionSpeed_pure_extrusions scenarioPlatform scenarioConfig
    retractMove recoverMove scenarioConfig_ok
    (by rw [show scenarioPlatform.sqrt = sqrtLower from rfl, sqrtLower_zero]
        norm_num [scenarioConfig])
    ax ay az bx by1 bz
  have hv : (computeMaxJunctionSpeed scenarioPlatform scenarioConfig retractMove
      recoverMove).maxJunctionSpeed = 50 := by
    rw [hj]
    unfold retractMove recoverMove
    rw [as, bs, af, bf]
    norm_num [scenarioConfig]
  refine ⟨aE, bE, ?_, ?_, as, bs, af, bf, by norm_num [scenarioConfig], hv, ?_⟩
  · unfold retractMove; rw [aN]; norm_num
  · unfold recoverMove; rw [bP]; norm_num
  · rw [hv]
    unfold retractMove
    rw [af]
    norm_num [scenarioConfig]

end RetractionPair

section ReusedSlot

variable (pl : Platform)

/-- A round of `run` that finds work: the fields of the planner after it. -/
theorem run_work (pp : PathPlanner) (hc : pp.linesCount ≠ 0) (hs : pp.stop = false)
    (hb : (pp.lines pp.linesPos).isBlocked = false) :
    (run pl pp).linesPos = nextPlannerIndex pl pp.linesPos ∧
    (run pl pp).linesWritePos = pp.linesWritePos ∧
    (run pl pp).linesCount = pp.linesCount - 1 ∧
    (run pl pp).stop = pp.stop ∧ (run pl pp).config = pp.config ∧
    ((run pl pp).lines pp.linesPos).speedE = (pp.lines pp.linesPos).speedE ∧
    ∀ j, j ≠ pp.linesPos → (run pl pp).lines j = pp.lines j := by
  unfold run
  rw [if_neg (by simp [hc, hs]), if_neg (by simp [hb])]
  unfold removeCurrentLine
  dsimp only
  refine ⟨rfl, rfl, rfl, rfl, rfl, ?_, ?_⟩
  · rw [Function.update_same]
    unfold runSteps
    obtain ⟨e, he⟩ := stepLoop_cur pl pp.config (runPrepare (pp.lines pp.linesPos))
      (runPrepare (pp.lines pp.linesPos)).stepsRemaining
    rw [he]
    exact (kin_speeds (kin_of_frame (runPrepare_frame (pp.lines pp.linesPos)).1)).2.2.2.1
  · intro j hj
    rw [Function.update_noteq hj]

end ReusedSlot

section ReusedScene

theorem retract_admits (pp : PathPlanner) (hs : pp.stop = false) :
    Admits scenarioPlatform pp (onlyE (-1 / 100)) (onlyE 800) (1 / 20) false false :=
  (admits_iff _ _ _ _ _ _ _).mpr ⟨hs, E_AXIS, by rw [onlyE_E, toUnsigned_800]; decide⟩

/-- A retraction queued on an empty ring and stepped by `run` leaves the ring
empty, one slot further, with the E speed of the retraction in the slot it
used. -/
theorem retractCycle_spec (pp : PathPlanner) (hpw : pp.linesPos = pp.linesWritePos)
    (hc : pp.linesCount = 0) (hs : pp.stop = false) (hcfg : pp.config = scenarioConfig) :
    (retractCycle pp).linesPos = nextPlannerIndex scenarioPlatform pp.linesPos ∧
    (retractCycle pp).linesWritePos = nextPlannerIndex scenarioPlatform pp.linesPos ∧
    (retractCycle pp).linesCount = 0 ∧ (retractCycle pp).stop = false ∧
    (retractCycle pp).config = scenarioConfig ∧
    ((retractCycle pp).lines pp.linesPos).speedE = 50 ∧
    ∀ j, j ≠ pp.linesPos → (retractCycle pp).lines j = pp.lines j := by
  have hadm := retract_admits pp hs
  obtain ⟨hl, hp, hw, hcnt, hcf, hst⟩ := queueMove_short_fields scenarioPlatform pp
    (onlyE (-1 / 100)) (onlyE 800) (1 / 20) false false hadm (Or.inl hpw)
  have hb : ((queueMove scenarioPlatform pp (onlyE (-1 / 100)) (onlyE 800) (1 / 20) false
      false).lines (queueMove scenarioPlatform pp (onlyE (-1 / 100)) (onlyE 800) (1 / 20) false
      false).linesPos).isBlocked = false := by
    rw [hp, hl, hpw, Function.update_same]
    exact plannedAlone_unblocked _
  obtain ⟨r1, r2, r3, r4, r5, r6, r7⟩ := run_work scenarioPlatform _ (by rw [hcnt, hc]; decide)
    (hst.trans hs) hb
  unfold retractCycle
  rw [hp] at r1 r6 r7
  refine ⟨r1, ?_, ?_, r4.trans (hst.trans hs), r5.trans (hcf.trans hcfg), ?_, ?_⟩
  · rw [r2, hw, ← hpw]
    rfl
  · rw [r3, hcnt, hc]
  · rw [r6, hl, hpw, Function.update_same]
    rw [(kin_speeds (plannedAlone_fields _).1).2.2.2.1]
    exact (retraction_facts pp hcfg (-1 / 100) (by norm_num [abs_of_neg]) false false).2.1
  · intro j hj
    rw [r7 j hj, hl, ← hpw, Function.update_noteq hj]

theorem retractCycle_reachable (pp : PathPlanner) (h : Reachable scenarioPlatform pp)
    (hcfg : pp.config = scenarioConfig) (hc : pp.linesCount = 0) :
    Reachable scenarioPlatform (retractCycle pp) := by
  unfold retractCycle
  refine Reachable.step _ (Reachable.queue _ _ _ _ _ _ h ?_ ?_)
  · rw [hcfg]; exact scenarioConfig_ok
  · rw [hc]; decide

/-- The scenario planner after `k ≤ 32` retractions, each stepped before the
next is queued. -/
theorem retractCycle_iterate (k : Nat) (hk : k ≤ 32) :
    Reachable scenarioPlatform (Nat.iterate retractCycle k scenarioPlanner) ∧
    (Nat.iterate retractCycle k scenarioPlanner).linesPos = k % 32 ∧
    (Nat.iterate retractCycle k scenarioPlanner).linesWritePos = k % 32 ∧
    (Nat.iterate retractCycle k scenarioPlanner).linesCount = 0 ∧
    (Nat.iterate retractCycle k scenarioPlanner).stop = false ∧
    (Nat.iterate retractCycle k scenarioPlanner).config = scenarioConfig ∧
    (1 ≤ k → ((Nat.iterate retractCycle k scenarioPlanner).lines 0).speedE = 50) := by
  induction k with
  | zero =>
    exact ⟨Reachable.init _ ⟨rfl, rfl, rfl, rfl⟩, rfl, rfl, rfl, rfl, rfl,
      fun h => absurd h (by decide)⟩
  | succ k ih =>
    obtain ⟨i0, i1, i2, i3, i4, i5, i6⟩ := ih (by omega)
    obtain ⟨c1, c2, c3, c4, c5, c6, c7⟩ := retractCycle_spec
      (Nat.iterate retractCycle k scenarioPlanner) (i1.trans i2.symm) i3 i4 i5
    have hmod : k % 32 = k := Nat.mod_eq_of_lt (by omega)
    have hnext : nextPlannerIndex scenarioPlatform (k % 32) = (k + 1) % 32 := by
      unfold nextPlannerIndex
      rw [show scenarioPlatform.MOVE_CACHE_SIZE = 32 from rfl, hmod]
      split_ifs <;> omega
    rw [Function.iterate_succ_apply']
    rw [i1] at c1 c2 c6 c7
    refine ⟨?_, c1.trans hnext, c2.trans hnext, c3, c4, c5, fun _ => ?_⟩
    · exact retractCycle_reachable _ i0 i5 i3
    · rcases Nat.eq_zero_or_pos k with h0 | hpos
      · rw [hmod, h0] at c6
        rw [h0]
        exact c6
      · rw [c7 0 (by rw [hmod]; omega)]
        exact i6 hpos

theorem reused_admits :
    Admits scenarioPlatform wrappedState (onlyX (1 / 100)) (onlyX 800) (1 / 20) false false :=
  (admits_iff _ _ _ _ _ _ _).mpr
    ⟨(retractCycle_iterate 32 (le_refl _)).2.2.2.2.1, X_AXIS, by rw [onlyX_X, toUnsigned_800]; decide⟩

/-- C25, evaluation at a failing input.  After 32 retractions, each stepped
before the next is queued, the ring of the scenario planner is empty and
`linesWritePos` is back at slot 0.  A move in X alone queued now reuses the
slot: the planner state is reachable, the E axis of the new segment does not
move, yet its `speedE` is the 50 mm/s of the retraction that the slot held
before, while `speedY` and `speedZ` are reset to 0. -/
theorem calculateMove_keeps_stale_speedE :
    Reachable scenarioPlatform reusedState ∧
    wrappedState.linesCount = 0 ∧ wrappedState.linesWritePos = 0 ∧
    (reusedState.lines 0).isEMove = false ∧ (reusedState.lines 0).delta E_AXIS = 0 ∧
    (reusedState.lines 0).speedY = 0 ∧ (reusedState.lines 0).speedZ = 0 ∧
    (reusedState.lines 0).speedE = 50 := by
  obtain ⟨w0, -, w2, w3, -, w5, w6⟩ := retractCycle_iterate 32 (le_refl _)
  have hw : wrappedState.linesWritePos = 0 := w2
  have hk := queueMove_line_kin scenarioPlatform wrappedState (onlyX (1 / 100)) (onlyX 800)
    (1 / 20) false false reused_admits
  rw [hw] at hk
  obtain ⟨-, ky, kz, ke, -⟩ := kin_speeds hk
  obtain ⟨kd, -, -, kdir⟩ := kin_geometry hk
  have hn : toUnsigned (800 : ℚ) ≠ 0 := by rw [toUnsigned_800]; decide
  obtain ⟨-, pY, pZ, pE, -⟩ := preparedSegment_onlyX scenarioPlatform wrappedState (1 / 100) 800
    (1 / 20) false false hn
  obtain ⟨-, -, s3, s4, s5, -⟩ := calculateMoveSegment_speeds scenarioPlatform
    wrappedState.config (preparedSegment scenarioPlatform wrappedState (onlyX (1 / 100))
      (onlyX 800) (1 / 20) false false) (fun i => onlyX (1 / 100) i * 1000)
  obtain ⟨-, -, -, g4, -⟩ := calculateMoveSegment_geometry scenarioPlatform
    wrappedState.config (preparedSegment scenarioPlatform wrappedState (onlyX (1 / 100))
      (onlyX 800) (1 / 20) false false) (fun i => onlyX (1 / 100) i * 1000)
  refine ⟨?_, w3, hw, ?_, ?_, ?_, ?_, ?_⟩
  · unfold reusedState
    refine Reachable.queue _ _ _ _ _ _ w0 ?_ ?_
    · rw [show wrappedState.config = scenarioConfig from w5]; exact scenarioConfig_ok
    · rw [show wrappedState.linesCount = 0 from w3]; decide
  · unfold Path.isEMove Path.isMoveOfAxis reusedState
    rw [kdir]
    unfold admittedSegment
    rw [g4]
    exact pE
  · unfold reusedState
    rw [kd, admittedSegment_delta, onlyX_E, toUnsigned_zero]
  · unfold reusedState
    rw [ky]
    unfold admittedSegment
    rw [s3, pY]
    rfl
  · unfold reusedState
    rw [kz]
    unfold admittedSegment
    rw [s4, pZ]
    rfl
  · unfold reusedState
    rw [ke]
    unfold admittedSegment
    rw [s5, pE, if_neg (by simp),
      (preparedSegment_fields scenarioPlatform wrappedState _ _ _ _ _).2.2.2.2, hw]
    unfold wrappedState
    exact w6 (by omega)

end ReusedScene

section Rounds
variable (pl : Platform)

theorem modifyLine_apply (l : Nat → Path) (i j : Nat) (f : Path → Path) :
    modifyLine l i f j = if j = i then f (l i) else l j := by
  unfold modifyLine
  rw [Function.update_apply]

theorem update_pair_ext (l g : Nat → Path) (p a : Nat) (_hne : p ≠ a) (x y : Path)
    (hp : g p = x) (ha : g a = y) (ho : ∀ j, j ≠ a → j ≠ p → g j = l j) :
    g = Function.update (Function.update l p x) a y := by
  funext j
  by_cases hja : j = a
  · rw [hja, Function.update_same, ha]
  · rw [Function.update_noteq hja]
    by_cases hjp : j = p
    · rw [hjp, Function.update_same, hp]
    · rw [Function.update_noteq hjp, ho j hja hjp]

/-- One round of `backwardPlanner` as two writes into the ring. -/
theorem backwardStep_eq (l : Nat → Path) (a : Nat) (v : ℚ)
    (hne : previousPlannerIndex pl a ≠ a) :
    (backwardStep pl l a v).1 =
      Function.update (Function.update l (previousPlannerIndex pl a)
        (backPrev pl (l a) (l (previousPlannerIndex pl a)) v)) a
        (backAct pl (l a) (l (previousPlannerIndex pl a)) v) ∧
    (backwardStep pl l a v).2.2 =
      (backPrev pl (l a) (l (previousPlannerIndex pl a)) v).endSpeed := by
  have hne2 : a ≠ previousPlannerIndex pl a := fun h => hne h.symm
  unfold backwardStep backPrev backAct backReach
  dsimp only
  by_cases h1 : (if (l a).isNominalMove = true then (l a).fullSpeed
      else pl.sqrt (v * v + (l a).accelerationDistance2)) ≥
      (l (previousPlannerIndex pl a)).maxJunctionSpeed
  · rw [if_pos h1, if_pos h1, if_pos h1]
    by_cases h2 : (l (previousPlannerIndex pl a)).endSpeed ≠
        (l (previousPlannerIndex pl a)).maxJunctionSpeed
    · rw [if_pos h2, if_pos h2]
      have e1 : modifyLine l (previousPlannerIndex pl a) (fun q =>
          q.invalidateParameter.setEndSpeed (max q.minSpeed q.maxJunctionSpeed)) a = l a :=
        modifyLine_ne _ _ _ _ hne2
      have e2 : modifyLine l (previousPlannerIndex pl a) (fun q =>
          q.invalidateParameter.setEndSpeed (max q.minSpeed q.maxJunctionSpeed))
          (previousPlannerIndex pl a) =
          (l (previousPlannerIndex pl a)).invalidateParameter.setEndSpeed
            (max (l (previousPlannerIndex pl a)).minSpeed
              (l (previousPlannerIndex pl a)).maxJunctionSpeed) :=
        modifyLine_same _ _ _
      rw [e1, e2]
      have e3 : ((l (previousPlannerIndex pl a)).invalidateParameter.setEndSpeed
            (max (l (previousPlannerIndex pl a)).minSpeed
              (l (previousPlannerIndex pl a)).maxJunctionSpeed)).maxJunctionSpeed =
          (l (previousPlannerIndex pl a)).maxJunctionSpeed := rfl
      rw [e3]
      by_cases h3 : (l a).startSpeed ≠ (l (previousPlannerIndex pl a)).maxJunctionSpeed
      · rw [if_pos h3, if_pos h3]
        refine ⟨update_pair_ext l _ _ _ hne _ _ ?_ ?_ ?_, ?_⟩
        all_goals try dsimp only
        · rw [modifyLine_ne _ _ _ _ hne, e2]
        · rw [modifyLine_same, e1]
        · intro j hja hjp
          rw [modifyLine_ne _ _ _ _ hja, modifyLine_ne _ _ _ _ hjp]
        · rw [modifyLine_ne _ _ _ _ hne, e2]
      · rw [if_neg h3, if_neg h3]
        refine ⟨update_pair_ext l _ _ _ hne _ _ e2 e1 ?_, ?_⟩
        all_goals try dsimp only
        · intro j hja hjp
          rw [modifyLine_ne _ _ _ _ hjp]
        · rw [e2]
    · rw [if_neg h2, if_neg h2]
      by_cases h3 : (l a).startSpeed ≠ (l (previousPlannerIndex pl a)).maxJunctionSpeed
      · rw [if_pos h3, if_pos h3]
        refine ⟨update_pair_ext l _ _ _ hne _ _ ?_ ?_ ?_, ?_⟩
        all_goals try dsimp only
        · rw [modifyLine_ne _ _ _ _ hne]
        · rw [modifyLine_same]
        · intro j hja hjp
          rw [modifyLine_ne _ _ _ _ hja]
        · rw [modifyLine_ne _ _ _ _ hne]
      · rw [if_neg h3, if_neg h3]
        refine ⟨update_pair_ext l _ _ _ hne _ _ rfl rfl ?_, rfl⟩
        all_goals try dsimp only
        intro j _ _
        rfl
  · rw [if_neg h1, if_neg h1, if_neg h1]
    have e1 : modifyLine l a (fun q => q.setStartSpeed (max q.minSpeed
        (if (l a).isNominalMove = true then (l a).fullSpeed
          else pl.sqrt (v * v + (l a).accelerationDistance2)))) (previousPlannerIndex pl a) =
        l (previousPlannerIndex pl a) := modifyLine_ne _ _ _ _ hne
    refine ⟨update_pair_ext l _ _ _ hne _ _ ?_ ?_ ?_, ?_⟩
    all_goals try dsimp only
    · rw [modifyLine_ne _ _ _ _ hne, modifyLine_same, modifyLine_same, e1]
    · rw [modifyLine_same, modifyLine_ne _ _ _ _ hne2, modifyLine_ne _ _ _ _ hne2,
        modifyLine_same]
    · intro j hja hjp
      rw [modifyLine_ne _ _ _ _ hja, modifyLine_ne _ _ _ _ hjp, modifyLine_ne _ _ _ _ hjp,
        modifyLine_ne _ _ _ _ hja]
    · rw [modifyLine_same, e1]
      rfl

/-- One round of `forwardPlanner`, entered with a left speed that is not
below the minimum speed of `act`, as two writes into the ring. -/
theorem forwardStep_eq (l : Nat → Path) (a : Nat) (v : ℚ)
    (hne : a ≠ nextPlannerIndex pl a) (hv : (l a).minSpeed ≤ v) :
    (forwardStep pl l a v).1 =
      Function.update (Function.update l a (fwdAct pl (l a) v)) (nextPlannerIndex pl a)
        (fwdNext pl (l a) (l (nextPlannerIndex pl a)) v) ∧
    (forwardStep pl l a v).2.2 = fwdLeft pl (l a) (l (nextPlannerIndex pl a)) v := by
  have hne2 : nextPlannerIndex pl a ≠ a := fun h => hne h.symm
  have hv1 : ¬ v < (l a).minSpeed := not_lt.mpr hv
  unfold forwardStep fwdNext fwdLeft fwdAct fwdReach
  dsimp only
  by_cases h1 : (if (l a).isNominalMove = true then (l a).fullSpeed
      else pl.sqrt (v * v + (l a).accelerationDistance2)) > (l a).endSpeed
  · simp only [if_pos h1, if_neg hv1]
    have e1 : modifyLine l a (fun q => q.setStartSpeed v) a = (l a).setStartSpeed v :=
      modifyLine_same _ _ _
    have e2 : modifyLine l a (fun q => q.setStartSpeed v) (nextPlannerIndex pl a) =
        l (nextPlannerIndex pl a) := modifyLine_ne _ _ _ _ hne2
    rw [e1, e2]
    have e3 : modifyLine (modifyLine l a (fun q => q.setStartSpeed v)) (nextPlannerIndex pl a)
        (fun q => q.setStartSpeed (max (min ((l a).setStartSpeed v).endSpeed
          ((l a).setStartSpeed v).maxJunctionSpeed) (l (nextPlannerIndex pl a)).minSpeed)) a =
        (l a).setStartSpeed v := by
      rw [modifyLine_ne _ _ _ _ hne, e1]
    rw [e3]
    by_cases h2 : (l a).endSpeed = (l a).maxJunctionSpeed
    · have h2b : ((l a).setStartSpeed v).endSpeed = ((l a).setStartSpeed v).maxJunctionSpeed :=
        h2
      simp only [if_pos h2, if_pos h2b]
      refine ⟨update_pair_ext l _ _ _ hne _ _ ?_ ?_ ?_, ?_⟩
      all_goals try dsimp only
      · rw [modifyLine_same, modifyLine_ne _ _ _ _ hne, modifyLine_same, e3]
        try rfl
      · rw [modifyLine_ne _ _ _ _ hne2, modifyLine_same, modifyLine_ne _ _ _ _ hne2,
          modifyLine_same, e2]
        try rfl
      · intro j hjn hja
        rw [modifyLine_ne _ _ _ _ hja, modifyLine_ne _ _ _ _ hjn, modifyLine_ne _ _ _ _ hja,
          modifyLine_ne _ _ _ _ hjn, modifyLine_ne _ _ _ _ hja]
      · try rfl
    · have h2b : ¬ ((l a).setStartSpeed v).endSpeed = ((l a).setStartSpeed v).maxJunctionSpeed :=
        h2
      simp only [if_neg h2, if_neg h2b]
      refine ⟨update_pair_ext l _ _ _ hne _ _ ?_ ?_ ?_, ?_⟩
      all_goals try dsimp only
      · rw [modifyLine_same, e3]
      · rw [modifyLine_ne _ _ _ _ hne2, modifyLine_same, e2]
        try rfl
      · intro j hjn hja
        rw [modifyLine_ne _ _ _ _ hja, modifyLine_ne _ _ _ _ hjn, modifyLine_ne _ _ _ _ hja]
      · try rfl
  · have hv2 : ¬ (l a).minSpeed > v := not_lt.mpr hv
    have e0 : (modifyLine (modifyLine l a Path.fixStartAndEndSpeed) a
        Path.invalidateParameter a).minSpeed = (l a).minSpeed := by
      rw [modifyLine_same, modifyLine_same]
      try rfl
    simp only [if_neg h1, e0, if_neg hv2]
    refine ⟨update_pair_ext l _ _ _ hne _ _ ?_ ?_ ?_, ?_⟩
    all_goals try dsimp only
    · rw [modifyLine_ne _ _ _ _ hne, modifyLine_ne _ _ _ _ hne, modifyLine_same,
        modifyLine_same, modifyLine_same, modifyLine_same]
      try rfl
    · rw [modifyLine_same, modifyLine_same, modifyLine_ne _ _ _ _ hne2,
        modifyLine_ne _ _ _ _ hne2, modifyLine_ne _ _ _ _ hne2, modifyLine_ne _ _ _ _ hne2,
        modifyLine_same, modifyLine_same, modifyLine_same, modifyLine_same]
      try rfl
    · intro j hjn hja
      rw [modifyLine_ne _ _ _ _ hjn, modifyLine_ne _ _ _ _ hjn, modifyLine_ne _ _ _ _ hja,
        modifyLine_ne _ _ _ _ hja, modifyLine_ne _ _ _ _ hja, modifyLine_ne _ _ _ _ hja]
    · rw [modifyLine_same, modifyLine_same, modifyLine_same, modifyLine_same,
        modifyLine_ne _ _ _ _ hne2, modifyLine_ne _ _ _ _ hne2, modifyLine_ne _ _ _ _ hne2,
        modifyLine_ne _ _ _ _ hne2]
      try rfl

/-! ### The rounds on segments -/

theorem backReach_congr {a b : Path} (h : a.frame = b.frame) (v : ℚ) :
    backReach pl a v = backReach pl b v := by
  have h1 : a.frame.flags = b.frame.flags := by rw [h]
  have h2 : a.frame.fullSpeed = b.frame.fullSpeed := by rw [h]
  have h3 : a.frame.accelerationDistance2 = b.frame.accelerationDistance2 := by rw [h]
  have h1b : a.flags = b.flags := h1
  have h2b : a.fullSpeed = b.fullSpeed := h2
  have h3b : a.accelerationDistance2 = b.accelerationDistance2 := h3
  unfold backReach Path.isNominalMove
  rw [h1b, h2b, h3b]

theorem fwdReach_eq_backReach (a : Path) (v : ℚ) : fwdReach pl a v = backReach pl a v := rfl

theorem frame_limits {a b : Path} (h : a.frame = b.frame) :
    a.maxJunctionSpeed = b.maxJunctionSpeed ∧ a.minSpeed = b.minSpeed := by
  have h1 : a.frame.maxJunctionSpeed = b.frame.maxJunctionSpeed := by rw [h]
  have h2 : a.frame.minSpeed = b.frame.minSpeed := by rw [h]
  exact ⟨h1, h2⟩

theorem backValue_congr {a b p q : Path} (h1 : a.frame = b.frame) (h2 : p.frame = q.frame)
    (v : ℚ) : backValue pl a p v = backValue pl b q v := by
  obtain ⟨e1, e2⟩ := frame_limits h2
  unfold backValue
  rw [backReach_congr pl h1, e1, e2]

theorem backOk_congr {a b p q : Path} (h1 : a.frame = b.frame) (h2 : p.frame = q.frame)
    (h3 : a.endSpeed = b.endSpeed) (h4 : p.endSpeed = q.endSpeed) (h : BackOk pl b q) :
    BackOk pl a p := by
  unfold BackOk at h ⊢
  rw [h4, h3, backValue_congr pl h1 h2]
  exact h

theorem fwdOk_congr {a b n m : Path} (h1 : a.frame = b.frame) (h2 : n.frame = m.frame)
    (h3 : a.endSpeed = b.endSpeed) (h4 : n.startSpeed = m.startSpeed) (h : FwdOk b m) :
    FwdOk a n := by
  obtain ⟨e1, -⟩ := frame_limits h1
  obtain ⟨-, e2⟩ := frame_limits h2
  unfold FwdOk at h ⊢
  rw [h4, h3, e1, e2]
  exact h

theorem higherOk_congr {a b : Path} (h1 : a.frame = b.frame) (h2 : a.startSpeed = b.startSpeed)
    (h3 : a.endSpeed = b.endSpeed) (h : b.HigherOk pl) : a.HigherOk pl := by
  obtain ⟨e1, -⟩ := frame_limits h1
  unfold Path.HigherOk at h ⊢
  rw [fwdReach_eq_backReach, backReach_congr pl h1, h2, h3, e1]
  exact h

theorem minOk_congr {a b : Path} (h1 : a.frame = b.frame) (h2 : a.startSpeed = b.startSpeed)
    (h3 : a.endSpeed = b.endSpeed) (h : b.MinOk) : a.MinOk := by
  obtain ⟨-, e2⟩ := frame_limits h1
  unfold Path.MinOk at h ⊢
  rw [h2, h3, e2]
  exact h

/-- What a round of `backwardPlanner` does to `previous`. -/
theorem backPrev_spec (act prev : Path) (v : ℚ) (hmin : prev.minSpeed ≤ prev.endSpeed) :
    (backPrev pl act prev v).frame = prev.frame ∧
    (backPrev pl act prev v).endSpeed = backValue pl act prev v ∧
    (backPrev pl act prev v).startSpeed = prev.startSpeed ∧
    (backPrev pl act prev v).isEndSpeedFixed = prev.isEndSpeedFixed ∧
    (backPrev pl act prev v).isStartSpeedFixed = prev.isStartSpeedFixed ∧
    (backPrev pl act prev v).minSpeed ≤ (backPrev pl act prev v).endSpeed ∧
    (prev.areParameterUpToDate = false →
      (backPrev pl act prev v).areParameterUpToDate = false) ∧
    (prev.endSpeed = backValue pl act prev v →
      (backPrev pl act prev v).invalidateParameter = prev.invalidateParameter) := by
  unfold backPrev backValue
  by_cases h1 : backReach pl act v ≥ prev.maxJunctionSpeed
  · rw [if_pos h1, if_pos h1]
    by_cases h2 : prev.endSpeed ≠ prev.maxJunctionSpeed
    · rw [if_pos h2]
      refine ⟨rfl, rfl, rfl, rfl, rfl, le_max_left _ _, fun _ => rfl, fun h => ?_⟩
      show (prev.invalidateParameter.setEndSpeed _).invalidateParameter = _
      rw [← h]
      rfl
    · rw [if_neg h2]
      rw [not_not] at h2
      refine ⟨rfl, ?_, rfl, rfl, rfl, hmin, fun h => h, fun _ => rfl⟩
      rw [← h2, max_eq_right hmin]
  · rw [if_neg h1, if_neg h1]
    refine ⟨rfl, rfl, rfl, rfl, rfl, le_max_right _ _, fun _ => rfl, fun h => ?_⟩
    show ((prev.setEndSpeed _).invalidateParameter).invalidateParameter = _
    rw [← h]
    rfl

/-- What a round of `backwardPlanner` does to `act`. -/
theorem backAct_spec (act prev : Path) (v : ℚ) (hmin : act.minSpeed ≤ act.startSpeed) :
    (backAct pl act prev v).frame = act.frame ∧
    (backAct pl act prev v).endSpeed = act.endSpeed ∧
    (backAct pl act prev v).isEndSpeedFixed = act.isEndSpeedFixed ∧
    (backAct pl act prev v).isStartSpeedFixed = act.isStartSpeedFixed ∧
    (backAct pl act prev v).minSpeed ≤ (backAct pl act prev v).startSpeed ∧
    (act.areParameterUpToDate = false →
      (backAct pl act prev v).areParameterUpToDate = false) ∧
    (backAct pl act prev v).noSB = act.noSB := by
  unfold backAct
  by_cases h1 : backReach pl act v ≥ prev.maxJunctionSpeed
  · rw [if_pos h1]
    by_cases h2 : act.startSpeed ≠ prev.maxJunctionSpeed
    · rw [if_pos h2]
      exact ⟨rfl, rfl, rfl, rfl, le_max_left _ _, fun _ => rfl, rfl⟩
    · rw [if_neg h2]
      exact ⟨rfl, rfl, rfl, rfl, hmin, fun h => h, rfl⟩
  · rw [if_neg h1]
    exact ⟨rfl, rfl, rfl, rfl, le_max_left _ _, fun _ => rfl, rfl⟩

/-- What a round of `forwardPlanner` does to `act`. -/
theorem fwdAct_spec (act : Path) (v : ℚ) (_hv : act.minSpeed ≤ v)
    (hmin : act.minSpeed ≤ act.endSpeed) :
    (fwdAct pl act v).frame = act.frame ∧
    (fwdAct pl act v).startSpeed = v ∧
    (fwdAct pl act v).minSpeed ≤ (fwdAct pl act v).endSpeed ∧
    (fwdAct pl act v).areParameterUpToDate = false ∧
    (act.isStartSpeedFixed = true → (fwdAct pl act v).isStartSpeedFixed = true) ∧
    ((fwdAct pl act v).isEndSpeedFixed = true ∨
      ((fwdAct pl act v).isEndSpeedFixed = act.isEndSpeedFixed ∧
        (fwdAct pl act v).endSpeed = act.endSpeed ∧ (fwdAct pl act v).HigherOk pl)) := by
  unfold fwdAct
  by_cases h1 : fwdReach pl act v > act.endSpeed
  · rw [if_pos h1]
    by_cases h2 : act.endSpeed = act.maxJunctionSpeed
    · rw [if_pos h2]
      exact ⟨rfl, rfl, hmin, rfl, fun h => h, Or.inl rfl⟩
    · rw [if_neg h2]
      exact ⟨rfl, rfl, hmin, rfl, fun h => h, Or.inr ⟨rfl, rfl, h1, h2⟩⟩
  · rw [if_neg h1]
    exact ⟨rfl, rfl, le_max_left _ _, rfl, fun _ => rfl, Or.inl rfl⟩

/-- What a round of `forwardPlanner` does to `next`. -/
theorem fwdNext_spec (act next : Path) (v : ℚ) :
    (fwdNext pl act next v).frame = next.frame ∧
    (fwdNext pl act next v).startSpeed = fwdLeft pl act next v ∧
    (fwdNext pl act next v).endSpeed = next.endSpeed ∧
    (fwdNext pl act next v).isEndSpeedFixed = next.isEndSpeedFixed ∧
    (next.areParameterUpToDate = false →
      (fwdNext pl act next v).areParameterUpToDate = false) ∧
    (next.isStartSpeedFixed = true → (fwdNext pl act next v).isStartSpeedFixed = true) ∧
    ((fwdAct pl act v).isEndSpeedFixed = true → act.isEndSpeedFixed = false →
      (fwdNext pl act next v).isStartSpeedFixed = true) := by
  unfold fwdNext fwdAct
  by_cases h1 : fwdReach pl act v > act.endSpeed
  · rw [if_pos h1, if_pos h1]
    by_cases h2 : act.endSpeed = act.maxJunctionSpeed
    · rw [if_pos h2, if_pos h2]
      exact ⟨rfl, rfl, rfl, rfl, fun h => h, fun _ => rfl, fun _ _ => rfl⟩
    · rw [if_neg h2, if_neg h2]
      refine ⟨rfl, rfl, rfl, rfl, fun h => h, fun h => h, fun h3 h4 => ?_⟩
      have h5 : act.isEndSpeedFixed = true := h3
      rw [h4] at h5
      exact absurd h5 (by decide)
  · rw [if_neg h1, if_neg h1]
    exact ⟨rfl, rfl, rfl, rfl, fun h => h, fun _ => rfl, fun _ _ => rfl⟩

/-- A round of `forwardPlanner` on a segment that can reach more than its end
speed only writes the start speeds. -/
theorem fwd_stable (act next : Path) (v : ℚ) (h1 : fwdReach pl act v > act.endSpeed)
    (h2 : act.endSpeed ≠ act.maxJunctionSpeed) :
    fwdAct pl act v = (act.setStartSpeed v).invalidateParameter ∧
    fwdLeft pl act next v = max (min act.endSpeed act.maxJunctionSpeed) next.minSpeed ∧
    fwdNext pl act next v =
      next.setStartSpeed (max (min act.endSpeed act.maxJunctionSpeed) next.minSpeed) := by
  have e1 : fwdAct pl act v = (act.setStartSpeed v).invalidateParameter := by
    unfold fwdAct
    rw [if_pos h1, if_neg h2]
  have e2 : fwdLeft pl act next v = max (min act.endSpeed act.maxJunctionSpeed) next.minSpeed := by
    unfold fwdLeft
    rw [e1]
    rfl
  refine ⟨e1, e2, ?_⟩
  unfold fwdNext
  rw [if_pos h1, if_neg h2, e2]

/-! ### The backward pass -/

theorem noSB_of_invalidate {a b : Path} (h : a.invalidateParameter = b.invalidateParameter) :
    a.noSB = b.noSB := by
  have e : ∀ p : Path, p.noSB = ((p.invalidateParameter).setStartSpeed 0).unblock :=
    fun _ => rfl
  rw [e, e, h]

theorem backwardOk_refl (P f : Nat) (l : Nat → Path) (hmin : ∀ j, (l j).MinOk) :
    BackwardOk pl P f f l l :=
  ⟨sameFrame_refl l, hmin, fun _ => rfl, fun _ h => h, fun k h1 h2 => by omega, fun _ _ => rfl,
    fun _ _ => rfl, fun _ _ => rfl⟩

theorem backwardLoop_plan (P f : Nat) (hP : P < pl.MOVE_CACHE_SIZE) :
    ∀ (n fuel : Nat) (l : Nat → Path) (v : ℚ), f + n < pl.MOVE_CACHE_SIZE → n ≤ fuel →
      (∀ j, (l j).MinOk) → v = (l (ringIndex pl P (f + n))).endSpeed →
      BackwardOk pl P f (f + n) l
        (backwardLoop pl (ringIndex pl P f) fuel l (ringIndex pl P (f + n)) v) := by
  intro n
  induction n with
  | zero =>
    intro fuel l v _ _ hmin _
    cases fuel with
    | zero => exact backwardOk_refl pl P f l hmin
    | succ k =>
      simp only [backwardLoop, Nat.add_zero, ne_eq, not_true_eq_false, if_false]
      exact backwardOk_refl pl P f l hmin
  | succ n ih =>
    intro fuel l v hlt hfuel hmin hv
    cases fuel with
    | zero => omega
    | succ fuel =>
      have hne : ringIndex pl P (f + (n + 1)) ≠ ringIndex pl P f := by
        intro he
        have := ringIndex_inj pl P _ _ hP hlt (by omega) he
        omega
      have hprev : previousPlannerIndex pl (ringIndex pl P (f + (n + 1))) =
          ringIndex pl P (f + n) := prev_ringIndex pl P (f + n) hP (by omega)
      have hpa : ringIndex pl P (f + n) ≠ ringIndex pl P (f + (n + 1)) := by
        intro he
        have := ringIndex_inj pl P _ _ hP (by omega) hlt he
        omega
      obtain ⟨e1, e2⟩ := backwardStep_eq pl l (ringIndex pl P (f + (n + 1))) v
        (by rw [hprev]; exact hpa)
      rw [hprev] at e1 e2
      obtain ⟨p1, p2, p3, p4, -, p6, p7, p8⟩ := backPrev_spec pl
        (l (ringIndex pl P (f + (n + 1)))) (l (ringIndex pl P (f + n))) v (hmin _).2
      obtain ⟨a1, a2, a3, -, a5, a6, a7⟩ := backAct_spec pl
        (l (ringIndex pl P (f + (n + 1)))) (l (ringIndex pl P (f + n))) v (hmin _).1
      simp only [backwardLoop, ne_eq, hne, not_false_eq_true, if_true]
      rw [backwardStep_start, hprev, e1, e2]
      -- the ring after the round
      have hl1 : ∀ j, (Function.update (Function.update l (ringIndex pl P (f + n))
          (backPrev pl (l (ringIndex pl P (f + (n + 1)))) (l (ringIndex pl P (f + n))) v))
          (ringIndex pl P (f + (n + 1)))
          (backAct pl (l (ringIndex pl P (f + (n + 1)))) (l (ringIndex pl P (f + n))) v)) j =
          if j = ringIndex pl P (f + (n + 1)) then
            backAct pl (l (ringIndex pl P (f + (n + 1)))) (l (ringIndex pl P (f + n))) v
          else if j = ringIndex pl P (f + n) then
            backPrev pl (l (ringIndex pl P (f + (n + 1)))) (l (ringIndex pl P (f + n))) v
          else l j := by
        intro j
        rw [Function.update_apply, Function.update_apply]
      generalize Function.update (Function.update l (ringIndex pl P (f + n))
          (backPrev pl (l (ringIndex pl P (f + (n + 1)))) (l (ringIndex pl P (f + n))) v))
          (ringIndex pl P (f + (n + 1)))
          (backAct pl (l (ringIndex pl P (f + (n + 1)))) (l (ringIndex pl P (f + n))) v) = l1
        at hl1 ⊢
      have ha : l1 (ringIndex pl P (f + (n + 1))) =
          backAct pl (l (ringIndex pl P (f + (n + 1)))) (l (ringIndex pl P (f + n))) v := by
        rw [hl1, if_pos rfl]
      have hp : l1 (ringIndex pl P (f + n)) =
          backPrev pl (l (ringIndex pl P (f + (n + 1)))) (l (ringIndex pl P (f + n))) v := by
        rw [hl1, if_neg hpa, if_pos rfl]
      have ho : ∀ j, j ≠ ringIndex pl P (f + (n + 1)) → j ≠ ringIndex pl P (f + n) →
          l1 j = l j := by
        intro j h1 h2
        rw [hl1, if_neg h1, if_neg h2]
      have hfr : SameFrame l1 l := by
        intro j
        by_cases h1 : j = ringIndex pl P (f + (n + 1))
        · rw [h1, ha, a1]
        · by_cases h2 : j = ringIndex pl P (f + n)
          · rw [h2, hp, p1]
          · rw [ho j h1 h2]
      have hmin1 : ∀ j, (l1 j).MinOk := by
        intro j
        by_cases h1 : j = ringIndex pl P (f + (n + 1))
        · rw [h1, ha]
          exact ⟨a5, by rw [a2, (frame_limits a1).2]; exact (hmin _).2⟩
        · by_cases h2 : j = ringIndex pl P (f + n)
          · rw [h2, hp]
            exact ⟨by rw [p3]; exact le_trans (le_of_eq (frame_limits p1).2) (hmin _).1, p6⟩
          · rw [ho j h1 h2]
            exact hmin j
      have hv1 : (backPrev pl (l (ringIndex pl P (f + (n + 1)))) (l (ringIndex pl P (f + n)))
          v).endSpeed = (l1 (ringIndex pl P (f + n))).endSpeed := by rw [hp]
      have IH := ih fuel l1 _ (by omega) (by omega) hmin1 hv1
      generalize backwardLoop pl (ringIndex pl P f) fuel l1 (ringIndex pl P (f + n))
        (backPrev pl (l (ringIndex pl P (f + (n + 1)))) (l (ringIndex pl P (f + n))) v).endSpeed
        = l2 at IH ⊢
      have hidx : ∀ k, k < f + (n + 1) → ringIndex pl P k ≠ ringIndex pl P (f + (n + 1)) := by
        intro k hk he
        have := ringIndex_inj pl P _ _ hP (by omega) hlt he
        omega
      have hidx2 : ∀ k, k < f + n → ringIndex pl P k ≠ ringIndex pl P (f + n) := by
        intro k hk he
        have := ringIndex_inj pl P _ _ hP (by omega) (by omega) he
        omega
      -- the end speeds at the top junction
      have hEa : (l2 (ringIndex pl P (f + (n + 1)))).endSpeed =
          (l (ringIndex pl P (f + (n + 1)))).endSpeed := by
        rw [IH.endOff _ (fun k _ hk => (hidx k (by omega)).symm), ha, a2]
      have hEp : (l2 (ringIndex pl P (f + n))).endSpeed =
          backValue pl (l (ringIndex pl P (f + (n + 1)))) (l (ringIndex pl P (f + n))) v := by
        rw [IH.endOff _ (fun k _ hk => (hidx2 k hk).symm), hp, p2]
      refine ⟨sameFrame_trans IH.frame hfr, IH.minOk, ?_, ?_, ?_, ?_, ?_, ?_⟩
      · intro j
        rw [IH.fixed j]
        by_cases h1 : j = ringIndex pl P (f + (n + 1))
        · rw [h1, ha, a3]
        · by_cases h2 : j = ringIndex pl P (f + n)
          · rw [h2, hp, p4]
          · rw [ho j h1 h2]
      · intro j hj
        apply IH.stale j
        by_cases h1 : j = ringIndex pl P (f + (n + 1))
        · rw [h1, ha]
          rw [h1] at hj
          exact a6 hj
        · by_cases h2 : j = ringIndex pl P (f + n)
          · rw [h2, hp]
            rw [h2] at hj
            exact p7 hj
          · rw [ho j h1 h2]
            exact hj
      · intro k hk1 hk2
        by_cases hk : k = f + n
        · rw [hk, Nat.add_assoc]
          unfold BackOk
          rw [hEp, hEa, ← hv]
          exact backValue_congr pl ((hfr _).symm.trans (IH.frame _).symm)
            ((hfr _).symm.trans (IH.frame _).symm) v
        · exact IH.back k hk1 (by omega)
      · intro j hj
        have hjp : j ≠ ringIndex pl P (f + n) := hj (f + n) (by omega) (by omega)
        rw [IH.endOff j (fun k h1 h2 => hj k h1 (by omega))]
        by_cases h1 : j = ringIndex pl P (f + (n + 1))
        · rw [h1, ha, a2]
        · rw [ho j h1 hjp]
      · intro j hj
        have hja : j ≠ ringIndex pl P (f + (n + 1)) := hj (f + (n + 1)) (by omega) (by omega)
        rw [IH.startOff j (fun k h1 h2 => hj k h1 (by omega))]
        by_cases h2 : j = ringIndex pl P (f + n)
        · rw [h2, hp, p3]
        · rw [ho j hja h2]
      · intro hst j
        have htop := hst (f + n) (by omega) (by omega)
        unfold BackOk at htop
        rw [Nat.add_assoc, ← hv] at htop
        have hst1 : ∀ k, f ≤ k → k < f + n →
            BackOk pl (l1 (ringIndex pl P (k + 1))) (l1 (ringIndex pl P k)) := by
          intro k hk1 hk2
          have hkk : l1 (ringIndex pl P k) = l (ringIndex pl P k) :=
            ho _ (hidx k (by omega)) (hidx2 k hk2)
          rw [hkk]
          by_cases hk : k + 1 = f + n
          · rw [hk, hp]
            refine backOk_congr pl p1 rfl ?_ rfl (by rw [← hk]; exact hst k hk1 (by omega))
            rw [p2, ← htop]
          · have hkk1 : l1 (ringIndex pl P (k + 1)) = l (ringIndex pl P (k + 1)) :=
              ho _ (hidx (k + 1) (by omega)) (hidx2 (k + 1) (by omega))
            rw [hkk1]
            exact hst k hk1 (by omega)
        rw [IH.stable hst1 j]
        by_cases h1 : j = ringIndex pl P (f + (n + 1))
        · rw [h1, ha, a7]
        · by_cases h2 : j = ringIndex pl P (f + n)
          · rw [h2, hp]
            exact noSB_of_invalidate (p8 htop)
          · rw [ho j h1 h2]

/-! ### The forward pass -/

theorem forwardLoop_plan (P c : Nat) (hP : P < pl.MOVE_CACHE_SIZE)
    (hc : c < pl.MOVE_CACHE_SIZE) :
    ∀ (n fuel : Nat) (l : Nat → Path) (o : Nat) (v : ℚ), o + n = c → n ≤ fuel →
      (∀ j, (l j).MinOk) → (l (ringIndex pl P o)).minSpeed ≤ v →
      (∀ k, o ≤ k → k < c → (l (ringIndex pl P k)).isEndSpeedFixed = false) →
      ForwardOk pl P o c v l
        (forwardLoop pl (ringIndex pl P c) fuel l (ringIndex pl P o) v) := by
  intro n
  induction n with
  | zero =>
    intro fuel l o v hoc _ hmin hv _
    have hoc2 : o = c := by omega
    subst hoc2
    have hfin : ForwardOk pl P o o v l (modifyLine l (ringIndex pl P o)
        (fun q => q.setStartSpeed (max q.minSpeed v))) := by
      have hs : (modifyLine l (ringIndex pl P o)
          (fun q => q.setStartSpeed (max q.minSpeed v))) (ringIndex pl P o) =
          (l (ringIndex pl P o)).setStartSpeed (max (l (ringIndex pl P o)).minSpeed v) :=
        modifyLine_same _ _ _
      refine ⟨sameFrame_modifyLine _ _ _ (fun _ => rfl), ?_, ?_, fun k h1 h2 => by omega,
        fun k h1 h2 => by omega, ?_, fun k h1 h2 => by omega, ?_, ?_⟩
      · intro j
        by_cases hj : j = ringIndex pl P o
        · rw [hj, hs]
          exact ⟨le_max_left _ _, (hmin _).2⟩
        · rw [modifyLine_ne _ _ _ _ hj]
          exact hmin j
      · rw [hs]
        exact max_eq_right hv
      · intro h
        rw [hs]
        exact h
      · rw [hs]
        exact ⟨rfl, rfl⟩
      · intro h
        rw [hs]
        exact h
    cases fuel with
    | zero => exact hfin
    | succ k =>
      simp only [forwardLoop, ne_eq, not_true_eq_false, if_false]
      exact hfin
  | succ n ih =>
    intro fuel l o v hoc hfuel hmin hv hnofix
    cases fuel with
    | zero => omega
    | succ fuel =>
      have hne : ringIndex pl P o ≠ ringIndex pl P c := by
        intro he
        have := ringIndex_inj pl P _ _ hP (by omega) hc he
        omega
      have hnext : nextPlannerIndex pl (ringIndex pl P o) = ringIndex pl P (o + 1) :=
        next_ringIndex pl P o hP (by omega)
      have han : ringIndex pl P o ≠ ringIndex pl P (o + 1) := by
        intro he
        have := ringIndex_inj pl P _ _ hP (by omega) (by omega) he
        omega
      obtain ⟨e1, e2⟩ := forwardStep_eq pl l (ringIndex pl P o) v (by rw [hnext]; exact han) hv
      rw [hnext] at e1 e2
      obtain ⟨a1, a2, a3, a4, a5, a6⟩ := fwdAct_spec pl (l (ringIndex pl P o)) v hv (hmin _).2
      obtain ⟨n1, n2, n3, n4, n5, n6, n7⟩ := fwdNext_spec pl (l (ringIndex pl P o))
        (l (ringIndex pl P (o + 1))) v
      simp only [forwardLoop, ne_eq, hne, not_false_eq_true, if_true]
      rw [forwardStep_first, hnext, e1, e2]
      have hl1 : ∀ j, (Function.update (Function.update l (ringIndex pl P o)
          (fwdAct pl (l (ringIndex pl P o)) v)) (ringIndex pl P (o + 1))
          (fwdNext pl (l (ringIndex pl P o)) (l (ringIndex pl P (o + 1))) v)) j =
          if j = ringIndex pl P (o + 1) then
            fwdNext pl (l (ringIndex pl P o)) (l (ringIndex pl P (o + 1))) v
          else if j = ringIndex pl P o then fwdAct pl (l (ringIndex pl P o)) v
          else l j := by
        intro j
        rw [Function.update_apply, Function.update_apply]
      generalize Function.update (Function.update l (ringIndex pl P o)
          (fwdAct pl (l (ringIndex pl P o)) v)) (ringIndex pl P (o + 1))
          (fwdNext pl (l (ringIndex pl P o)) (l (ringIndex pl P (o + 1))) v) = l1 at hl1 ⊢
      have hn : l1 (ringIndex pl P (o + 1)) =
          fwdNext pl (l (ringIndex pl P o)) (l (ringIndex pl P (o + 1))) v := by
        rw [hl1, if_pos rfl]
      have ha : l1 (ringIndex pl P o) = fwdAct pl (l (ringIndex pl P o)) v := by
        rw [hl1, if_neg han, if_pos rfl]
      have ho : ∀ j, j ≠ ringIndex pl P (o + 1) → j ≠ ringIndex pl P o → l1 j = l j := by
        intro j h1 h2
        rw [hl1, if_neg h1, if_neg h2]
      have hfr : SameFrame l1 l := by
        intro j
        by_cases h1 : j = ringIndex pl P (o + 1)
        · rw [h1, hn, n1]
        · by_cases h2 : j = ringIndex pl P o
          · rw [h2, ha, a1]
          · rw [ho j h1 h2]
      have hleft : (l (ringIndex pl P (o + 1))).minSpeed ≤
          fwdLeft pl (l (ringIndex pl P o)) (l (ringIndex pl P (o + 1))) v := le_max_right _ _
      have hmin1 : ∀ j, (l1 j).MinOk := by
        intro j
        by_cases h1 : j = ringIndex pl P (o + 1)
        · rw [h1, hn]
          exact ⟨by rw [n2, (frame_limits n1).2]; exact hleft,
            by rw [n3, (frame_limits n1).2]; exact (hmin _).2⟩
        · by_cases h2 : j = ringIndex pl P o
          · rw [h2, ha]
            exact ⟨by rw [a2, (frame_limits a1).2]; exact hv, a3⟩
          · rw [ho j h1 h2]
            exact hmin j
      have hidx : ∀ k, o + 1 ≤ k → k ≤ c → ringIndex pl P k ≠ ringIndex pl P o := by
        intro k hk1 hk2 he
        have := ringIndex_inj pl P _ _ hP (by omega) (by omega) he
        omega
      have hidx2 : ∀ k, o + 1 < k → k ≤ c → ringIndex pl P k ≠ ringIndex pl P (o + 1) := by
        intro k hk1 hk2 he
        have := ringIndex_inj pl P _ _ hP (by omega) (by omega) he
        omega
      have hl1k : ∀ k, o + 1 ≤ k → k ≤ c →
          (l1 (ringIndex pl P k)).endSpeed = (l (ringIndex pl P k)).endSpeed ∧
          (l1 (ringIndex pl P k)).isEndSpeedFixed = (l (ringIndex pl P k)).isEndSpeedFixed ∧
          ((l (ringIndex pl P k)).areParameterUpToDate = false →
            (l1 (ringIndex pl P k)).areParameterUpToDate = false) := by
        intro k hk1 hk2
        by_cases hk : k = o + 1
        · rw [hk, hn]
          exact ⟨n3, n4, n5⟩
        · rw [ho _ (hidx2 k (by omega) hk2) (hidx k hk1 hk2)]
          exact ⟨rfl, rfl, fun h => h⟩
      have IH := ih fuel l1 (o + 1)
        (fwdLeft pl (l (ringIndex pl P o)) (l (ringIndex pl P (o + 1))) v) (by omega) (by omega)
        hmin1 (by rw [hn, (frame_limits n1).2]; exact hleft)
        (fun k hk1 hk2 => by rw [(hl1k k hk1 (by omega)).2.1]; exact hnofix k (by omega) hk2)
      have hoff := agreeOff_forwardLoop pl
        (fun j => ∃ k, o + 1 ≤ k ∧ k ≤ c ∧ j = ringIndex pl P k) P c hP hc n fuel l1 (o + 1)
        (fwdLeft pl (l (ringIndex pl P o)) (l (ringIndex pl P (o + 1))) v) (by omega)
        (fun k hk1 hk2 => ⟨k, hk1, hk2, rfl⟩)
      generalize forwardLoop pl (ringIndex pl P c) fuel l1 (ringIndex pl P (o + 1))
        (fwdLeft pl (l (ringIndex pl P o)) (l (ringIndex pl P (o + 1))) v) = l2 at IH hoff ⊢
      have h2a : l2 (ringIndex pl P o) = fwdAct pl (l (ringIndex pl P o)) v := by
        rw [hoff (ringIndex pl P o) (fun ⟨k, hk1, hk2, he⟩ => hidx k hk1 hk2 he.symm), ha]
      refine ⟨sameFrame_trans IH.frame hfr, IH.minOk, by rw [h2a, a2], ?_, ?_, ?_, ?_, ?_, ?_⟩
      · intro k hk1 hk2
        by_cases hk : k = o
        · rw [hk]
          unfold FwdOk
          rw [IH.start, h2a, (frame_limits a1).1,
            (frame_limits ((IH.frame _).trans (hfr _))).2]
          rfl
        · exact IH.fwd k (by omega) hk2
      · intro k hk1 hk2
        by_cases hk : k = o
        · rw [hk, h2a]
          exact a4
        · exact IH.stale k (by omega) hk2
      · intro h
        exact IH.staleTop ((hl1k c (by omega) (le_refl _)).2.2 h)
      · intro k hk1 hk2
        by_cases hk : k = o
        · rw [hk, h2a]
          rcases a6 with h | ⟨h1, h2, h3⟩
          · exact Or.inl ⟨h, IH.fixedStart (by rw [hn]; exact n7 h (hnofix o (le_refl _)
              (by omega)))⟩
          · exact Or.inr ⟨by rw [h1]; exact hnofix o (le_refl _) (by omega), h2, h3⟩
        · rcases IH.cases k (by omega) hk2 with h | ⟨h1, h2, h3⟩
          · exact Or.inl h
          · exact Or.inr ⟨h1, by rw [h2, (hl1k k (by omega) (by omega)).1], h3⟩
      · obtain ⟨t1, t2⟩ := IH.endTop
        obtain ⟨u1, u2, -⟩ := hl1k c (by omega) (le_refl _)
        exact ⟨t1.trans u1, t2.trans u2⟩
      · intro h
        rw [h2a]
        exact a5 h

/-! ### Segments up to the bits that the second run may touch -/

theorem noSB_fields {a b : Path} (h : a.noSB = b.noSB) :
    a.frame = b.frame ∧ a.endSpeed = b.endSpeed ∧ a.isEndSpeedFixed = b.isEndSpeedFixed ∧
      a.isStartSpeedFixed = b.isStartSpeedFixed := by
  have h1 : a.noSB.frame = b.noSB.frame := by rw [h]
  have h2 : a.noSB.endSpeed = b.noSB.endSpeed := by rw [h]
  have h3 : a.noSB.isEndSpeedFixed = b.noSB.isEndSpeedFixed := by rw [h]
  have h4 : a.noSB.isStartSpeedFixed = b.noSB.isStartSpeedFixed := by rw [h]
  exact ⟨h1, h2, h3, h4⟩

theorem noUB_of_noSB {a b : Path} (h : a.noSB = b.noSB) (hs : a.startSpeed = b.startSpeed) :
    a.noUB = b.noUB := by
  have e : ∀ p : Path, p.noUB = p.noSB.setStartSpeed p.startSpeed := fun _ => rfl
  rw [e, e, h, hs]

theorem noSB_of_noUB {a b : Path} (h : a.noUB = b.noUB) : a.noSB = b.noSB := by
  have e : ∀ p : Path, p.noSB = p.noUB.setStartSpeed 0 := fun _ => rfl
  rw [e, e, h]

theorem noUB_fields {a b : Path} (h : a.noUB = b.noUB) :
    a.frame = b.frame ∧ a.startSpeed = b.startSpeed ∧ a.endSpeed = b.endSpeed ∧
      a.isEndSpeedFixed = b.isEndSpeedFixed ∧ a.isStartSpeedFixed = b.isStartSpeedFixed := by
  obtain ⟨h1, h2, h3, h4⟩ := noSB_fields (noSB_of_noUB h)
  have h5 : a.noUB.startSpeed = b.noUB.startSpeed := by rw [h]
  exact ⟨h1, h5, h2, h3, h4⟩

theorem updateStepsParameter_block (p : Path) :
    p.block.updateStepsParameter = p.updateStepsParameter.block := by
  unfold Path.updateStepsParameter
  have h1 : p.block.areParameterUpToDate = p.areParameterUpToDate := rfl
  have h2 : p.block.isWarmUp = p.isWarmUp := rfl
  rw [h1, h2]
  split_ifs <;> rfl

theorem updateStepsParameter_unblock (p : Path) :
    p.unblock.updateStepsParameter = p.updateStepsParameter.unblock := by
  unfold Path.updateStepsParameter
  have h1 : p.unblock.areParameterUpToDate = p.areParameterUpToDate := rfl
  have h2 : p.unblock.isWarmUp = p.isWarmUp := rfl
  rw [h1, h2]
  split_ifs <;> rfl

theorem updateStepsParameter_fresh (p : Path) :
    (p.updateStepsParameter.areParameterUpToDate = true ∨
      p.updateStepsParameter.isWarmUp = true) ∧
    p.updateStepsParameter.frame = p.frame ∧
    p.updateStepsParameter.startSpeed = p.startSpeed ∧
    p.updateStepsParameter.endSpeed = p.endSpeed ∧
    p.updateStepsParameter.isEndSpeedFixed = p.isEndSpeedFixed ∧
    p.updateStepsParameter.isStartSpeedFixed = p.isStartSpeedFixed ∧
    p.updateStepsParameter.isBlocked = p.isBlocked := by
  unfold Path.updateStepsParameter
  by_cases h : (p.areParameterUpToDate || p.isWarmUp) = true
  · rw [if_pos h]
    refine ⟨?_, rfl, rfl, rfl, rfl, rfl, rfl⟩
    simpa using h
  · rw [if_neg h]
    exact ⟨Or.inl rfl, rfl, rfl, rfl, rfl, rfl, rfl⟩

theorem updateStepsParameter_done (p : Path)
    (h : p.areParameterUpToDate = true ∨ p.isWarmUp = true) : p.updateStepsParameter = p := by
  unfold Path.updateStepsParameter
  rw [if_pos (by simpa using h)]

theorem unblock_of_free (p : Path) (h : p.isBlocked = false) : p.unblock = p := by
  have e : p.joinFlags.blocked = false := h
  unfold Path.unblock
  rw [← e]

theorem invalidate_of_stale (p : Path) (h : p.areParameterUpToDate = false) :
    p.invalidateParameter = p := by
  have e : p.joinFlags.parametersUpToDate = false := h
  unfold Path.invalidateParameter
  rw [← e]

/-- The steps parameters that `updateStepsParameter` has computed are those
that it computes again. -/
theorem paramsOk_updated (y : Path) (hstale : y.areParameterUpToDate = false) :
    (y.updateStepsParameter.unblock).ParamsOk := by
  unfold Path.ParamsOk
  by_cases hw : y.isWarmUp = true
  · rw [updateStepsParameter_done y (Or.inr hw)]
    rw [updateStepsParameter_done (y.unblock.invalidateParameter) (Or.inr hw)]
    rfl
  · rw [Bool.not_eq_true] at hw
    rw [updateStepsParameter_eq y hstale hw]
    rw [updateStepsParameter_eq _ (by rfl) (by exact hw)]
    rfl

/-- Updating the steps parameters of a copy of a settled segment that may be
stale or blocked gives the settled segment back. -/
theorem updateStepsParameter_settled (y x : Path) (h : y.noUB = x.noUB)
    (hb : x.isBlocked = false) (hp : x.ParamsOk) :
    (y.updateStepsParameter.unblock).invalidateParameter = x.invalidateParameter := by
  have hx : x.noUB = x.invalidateParameter := unblock_of_free _ hb
  by_cases hd : y.areParameterUpToDate = true ∨ y.isWarmUp = true
  · rw [updateStepsParameter_done y hd]
    exact h.trans hx
  · have hs : y.areParameterUpToDate = false := by
      by_contra hc
      exact hd (Or.inl (by simpa using hc))
    have e1 : y.unblock = x.invalidateParameter := by
      have : y.noUB = y.unblock := by
        unfold Path.noUB
        rw [invalidate_of_stale y hs]
      rw [← this, h, hx]
    rw [← updateStepsParameter_unblock, e1]
    exact hp

/-! ### The forward pass on a settled ring -/

theorem forwardLoop_settled (P c : Nat) (hP : P < pl.MOVE_CACHE_SIZE)
    (hc : c < pl.MOVE_CACHE_SIZE) (l0 : Nat → Path) :
    ∀ (n fuel : Nat) (l : Nat → Path) (o : Nat) (v : ℚ), o + n = c → n ≤ fuel →
      (∀ j, (l j).noSB = (l0 j).noSB) →
      (∀ j, (∀ k, o ≤ k → k ≤ c → j ≠ ringIndex pl P k) →
        (l j).startSpeed = (l0 j).startSpeed) →
      v = (l0 (ringIndex pl P o)).startSpeed →
      (∀ k, o ≤ k → k ≤ c → (l0 (ringIndex pl P k)).MinOk) →
      (∀ k, o ≤ k → k < c → (l0 (ringIndex pl P k)).HigherOk pl ∧
        FwdOk (l0 (ringIndex pl P k)) (l0 (ringIndex pl P (k + 1)))) →
      ∀ j, (forwardLoop pl (ringIndex pl P c) fuel l (ringIndex pl P o) v j).noUB =
        (l0 j).noUB := by
  intro n
  induction n with
  | zero =>
    intro fuel l o v hoc _ hsb hst hv hmin _ j
    have hoc2 : o = c := by omega
    subst hoc2
    have hfin : (modifyLine l (ringIndex pl P o)
        (fun q => q.setStartSpeed (max q.minSpeed v)) j).noUB = (l0 j).noUB := by
      by_cases hj : j = ringIndex pl P o
      · rw [hj, modifyLine_same]
        obtain ⟨f1, -⟩ := noSB_fields (hsb (ringIndex pl P o))
        have hm : max (l (ringIndex pl P o)).minSpeed v = (l0 (ringIndex pl P o)).startSpeed := by
          rw [(frame_limits f1).2, hv]
          exact max_eq_right (hmin o (le_refl _) (le_refl _)).1
        rw [hm]
        exact noUB_of_noSB (hsb _) rfl
      · rw [modifyLine_ne _ _ _ _ hj]
        refine noUB_of_noSB (hsb j) (hst j (fun k hk1 hk2 => ?_))
        have : k = o := by omega
        rw [this]
        exact hj
    cases fuel with
    | zero => exact hfin
    | succ k =>
      simp only [forwardLoop, ne_eq, not_true_eq_false, if_false]
      exact hfin
  | succ n ih =>
    intro fuel l o v hoc hfuel hsb hst hv hmin hok j
    cases fuel with
    | zero => omega
    | succ fuel =>
      have hne : ringIndex pl P o ≠ ringIndex pl P c := by
        intro he
        have := ringIndex_inj pl P _ _ hP (by omega) hc he
        omega
      have hnext : nextPlannerIndex pl (ringIndex pl P o) = ringIndex pl P (o + 1) :=
        next_ringIndex pl P o hP (by omega)
      have han : ringIndex pl P o ≠ ringIndex pl P (o + 1) := by
        intro he
        have := ringIndex_inj pl P _ _ hP (by omega) (by omega) he
        omega
      obtain ⟨fa, ea, -, -⟩ := noSB_fields (hsb (ringIndex pl P o))
      obtain ⟨fn, -, -, -⟩ := noSB_fields (hsb (ringIndex pl P (o + 1)))
      obtain ⟨⟨hh1, hh2⟩, hfw⟩ := hok o (le_refl _) (by omega)
      have hvmin : (l (ringIndex pl P o)).minSpeed ≤ v := by
        rw [(frame_limits fa).2, hv]
        exact (hmin o (le_refl _) (by omega)).1
      have hr : fwdReach pl (l (ringIndex pl P o)) v > (l (ringIndex pl P o)).endSpeed := by
        rw [fwdReach_eq_backReach, backReach_congr pl fa, ea, hv]
        exact hh1
      have hq : (l (ringIndex pl P o)).endSpeed ≠ (l (ringIndex pl P o)).maxJunctionSpeed := by
        rw [ea, (frame_limits fa).1]
        exact hh2
      obtain ⟨e1, e2⟩ := forwardStep_eq pl l (ringIndex pl P o) v (by rw [hnext]; exact han)
        hvmin
      rw [hnext] at e1 e2
      obtain ⟨s1, s2, s3⟩ := fwd_stable pl (l (ringIndex pl P o)) (l (ringIndex pl P (o + 1))) v
        hr hq
      have hleft : max (min (l (ringIndex pl P o)).endSpeed
          (l (ringIndex pl P o)).maxJunctionSpeed) (l (ringIndex pl P (o + 1))).minSpeed =
          (l0 (ringIndex pl P (o + 1))).startSpeed := by
        unfold FwdOk at hfw
        rw [hfw, ea, (frame_limits fa).1, (frame_limits fn).2]
      rw [s1, s3, hleft] at e1
      rw [s2, hleft] at e2
      simp only [forwardLoop, ne_eq, hne, not_false_eq_true, if_true]
      rw [forwardStep_first, hnext, e1, e2]
      refine ih fuel _ (o + 1) _ (by omega) (by omega) ?_ ?_ rfl
        (fun k hk1 hk2 => hmin k (by omega) hk2) (fun k hk1 hk2 => hok k (by omega) hk2) j
      · intro i
        rw [Function.update_apply, Function.update_apply]
        by_cases h1 : i = ringIndex pl P (o + 1)
        · rw [if_pos h1, h1]
          exact hsb _
        · rw [if_neg h1]
          by_cases h2 : i = ringIndex pl P o
          · rw [if_pos h2, h2]
            exact hsb _
          · rw [if_neg h2]
            exact hsb i
      · intro i hi
        have h1 : i ≠ ringIndex pl P (o + 1) := hi (o + 1) (le_refl _) (by omega)
        rw [Function.update_apply, Function.update_apply, if_neg h1]
        by_cases h2 : i = ringIndex pl P o
        · rw [if_pos h2, h2]
          exact hv
        · rw [if_neg h2]
          refine hst i (fun k hk1 hk2 => ?_)
          by_cases hk : k = o
          · rw [hk]; exact h2
          · exact hi k (by omega) hk2

/-! ### The closing loop -/

/-- The closing loop of `updateTrapezoids` updates and unblocks the slots
from the offset `o` to the offset `c - 1` and blocks the slot at `c`. -/
theorem flyingBlockLoop_eq (P c : Nat) (hP : P < pl.MOVE_CACHE_SIZE)
    (hc : c < pl.MOVE_CACHE_SIZE) :
    ∀ (n fuel : Nat) (l : Nat → Path) (o : Nat), o + n + 1 = c → n ≤ fuel →
      (∀ k, o ≤ k → k < c →
        (flyingBlockLoop pl (ringIndex pl P c) fuel l (ringIndex pl P o)).1 (ringIndex pl P k) =
          (l (ringIndex pl P k)).updateStepsParameter.unblock) ∧
      (flyingBlockLoop pl (ringIndex pl P c) fuel l (ringIndex pl P o)).1 (ringIndex pl P c) =
        (l (ringIndex pl P c)).block := by
  intro n
  induction n with
  | zero =>
    intro fuel l o hoc _
    have hnext : nextPlannerIndex pl (ringIndex pl P o) = ringIndex pl P c := by
      rw [next_ringIndex pl P o hP (by omega), hoc]
    have hoc2 : ringIndex pl P o ≠ ringIndex pl P c := by
      intro he
      have := ringIndex_inj pl P _ _ hP (by omega) hc he
      omega
    have hres : (flyingBlockLoop pl (ringIndex pl P c) fuel l (ringIndex pl P o)).1 =
        modifyLine (modifyLine (modifyLine l (ringIndex pl P o) Path.updateStepsParameter)
          (ringIndex pl P o) Path.unblock) (ringIndex pl P c) Path.block := by
      cases fuel with
      | zero =>
        unfold flyingBlockLoop
        simp only [hnext]
      | succ k =>
        unfold flyingBlockLoop
        simp only [hnext, ne_eq, not_true_eq_false, if_false]
    rw [hres]
    refine ⟨fun k hk1 hk2 => ?_, ?_⟩
    · have hk : k = o := by omega
      rw [hk, modifyLine_ne _ _ _ _ hoc2, modifyLine_same, modifyLine_same]
    · rw [modifyLine_same, modifyLine_ne _ _ _ _ hoc2.symm, modifyLine_ne _ _ _ _ hoc2.symm]
  | succ n ih =>
    intro fuel l o hoc hfuel
    cases fuel with
    | zero => omega
    | succ fuel =>
      have hnext : nextPlannerIndex pl (ringIndex pl P o) = ringIndex pl P (o + 1) :=
        next_ringIndex pl P o hP (by omega)
      have hne : ringIndex pl P (o + 1) ≠ ringIndex pl P c := by
        intro he
        have := ringIndex_inj pl P _ _ hP (by omega) hc he
        omega
      have han : ringIndex pl P o ≠ ringIndex pl P (o + 1) := by
        intro he
        have := ringIndex_inj pl P _ _ hP (by omega) (by omega) he
        omega
      have hidx : ∀ k, o + 1 ≤ k → k ≤ c → ringIndex pl P k ≠ ringIndex pl P o := by
        intro k hk1 hk2 he
        have := ringIndex_inj pl P _ _ hP (by omega) (by omega) he
        omega
      have hidx2 : ∀ k, o + 1 < k → k ≤ c → ringIndex pl P k ≠ ringIndex pl P (o + 1) := by
        intro k hk1 hk2 he
        have := ringIndex_inj pl P _ _ hP (by omega) (by omega) he
        omega
      rw [flyingBlockLoop]
      simp only [hnext, ne_eq, hne, not_false_eq_true, if_true]
      obtain ⟨i1, i2⟩ := ih fuel (modifyLine (modifyLine (modifyLine l (ringIndex pl P o)
        Path.updateStepsParameter) (ringIndex pl P o) Path.unblock) (ringIndex pl P (o + 1))
        Path.block) (o + 1) (by omega) (by omega)
      have hoff := agreeOff_flyingBlockLoop pl
        (fun j => ∃ k, o + 1 ≤ k ∧ k ≤ c ∧ j = ringIndex pl P k) P c hP hc n fuel
        (modifyLine (modifyLine (modifyLine l (ringIndex pl P o)
          Path.updateStepsParameter) (ringIndex pl P o) Path.unblock) (ringIndex pl P (o + 1))
          Path.block) (o + 1) (by omega) (fun k hk1 hk2 => ⟨k, hk1, hk2, rfl⟩)
      refine ⟨fun k hk1 hk2 => ?_, ?_⟩
      · by_cases hk : k = o
        · rw [hk, hoff (ringIndex pl P o) (fun ⟨k2, h1, h2, he⟩ => hidx k2 h1 h2 he.symm),
            modifyLine_ne _ _ _ _ han, modifyLine_same, modifyLine_same]
        · rw [i1 k (by omega) hk2]
          by_cases hk2b : k = o + 1
          · rw [hk2b, modifyLine_same, modifyLine_ne _ _ _ _ han.symm,
              modifyLine_ne _ _ _ _ han.symm, updateStepsParameter_block]
            rfl
          · rw [modifyLine_ne _ _ _ _ (hidx2 k (by omega) (by omega)),
              modifyLine_ne _ _ _ _ (hidx k (by omega) (by omega)),
              modifyLine_ne _ _ _ _ (hidx k (by omega) (by omega))]
      · rw [i2, modifyLine_ne _ _ _ _ (hidx2 c (by omega) (le_refl _)),
          modifyLine_ne _ _ _ _ (hidx c (by omega) (le_refl _)),
          modifyLine_ne _ _ _ _ (hidx c (by omega) (le_refl _))]

/-! ### One run of the passes -/

/-- The slots of the ring after the passes: those between `f` and `c` are the
slots after the forward pass with their steps parameters updated. -/
theorem planPasses_slots (P f c : Nat) (hP : P < pl.MOVE_CACHE_SIZE)
    (hc : c < pl.MOVE_CACHE_SIZE) (hfc : f < c) (l : Nat → Path) :
    (∀ k, f ≤ k → k ≤ c →
      planPasses pl (ringIndex pl P c) (ringIndex pl P f) l (ringIndex pl P k) =
        (forwardPlanner pl (backwardPlanner pl l (ringIndex pl P c) (ringIndex pl P f))
          (ringIndex pl P c) (ringIndex pl P f)
          (ringIndex pl P k)).updateStepsParameter.unblock) ∧
    (∀ j, (∀ k, f ≤ k → k ≤ c → j ≠ ringIndex pl P k) →
      planPasses pl (ringIndex pl P c) (ringIndex pl P f) l j =
        forwardPlanner pl (backwardPlanner pl l (ringIndex pl P c) (ringIndex pl P f))
          (ringIndex pl P c) (ringIndex pl P f) j) := by
  obtain ⟨n, hn⟩ : ∃ n, f + n + 1 = c := ⟨c - f - 1, by omega⟩
  unfold planPasses
  generalize forwardPlanner pl (backwardPlanner pl l (ringIndex pl P c) (ringIndex pl P f))
    (ringIndex pl P c) (ringIndex pl P f) = lF
  obtain ⟨q1, q2⟩ := flyingBlockLoop_eq pl P c hP hc n (pl.MOVE_CACHE_SIZE - 1) lF f hn
    (by omega)
  have hoff := agreeOff_flyingBlockLoop pl
    (fun j => ∃ k, f ≤ k ∧ k ≤ c ∧ j = ringIndex pl P k) P c hP hc n (pl.MOVE_CACHE_SIZE - 1)
    lF f hn (fun k hk1 hk2 => ⟨k, hk1, hk2, rfl⟩)
  refine ⟨fun k hk1 hk2 => ?_, fun j hj => ?_⟩
  · by_cases hk : k = c
    · rw [hk, modifyLine_same, modifyLine_same, q2, updateStepsParameter_block]
      rfl
    · have hne : ringIndex pl P k ≠ ringIndex pl P c := by
        intro he
        have := ringIndex_inj pl P _ _ hP (by omega) hc he
        omega
      rw [modifyLine_ne _ _ _ _ hne, modifyLine_ne _ _ _ _ hne, q1 k hk1 (by omega)]
  · have hne : j ≠ ringIndex pl P c := hj c (by omega) (le_refl _)
    rw [modifyLine_ne _ _ _ _ hne, modifyLine_ne _ _ _ _ hne]
    exact hoff j (fun ⟨k, h1, h2, he⟩ => hj k h1 h2 he)

theorem planPasses_settled (P f c : Nat) (hP : P < pl.MOVE_CACHE_SIZE)
    (hc : c < pl.MOVE_CACHE_SIZE) (hfc : f < c) (l : Nat → Path) (hmin : ∀ j, (l j).MinOk)
    (hnofix : ∀ k, f ≤ k → k < c → (l (ringIndex pl P k)).isEndSpeedFixed = false)
    (hstale : (l (ringIndex pl P c)).areParameterUpToDate = false) :
    Settled pl P f c l (planPasses pl (ringIndex pl P c) (ringIndex pl P f) l) := by
  obtain ⟨n, hn⟩ : ∃ n, f + n = c := ⟨c - f, by omega⟩
  obtain ⟨s1, s2⟩ := planPasses_slots pl P f c hP hc hfc l
  have BW : BackwardOk pl P f (f + n) l
      (backwardLoop pl (ringIndex pl P f) pl.MOVE_CACHE_SIZE l (ringIndex pl P (f + n))
        (l (ringIndex pl P (f + n))).endSpeed) :=
    backwardLoop_plan pl P f hP n pl.MOVE_CACHE_SIZE l _ (by omega) (by omega) hmin rfl
  have hoffA := agreeOff_backwardLoop pl (fun j => ∃ k, f ≤ k ∧ k ≤ c ∧ j = ringIndex pl P k)
    P f hP n pl.MOVE_CACHE_SIZE l (l (ringIndex pl P (f + n))).endSpeed (by omega)
    (fun k hk1 hk2 => ⟨k, hk1, by omega, rfl⟩)
  rw [hn] at BW hoffA
  have hB : backwardPlanner pl l (ringIndex pl P c) (ringIndex pl P f) =
      backwardLoop pl (ringIndex pl P f) pl.MOVE_CACHE_SIZE l (ringIndex pl P c)
        (l (ringIndex pl P c)).endSpeed := rfl
  rw [hB] at s1 s2
  generalize backwardLoop pl (ringIndex pl P f) pl.MOVE_CACHE_SIZE l (ringIndex pl P c)
    (l (ringIndex pl P c)).endSpeed = lB at BW s1 s2 hoffA
  have hoffB := agreeOff_forwardLoop pl (fun j => ∃ k, f ≤ k ∧ k ≤ c ∧ j = ringIndex pl P k)
    P c hP hc n pl.MOVE_CACHE_SIZE lB f (lB (ringIndex pl P f)).startSpeed hn
    (fun k hk1 hk2 => ⟨k, hk1, hk2, rfl⟩)
  have FW : ForwardOk pl P f c (lB (ringIndex pl P f)).startSpeed lB
      (forwardLoop pl (ringIndex pl P c) pl.MOVE_CACHE_SIZE lB (ringIndex pl P f)
        (lB (ringIndex pl P f)).startSpeed) :=
    forwardLoop_plan pl P c hP hc n pl.MOVE_CACHE_SIZE lB f _ hn (by omega) BW.minOk
      (BW.minOk _).1 (fun k hk1 hk2 => by rw [BW.fixed]; exact hnofix k hk1 hk2)
  have hF : forwardPlanner pl lB (ringIndex pl P c) (ringIndex pl P f) =
      forwardLoop pl (ringIndex pl P c) pl.MOVE_CACHE_SIZE lB (ringIndex pl P f)
        (lB (ringIndex pl P f)).startSpeed := rfl
  rw [hF] at s1 s2
  generalize forwardLoop pl (ringIndex pl P c) pl.MOVE_CACHE_SIZE lB (ringIndex pl P f)
    (lB (ringIndex pl P f)).startSpeed = lF at FW s1 s2 hoffB
  generalize planPasses pl (ringIndex pl P c) (ringIndex pl P f) l = fin at s1 s2 ⊢
  -- every slot of the result is a slot after the forward pass, up to the steps parameters
  have hview : ∀ j, (fin j).frame = (lF j).frame ∧ (fin j).startSpeed = (lF j).startSpeed ∧
      (fin j).endSpeed = (lF j).endSpeed ∧
      (fin j).isEndSpeedFixed = (lF j).isEndSpeedFixed ∧
      (fin j).isStartSpeedFixed = (lF j).isStartSpeedFixed := by
    intro j
    by_cases hj : ∃ k, f ≤ k ∧ k ≤ c ∧ j = ringIndex pl P k
    · obtain ⟨k, hk1, hk2, he⟩ := hj
      rw [he, s1 k hk1 hk2]
      obtain ⟨-, u2, u3, u4, u5, u6, -⟩ := updateStepsParameter_fresh (lF (ringIndex pl P k))
      exact ⟨u2, u3, u4, u5, u6⟩
    · rw [s2 j (fun k h1 h2 he => hj ⟨k, h1, h2, he⟩)]
      exact ⟨rfl, rfl, rfl, rfl, rfl⟩
  refine ⟨?_, ?_, ?_, ?_, ?_, ?_, ?_, ?_, ?_, ?_, ?_⟩
  · intro j hj
    have hnj : ¬ ∃ k, f ≤ k ∧ k ≤ c ∧ j = ringIndex pl P k :=
      fun ⟨k, h1, h2, he⟩ => hj k h1 h2 he
    rw [s2 j hj, hoffB j hnj]
    exact hoffA j hnj
  · intro j
    rw [(hview j).1]
    exact (FW.frame j).trans (BW.frame j)
  · intro j
    obtain ⟨v1, v2, v3, -, -⟩ := hview j
    exact minOk_congr v1 v2 v3 (FW.minOk j)
  · intro k hk1 hk2
    rw [s1 k hk1 hk2]
    rfl
  · intro k hk1 hk2
    rw [s1 k hk1 hk2]
    apply paramsOk_updated
    by_cases hk : k = c
    · rw [hk]
      exact FW.staleTop (BW.stale _ hstale)
    · exact FW.stale k hk1 (by omega)
  · intro k hk1 hk2
    rw [s1 k hk1 hk2]
    exact (updateStepsParameter_fresh _).1
  · rw [(hview _).2.2.2.1, FW.endTop.2, BW.fixed]
  · rw [(hview _).2.2.1, FW.endTop.1]
    refine BW.endOff _ (fun k hk1 hk2 he => ?_)
    have := ringIndex_inj pl P _ _ hP hc (by omega) he
    omega
  · intro k hk1 hk2
    obtain ⟨v1, -, v3, -, -⟩ := hview (ringIndex pl P k)
    obtain ⟨w1, w2, -, -, -⟩ := hview (ringIndex pl P (k + 1))
    exact fwdOk_congr v1 w1 v3 w2 (FW.fwd k hk1 hk2)
  · intro k hk1 hk2
    obtain ⟨v1, v2, v3, v4, -⟩ := hview (ringIndex pl P k)
    obtain ⟨-, -, -, -, w5⟩ := hview (ringIndex pl P (k + 1))
    rcases FW.cases k hk1 hk2 with ⟨h1, h2⟩ | ⟨h1, -, h3⟩
    · exact Or.inl ⟨by rw [v4]; exact h1, by rw [w5]; exact h2⟩
    · exact Or.inr ⟨by rw [v4]; exact h1, higherOk_congr pl v1 v2 v3 h3⟩
  · intro k hk1 hk2 hk3 hk4
    obtain ⟨v1, -, v3, v4, -⟩ := hview (ringIndex pl P k)
    obtain ⟨w1, -, w3, w4, -⟩ := hview (ringIndex pl P (k + 1))
    have e1 : (lF (ringIndex pl P k)).endSpeed = (lB (ringIndex pl P k)).endSpeed := by
      rcases FW.cases k hk1 hk2 with ⟨h1, -⟩ | ⟨-, h2, -⟩
      · rw [v4, h1] at hk3
        exact absurd hk3 (by decide)
      · exact h2
    have e2 : (lF (ringIndex pl P (k + 1))).endSpeed =
        (lB (ringIndex pl P (k + 1))).endSpeed := by
      by_cases hkc : k + 1 = c
      · rw [hkc]
        exact FW.endTop.1
      · rcases hk4 with h | h
        · exact absurd h hkc
        · rcases FW.cases (k + 1) (by omega) (by omega) with ⟨h1, -⟩ | ⟨-, h2, -⟩
          · rw [w4, h1] at h
            exact absurd h (by decide)
          · exact h2
    exact backOk_congr pl (w1.trans (FW.frame _)) (v1.trans (FW.frame _)) (w3.trans e2)
      (v3.trans e1) (BW.back k hk1 hk2)

/-- A second run of the passes on a settled ring changes no slot, up to the
`parametersUpToDate` bit. -/
theorem planPasses_idem (P f c : Nat) (hP : P < pl.MOVE_CACHE_SIZE)
    (hc : c < pl.MOVE_CACHE_SIZE) (hfc : f < c) (l0 : Nat → Path) (hmin : ∀ j, (l0 j).MinOk)
    (hfree : ∀ k, f ≤ k → k ≤ c → (l0 (ringIndex pl P k)).isBlocked = false)
    (hparams : ∀ k, f ≤ k → k ≤ c → (l0 (ringIndex pl P k)).ParamsOk)
    (hok : ∀ k, f ≤ k → k < c → (l0 (ringIndex pl P k)).HigherOk pl ∧
      FwdOk (l0 (ringIndex pl P k)) (l0 (ringIndex pl P (k + 1))) ∧
      BackOk pl (l0 (ringIndex pl P (k + 1))) (l0 (ringIndex pl P k))) :
    ∀ j, (planPasses pl (ringIndex pl P c) (ringIndex pl P f)
      (modifyLine l0 (ringIndex pl P f) Path.block) j).invalidateParameter =
        (l0 j).invalidateParameter := by
  obtain ⟨n, hn⟩ : ∃ n, f + n = c := ⟨c - f, by omega⟩
  have h1 : ∀ j, (modifyLine l0 (ringIndex pl P f) Path.block j).noUB = (l0 j).noUB := by
    intro j
    by_cases hj : j = ringIndex pl P f
    · rw [hj, modifyLine_same]
      rfl
    · rw [modifyLine_ne _ _ _ _ hj]
  have hoff1 : ∀ j, j ≠ ringIndex pl P f →
      modifyLine l0 (ringIndex pl P f) Path.block j = l0 j :=
    fun j hj => modifyLine_ne _ _ _ _ hj
  generalize modifyLine l0 (ringIndex pl P f) Path.block = l1 at h1 hoff1 ⊢
  have hv1 : ∀ j, (l1 j).frame = (l0 j).frame ∧ (l1 j).startSpeed = (l0 j).startSpeed ∧
      (l1 j).endSpeed = (l0 j).endSpeed := by
    intro j
    obtain ⟨u1, u2, u3, -, -⟩ := noUB_fields (h1 j)
    exact ⟨u1, u2, u3⟩
  have hmin1 : ∀ j, (l1 j).MinOk := by
    intro j
    obtain ⟨u1, u2, u3⟩ := hv1 j
    exact minOk_congr u1 u2 u3 (hmin j)
  obtain ⟨s1, s2⟩ := planPasses_slots pl P f c hP hc hfc l1
  have BW : BackwardOk pl P f (f + n) l1
      (backwardLoop pl (ringIndex pl P f) pl.MOVE_CACHE_SIZE l1 (ringIndex pl P (f + n))
        (l1 (ringIndex pl P (f + n))).endSpeed) :=
    backwardLoop_plan pl P f hP n pl.MOVE_CACHE_SIZE l1 _ (by omega) (by omega) hmin1 rfl
  have hoffA := agreeOff_backwardLoop pl (fun j => ∃ k, f ≤ k ∧ k ≤ c ∧ j = ringIndex pl P k)
    P f hP n pl.MOVE_CACHE_SIZE l1 (l1 (ringIndex pl P (f + n))).endSpeed (by omega)
    (fun k hk1 hk2 => ⟨k, hk1, by omega, rfl⟩)
  rw [hn] at BW hoffA
  have hB : backwardPlanner pl l1 (ringIndex pl P c) (ringIndex pl P f) =
      backwardLoop pl (ringIndex pl P f) pl.MOVE_CACHE_SIZE l1 (ringIndex pl P c)
        (l1 (ringIndex pl P c)).endSpeed := rfl
  rw [hB] at s1 s2
  generalize backwardLoop pl (ringIndex pl P f) pl.MOVE_CACHE_SIZE l1 (ringIndex pl P c)
    (l1 (ringIndex pl P c)).endSpeed = lB at BW s1 s2 hoffA
  have hst : ∀ j, (lB j).noSB = (l0 j).noSB := by
    intro j
    rw [BW.stable (fun k hk1 hk2 => ?_) j]
    · exact noSB_of_noUB (h1 j)
    · obtain ⟨u1, -, u3⟩ := hv1 (ringIndex pl P k)
      obtain ⟨w1, -, w3⟩ := hv1 (ringIndex pl P (k + 1))
      exact backOk_congr pl w1 u1 w3 u3 (hok k hk1 hk2).2.2
  have hoffB := agreeOff_forwardLoop pl (fun j => ∃ k, f ≤ k ∧ k ≤ c ∧ j = ringIndex pl P k)
    P c hP hc n pl.MOVE_CACHE_SIZE lB f (lB (ringIndex pl P f)).startSpeed hn
    (fun k hk1 hk2 => ⟨k, hk1, hk2, rfl⟩)
  have hidx : ∀ k, f < k → k ≤ c → ringIndex pl P f ≠ ringIndex pl P k := by
    intro k hk1 hk2 he
    have := ringIndex_inj pl P _ _ hP (by omega) (by omega) he
    omega
  have FW := forwardLoop_settled pl P c hP hc l0 n pl.MOVE_CACHE_SIZE lB f
    (lB (ringIndex pl P f)).startSpeed hn (by omega) hst
    (fun j hj => by
      rw [BW.startOff j (fun k hk1 hk2 => hj k (by omega) hk2)]
      exact (hv1 j).2.1)
    (by rw [BW.startOff _ (fun k hk1 hk2 => hidx k hk1 hk2)]; exact (hv1 _).2.1)
    (fun k _ _ => hmin _) (fun k hk1 hk2 => ⟨(hok k hk1 hk2).1, (hok k hk1 hk2).2.1⟩)
  have hF : forwardPlanner pl lB (ringIndex pl P c) (ringIndex pl P f) =
      forwardLoop pl (ringIndex pl P c) pl.MOVE_CACHE_SIZE lB (ringIndex pl P f)
        (lB (ringIndex pl P f)).startSpeed := rfl
  rw [hF] at s1 s2
  generalize forwardLoop pl (ringIndex pl P c) pl.MOVE_CACHE_SIZE lB (ringIndex pl P f)
    (lB (ringIndex pl P f)).startSpeed = lF at FW s1 s2 hoffB
  intro j
  by_cases hj : ∃ k, f ≤ k ∧ k ≤ c ∧ j = ringIndex pl P k
  · obtain ⟨k, hk1, hk2, he⟩ := hj
    rw [he, s1 k hk1 hk2]
    exact updateStepsParameter_settled _ _ (FW _) (hfree k hk1 hk2) (hparams k hk1 hk2)
  · have hjf : j ≠ ringIndex pl P f := fun he => hj ⟨f, le_refl _, by omega, he⟩
    rw [s2 j (fun k h1 h2 he => hj ⟨k, h1, h2, he⟩), hoffB j hj, hoffA j hj, hoff1 j hjf]

/-! ### The search for the first segment to plan -/

theorem searchFirst_congr (l1 l2 : Nat → Path)
    (h : ∀ j, (l2 j).isEndSpeedFixed = (l1 j).isEndSpeedFixed) (maxfirst : Nat) :
    ∀ fuel first, searchFirst pl l2 maxfirst fuel first =
      searchFirst pl l1 maxfirst fuel first := by
  intro fuel
  induction fuel with
  | zero => intro first; rfl
  | succ n ih =>
    intro first
    simp only [searchFirst, h, ih]

theorem plannerFirst_congr (pp pp2 : PathPlanner) (hP : pp2.linesPos = pp.linesPos)
    (hW : pp2.linesWritePos = pp.linesWritePos)
    (h : ∀ j, (pp2.lines j).isEndSpeedFixed = (pp.lines j).isEndSpeedFixed) :
    plannerFirst pl pp2 = plannerFirst pl pp := by
  unfold plannerFirst
  dsimp only
  rw [hP, hW, searchFirst_congr pl pp.lines pp2.lines h]
  simp only [h]

/-- The first segment that `updateTrapezoids` may change, on a ring with at
least one queued segment: no end speed is fixed from it to the new segment,
and it is the second slot of the ring or follows a fixed end speed. -/
theorem plannerFirst_prev (pp : PathPlanner) (hP : pp.linesPos < pl.MOVE_CACHE_SIZE)
    (hc : pp.linesCount < pl.MOVE_CACHE_SIZE)
    (hw : pp.linesWritePos = ringIndex pl pp.linesPos pp.linesCount)
    (hnew : (pp.lines pp.linesWritePos).isEndSpeedFixed = false) (hpos : 1 ≤ pp.linesCount) :
    ∃ f, 1 ≤ f ∧ f ≤ pp.linesCount ∧ plannerFirst pl pp = ringIndex pl pp.linesPos f ∧
      (∀ o, f ≤ o → o ≤ pp.linesCount →
        (pp.lines (ringIndex pl pp.linesPos o)).isEndSpeedFixed = false) ∧
      (f = 1 ∨ (pp.lines (ringIndex pl pp.linesPos (f - 1))).isEndSpeedFixed = true) := by
  have hne : pp.linesPos ≠ pp.linesWritePos := by
    intro he
    rw [hw] at he
    have h1 : ringIndex pl pp.linesPos 0 = ringIndex pl pp.linesPos pp.linesCount := by
      rw [ringIndex_zero pl _ hP]; exact he
    have := ringIndex_inj pl _ _ _ hP (by omega) hc h1
    omega
  obtain ⟨n, hn⟩ : ∃ n, pp.linesCount = 1 + n := ⟨pp.linesCount - 1, by omega⟩
  obtain ⟨f0, hf1, hf2, hf3, hf4, hf5⟩ := searchFirst_spec pl pp.linesPos hP pp.lines n
    pl.MOVE_CACHE_SIZE (by omega) (by omega)
  have hmax : nextPlannerIndex pl pp.linesPos = ringIndex pl pp.linesPos 1 := by
    have := next_ringIndex pl pp.linesPos 0 hP (by omega)
    rw [ringIndex_zero pl _ hP] at this
    exact this
  have hfirst0 : searchFirst pl pp.lines
      (if pp.linesPos ≠ pp.linesWritePos then nextPlannerIndex pl pp.linesPos else pp.linesPos)
      pl.MOVE_CACHE_SIZE pp.linesWritePos = ringIndex pl pp.linesPos f0 := by
    rw [if_pos hne, hmax, hw, hn]
    exact hf3
  have hnew2 : (pp.lines (ringIndex pl pp.linesPos pp.linesCount)).isEndSpeedFixed = false := by
    rw [← hw]; exact hnew
  unfold plannerFirst
  dsimp only
  rw [hfirst0]
  by_cases hcase : ringIndex pl pp.linesPos f0 ≠ pp.linesWritePos ∧
      (pp.lines (ringIndex pl pp.linesPos f0)).isEndSpeedFixed = true
  · rw [if_pos hcase]
    have hf0c : f0 ≠ pp.linesCount := by
      intro he
      apply hcase.1
      rw [hw, he]
    refine ⟨f0 + 1, by omega, by omega, next_ringIndex pl _ _ hP (by omega),
      fun o h1 h2 => hf4 o (by omega) (by omega), Or.inr ?_⟩
    rw [Nat.add_sub_cancel]
    exact hcase.2
  · rw [if_neg hcase]
    have hunfixed : (pp.lines (ringIndex pl pp.linesPos f0)).isEndSpeedFixed = false := by
      by_cases hfw : ringIndex pl pp.linesPos f0 = pp.linesWritePos
      · rw [hfw]; exact hnew
      · have : ¬ (pp.lines (ringIndex pl pp.linesPos f0)).isEndSpeedFixed = true :=
          fun hfx => hcase ⟨hfw, hfx⟩
        simpa using this
    refine ⟨f0, hf1, by omega, rfl, fun o h1 h2 => ?_, Or.inl ?_⟩
    · rcases Nat.lt_or_ge f0 o with hlt | hge
      · exact hf4 o hlt (by omega)
      · have hof : o = f0 := by omega
        rw [hof]
        exact hunfixed
    · rcases hf5 with h1 | hfx
      · exact h1
      · rw [hunfixed] at hfx
        exact absurd hfx (by decide)

/-- The first segment to plan is determined by the fixed end speeds. -/
theorem plannerFirst_unique (pp : PathPlanner) (hP : pp.linesPos < pl.MOVE_CACHE_SIZE)
    (hc : pp.linesCount < pl.MOVE_CACHE_SIZE)
    (hw : pp.linesWritePos = ringIndex pl pp.linesPos pp.linesCount) (f : Nat) (hf1 : 1 ≤ f)
    (hfc : f ≤ pp.linesCount)
    (hno : ∀ o, f ≤ o → o ≤ pp.linesCount →
      (pp.lines (ringIndex pl pp.linesPos o)).isEndSpeedFixed = false)
    (hprev : f = 1 ∨ (pp.lines (ringIndex pl pp.linesPos (f - 1))).isEndSpeedFixed = true) :
    plannerFirst pl pp = ringIndex pl pp.linesPos f := by
  have hnew : (pp.lines pp.linesWritePos).isEndSpeedFixed = false := by
    rw [hw]
    exact hno _ hfc (le_refl _)
  obtain ⟨g, hg1, hgc, hgeq, hgno, hgprev⟩ := plannerFirst_prev pl pp hP hc hw hnew (by omega)
  have hfg : g = f := by
    rcases Nat.lt_trichotomy g f with h | h | h
    · rcases hprev with h1 | h1
      · omega
      · rw [hgno (f - 1) (by omega) (by omega)] at h1
        exact absurd h1 (by decide)
    · exact h
    · rcases hgprev with h1 | h1
      · omega
      · rw [hno (g - 1) (by omega) (by omega)] at h1
        exact absurd h1 (by decide)
  rw [hgeq, hfg]

theorem exists_settled_first (ef : Nat → Bool) (c : Nat) :
    ∀ (d f : Nat), f + d = c → ef c = false →
      ∃ g, f ≤ g ∧ g ≤ c ∧ (∀ o, g ≤ o → o ≤ c → ef o = false) ∧
        (g = f ∨ ef (g - 1) = true) := by
  intro d
  induction d with
  | zero =>
    intro f hf htop
    refine ⟨f, le_refl _, by omega, fun o h1 h2 => ?_, Or.inl rfl⟩
    have : o = c := by omega
    rw [this]
    exact htop
  | succ d ih =>
    intro f hf htop
    obtain ⟨g, hg1, hg2, hg3, hg4⟩ := ih (f + 1) (by omega) htop
    by_cases hgf : g = f + 1
    · by_cases hef : ef f = true
      · exact ⟨g, by omega, hg2, hg3, Or.inr (by rw [hgf, Nat.add_sub_cancel]; exact hef)⟩
      · rw [Bool.not_eq_true] at hef
        refine ⟨f, le_refl _, by omega, fun o h1 h2 => ?_, Or.inl rfl⟩
        by_cases ho : o = f
        · rw [ho]; exact hef
        · exact hg3 o (by omega) h2
    · rcases hg4 with h | h
      · exact absurd h hgf
      · exact ⟨g, by omega, hg2, hg3, Or.inr h⟩

/-! ### The branches of `updateTrapezoids` -/

theorem updateTrapezoids_alone (pp : PathPlanner)
    (h : plannerFirst pl pp = pp.linesWritePos) :
    updateTrapezoids pl pp =
      { pp with lines := modifyLine pp.lines pp.linesWritePos Path.plannedAlone } := by
  unfold updateTrapezoids
  dsimp only
  rw [if_pos h]
  rfl

theorem setStartSpeedFixed_of_fixed (p : Path) (h : p.isStartSpeedFixed = true) :
    p.setStartSpeedFixed true = p := by
  have e : p.joinFlags.startSpeedFixed = true := h
  unfold Path.setStartSpeedFixed
  rw [← e]

theorem plannedAlone_of_done (x : Path) (h1 : x.isBlocked = false)
    (h2 : x.isStartSpeedFixed = true)
    (h3 : x.areParameterUpToDate = true ∨ x.isWarmUp = true) : x.plannedAlone = x := by
  unfold Path.plannedAlone
  rw [setStartSpeedFixed_of_fixed x.block h2, updateStepsParameter_done x.block h3]
  exact unblock_of_free x h1

/-- A ring whose new segment is settled behind a fixed end speed is left as
it is by `updateTrapezoids`. -/
theorem updateTrapezoids_fixed_point (pp : PathPlanner)
    (hP : pp.linesPos < pl.MOVE_CACHE_SIZE) (hc : pp.linesCount < pl.MOVE_CACHE_SIZE)
    (hw : pp.linesWritePos = ringIndex pl pp.linesPos pp.linesCount)
    (hpos : 1 ≤ pp.linesCount)
    (h0 : (pp.lines pp.linesWritePos).isEndSpeedFixed = false)
    (h1 : (pp.lines pp.linesWritePos).isBlocked = false)
    (h2 : (pp.lines pp.linesWritePos).isStartSpeedFixed = true)
    (h3 : (pp.lines pp.linesWritePos).areParameterUpToDate = true ∨
      (pp.lines pp.linesWritePos).isWarmUp = true)
    (hprev : pp.linesCount = 1 ∨
      (pp.lines (ringIndex pl pp.linesPos (pp.linesCount - 1))).isEndSpeedFixed = true) :
    (updateTrapezoids pl pp).lines = pp.lines := by
  have hfirst : plannerFirst pl pp = pp.linesWritePos := by
    rw [hw]
    refine plannerFirst_unique pl pp hP hc hw pp.linesCount hpos (le_refl _)
      (fun o ho1 ho2 => ?_) hprev
    have : o = pp.linesCount := by omega
    rw [this, ← hw]
    exact h0
  rw [updateTrapezoids_alone pl pp hfirst]
  show modifyLine pp.lines pp.linesWritePos Path.plannedAlone = pp.lines
  unfold modifyLine
  rw [plannedAlone_of_done _ h1 h2 h3]
  exact Function.update_eq_self _ _

theorem plannedAlone_idem (x : Path) : x.plannedAlone.plannedAlone = x.plannedAlone := by
  obtain ⟨h1, -, -, -, -, h6, -⟩ := updateStepsParameter_fresh (x.block.setStartSpeedFixed true)
  exact plannedAlone_of_done _ rfl h6 h1

theorem plannedAlone_fixed (x : Path) : x.plannedAlone.isEndSpeedFixed = x.isEndSpeedFixed :=
  (updateStepsParameter_fresh (x.block.setStartSpeedFixed true)).2.2.2.2.1

theorem updateTrapezoids_config (pp : PathPlanner) :
    (updateTrapezoids pl pp).config = pp.config := by
  unfold updateTrapezoids
  dsimp only
  split_ifs <;> rfl

theorem isEOnlyMove_congr {a b : Path} (h : a.dir = b.dir) : a.isEOnlyMove = b.isEOnlyMove := by
  unfold Path.isEOnlyMove Path.isXYZMove Path.isEMove Path.isXMove Path.isYMove Path.isZMove
    Path.isMoveOfAxis
  rw [h]

/-- The junction speed that `computeMaxJunctionSpeed` stores depends only on
what the planner never writes. -/
theorem computeMaxJunctionSpeed_congr (cfg : Config) {a b a2 b2 : Path}
    (ha : a2.kin = a.kin) (hb : b2.kin = b.kin) :
    (computeMaxJunctionSpeed pl cfg a2 b2).maxJunctionSpeed =
      (computeMaxJunctionSpeed pl cfg a b).maxJunctionSpeed := by
  obtain ⟨a1, a3, a4, a5, a6, -⟩ := kin_speeds ha
  obtain ⟨-, -, -, a7⟩ := kin_geometry ha
  obtain ⟨b1, b3, b4, b5, b6, -⟩ := kin_speeds hb
  obtain ⟨-, -, -, b7⟩ := kin_geometry hb
  unfold computeMaxJunctionSpeed Path.setMaxJunctionSpeed
  simp only [a1, a3, a4, a5, a6, a7, b1, b3, b4, b5, b6, b7]

/-- Storing again the junction speed that the segment holds changes
nothing. -/
theorem computeMaxJunctionSpeed_self (cfg : Config) (a b : Path)
    (h : a.maxJunctionSpeed = (computeMaxJunctionSpeed pl cfg a b).maxJunctionSpeed) :
    computeMaxJunctionSpeed pl cfg a b = a := by
  have e : computeMaxJunctionSpeed pl cfg a b =
      a.setMaxJunctionSpeed (computeMaxJunctionSpeed pl cfg a b).maxJunctionSpeed := rfl
  rw [e, ← h]
  rfl

theorem modifyLine_self (l : Nat → Path) (i : Nat) (f : Path → Path) (h : f (l i) = l i) :
    modifyLine l i f = l := by
  unfold modifyLine
  rw [h]
  exact Function.update_eq_self _ _

theorem kin_block (p : Path) : p.block.kin = p.kin := rfl

theorem kin_computeMaxJunctionSpeed (cfg : Config) (a b : Path) :
    (computeMaxJunctionSpeed pl cfg a b).kin = a.kin := rfl

/-- The ring with which `updateTrapezoids` enters its passes: the first
segment blocked and the junction speed of the previous segment computed. -/
theorem updateTrapezoids_plan_lines (pp : PathPlanner)
    (hfirst : plannerFirst pl pp ≠ pp.linesWritePos)
    (hz : ¬ zFilter (pp.lines (previousPlannerIndex pl pp.linesWritePos))
      (pp.lines pp.linesWritePos))
    (he : (pp.lines (previousPlannerIndex pl pp.linesWritePos)).isEOnlyMove =
      (pp.lines pp.linesWritePos).isEOnlyMove) :
    (updateTrapezoids pl pp).lines =
      planPasses pl pp.linesWritePos (plannerFirst pl pp)
        (modifyLine (modifyLine pp.lines (plannerFirst pl pp) Path.block)
          (previousPlannerIndex pl pp.linesWritePos)
          (fun q => computeMaxJunctionSpeed pl pp.config q
            (modifyLine pp.lines (plannerFirst pl pp) Path.block pp.linesWritePos))) := by
  have hax : ∀ j, (modifyLine pp.lines (plannerFirst pl pp) Path.block j).primaryAxis =
      (pp.lines j).primaryAxis := fun j => modifyLine_field Path.primaryAxis _ _ Path.block
        (fun _ => rfl) j
  have heo : ∀ j, (modifyLine (modifyLine pp.lines (plannerFirst pl pp) Path.block)
      (previousPlannerIndex pl pp.linesWritePos)
      (fun q => computeMaxJunctionSpeed pl pp.config q
        (modifyLine pp.lines (plannerFirst pl pp) Path.block pp.linesWritePos)) j).isEOnlyMove =
      (pp.lines j).isEOnlyMove := by
    intro j
    rw [modifyLine_field Path.isEOnlyMove _ _
      (fun q => computeMaxJunctionSpeed pl pp.config q _) (fun _ => rfl),
      modifyLine_field Path.isEOnlyMove _ _ Path.block (fun _ => rfl)]
  unfold zFilter at hz
  unfold updateTrapezoids
  dsimp only
  rw [if_neg hfirst, hax, hax, if_neg hz, heo, heo, if_neg (not_not.mpr he)]
  rfl

/-- The ring that `updateTrapezoids` returns through the filter between pure
extrusions and other moves. -/
theorem updateTrapezoids_efilter_lines (pp : PathPlanner)
    (hfirst : plannerFirst pl pp ≠ pp.linesWritePos)
    (hz : ¬ zFilter (pp.lines (previousPlannerIndex pl pp.linesWritePos))
      (pp.lines pp.linesWritePos))
    (he : (pp.lines (previousPlannerIndex pl pp.linesWritePos)).isEOnlyMove ≠
      (pp.lines pp.linesWritePos).isEOnlyMove) :
    (updateTrapezoids pl pp).lines =
      fixJunction
        (modifyLine (modifyLine pp.lines (plannerFirst pl pp) Path.block)
          (previousPlannerIndex pl pp.linesWritePos)
          (fun q => computeMaxJunctionSpeed pl pp.config q
            (modifyLine pp.lines (plannerFirst pl pp) Path.block pp.linesWritePos)))
        (previousPlannerIndex pl pp.linesWritePos) pp.linesWritePos (plannerFirst pl pp) := by
  have hax : ∀ j, (modifyLine pp.lines (plannerFirst pl pp) Path.block j).primaryAxis =
      (pp.lines j).primaryAxis := fun j => modifyLine_field Path.primaryAxis _ _ Path.block
        (fun _ => rfl) j
  have heo : ∀ j, (modifyLine (modifyLine pp.lines (plannerFirst pl pp) Path.block)
      (previousPlannerIndex pl pp.linesWritePos)
      (fun q => computeMaxJunctionSpeed pl pp.config q
        (modifyLine pp.lines (plannerFirst pl pp) Path.block pp.linesWritePos)) j).isEOnlyMove =
      (pp.lines j).isEOnlyMove := by
    intro j
    rw [modifyLine_field Path.isEOnlyMove _ _
      (fun q => computeMaxJunctionSpeed pl pp.config q _) (fun _ => rfl),
      modifyLine_field Path.isEOnlyMove _ _ Path.block (fun _ => rfl)]
  unfold zFilter at hz
  unfold updateTrapezoids
  dsimp only
  rw [if_neg hfirst, hax, hax, if_neg hz, heo, heo, if_pos he]
  rfl

/-- The new segment and the previous segment after `updateTrapezoids` has
fixed their junction without planning. -/
theorem fixJunction_slots (l : Nat → Path) (previousIndex w first : Nat)
    (hpw : previousIndex ≠ w) (hfw : first ≠ w) :
    fixJunction l previousIndex w first w =
      ((l w).setStartSpeedFixed true).updateStepsParameter ∧
    (fixJunction l previousIndex w first previousIndex).isEndSpeedFixed = true := by
  unfold fixJunction
  constructor
  · rw [modifyLine_ne _ _ _ _ (Ne.symm hfw), modifyLine_same, modifyLine_same,
      modifyLine_ne _ _ _ _ (Ne.symm hpw)]
  · rw [modifyLine_field Path.isEndSpeedFixed _ _ Path.unblock (fun _ => rfl),
      modifyLine_field Path.isEndSpeedFixed _ _ _ (fun p => (updateStepsParameter_flags p).2.1),
      modifyLine_field Path.isEndSpeedFixed _ _ (fun q => q.setStartSpeedFixed true)
        (fun _ => rfl), modifyLine_same]
    rfl

/-- After `updateTrapezoids` has fixed the junction before the new segment
without planning, a second run finds nothing to plan and changes nothing. -/
theorem updateTrapezoids_after_fixJunction (pp : PathPlanner)
    (hP : pp.linesPos < pl.MOVE_CACHE_SIZE) (hc : pp.linesCount < pl.MOVE_CACHE_SIZE)
    (hw : pp.linesWritePos = ringIndex pl pp.linesPos pp.linesCount)
    (hpos : 1 ≤ pp.linesCount) (l : Nat → Path)
    (hfw : plannerFirst pl pp ≠ pp.linesWritePos)
    (hl : (updateTrapezoids pl pp).lines =
      fixJunction l (previousPlannerIndex pl pp.linesWritePos) pp.linesWritePos
        (plannerFirst pl pp))
    (h0 : (l pp.linesWritePos).isEndSpeedFixed = false)
    (h1 : (l pp.linesWritePos).isBlocked = false) :
    (updateTrapezoids pl (updateTrapezoids pl pp)).lines = (updateTrapezoids pl pp).lines := by
  obtain ⟨i1, i2, i3, -⟩ := updateTrapezoids_indices pl pp
  have hpi : previousPlannerIndex pl pp.linesWritePos =
      ringIndex pl pp.linesPos (pp.linesCount - 1) := by
    rw [hw]
    have := prev_ringIndex pl pp.linesPos (pp.linesCount - 1) hP (by omega)
    rw [show pp.linesCount - 1 + 1 = pp.linesCount by omega] at this
    exact this
  have hpw : previousPlannerIndex pl pp.linesWritePos ≠ pp.linesWritePos := by
    rw [hpi]
    intro he
    rw [hw] at he
    have := ringIndex_inj pl _ _ _ hP (by omega) hc he
    omega
  obtain ⟨s1, s2⟩ := fixJunction_slots l _ _ _ hpw hfw
  obtain ⟨u1, -, -, -, u5, u6, u7⟩ :=
    updateStepsParameter_fresh ((l pp.linesWritePos).setStartSpeedFixed true)
  refine updateTrapezoids_fixed_point pl (updateTrapezoids pl pp) (by rw [i1]; exact hP)
    (by rw [i3]; exact hc) (by rw [i1, i2, i3]; exact hw) (by rw [i3]; exact hpos)
    ?_ ?_ ?_ ?_ ?_
  · rw [i2, hl, s1, u5]; exact h0
  · rw [i2, hl, s1, u7]; exact h1
  · rw [i2, hl, s1, u6]; rfl
  · rw [i2, hl, s1]; exact u1
  · right
    rw [i1, i3, hl, ← hpi]
    exact s2

/-- A second run of `updateTrapezoids` on a ring that the passes have settled
changes at most the `parametersUpToDate` bits. -/
theorem updateTrapezoids_settled (qq : PathPlanner)
    (hP : qq.linesPos < pl.MOVE_CACHE_SIZE) (hc : qq.linesCount < pl.MOVE_CACHE_SIZE)
    (hw : qq.linesWritePos = ringIndex pl qq.linesPos qq.linesCount)
    (f : Nat) (hf1 : 1 ≤ f) (hfc : f < qq.linesCount) (l2 : Nat → Path)
    (S : Settled pl qq.linesPos f qq.linesCount l2 qq.lines)
    (htop : (l2 qq.linesWritePos).isEndSpeedFixed = false)
    (hprev : f = 1 ∨ (qq.lines (ringIndex pl qq.linesPos (f - 1))).isEndSpeedFixed = true)
    (hnz : ¬ zFilter (qq.lines (previousPlannerIndex pl qq.linesWritePos))
      (qq.lines qq.linesWritePos))
    (hne : (qq.lines (previousPlannerIndex pl qq.linesWritePos)).isEOnlyMove =
      (qq.lines qq.linesWritePos).isEOnlyMove)
    (hmj : (qq.lines (previousPlannerIndex pl qq.linesWritePos)).maxJunctionSpeed =
      (computeMaxJunctionSpeed pl qq.config
        (qq.lines (previousPlannerIndex pl qq.linesWritePos))
        (qq.lines qq.linesWritePos)).maxJunctionSpeed) :
    ∀ j, ((updateTrapezoids pl qq).lines j).invalidateParameter =
      (qq.lines j).invalidateParameter := by
  have htop2 : (qq.lines (ringIndex pl qq.linesPos qq.linesCount)).isEndSpeedFixed = false := by
    rw [S.top, ← hw]; exact htop
  obtain ⟨g, hg1, hg2, hg3, hg4⟩ := exists_settled_first
    (fun o => (qq.lines (ringIndex pl qq.linesPos o)).isEndSpeedFixed) qq.linesCount
    (qq.linesCount - f) f (by omega) htop2
  have hno : ∀ o, g ≤ o → o ≤ qq.linesCount →
      (qq.lines (ringIndex pl qq.linesPos o)).isEndSpeedFixed = false := hg3
  have hgprev : g = f ∨ (qq.lines (ringIndex pl qq.linesPos (g - 1))).isEndSpeedFixed = true :=
    hg4
  have hprev2 : g = 1 ∨
      (qq.lines (ringIndex pl qq.linesPos (g - 1))).isEndSpeedFixed = true := by
    rcases hgprev with h | h
    · rw [h]; exact hprev
    · exact Or.inr h
  have hfirst := plannerFirst_unique pl qq hP hc hw g (by omega) hg2 hno hprev2
  by_cases hgc : g = qq.linesCount
  · have hfix : (qq.lines (ringIndex pl qq.linesPos (qq.linesCount - 1))).isEndSpeedFixed
        = true := by
      rcases hgprev with h | h
      · omega
      · rw [hgc] at h; exact h
    have hcase := S.cases (qq.linesCount - 1) (by omega) (by omega)
    rw [show qq.linesCount - 1 + 1 = qq.linesCount by omega] at hcase
    have hsf : (qq.lines (ringIndex pl qq.linesPos qq.linesCount)).isStartSpeedFixed = true := by
      rcases hcase with ⟨-, h⟩ | ⟨h, -⟩
      · exact h
      · rw [hfix] at h; exact absurd h (by decide)
    have hfp := updateTrapezoids_fixed_point pl qq hP hc hw (by omega)
      (by rw [hw]; exact htop2)
      (by rw [hw]; exact S.free _ (by omega) (le_refl _))
      (by rw [hw]; exact hsf)
      (by rw [hw]; exact S.done _ (by omega) (le_refl _))
      (Or.inr hfix)
    intro j
    rw [hfp]
  · have hgc2 : g < qq.linesCount := by omega
    have hfw : plannerFirst pl qq ≠ qq.linesWritePos := by
      rw [hfirst, hw]
      intro he
      have := ringIndex_inj pl _ _ _ hP (by omega) hc he
      omega
    have hself : (fun q => computeMaxJunctionSpeed pl qq.config q
        (modifyLine qq.lines (plannerFirst pl qq) Path.block qq.linesWritePos))
        (modifyLine qq.lines (plannerFirst pl qq) Path.block
          (previousPlannerIndex pl qq.linesWritePos)) =
        modifyLine qq.lines (plannerFirst pl qq) Path.block
          (previousPlannerIndex pl qq.linesWritePos) := by
      refine computeMaxJunctionSpeed_self pl _ _ _ ?_
      rw [computeMaxJunctionSpeed_congr pl qq.config
        (modifyLine_field Path.kin qq.lines _ Path.block (fun _ => rfl) _)
        (modifyLine_field Path.kin qq.lines _ Path.block (fun _ => rfl) _),
        modifyLine_field Path.maxJunctionSpeed qq.lines _ Path.block (fun _ => rfl)]
      exact hmj
    have hok : ∀ k, g ≤ k → k < qq.linesCount →
        (qq.lines (ringIndex pl qq.linesPos k)).HigherOk pl ∧
        FwdOk (qq.lines (ringIndex pl qq.linesPos k))
          (qq.lines (ringIndex pl qq.linesPos (k + 1))) ∧
        BackOk pl (qq.lines (ringIndex pl qq.linesPos (k + 1)))
          (qq.lines (ringIndex pl qq.linesPos k)) := by
      intro k h1 h2
      have e0 := hno k h1 (by omega)
      have e1 := hno (k + 1) (by omega) (by omega)
      refine ⟨?_, S.fwd k (by omega) h2, S.back k (by omega) h2 e0 (Or.inr e1)⟩
      rcases S.cases k (by omega) h2 with ⟨h, -⟩ | ⟨-, h⟩
      · rw [e0] at h; exact absurd h (by decide)
      · exact h
    rw [updateTrapezoids_plan_lines pl qq hfw hnz hne,
      modifyLine_self (modifyLine qq.lines (plannerFirst pl qq) Path.block)
        (previousPlannerIndex pl qq.linesWritePos)
        (fun q => computeMaxJunctionSpeed pl qq.config q
          (modifyLine qq.lines (plannerFirst pl qq) Path.block qq.linesWritePos)) hself,
      hfirst, hw]
    exact planPasses_idem pl qq.linesPos g qq.linesCount hP hc hgc2 qq.lines S.minOk
      (fun k h1 h2 => S.free k (by omega) h2) (fun k h1 h2 => S.params k (by omega) h2) hok

/-- Two runs of `updateTrapezoids` in a row: the second changes at most the
`parametersUpToDate` bits, on every ring whose indices are consistent, whose
segments have their start and end speed at or above their minimum speed, and
whose new segment has its join flags cleared. -/
theorem updateTrapezoids_twice (pp : PathPlanner)
    (hP : pp.linesPos < pl.MOVE_CACHE_SIZE) (hc : pp.linesCount < pl.MOVE_CACHE_SIZE)
    (hw : pp.linesWritePos = ringIndex pl pp.linesPos pp.linesCount)
    (hmin : ∀ j, (pp.lines j).MinOk)
    (hfresh : (pp.lines pp.linesWritePos).joinFlags = {}) :
    ∀ j, ((updateTrapezoids pl (updateTrapezoids pl pp)).lines j).invalidateParameter =
      ((updateTrapezoids pl pp).lines j).invalidateParameter := by
  obtain ⟨i1, i2, i3, -⟩ := updateTrapezoids_indices pl pp
  have hef0 : (pp.lines pp.linesWritePos).isEndSpeedFixed = false := by
    unfold Path.isEndSpeedFixed; rw [hfresh]
  have hbl0 : (pp.lines pp.linesWritePos).isBlocked = false := by
    unfold Path.isBlocked; rw [hfresh]
  have hst0 : (pp.lines pp.linesWritePos).areParameterUpToDate = false := by
    unfold Path.areParameterUpToDate; rw [hfresh]
  by_cases hfw : plannerFirst pl pp = pp.linesWritePos
  · have e1 : (updateTrapezoids pl pp).lines =
        modifyLine pp.lines pp.linesWritePos Path.plannedAlone := by
      rw [updateTrapezoids_alone pl pp hfw]
    have hf2 : plannerFirst pl (updateTrapezoids pl pp) =
        (updateTrapezoids pl pp).linesWritePos := by
      rw [plannerFirst_congr pl pp (updateTrapezoids pl pp) i1 i2
        (fun j => by
          rw [e1]
          exact modifyLine_field Path.isEndSpeedFixed _ _ Path.plannedAlone plannedAlone_fixed j),
        i2]
      exact hfw
    intro j
    have e2 : (updateTrapezoids pl (updateTrapezoids pl pp)).lines =
        modifyLine (updateTrapezoids pl pp).lines (updateTrapezoids pl pp).linesWritePos
          Path.plannedAlone := by
      rw [updateTrapezoids_alone pl _ hf2]
    rw [e2, i2, e1]
    by_cases hj : j = pp.linesWritePos
    · rw [hj, modifyLine_same, modifyLine_same, plannedAlone_idem]
    · rw [modifyLine_ne _ _ _ _ hj]
  · have hpos : 1 ≤ pp.linesCount := by
      by_contra h
      have h0 : pp.linesCount = 0 := by omega
      apply hfw
      apply plannerFirst_short pl pp (Or.inl ?_)
      rw [hw, h0, ringIndex_zero pl _ hP]
    obtain ⟨f, hf1, hfc, hfeq, hfno, hfprev⟩ := plannerFirst_prev pl pp hP hc hw hef0 hpos
    have hflt : f < pp.linesCount := by
      rcases Nat.lt_or_ge f pp.linesCount with h | h
      · exact h
      · exfalso
        apply hfw
        have : f = pp.linesCount := by omega
        rw [hfeq, this, ← hw]
    have hwf : pp.linesWritePos ≠ plannerFirst pl pp := fun h => hfw h.symm
    by_cases hz : zFilter (pp.lines (previousPlannerIndex pl pp.linesWritePos))
        (pp.lines pp.linesWritePos)
    · have hl := updateTrapezoids_zfilter_lines pl pp hfw hz
      have hfp := updateTrapezoids_after_fixJunction pl pp hP hc hw hpos
        (modifyLine pp.lines (plannerFirst pl pp) Path.block) hfw hl
        (by rw [modifyLine_field Path.isEndSpeedFixed _ _ Path.block (fun _ => rfl)]; exact hef0)
        (by rw [modifyLine_ne _ _ _ _ hwf]; exact hbl0)
      intro j
      rw [hfp]
    · by_cases he : (pp.lines (previousPlannerIndex pl pp.linesWritePos)).isEOnlyMove =
          (pp.lines pp.linesWritePos).isEOnlyMove
      · have e1 := updateTrapezoids_plan_lines pl pp hfw hz he
        obtain ⟨l2, hl2⟩ : ∃ l2, l2 = modifyLine (modifyLine pp.lines (plannerFirst pl pp)
            Path.block) (previousPlannerIndex pl pp.linesWritePos)
            (fun q => computeMaxJunctionSpeed pl pp.config q
              (modifyLine pp.lines (plannerFirst pl pp) Path.block pp.linesWritePos)) :=
          ⟨_, rfl⟩
        rw [← hl2] at e1
        have hk1 : ∀ j, (modifyLine pp.lines (plannerFirst pl pp) Path.block j).kin =
            (pp.lines j).kin :=
          fun j => modifyLine_field Path.kin pp.lines _ Path.block (fun _ => rfl) j
        have hk2 : ∀ j, (l2 j).kin = (pp.lines j).kin := by
          intro j
          rw [hl2, modifyLine_field Path.kin _ _
            (fun q => computeMaxJunctionSpeed pl pp.config q _) (fun _ => rfl)]
          exact hk1 j
        have hmin2 : ∀ j, (l2 j).MinOk := by
          intro j
          unfold Path.MinOk
          rw [hl2, modifyLine_field Path.minSpeed _ _
              (fun q => computeMaxJunctionSpeed pl pp.config q _) (fun _ => rfl),
            modifyLine_field Path.startSpeed _ _
              (fun q => computeMaxJunctionSpeed pl pp.config q _) (fun _ => rfl),
            modifyLine_field Path.endSpeed _ _
              (fun q => computeMaxJunctionSpeed pl pp.config q _) (fun _ => rfl),
            modifyLine_field Path.minSpeed _ _ Path.block (fun _ => rfl),
            modifyLine_field Path.startSpeed _ _ Path.block (fun _ => rfl),
            modifyLine_field Path.endSpeed _ _ Path.block (fun _ => rfl)]
          exact hmin j
        have hef2 : ∀ j, (l2 j).isEndSpeedFixed = (pp.lines j).isEndSpeedFixed := by
          intro j
          rw [hl2, modifyLine_field Path.isEndSpeedFixed _ _
              (fun q => computeMaxJunctionSpeed pl pp.config q _) (fun _ => rfl),
            modifyLine_field Path.isEndSpeedFixed _ _ Path.block (fun _ => rfl)]
        have hst2 : (l2 pp.linesWritePos).areParameterUpToDate = false := by
          rw [hl2, modifyLine_field Path.areParameterUpToDate _ _
              (fun q => computeMaxJunctionSpeed pl pp.config q _) (fun _ => rfl),
            modifyLine_field Path.areParameterUpToDate _ _ Path.block (fun _ => rfl)]
          exact hst0
        have hmj2 : (l2 (previousPlannerIndex pl pp.linesWritePos)).maxJunctionSpeed =
            (computeMaxJunctionSpeed pl pp.config
              (pp.lines (previousPlannerIndex pl pp.linesWritePos))
              (pp.lines pp.linesWritePos)).maxJunctionSpeed := by
          rw [hl2, modifyLine_same]
          exact computeMaxJunctionSpeed_congr pl pp.config (hk1 _) (hk1 _)
        have S := planPasses_settled pl pp.linesPos f pp.linesCount hP hc hflt l2 hmin2
          (fun k h1 h2 => by rw [hef2]; exact hfno k h1 (by omega))
          (by rw [← hw]; exact hst2)
        rw [hfeq] at e1
        rw [hw] at e1
        rw [← e1] at S
        have hprev2 : f = 1 ∨ ((updateTrapezoids pl pp).lines
            (ringIndex pl pp.linesPos (f - 1))).isEndSpeedFixed = true := by
          rcases hfprev with h | h
          · exact Or.inl h
          · right
            rw [S.off _ (fun k hk1 hk2 hne => by
              have := ringIndex_inj pl _ _ _ hP (by omega) (by omega) hne
              omega), hef2]
            exact h
        have hkin := sameKin_updateTrapezoids pl pp
        refine updateTrapezoids_settled pl (updateTrapezoids pl pp) (by rw [i1]; exact hP)
          (by rw [i3]; exact hc) (by rw [i1, i2, i3]; exact hw) f hf1 (by rw [i3]; exact hflt)
          l2 (by rw [i1, i3]; exact S) (by rw [i2, hef2]; exact hef0)
          (by rw [i1]; exact hprev2) ?_ ?_ ?_
        · rw [i2]
          unfold zFilter at hz ⊢
          rw [(kin_geometry (hkin _)).2.1, (kin_geometry (hkin _)).2.1]
          exact hz
        · rw [i2, isEOnlyMove_congr (kin_geometry (hkin _)).2.2.2,
            isEOnlyMove_congr (kin_geometry (hkin pp.linesWritePos)).2.2.2]
          exact he
        · rw [i2, updateTrapezoids_config,
            computeMaxJunctionSpeed_congr pl pp.config (hkin _) (hkin _),
            (frame_fields (S.frame _)).2.2.1]
          exact hmj2
      · have hl := updateTrapezoids_efilter_lines pl pp hfw hz he
        have hfp := updateTrapezoids_after_fixJunction pl pp hP hc hw hpos _ hfw hl
          (by
            rw [modifyLine_field Path.isEndSpeedFixed _ _
                (fun q => computeMaxJunctionSpeed pl pp.config q _) (fun _ => rfl),
              modifyLine_field Path.isEndSpeedFixed _ _ Path.block (fun _ => rfl)]
            exact hef0)
          (by
            rw [modifyLine_field Path.isBlocked _ _
                (fun q => computeMaxJunctionSpeed pl pp.config q _) (fun _ => rfl),
              modifyLine_ne _ _ _ _ hwf]
            exact hbl0)
        intro j
        rw [hfp]

/-- The ring that `queueMove` hands to `updateTrapezoids` from a reachable
planner state meets what the planner relies on: consistent indices, start and
end speeds at or above the minimum speed, and a new segment with cleared join
flags.  Hence a second run of `updateTrapezoids` on it changes at most the
`parametersUpToDate` bits. -/
theorem queueMove_updateTrapezoids_twice (pp : PathPlanner) (hr : Reachable pl pp)
    (hcount : pp.linesCount < pl.MOVE_CACHE_SIZE) (ad ns : Axis → ℚ) (speed : ℚ) (c o : Bool) :
    ∀ j, ((updateTrapezoids pl (updateTrapezoids pl
        { pp with
          lines := Function.update pp.lines pp.linesWritePos
            (admittedSegment pl pp ad ns speed c o) })).lines j).invalidateParameter =
      ((updateTrapezoids pl
        { pp with
          lines := Function.update pp.lines pp.linesWritePos
            (admittedSegment pl pp ad ns speed c o) }).lines j).invalidateParameter := by
  have hinv := reachable_inv pl pp hr
  obtain ⟨hP, hw⟩ : pp.linesPos < pl.MOVE_CACHE_SIZE ∧
      pp.linesWritePos = ringIndex pl pp.linesPos pp.linesCount := by
    rcases hinv.ring with h | h
    · omega
    · exact h
  obtain ⟨c1, c2, -, c4, -⟩ := calculateMoveSegment_planner pl pp.config
    (preparedSegment pl pp ad ns speed c o) (fun i => ad i * 1000)
  obtain ⟨-, f2⟩ := preparedSegment_flags pl pp ad ns speed c o
  refine updateTrapezoids_twice pl _ hP hcount hw (fun j => ?_) ?_
  · dsimp only
    by_cases hj : j = pp.linesWritePos
    · rw [hj, Function.update_same]
      unfold Path.MinOk admittedSegment
      rw [c1, c2]
      exact ⟨le_refl _, le_refl _⟩
    · rw [Function.update_noteq hj]
      exact ⟨(hinv.speeds j).1, (hinv.speeds j).2.2.1⟩
  · dsimp only
    rw [Function.update_same]
    unfold admittedSegment
    rw [c4]
    exact f2

/-- C14: `updateTrapezoids` is idempotent on the rings it is run on.  For
every ring state with consistent indices in which every segment has its start
and end speed at or above its minimum speed and the new segment has its join
flags cleared (as `queueMove` leaves them), running `updateTrapezoids` a
second time right after the first, with the same `linesPos` and
`linesWritePos` and no new segment, leaves every field of every segment equal
to its value after the first run, but for the `parametersUpToDate` bit. -/
theorem updateTrapezoids_idempotent (pp : PathPlanner)
    (hP : pp.linesPos < pl.MOVE_CACHE_SIZE) (hc : pp.linesCount < pl.MOVE_CACHE_SIZE)
    (hw : pp.linesWritePos = ringIndex pl pp.linesPos pp.linesCount)
    (hmin : ∀ j, (pp.lines j).minSpeed ≤ (pp.lines j).startSpeed ∧
      (pp.lines j).minSpeed ≤ (pp.lines j).endSpeed)
    (hfresh : (pp.lines pp.linesWritePos).joinFlags = {}) :
    (updateTrapezoids pl (updateTrapezoids pl pp)).linesPos = (updateTrapezoids pl pp).linesPos ∧
    (updateTrapezoids pl (updateTrapezoids pl pp)).linesWritePos =
      (updateTrapezoids pl pp).linesWritePos ∧
    (updateTrapezoids pl (updateTrapezoids pl pp)).linesCount =
      (updateTrapezoids pl pp).linesCount ∧
    ∀ j, ((updateTrapezoids pl (updateTrapezoids pl pp)).lines j).invalidateParameter =
      ((updateTrapezoids pl pp).lines j).invalidateParameter :=
  ⟨(updateTrapezoids_indices pl _).1, (updateTrapezoids_indices pl _).2.1,
    (updateTrapezoids_indices pl _).2.2.1, updateTrapezoids_twice pl pp hP hc hw hmin hfresh⟩

end Rounds

section IdempotenceScene

theorem updateTrapezoids_idempotent_witness :
    ((updateTrapezoids scenarioPlatform (updateTrapezoids scenarioPlatform
        collinearState)).lines 1).invalidateParameter =
      ((updateTrapezoids scenarioPlatform collinearState).lines 1).invalidateParameter ∧
    ((updateTrapezoids scenarioPlatform (updateTrapezoids scenarioPlatform
        collinearState)).lines 2).invalidateParameter =
      ((updateTrapezoids scenarioPlatform collinearState).lines 2).invalidateParameter := by
  have h := (updateTrapezoids_idempotent scenarioPlatform collinearState (by decide) (by decide)
    (by decide) (fun _ => by norm_num [collinearState, steadySegment]) rfl).2.2.2
  exact ⟨h 1, h 2⟩

end IdempotenceScene

section JunctionSpeed

variable (pl : Platform)

theorem sameFrame_planPasses (w first : Nat) (l : Nat → Path) :
    SameFrame (planPasses pl w first l) l := by
  unfold planPasses
  dsimp only
  refine sameFrame_modifyLine_trans _ _ _ _ (fun _ => rfl) ?_
  refine sameFrame_modifyLine_trans _ _ _ _ frame_updateStepsParameter ?_
  refine sameFrame_trans (sameFrame_flyingBlockLoop pl _ _ _ _) ?_
  refine sameFrame_trans (sameFrame_forwardLoop pl _ _ _ _ _) ?_
  exact sameFrame_backwardLoop pl _ _ _ _ _

theorem sameFrame_fixJunction (l : Nat → Path) (previousIndex w first : Nat) :
    SameFrame (fixJunction l previousIndex w first) l := by
  unfold fixJunction
  refine sameFrame_modifyLine_trans _ _ _ _ (fun _ => rfl) ?_
  refine sameFrame_modifyLine_trans _ _ _ _ frame_updateStepsParameter ?_
  refine sameFrame_modifyLine_trans _ _ _ _ (fun _ => rfl) ?_
  exact sameFrame_modifyLine _ _ _ (fun _ => rfl)

/-- The junction speed that `updateTrapezoids` leaves in the segment before
the new one, when that segment may still be planned and the junction is not
one between a Z move and another move: the value that
`computeMaxJunctionSpeed` computes from the two segments. -/
theorem updateTrapezoids_junction_speed (pp : PathPlanner)
    (hfirst : plannerFirst pl pp ≠ pp.linesWritePos)
    (hz : ¬ zFilter (pp.lines (previousPlannerIndex pl pp.linesWritePos))
      (pp.lines pp.linesWritePos)) :
    ((updateTrapezoids pl pp).lines (previousPlannerIndex pl pp.linesWritePos)).maxJunctionSpeed =
      (computeMaxJunctionSpeed pl pp.config (pp.lines (previousPlannerIndex pl pp.linesWritePos))
        (pp.lines pp.linesWritePos)).maxJunctionSpeed := by
  have hk1 : ∀ j, (modifyLine pp.lines (plannerFirst pl pp) Path.block j).kin =
      (pp.lines j).kin :=
    fun j => modifyLine_field Path.kin pp.lines _ Path.block (fun _ => rfl) j
  have hv : (modifyLine (modifyLine pp.lines (plannerFirst pl pp) Path.block)
      (previousPlannerIndex pl pp.linesWritePos)
      (fun q => computeMaxJunctionSpeed pl pp.config q
        (modifyLine pp.lines (plannerFirst pl pp) Path.block pp.linesWritePos))
      (previousPlannerIndex pl pp.linesWritePos)).maxJunctionSpeed =
      (computeMaxJunctionSpeed pl pp.config (pp.lines (previousPlannerIndex pl pp.linesWritePos))
        (pp.lines pp.linesWritePos)).maxJunctionSpeed := by
    rw [modifyLine_same]
    exact computeMaxJunctionSpeed_congr pl pp.config (hk1 _) (hk1 _)
  by_cases he : (pp.lines (previousPlannerIndex pl pp.linesWritePos)).isEOnlyMove =
      (pp.lines pp.linesWritePos).isEOnlyMove
  · rw [updateTrapezoids_plan_lines pl pp hfirst hz he,
      (frame_fields (sameFrame_planPasses pl _ _ _ _)).2.2.1]
    exact hv
  · rw [updateTrapezoids_efilter_lines pl pp hfirst hz he,
      (frame_fields (sameFrame_fixJunction _ _ _ _ _)).2.2.1]
    exact hv

theorem admittedSegment_flags (pp : PathPlanner) (ad ns : Axis → ℚ) (speed : ℚ) (c o : Bool) :
    (admittedSegment pl pp ad ns speed c o).joinFlags = {} := by
  obtain ⟨-, -, -, c4, -⟩ := calculateMoveSegment_planner pl pp.config
    (preparedSegment pl pp ad ns speed c o) (fun i => ad i * 1000)
  unfold admittedSegment
  rw [c4]
  exact (preparedSegment_flags pl pp ad ns speed c o).2

/-- The junction speed that `queueMove` leaves in the segment before the one
it admits, when at least two segments are queued, the end speed of the last of
them is not fixed and the junction is not one between a Z move and another
move. -/
theorem queueMove_junction_speed (pp : PathPlanner) (ad ns : Axis → ℚ) (speed : ℚ)
    (c o : Bool) (hadm : Admits pl pp ad ns speed c o)
    (hP : pp.linesPos < pl.MOVE_CACHE_SIZE) (hc : pp.linesCount < pl.MOVE_CACHE_SIZE)
    (hw : pp.linesWritePos = ringIndex pl pp.linesPos pp.linesCount)
    (hc2 : 2 ≤ pp.linesCount)
    (hprev : (pp.lines (previousPlannerIndex pl pp.linesWritePos)).isEndSpeedFixed = false)
    (hz : ¬ zFilter (pp.lines (previousPlannerIndex pl pp.linesWritePos))
      (admittedSegment pl pp ad ns speed c o)) :
    ((queueMove pl pp ad ns speed c o).lines
      (previousPlannerIndex pl pp.linesWritePos)).maxJunctionSpeed =
      (computeMaxJunctionSpeed pl pp.config (pp.lines (previousPlannerIndex pl pp.linesWritePos))
        (admittedSegment pl pp ad ns speed c o)).maxJunctionSpeed := by
  have hpi : previousPlannerIndex pl pp.linesWritePos =
      ringIndex pl pp.linesPos (pp.linesCount - 1) := by
    rw [hw]
    have := prev_ringIndex pl pp.linesPos (pp.linesCount - 1) hP (by omega)
    rw [show pp.linesCount - 1 + 1 = pp.linesCount by omega] at this
    exact this
  have hpw : previousPlannerIndex pl pp.linesWritePos ≠ pp.linesWritePos := by
    rw [hpi]
    intro he
    rw [hw] at he
    have := ringIndex_inj pl _ _ _ hP (by omega) hc he
    omega
  obtain ⟨pp0, hpp0⟩ : ∃ pp0 : PathPlanner, pp0 =
      { pp with
        lines := Function.update pp.lines pp.linesWritePos
          (admittedSegment pl pp ad ns speed c o) } := ⟨_, rfl⟩
  have q1 : pp0.linesPos = pp.linesPos := by rw [hpp0]
  have q2 : pp0.linesWritePos = pp.linesWritePos := by rw [hpp0]
  have q3 : pp0.linesCount = pp.linesCount := by rw [hpp0]
  have q4 : pp0.config = pp.config := by rw [hpp0]
  have q5 : pp0.lines pp.linesWritePos = admittedSegment pl pp ad ns speed c o := by
    rw [hpp0]; exact Function.update_same _ _ _
  have q6 : pp0.lines (previousPlannerIndex pl pp.linesWritePos) =
      pp.lines (previousPlannerIndex pl pp.linesWritePos) := by
    rw [hpp0]; exact Function.update_noteq hpw _ _
  have hlines : (queueMove pl pp ad ns speed c o).lines = (updateTrapezoids pl pp0).lines := by
    rw [queueMove_admitted pl pp ad ns speed c o (by rw [hadm.1]; decide)
      (by rw [hadm.2]; decide), hpp0]
  have hnew : (pp0.lines pp0.linesWritePos).isEndSpeedFixed = false := by
    rw [q2, q5]
    unfold Path.isEndSpeedFixed
    rw [admittedSegment_flags]
  obtain ⟨f, hf1, hfc, hfeq, hfno, hfprev⟩ := plannerFirst_prev pl pp0 (by rw [q1]; exact hP)
    (by rw [q3]; exact hc) (by rw [q1, q2, q3]; exact hw) hnew (by rw [q3]; omega)
  have hfirst : plannerFirst pl pp0 ≠ pp0.linesWritePos := by
    rw [hfeq, q1, q2, hw]
    intro he
    have hfc2 : f = pp.linesCount :=
      ringIndex_inj pl _ _ _ hP (by rw [q3] at hfc; omega) hc he
    rcases hfprev with h | h
    · omega
    · rw [hfc2, q1, ← hpi, q6, hprev] at h
      exact absurd h (by decide)
  have hj := updateTrapezoids_junction_speed pl pp0 hfirst (by rw [q2, q5, q6]; exact hz)
  rw [q2, q4, q5, q6] at hj
  rw [hlines]
  exact hj

end JunctionSpeed

section RetractionScene

theorem admittedSegment_onlyE_primaryAxis (pl : Platform) (pp : PathPlanner) (de n speed : ℚ)
    (c o : Bool) (hn : toUnsigned n ≠ 0) :
    (admittedSegment pl pp (onlyE de) (onlyE n) speed c o).primaryAxis = E_AXIS := by
  unfold admittedSegment
  rw [(calculateMoveSegment_geometry pl pp.config _ _).2.1]
  exact (preparedSegment_onlyE pl pp de n speed c o hn).2.2.2.2.2.1

/-- A slot other than the one that `queueMove` fills keeps what the planner
never writes. -/
theorem queueMove_other_kin (pl : Platform) (pp : PathPlanner) (ad ns : Axis → ℚ) (speed : ℚ)
    (c o : Bool) (hadm : Admits pl pp ad ns speed c o) (j : Nat) (hj : j ≠ pp.linesWritePos) :
    ((queueMove pl pp ad ns speed c o).lines j).kin = (pp.lines j).kin := by
  rw [queueMove_admitted pl pp ad ns speed c o (by rw [hadm.1]; decide) (by rw [hadm.2]; decide)]
  dsimp only
  rw [sameKin_updateTrapezoids pl _ j]
  dsimp only
  rw [Function.update_noteq hj]

theorem queueMove_admitted_count (pl : Platform) (pp : PathPlanner) (ad ns : Axis → ℚ)
    (speed : ℚ) (c o : Bool) (hadm : Admits pl pp ad ns speed c o) :
    (queueMove pl pp ad ns speed c o).linesCount = pp.linesCount + 1 := by
  rw [queueMove_admitted pl pp ad ns speed c o (by rw [hadm.1]; decide) (by rw [hadm.2]; decide)]

theorem directions_congr {a b : Path} (h : a.dir = b.dir) :
    a.isENegativeMove = b.isENegativeMove ∧ a.isEPositiveMove = b.isEPositiveMove := by
  unfold Path.isENegativeMove Path.isEPositiveMove Path.isEMove Path.isMoveOfAxis
    Path.isPositiveDirection
  rw [h]
  exact ⟨rfl, rfl⟩

theorem retractedState_fields :
    retractedState.lines = Function.update cruiseState.lines 1
      (admittedSegment scenarioPlatform cruiseState (onlyE (-1 / 100)) (onlyE 800) (1 / 20)
        false false).plannedAlone ∧
    retractedState.linesPos = 0 ∧ retractedState.linesWritePos = 2 ∧
    retractedState.linesCount = 2 ∧ retractedState.config = scenarioConfig ∧
    retractedState.stop = false := by
  have hp : cruiseState.linesPos = 0 := by rw [cruiseState_eq]; rfl
  have hw : cruiseState.linesWritePos = 1 := by rw [cruiseState_eq]
  have hc : cruiseState.linesCount = 1 := by rw [cruiseState_eq]
  have hcfg : cruiseState.config = scenarioConfig := by rw [cruiseState_eq]; rfl
  have hs : cruiseState.stop = false := by rw [cruiseState_eq]; rfl
  obtain ⟨f1, f2, f3, f4, f5, f6⟩ := queueMove_short_fields scenarioPlatform cruiseState
    (onlyE (-1 / 100)) (onlyE 800) (1 / 20) false false (retract_admits cruiseState hs)
    (Or.inr (by rw [hp, hw]; rfl))
  unfold retractedState
  rw [hw] at f1 f3
  exact ⟨f1, f2.trans hp, f3, by rw [f4, hc], f5.trans hcfg, f6.trans hs⟩

theorem recover_admits :
    Admits scenarioPlatform retractedState (onlyE (1 / 100)) (onlyE 800) (1 / 20) false false :=
  (admits_iff _ _ _ _ _ _ _).mpr
    ⟨retractedState_fields.2.2.2.2.2, E_AXIS, by rw [onlyE_E, toUnsigned_800]; decide⟩

/-- C22, evaluation at a failing input.  Under the scenario configuration a
retraction of 10 mm at 50 mm/s is queued behind the move of the cruise
scenario, and then the opposite move.  Both are stored as pure extrusions
with the E speed `+50 mm/s`, because `calculateMove` stores magnitudes; the E
jerk that `computeMaxJunctionSpeed` sees at their junction is therefore `0`
instead of `100 mm/s`, the check against `maxStartFeedrate = 40 mm/s` does not
bind, and the retraction is left with the junction speed `50 mm/s`, its full
speed, not `50 * 40 / 100 = 20 mm/s`. -/
theorem scenario_retractions_junction_speed :
    recoveredState.linesCount = 3 ∧
    (recoveredState.lines 1).isEOnlyMove = true ∧ (recoveredState.lines 2).isEOnlyMove = true ∧
    (recoveredState.lines 1).isENegativeMove = true ∧
    (recoveredState.lines 2).isEPositiveMove = true ∧
    (recoveredState.lines 1).speedE = 50 ∧ (recoveredState.lines 2).speedE = 50 ∧
    (recoveredState.lines 1).fullSpeed = 50 ∧ (recoveredState.lines 2).fullSpeed = 50 ∧
    2 * 50 > recoveredState.config.currentExtruder.maxStartFeedrate ∧
    (recoveredState.lines 1).maxJunctionSpeed = 50 ∧
    (recoveredState.lines 1).maxJunctionSpeed ≠
      (recoveredState.lines 1).fullSpeed *
        recoveredState.config.currentExtruder.maxStartFeedrate / (2 * 50) := by
  obtain ⟨r1, r2, r3, r4, r5, r6⟩ := retractedState_fields
  have hn : toUnsigned (800 : ℚ) ≠ 0 := by rw [toUnsigned_800]; decide
  have hcfg1 : cruiseState.config = scenarioConfig := by rw [cruiseState_eq]; rfl
  obtain ⟨-, -, ax, ay, az, -, -, aE, aN, -⟩ :=
    admittedSegment_onlyE scenarioPlatform cruiseState (-1 / 100) 800 (1 / 20) false false hn
  obtain ⟨-, -, bx, by1, bz, -, -, bE, -, bP⟩ :=
    admittedSegment_onlyE scenarioPlatform retractedState (1 / 100) 800 (1 / 20) false false hn
  obtain ⟨-, as, af⟩ := retraction_facts cruiseState hcfg1 (-1 / 100)
    (by norm_num [abs_of_neg]) false false
  obtain ⟨-, bs, bf⟩ := retraction_facts retractedState r5 (1 / 100)
    (by norm_num [abs_of_pos]) false false
  have hpi : previousPlannerIndex scenarioPlatform retractedState.linesWritePos = 1 := by
    rw [r3]; rfl
  have k1 : (recoveredState.lines 1).kin =
      (admittedSegment scenarioPlatform cruiseState (onlyE (-1 / 100)) (onlyE 800) (1 / 20)
        false false).kin := by
    unfold recoveredState
    rw [queueMove_other_kin _ _ _ _ _ _ _ recover_admits 1 (by rw [r3]; decide), r1,
      Function.update_same]
    exact (plannedAlone_fields _).1
  have k2 : (recoveredState.lines 2).kin =
      (admittedSegment scenarioPlatform retractedState (onlyE (1 / 100)) (onlyE 800) (1 / 20)
        false false).kin := by
    have h := queueMove_line_kin scenarioPlatform retractedState (onlyE (1 / 100)) (onlyE 800)
      (1 / 20) false false recover_admits
    rw [r3] at h
    exact h
  have hj := queueMove_junction_speed scenarioPlatform retractedState (onlyE (1 / 100))
    (onlyE 800) (1 / 20) false false recover_admits (by rw [r2]; decide) (by rw [r4]; decide)
    (by rw [r2, r3, r4]; decide) (by rw [r4])
    (by
      rw [hpi, r1, Function.update_same, plannedAlone_fixed]
      unfold Path.isEndSpeedFixed
      rw [admittedSegment_flags])
    (by
      rw [hpi, r1, Function.update_same]
      unfold zFilter
      rw [(kin_geometry (plannedAlone_fields _).1).2.1,
        admittedSegment_onlyE_primaryAxis _ _ _ _ _ _ _ hn,
        admittedSegment_onlyE_primaryAxis _ _ _ _ _ _ _ hn]
      decide)
  rw [hpi, r1, Function.update_same, r5,
    computeMaxJunctionSpeed_congr scenarioPlatform scenarioConfig (plannedAlone_fields _).1 rfl,
    computeMaxJunctionSpeed_pure_extrusions scenarioPlatform scenarioConfig _ _ scenarioConfig_ok
      (by rw [show scenarioPlatform.sqrt = sqrtLower from rfl, sqrtLower_zero]
          norm_num [scenarioConfig])
      ax ay az bx by1 bz, as, bs, af, bf] at hj
  have hv : (recoveredState.lines 1).maxJunctionSpeed = 50 := by
    unfold recoveredState
    rw [hj]
    norm_num [scenarioConfig]
  have hcfg3 : recoveredState.config = scenarioConfig := by
    unfold recoveredState
    rw [(queueMove_config scenarioPlatform retractedState _ _ _ _ _).1, r5]
  have hcount : recoveredState.linesCount = 3 := by
    unfold recoveredState
    rw [queueMove_admitted_count scenarioPlatform retractedState _ _ _ _ _ recover_admits, r4]
  obtain ⟨-, -, -, s1, t1, -⟩ := kin_speeds k1
  obtain ⟨-, -, -, s2, t2, -⟩ := kin_speeds k2
  obtain ⟨-, -, -, d1⟩ := kin_geometry k1
  obtain ⟨-, -, -, d2⟩ := kin_geometry k2
  refine ⟨hcount, ?_, ?_, ?_, ?_, s1.trans as, s2.trans bs, t1.trans af, t2.trans bf, ?_, hv, ?_⟩
  · rw [isEOnlyMove_congr d1]; exact aE
  · rw [isEOnlyMove_congr d2]; exact bE
  · rw [(directions_congr d1).1, aN]; norm_num
  · rw [(directions_congr d2).2, bP]; norm_num
  · rw [hcfg3]; norm_num [scenarioConfig]
  · rw [hv, t1.trans af, hcfg3]
    norm_num [scenarioConfig]

end RetractionScene

section NewestSegment

variable (pl : Platform)

/-- The planner does not write the end speed of the new segment. -/
theorem updateTrapezoids_new_endSpeed (pp : PathPlanner)
    (hP : pp.linesPos < pl.MOVE_CACHE_SIZE) (hc : pp.linesCount < pl.MOVE_CACHE_SIZE)
    (hw : pp.linesWritePos = ringIndex pl pp.linesPos pp.linesCount)
    (hmin : ∀ j, (pp.lines j).MinOk)
    (hfresh : (pp.lines pp.linesWritePos).joinFlags = {}) :
    ((updateTrapezoids pl pp).lines pp.linesWritePos).endSpeed =
      (pp.lines pp.linesWritePos).endSpeed := by
  have hef0 : (pp.lines pp.linesWritePos).isEndSpeedFixed = false := by
    unfold Path.isEndSpeedFixed; rw [hfresh]
  have hst0 : (pp.lines pp.linesWritePos).areParameterUpToDate = false := by
    unfold Path.areParameterUpToDate; rw [hfresh]
  have hfix : ∀ l : Nat → Path, ∀ a b d : Nat,
      (fixJunction l a b d pp.linesWritePos).endSpeed = (l pp.linesWritePos).endSpeed := by
    intro l a b d
    unfold fixJunction
    rw [modifyLine_field Path.endSpeed _ _ Path.unblock (fun _ => rfl),
      modifyLine_field Path.endSpeed _ _ _ (fun p => (updateStepsParameter_speeds p).2.1),
      modifyLine_field Path.endSpeed _ _ (fun q => q.setStartSpeedFixed true) (fun _ => rfl),
      modifyLine_field Path.endSpeed _ _ (fun q => q.setEndSpeedFixed true) (fun _ => rfl)]
  by_cases hfw : plannerFirst pl pp = pp.linesWritePos
  · rw [updateTrapezoids_alone pl pp hfw]
    dsimp only
    rw [modifyLine_same]
    exact (plannedAlone_fields _).2.2.1
  · have hpos : 1 ≤ pp.linesCount := by
      by_contra h
      have h0 : pp.linesCount = 0 := by omega
      apply hfw
      apply plannerFirst_short pl pp (Or.inl ?_)
      rw [hw, h0, ringIndex_zero pl _ hP]
    obtain ⟨f, hf1, hfc, hfeq, hfno, -⟩ := plannerFirst_prev pl pp hP hc hw hef0 hpos
    have hflt : f < pp.linesCount := by
      rcases Nat.lt_or_ge f pp.linesCount with h | h
      · exact h
      · exfalso
        apply hfw
        have : f = pp.linesCount := by omega
        rw [hfeq, this, ← hw]
    by_cases hz : zFilter (pp.lines (previousPlannerIndex pl pp.linesWritePos))
        (pp.lines pp.linesWritePos)
    · rw [updateTrapezoids_zfilter_lines pl pp hfw hz]
      exact (hfix _ _ _ _).trans (modifyLine_field Path.endSpeed _ _ Path.block (fun _ => rfl) _)
    · have hl2 : ∀ j, (modifyLine (modifyLine pp.lines (plannerFirst pl pp) Path.block)
          (previousPlannerIndex pl pp.linesWritePos)
          (fun q => computeMaxJunctionSpeed pl pp.config q
            (modifyLine pp.lines (plannerFirst pl pp) Path.block pp.linesWritePos)) j).endSpeed =
          (pp.lines j).endSpeed := by
        intro j
        rw [modifyLine_field Path.endSpeed _ _
            (fun q => computeMaxJunctionSpeed pl pp.config q _) (fun _ => rfl),
          modifyLine_field Path.endSpeed _ _ Path.block (fun _ => rfl)]
      by_cases he : (pp.lines (previousPlannerIndex pl pp.linesWritePos)).isEOnlyMove =
          (pp.lines pp.linesWritePos).isEOnlyMove
      · have e1 := updateTrapezoids_plan_lines pl pp hfw hz he
        obtain ⟨l2, hl2def⟩ : ∃ l2, l2 = modifyLine (modifyLine pp.lines (plannerFirst pl pp)
            Path.block) (previousPlannerIndex pl pp.linesWritePos)
            (fun q => computeMaxJunctionSpeed pl pp.config q
              (modifyLine pp.lines (plannerFirst pl pp) Path.block pp.linesWritePos)) :=
          ⟨_, rfl⟩
        rw [← hl2def] at e1 hl2
        have hmin2 : ∀ j, (l2 j).MinOk := by
          intro j
          unfold Path.MinOk
          rw [hl2def, modifyLine_field Path.minSpeed _ _
              (fun q => computeMaxJunctionSpeed pl pp.config q _) (fun _ => rfl),
            modifyLine_field Path.startSpeed _ _
              (fun q => computeMaxJunctionSpeed pl pp.config q _) (fun _ => rfl),
            modifyLine_field Path.endSpeed _ _
              (fun q => computeMaxJunctionSpeed pl pp.config q _) (fun _ => rfl),
            modifyLine_field Path.minSpeed _ _ Path.block (fun _ => rfl),
            modifyLine_field Path.startSpeed _ _ Path.block (fun _ => rfl),
            modifyLine_field Path.endSpeed _ _ Path.block (fun _ => rfl)]
          exact hmin j
        have hef2 : ∀ j, (l2 j).isEndSpeedFixed = (pp.lines j).isEndSpeedFixed := by
          intro j
          rw [hl2def, modifyLine_field Path.isEndSpeedFixed _ _
              (fun q => computeMaxJunctionSpeed pl pp.config q _) (fun _ => rfl),
            modifyLine_field Path.isEndSpeedFixed _ _ Path.block (fun _ => rfl)]
        have hst2 : (l2 pp.linesWritePos).areParameterUpToDate = false := by
          rw [hl2def, modifyLine_field Path.areParameterUpToDate _ _
              (fun q => computeMaxJunctionSpeed pl pp.config q _) (fun _ => rfl),
            modifyLine_field Path.areParameterUpToDate _ _ Path.block (fun _ => rfl)]
          exact hst0
        have S := planPasses_settled pl pp.linesPos f pp.linesCount hP hc hflt l2 hmin2
          (fun k h1 h2 => by rw [hef2]; exact hfno k h1 (by omega))
          (by rw [← hw]; exact hst2)
        rw [hfeq] at e1
        rw [hw] at e1
        rw [← e1] at S
        have hS := S.endTop
        rw [← hw] at hS
        rw [hS]
        exact hl2 _
      · rw [updateTrapezoids_efilter_lines pl pp hfw hz he]
        exact (hfix _ _ _ _).trans (hl2 _)

/-- The segment that `queueMove` has just admitted into a reachable planner
ends at its minimum speed, which is its safe speed: the planner has not
written the end speed of the newest segment. -/
theorem queueMove_newest_endSpeed (pp : PathPlanner) (hr : Reachable pl pp)
    (hcount : pp.linesCount < pl.MOVE_CACHE_SIZE) (ad ns : Axis → ℚ) (speed : ℚ) (c o : Bool)
    (hadm : Admits pl pp ad ns speed c o) :
    ((queueMove pl pp ad ns speed c o).lines pp.linesWritePos).endSpeed =
      ((queueMove pl pp ad ns speed c o).lines pp.linesWritePos).minSpeed ∧
    ((queueMove pl pp ad ns speed c o).lines pp.linesWritePos).minSpeed =
      safeSpeed pp.config (admittedSegment pl pp ad ns speed c o) := by
  have hinv := reachable_inv pl pp hr
  obtain ⟨hP, hw⟩ : pp.linesPos < pl.MOVE_CACHE_SIZE ∧
      pp.linesWritePos = ringIndex pl pp.linesPos pp.linesCount := by
    rcases hinv.ring with h | h
    · omega
    · exact h
  obtain ⟨-, -, f3, f4, -, -, -, f8⟩ := admittedSegment_fresh pl pp ad ns speed c o
  have hk := queueMove_line_kin pl pp ad ns speed c o hadm
  have hm := (kin_speeds hk).2.2.2.2.2.2.1
  have he : ((queueMove pl pp ad ns speed c o).lines pp.linesWritePos).endSpeed =
      (admittedSegment pl pp ad ns speed c o).endSpeed := by
    rw [queueMove_admitted pl pp ad ns speed c o (by rw [hadm.1]; decide)
      (by rw [hadm.2]; decide)]
    dsimp only
    have h := updateTrapezoids_new_endSpeed pl
      { pp with
        lines := Function.update pp.lines pp.linesWritePos
          (admittedSegment pl pp ad ns speed c o) } hP hcount hw
      (fun j => by
        dsimp only
        by_cases hj : j = pp.linesWritePos
        · rw [hj, Function.update_same]
          exact ⟨le_of_eq f3.symm, le_of_eq f4.symm⟩
        · rw [Function.update_noteq hj]
          exact ⟨(hinv.speeds j).1, (hinv.speeds j).2.2.1⟩)
      (by
        dsimp only
        rw [Function.update_same]
        exact admittedSegment_flags pl pp ad ns speed c o)
    dsimp only at h
    rw [Function.update_same] at h
    exact h
  exact ⟨by rw [he, hm, f4], hm.trans f8⟩

end NewestSegment

end Redeem
